import Mathlib

/-!
# Mention processing pipeline of `ayteuir`: embedding and verified properties

A shallow embedding of the Go sources

* `internal/pkg/threads/webhook.go` (webhook verifier),
* `internal/domain/{mention,reply,user,template,errors}.go` (data model),
* `internal/repository/mongodb/{mention,reply,user}_repository.go` (stores),
* `internal/service/mention_service.go` (admission, policy, continuation, retry).

Conventions.

* A Go `string` that is only compared, concatenated or searched is a Lean `String`;
  where the code indexes bytes (`VerifySignature`) it is a byte list.
* Pointer receivers that are mutated become functions returning the new value.
* Every call to a collaborator outside the process (MongoDB, OpenAI, Threads, the clock)
  takes its outcome from an explicit environment record, so the theorems quantify
  over every outcome, failures included.
* A goroutine started with `go` is returned as data (`spawned`), and can be
  run afterwards by `processMentionAsync`.
* A ghost event log records the status edges taken and the collaborator calls made.
-/

namespace Ayteuir

/-! ## `internal/pkg/threads/webhook.go` -/

/-- A Go byte slice, or a Go string seen as its bytes. -/
abbrev Bytes := List UInt8

/-- Bytes of an ASCII string literal. -/
def asciiBytes (s : String) : Bytes := s.data.map (fun c => UInt8.ofNat c.toNat)

/-- The struct `WebhookVerifier`. -/
structure WebhookVerifier where
  appSecret : Bytes
  verifyToken : Bytes
deriving DecidableEq

/-- Method `VerifyChallenge` (webhook.go 22-27). -/
def WebhookVerifier.VerifyChallenge (v : WebhookVerifier) (mode token challenge : Bytes) :
    Bytes × Bool :=
  if mode = asciiBytes "subscribe" ∧ token = v.verifyToken then
    (challenge, true)
  else
    ([], false)

/-- The Go slice expression `s[:n]`; `none` stands for the out-of-range run-time failure. -/
def sliceTo (s : Bytes) (n : Nat) : Option Bytes :=
  if n ≤ s.length then some (s.take n) else none

/-- The Go slice expression `s[n:]`; `none` stands for the out-of-range run-time failure. -/
def sliceFrom (s : Bytes) (n : Nat) : Option Bytes :=
  if n ≤ s.length then some (s.drop n) else none

/-- The digit table of Go's `encoding/hex`: `"0123456789abcdef"`. -/
def hextable : Bytes := asciiBytes "0123456789abcdef"

/-- Go's `hex.EncodeToString`: two table digits per byte, high nibble first. -/
def hexEncodeToString : Bytes → Bytes
  | [] => []
  | v :: rest =>
    hextable.getD (v.toNat / 16) 0 :: hextable.getD (v.toNat % 16) 0 :: hexEncodeToString rest

/-- Go's `hmac.Equal`: true exactly when the two byte slices are equal
(the comparison runs in constant time, which has no functional effect). -/
def hmacEqual (a b : Bytes) : Bool := decide (a = b)

/-- Method `computeHMAC` (webhook.go 40-44). The keyed hash `hmac.New(sha256.New, key)`
applied to a message is the parameter `hmacSHA256 key msg`. -/
def WebhookVerifier.computeHMAC (hmacSHA256 : Bytes → Bytes → Bytes) (v : WebhookVerifier)
    (payload : Bytes) : Bytes :=
  hexEncodeToString (hmacSHA256 v.appSecret payload)

/-- Method `VerifySignature` (webhook.go 29-38). The result is `none` when a slice
expression would be out of range. The `||` of the guard evaluates its right operand
only when the left one is false. -/
def WebhookVerifier.VerifySignature (hmacSHA256 : Bytes → Bytes → Bytes) (v : WebhookVerifier)
    (payload signature : Bytes) : Option Bool :=
  let guard : Option Bool :=
    if signature.length < 7 then some true
    else (sliceTo signature 7).map (fun p => decide (p ≠ asciiBytes "sha256="))
  match guard with
  | none => none
  | some true => some false
  | some false =>
    let expectedMAC := v.computeHMAC hmacSHA256 payload
    match sliceFrom signature 7 with
    | none => none
    | some actualMAC => some (hmacEqual expectedMAC actualMAC)

/-! ## `internal/domain/errors.go` -/

/-- Go `error` values met by the pipeline: the sentinels of `errors.go`, errors made
with `errors.New`, `fmt.Errorf` or returned by a driver (`other`, carrying their text),
and `fmt.Errorf("<text>: %w", err)` (`wrap`). -/
inductive GoError where
  | ErrNotFound
  | ErrForbidden
  | ErrDuplicateEntry
  | other (msg : String)
  | wrap (msg : String) (inner : GoError)
deriving DecidableEq, Repr

/-- The method `Error()`: the text of an error. -/
def GoError.Error : GoError → String
  | .ErrNotFound => "resource not found"
  | .ErrForbidden => "forbidden"
  | .ErrDuplicateEntry => "duplicate entry"
  | .other msg => msg
  | .wrap msg inner => msg ++ ": " ++ inner.Error

/-- Go's `errors.Is(err, target)` for a sentinel target: follows the `%w` chain. -/
def GoError.Is : GoError → GoError → Bool
  | .wrap msg inner, target => (GoError.wrap msg inner == target) || inner.Is target
  | e, target => e == target

/-! ## `internal/domain/mention.go`, `reply.go`, `user.go`, `template.go` -/

/-- A `primitive.ObjectID`; `0` is the zero value. -/
abbrev ObjectID := Nat

/-- A `time.Time`, in milliseconds (the precision of a stored date). -/
abbrev Time := Int

/-- The Go duration `time.Hour`, in milliseconds. -/
def hour : Int := 3600000

/-- The type `MentionType`, a Go string type. -/
abbrev MentionType := String

def MentionTypeComplaint : MentionType := "complaint"
def MentionTypePositive : MentionType := "positive"
def MentionTypeQuestion : MentionType := "question"
def MentionTypeNeutral : MentionType := "neutral"
def MentionTypeSpam : MentionType := "spam"

/-- The type `MentionStatus` with its five constants. -/
inductive MentionStatus where
  | pending
  | processing
  | replied
  | skipped
  | failed
deriving DecidableEq, Repr

structure MentionAuthor where
  ThreadsUserID : String
  Username : String
  DisplayName : String
deriving DecidableEq, Repr

/-- A Go `float64` as a comparison sees it: NaN, an infinity, or a finite value given as
a rational number (every finite double is one; the two zeros are the rational `0`, and
they compare equal in Go too). -/
inductive Float64 where
  | nan
  | negInf
  | finite (x : Rat)
  | posInf
deriving DecidableEq, Repr

/-- Go's `a > b` on `float64` (IEEE 754): false as soon as an operand is NaN. -/
def Float64.gt : Float64 → Float64 → Bool
  | .nan, _ => false
  | _, .nan => false
  | .negInf, _ => false
  | .finite _, .negInf => true
  | .finite x, .finite y => decide (x > y)
  | .finite _, .posInf => false
  | .posInf, .posInf => false
  | .posInf, _ => true

/-- Go's `a <= b` on `float64` (IEEE 754): false as soon as an operand is NaN. -/
def Float64.le : Float64 → Float64 → Bool
  | .nan, _ => false
  | _, .nan => false
  | .negInf, _ => true
  | .finite _, .negInf => false
  | .finite x, .finite y => decide (x ≤ y)
  | .finite _, .posInf => true
  | .posInf, .posInf => true
  | .posInf, _ => false

/-- The struct `MentionAnalysis`. -/
structure MentionAnalysis where
  MentionType : MentionType
  Sentiment : Float64
  Intent : String
  Urgency : String
  Keywords : List String
  SuggestedTone : String
  RawAnalysis : String
deriving DecidableEq, Repr

structure Mention where
  ID : ObjectID
  UserID : ObjectID
  ThreadsPostID : String
  ThreadsParentID : String
  Author : MentionAuthor
  Content : String
  MediaURLs : List String
  Analysis : Option MentionAnalysis
  Status : MentionStatus
  SkipReason : String
  ReplyID : Option ObjectID
  WebhookReceivedAt : Time
  ProcessedAt : Option Time
  CreatedAt : Time
deriving DecidableEq, Repr

/-- Function `NewMention` (mention.go 62-74); `now` is the reading of `time.Now()`. -/
def NewMention (now : Time) (userID : ObjectID) (threadsPostID : String)
    (author : MentionAuthor) (content : String) : Mention :=
  { ID := 0
    UserID := userID
    ThreadsPostID := threadsPostID
    ThreadsParentID := ""
    Author := author
    Content := content
    MediaURLs := []
    Analysis := none
    Status := .pending
    SkipReason := ""
    ReplyID := none
    WebhookReceivedAt := now
    ProcessedAt := none
    CreatedAt := now }

/-- Method `SetAnalysis` (mention.go 76-78). -/
def Mention.SetAnalysis (m : Mention) (analysis : MentionAnalysis) : Mention :=
  { m with Analysis := some analysis }

/-- Method `MarkProcessing` (mention.go 80-82). -/
def Mention.MarkProcessing (m : Mention) : Mention :=
  { m with Status := .processing }

/-- Method `MarkReplied` (mention.go 84-89). -/
def Mention.MarkReplied (m : Mention) (now : Time) (replyID : ObjectID) : Mention :=
  { m with Status := .replied, ReplyID := some replyID, ProcessedAt := some now }

/-- Method `MarkSkipped` (mention.go 91-96). -/
def Mention.MarkSkipped (m : Mention) (now : Time) (reason : String) : Mention :=
  { m with Status := .skipped, SkipReason := reason, ProcessedAt := some now }

/-- Method `MarkFailed` (mention.go 98-103). -/
def Mention.MarkFailed (m : Mention) (now : Time) (reason : String) : Mention :=
  { m with Status := .failed, SkipReason := reason, ProcessedAt := some now }

/-- The type `ReplyStatus` with its three constants. -/
inductive ReplyStatus where
  | pending
  | sent
  | failed
deriving DecidableEq, Repr

/-- The struct `Reply`; the raw provider response map is not modelled
(the pipeline only ever stores `nil` in it). -/
structure Reply where
  ID : ObjectID
  UserID : ObjectID
  MentionID : ObjectID
  TemplateID : Option ObjectID
  ThreadsReplyID : String
  Content : String
  Status : ReplyStatus
  Error : String
  SentAt : Option Time
  CreatedAt : Time
deriving DecidableEq, Repr

/-- Function `NewReply` (reply.go 31-40). -/
def NewReply (now : Time) (userID mentionID : ObjectID) (templateID : Option ObjectID)
    (content : String) : Reply :=
  { ID := 0
    UserID := userID
    MentionID := mentionID
    TemplateID := templateID
    ThreadsReplyID := ""
    Content := content
    Status := .pending
    Error := ""
    SentAt := none
    CreatedAt := now }

/-- Method `MarkSent` (reply.go 42-48). -/
def Reply.MarkSent (r : Reply) (now : Time) (threadsReplyID : String) : Reply :=
  { r with Status := .sent, ThreadsReplyID := threadsReplyID, SentAt := some now }

/-- Method `MarkFailed` (reply.go 50-53). -/
def Reply.MarkFailed (r : Reply) (err : String) : Reply :=
  { r with Status := .failed, Error := err }

structure UserSettings where
  ReplyDelaySeconds : Int
  MaxRepliesPerHour : Int
  IgnoreVerifiedAccounts : Bool
  IgnoreKeywords : List String
deriving DecidableEq, Repr

structure User where
  ID : ObjectID
  ThreadsUserID : String
  Username : String
  DisplayName : String
  ProfilePictureURL : String
  AccessToken : String
  RefreshToken : String
  TokenExpiresAt : Time
  AutoReplyEnabled : Bool
  DefaultTemplateID : Option ObjectID
  Settings : UserSettings
  CreatedAt : Time
  UpdatedAt : Time
deriving DecidableEq, Repr

structure TemplateConditions where
  Keywords : List String
  SentimentThreshold : Option Float64
deriving DecidableEq, Repr

structure Template where
  ID : ObjectID
  UserID : ObjectID
  Name : String
  MentionType : MentionType
  Content : String
  Variables : List String
  IsActive : Bool
  Priority : Int
  Conditions : Option TemplateConditions
  CreatedAt : Time
  UpdatedAt : Time
deriving DecidableEq, Repr

structure TemplateVariables where
  Username : String
  DisplayName : String
  Content : String
  MentionType : String
  Sentiment : String
deriving DecidableEq, Repr

/-! ## Go `strings` helpers -/

/-- Whether `p` is an initial segment of `s`. -/
def hasPrefixChars : List Char → List Char → Bool
  | [], _ => true
  | _ :: _, [] => false
  | a :: p, b :: s => a == b && hasPrefixChars p s

/-- Search for `sub` at each position of `s`. -/
def containsChars (sub : List Char) : List Char → Bool
  | [] => sub.isEmpty
  | c :: s => hasPrefixChars sub (c :: s) || containsChars sub s

/-- Go's `strings.Contains(s, substr)`. -/
def stringsContains (s substr : String) : Bool := containsChars substr.data s.data

/-- Go's `strings.ToLower`: the rune mapping `unicode.ToLower`, a parameter, applied to
every rune. -/
def stringsToLower (unicodeToLower : Char → Char) (s : String) : String :=
  ⟨s.data.map unicodeToLower⟩

/-- Method `MatchesConditions` (template.go 69-95). -/
def Template.MatchesConditions (unicodeToLower : Char → Char) (t : Template)
    (analysis : MentionAnalysis) : Bool :=
  match t.Conditions with
  | none => true
  | some c =>
    if (match c.SentimentThreshold with
        | some th => Float64.gt analysis.Sentiment th
        | none => false) then false
    else if c.Keywords.length > 0 then
      let contentLower := stringsToLower unicodeToLower analysis.RawAnalysis
      let found := c.Keywords.any
        (fun keyword => stringsContains contentLower (stringsToLower unicodeToLower keyword))
      if !found then false else true
    else true

/-! ## `internal/repository/mongodb`: the collections -/

/-- The database: the `users`, `mentions` and `replies` collections, in insertion order. -/
structure World where
  users : List User
  mentions : List Mention
  replies : List Reply
deriving DecidableEq, Repr

/-- An identifier not used by any document of a collection, as generated for a
document inserted without `_id`. -/
def freshID (ids : List ObjectID) : ObjectID := ids.foldr max 0 + 1

/-- Replace the first element satisfying `p`, as `ReplaceOne` does. -/
def replaceFirst {α : Type} (p : α → Bool) (new : α) : List α → List α
  | [] => []
  | x :: xs => if p x then new :: xs else x :: replaceFirst p new xs

/-- Method `UserRepository.GetByID` (user_repository.go 35-45). `fault` is a driver
failure of the query, if any. -/
def UserRepository.GetByID (fault : Option GoError) (coll : List User) (id : ObjectID) :
    Except GoError User :=
  match fault with
  | some e => .error e
  | none =>
    match coll.find? (fun u => u.ID == id) with
    | some u => .ok u
    | none => .error .ErrNotFound

/-- Method `MentionRepository.Create` (mention_repository.go 25-35). The collection has
unique indexes on `_id` and on `threads_post_id` (client.go 94-99); a document whose
`_id` is the zero value is stored under a generated identifier. `fault` is a driver
failure other than a duplicate key. Returns the collection and the mention with its
`ID` assigned. -/
def MentionRepository.Create (fault : Option GoError) (coll : List Mention)
    (mention : Mention) : Except GoError (List Mention × Mention) :=
  match fault with
  | some e => .error e
  | none =>
    let doc : Mention :=
      if mention.ID = 0 then { mention with ID := freshID (coll.map (fun d => d.ID)) }
      else mention
    if coll.any (fun d => d.ID == doc.ID || d.ThreadsPostID == doc.ThreadsPostID) then
      .error .ErrDuplicateEntry
    else
      .ok (coll ++ [doc], doc)

/-- Method `MentionRepository.GetByID` (mention_repository.go 37-47). -/
def MentionRepository.GetByID (fault : Option GoError) (coll : List Mention)
    (id : ObjectID) : Except GoError Mention :=
  match fault with
  | some e => .error e
  | none =>
    match coll.find? (fun d => d.ID == id) with
    | some d => .ok d
    | none => .error .ErrNotFound

/-- Method `MentionRepository.GetByThreadsPostID` (mention_repository.go 49-59). -/
def MentionRepository.GetByThreadsPostID (fault : Option GoError) (coll : List Mention)
    (threadsPostID : String) : Except GoError Mention :=
  match fault with
  | some e => .error e
  | none =>
    match coll.find? (fun d => d.ThreadsPostID == threadsPostID) with
    | some d => .ok d
    | none => .error .ErrNotFound

/-- Method `MentionRepository.Update` (mention_repository.go 122-131). -/
def MentionRepository.Update (fault : Option GoError) (coll : List Mention)
    (mention : Mention) : Except GoError (List Mention) :=
  match fault with
  | some e => .error e
  | none =>
    if coll.any (fun d => d.ID == mention.ID) then
      .ok (replaceFirst (fun d => d.ID == mention.ID) mention coll)
    else
      .error .ErrNotFound

/-- The filter of `CountByUserIDLastHour`: owner, status `replied`, and a `processed_at`
not older than one hour before `now`. -/
def repliedLastHour (userID : ObjectID) (now : Time) (d : Mention) : Bool :=
  d.UserID == userID && d.Status == .replied &&
    (match d.ProcessedAt with
     | some t => decide (t ≥ now - hour)
     | none => false)

/-- Method `MentionRepository.CountByUserIDLastHour` (mention_repository.go 133-143). -/
def MentionRepository.CountByUserIDLastHour (fault : Option GoError) (coll : List Mention)
    (userID : ObjectID) (now : Time) : Except GoError Int :=
  match fault with
  | some e => .error e
  | none => .ok ((coll.filter (repliedLastHour userID now)).length : Int)

/-- Method `ReplyRepository.Create` (reply_repository.go 24-31). -/
def ReplyRepository.Create (fault : Option GoError) (coll : List Reply) (reply : Reply) :
    Except GoError (List Reply × Reply) :=
  match fault with
  | some e => .error e
  | none =>
    let doc : Reply :=
      if reply.ID = 0 then { reply with ID := freshID (coll.map (fun d => d.ID)) }
      else reply
    if coll.any (fun d => d.ID == doc.ID) then
      .error (.other "duplicate key")
    else
      .ok (coll ++ [doc], doc)

/-- Method `ReplyRepository.GetByID` (reply_repository.go 33-43). -/
def ReplyRepository.GetByID (fault : Option GoError) (coll : List Reply) (id : ObjectID) :
    Except GoError Reply :=
  match fault with
  | some e => .error e
  | none =>
    match coll.find? (fun d => d.ID == id) with
    | some d => .ok d
    | none => .error .ErrNotFound

/-- Method `ReplyRepository.Update` (reply_repository.go 76-85). -/
def ReplyRepository.Update (fault : Option GoError) (coll : List Reply) (reply : Reply) :
    Except GoError (List Reply) :=
  match fault with
  | some e => .error e
  | none =>
    if coll.any (fun d => d.ID == reply.ID) then
      .ok (replaceFirst (fun d => d.ID == reply.ID) reply coll)
    else
      .error .ErrNotFound

/-! ## `internal/service/mention_service.go` -/

/-- Ghost events: the status edges taken on the in-memory mention and the calls made
to stores and collaborators, in program order. -/
inductive Event where
  | statusEdge (src dst : MentionStatus)
  | mentionCreate (ok : Bool)
  | mentionUpdate (ok : Bool)
  | countQuery
  | analyzeCall
  | sleep (seconds : Int)
  | templateQuery
  | renderCall (templateID : ObjectID)
  | generateCall (templateHint : String)
  | replyCreate (ok : Bool)
  | replyUpdate (ok : Bool)
  | tokenCall
  | deliveryCall (ok : Bool)
deriving DecidableEq, Repr

/-- The status edges of an event log. -/
def statusEdges : List Event → List (MentionStatus × MentionStatus)
  | [] => []
  | .statusEdge a b :: rest => (a, b) :: statusEdges rest
  | _ :: rest => statusEdges rest

/-- Outcome of a synchronous service call: the returned `error` (`none` is `nil`),
the database afterwards, the arguments of the goroutine started with
`go s.processMentionAsync(...)` if one was started, and the ghost events. -/
structure CallResult where
  err : Option GoError
  world : World
  spawned : Option (Mention × User)
  events : List Event
deriving DecidableEq, Repr

/-- Outcomes of the collaborators during one `ProcessMention` call. -/
structure ProcessEnv where
  /-- The rune mapping `unicode.ToLower`. -/
  unicodeToLower : Char → Char
  /-- Driver failure of `userRepo.GetByID` (line 48). -/
  userErr : Option GoError
  /-- Driver failure of `mentionRepo.GetByThreadsPostID` (line 58). -/
  lookupErr : Option GoError
  /-- Driver failure, other than a duplicate key, of `mentionRepo.Create` (line 65). -/
  createErr : Option GoError
  /-- Driver failure of `mentionRepo.Update` (line 71 or 79). -/
  updateErr : Option GoError
  /-- Driver failure of `mentionRepo.CountByUserIDLastHour` (line 74). -/
  countErr : Option GoError
  /-- Reading of `time.Now()` in `NewMention`. -/
  nowCreated : Time
  /-- Reading of `time.Now()` in `MarkSkipped`. -/
  nowSkipped : Time
  /-- Reading of `time.Now()` in `CountByUserIDLastHour`. -/
  nowCount : Time

/-- Method `shouldSkipMention` (mention_service.go 164-172). -/
def shouldSkipMention (unicodeToLower : Char → Char) (user : User) (_author : MentionAuthor)
    (content : String) : Bool :=
  let contentLower := stringsToLower unicodeToLower content
  user.Settings.IgnoreKeywords.any
    (fun keyword => stringsContains contentLower (stringsToLower unicodeToLower keyword))

/-- The two statements `mention.MarkSkipped(reason); return s.mentionRepo.Update(ctx, mention)`
(lines 70-71 and 78-79). -/
def ProcessMention.skip (env : ProcessEnv) (w : World) (mention : Mention) (reason : String)
    (log : List Event) : CallResult :=
  let marked := mention.MarkSkipped env.nowSkipped reason
  match MentionRepository.Update env.updateErr w.mentions marked with
  | .error e =>
    { err := some e, world := w, spawned := none,
      events := log ++ [.statusEdge mention.Status marked.Status, .mentionUpdate false] }
  | .ok coll =>
    { err := none, world := { w with mentions := coll }, spawned := none,
      events := log ++ [.statusEdge mention.Status marked.Status, .mentionUpdate true] }

/-- Lines 64-84 of `ProcessMention`: from `NewMention` to the end. -/
def ProcessMention.admitNew (env : ProcessEnv) (w : World) (user : User) (userID : ObjectID)
    (threadsPostID : String) (author : MentionAuthor) (content : String) : CallResult :=
  let mention := NewMention env.nowCreated userID threadsPostID author content
  match MentionRepository.Create env.createErr w.mentions mention with
  | .error e =>
    { err := some (.wrap "failed to create mention" e), world := w, spawned := none,
      events := [.mentionCreate false] }
  | .ok (coll, mention) =>
    let w1 : World := { w with mentions := coll }
    if shouldSkipMention env.unicodeToLower user author content then
      ProcessMention.skip env w1 mention "matched skip criteria" [.mentionCreate true]
    else
      match MentionRepository.CountByUserIDLastHour env.countErr w1.mentions userID
          env.nowCount with
      | .error _ =>
        { err := none, world := w1, spawned := some (mention, user),
          events := [.mentionCreate true, .countQuery] }
      | .ok repliesLastHour =>
        if repliesLastHour ≥ user.Settings.MaxRepliesPerHour then
          ProcessMention.skip env w1 mention "rate limit exceeded"
            [.mentionCreate true, .countQuery]
        else
          { err := none, world := w1, spawned := some (mention, user),
            events := [.mentionCreate true, .countQuery] }

/-- Method `ProcessMention` (mention_service.go 47-85) with an explicit interleaving
point: `between` is what other goroutines write to the database after the lookup of
line 58 has answered and before the `Create` of line 65 runs. -/
def ProcessMentionRaced (env : ProcessEnv) (between : World → World) (w : World)
    (userID : ObjectID) (threadsPostID : String) (author : MentionAuthor)
    (content : String) : CallResult :=
  match UserRepository.GetByID env.userErr w.users userID with
  | .error e =>
    { err := some (.wrap "failed to get user" e), world := w, spawned := none, events := [] }
  | .ok user =>
    if !user.AutoReplyEnabled then
      { err := none, world := w, spawned := none, events := [] }
    else
      match MentionRepository.GetByThreadsPostID env.lookupErr w.mentions threadsPostID with
      | .ok _ => { err := none, world := w, spawned := none, events := [] }
      | .error _ => ProcessMention.admitNew env (between w) user userID threadsPostID author content

/-- Method `ProcessMention` (mention_service.go 47-85), run without interference. -/
def ProcessMention (env : ProcessEnv) (w : World) (userID : ObjectID)
    (threadsPostID : String) (author : MentionAuthor) (content : String) : CallResult :=
  ProcessMentionRaced env id w userID threadsPostID author content

/-- Outcomes of the collaborators during one run of `processMentionAsync`. -/
structure AsyncEnv where
  /-- The rune mapping `unicode.ToLower`. -/
  unicodeToLower : Char → Char
  /-- Driver failure of the `mentionRepo.Update` of line 89. -/
  updProcessingErr : Option GoError
  /-- The classifier `openaiClient.AnalyzeMention(text, authorUsername)`. -/
  analyze : String → String → Except GoError MentionAnalysis
  /-- Driver failure of the `mentionRepo.Update` of line 103. -/
  updAnalysisErr : Option GoError
  /-- Driver failure of the last `mentionRepo.Update` of the run
  (line 98, 109, 121, 137, 147 or 155). -/
  updFinalErr : Option GoError
  /-- The query `templateRepo.GetActiveByUserIDAndMentionType(userID, mentionType)`. -/
  templates : ObjectID → MentionType → Except GoError (List Template)
  /-- The formatting `fmt.Sprintf("%.2f", sentiment)`. -/
  formatSentiment : Float64 → String
  /-- Method `Template.Render` (Go `text/template`). -/
  render : Template → TemplateVariables → Except GoError String
  /-- The generator `openaiClient.GenerateReply(text, authorUsername, analysis, hint)`. -/
  generate : String → String → MentionAnalysis → String → Except GoError String
  /-- Driver failure of `replyRepo.Create` (line 126). -/
  replyCreateErr : Option GoError
  /-- The credential resolver `authService.GetDecryptedAccessToken(userID)`. -/
  accessToken : ObjectID → Except GoError String
  /-- The delivery client `threadsClient.CreateReply(token, userID, text, replyToID)`. -/
  createReply : String → String → String → String → Except GoError String
  /-- Driver failure of `replyRepo.Update` (line 135, 145 or 152). -/
  replyUpdateErr : Option GoError
  /-- Reading of `time.Now()` in the `MarkFailed`, `MarkSkipped` or `MarkReplied`
  of the mention. -/
  nowDone : Time
  /-- Reading of `time.Now()` in `NewReply`. -/
  nowReply : Time
  /-- Reading of `time.Now()` in `Reply.MarkSent`. -/
  nowSent : Time

/-- Outcome of one run of `processMentionAsync`: the database afterwards, the in-memory
mention and reply as the run left them, and the ghost events. -/
structure AsyncResult where
  world : World
  mention : Mention
  reply : Option Reply
  events : List Event
deriving DecidableEq, Repr

/-- A statement `s.mentionRepo.Update(ctx, mention)` whose error is dropped or only
logged: the database afterwards and whether the update succeeded. -/
def saveMention (fault : Option GoError) (w : World) (mention : Mention) : World × Bool :=
  match MentionRepository.Update fault w.mentions mention with
  | .error _ => (w, false)
  | .ok coll => ({ w with mentions := coll }, true)

/-- A statement `s.replyRepo.Update(ctx, reply)` whose error is dropped: the database
afterwards and whether the update succeeded. -/
def saveReply (fault : Option GoError) (w : World) (reply : Reply) : World × Bool :=
  match ReplyRepository.Update fault w.replies reply with
  | .error _ => (w, false)
  | .ok coll => ({ w with replies := coll }, true)

/-- Method `generateReply` (mention_service.go 174-211): the reply text with the
identifier of the template used, or an error; and the ghost events. -/
def generateReply (env : AsyncEnv) (userID : ObjectID) (mention : Mention)
    (analysis : MentionAnalysis) : Except GoError (String × Option ObjectID) × List Event :=
  match env.templates userID analysis.MentionType with
  | .error e => (.error e, [.templateQuery])
  | .ok templates =>
    let selectedTemplate :=
      templates.find? (fun t => t.MatchesConditions env.unicodeToLower analysis)
    let generated (log : List Event) : Except GoError (String × Option ObjectID) × List Event :=
      match env.generate mention.Content mention.Author.Username analysis "" with
      | .error e => (.error e, log ++ [.generateCall ""])
      | .ok reply => (.ok (reply, none), log ++ [.generateCall ""])
    match selectedTemplate with
    | some t =>
      let vars : TemplateVariables :=
        { Username := mention.Author.Username
          DisplayName := mention.Author.DisplayName
          Content := mention.Content
          MentionType := analysis.MentionType
          Sentiment := env.formatSentiment analysis.Sentiment }
      match env.render t vars with
      | .error _ => generated [.templateQuery, .renderCall t.ID]
      | .ok rendered => (.ok (rendered, some t.ID), [.templateQuery, .renderCall t.ID])
    | none => generated [.templateQuery]

/-- Lines 125-155 of `processMentionAsync`: record the reply, resolve the credential,
deliver. -/
def processMentionAsync.deliver (env : AsyncEnv) (w : World) (mention : Mention) (user : User)
    (replyContent : String) (templateID : Option ObjectID) (log : List Event) : AsyncResult :=
  let reply := NewReply env.nowReply user.ID mention.ID templateID replyContent
  match ReplyRepository.Create env.replyCreateErr w.replies reply with
  | .error _ =>
    { world := w, mention := mention, reply := some reply, events := log ++ [.replyCreate false] }
  | .ok (coll, reply) =>
    let w1 : World := { w with replies := coll }
    match env.accessToken user.ID with
    | .error e =>
      let reply1 := reply.MarkFailed ("token error: " ++ e.Error)
      let (w2, ok1) := saveReply env.replyUpdateErr w1 reply1
      let mention1 := mention.MarkFailed env.nowDone "token error"
      let (w3, ok2) := saveMention env.updFinalErr w2 mention1
      { world := w3, mention := mention1, reply := some reply1,
        events := log ++ [.replyCreate true, .tokenCall, .replyUpdate ok1,
          .statusEdge mention.Status mention1.Status, .mentionUpdate ok2] }
    | .ok accessToken =>
      match env.createReply accessToken user.ThreadsUserID replyContent
          mention.ThreadsPostID with
      | .error e =>
        let reply1 := reply.MarkFailed ("Threads API error: " ++ e.Error)
        let (w2, ok1) := saveReply env.replyUpdateErr w1 reply1
        let mention1 := mention.MarkFailed env.nowDone "failed to post reply"
        let (w3, ok2) := saveMention env.updFinalErr w2 mention1
        { world := w3, mention := mention1, reply := some reply1,
          events := log ++ [.replyCreate true, .tokenCall, .deliveryCall false,
            .replyUpdate ok1, .statusEdge mention.Status mention1.Status,
            .mentionUpdate ok2] }
      | .ok threadsReplyID =>
        let reply1 := reply.MarkSent env.nowSent threadsReplyID
        let (w2, ok1) := saveReply env.replyUpdateErr w1 reply1
        let mention1 := mention.MarkReplied env.nowDone reply1.ID
        let (w3, ok2) := saveMention env.updFinalErr w2 mention1
        { world := w3, mention := mention1, reply := some reply1,
          events := log ++ [.replyCreate true, .tokenCall, .deliveryCall true,
            .replyUpdate ok1, .statusEdge mention.Status mention1.Status,
            .mentionUpdate ok2] }

/-- Lines 102-123 of `processMentionAsync`, then `deliver`: attach the analysis, stop on
spam, pace, compose the reply. -/
def processMentionAsync.compose (env : AsyncEnv) (w : World) (mention : Mention) (user : User)
    (analysis : MentionAnalysis) (log : List Event) : AsyncResult :=
  let mention1 := mention.SetAnalysis analysis
  let (w1, ok1) := saveMention env.updAnalysisErr w mention1
  if analysis.MentionType = MentionTypeSpam then
    let mention2 := mention1.MarkSkipped env.nowDone "detected as spam"
    let (w2, ok2) := saveMention env.updFinalErr w1 mention2
    { world := w2, mention := mention2, reply := none,
      events := log ++ [.mentionUpdate ok1, .statusEdge mention1.Status mention2.Status,
        .mentionUpdate ok2] }
  else
    let paced : List Event :=
      if user.Settings.ReplyDelaySeconds > 0 then [.sleep user.Settings.ReplyDelaySeconds]
      else []
    match generateReply env user.ID mention1 analysis with
    | (.error e, glog) =>
      let mention2 := mention1.MarkFailed env.nowDone ("reply generation failed: " ++ e.Error)
      let (w2, ok2) := saveMention env.updFinalErr w1 mention2
      { world := w2, mention := mention2, reply := none,
        events := log ++ [.mentionUpdate ok1] ++ paced ++ glog
          ++ [.statusEdge mention1.Status mention2.Status, .mentionUpdate ok2] }
    | (.ok (replyContent, templateID), glog) =>
      processMentionAsync.deliver env w1 mention1 user replyContent templateID
        (log ++ [.mentionUpdate ok1] ++ paced ++ glog)

/-- Method `processMentionAsync` (mention_service.go 87-162). -/
def processMentionAsync (env : AsyncEnv) (w : World) (mention : Mention) (user : User) :
    AsyncResult :=
  let mention1 := mention.MarkProcessing
  match MentionRepository.Update env.updProcessingErr w.mentions mention1 with
  | .error _ =>
    { world := w, mention := mention1, reply := none,
      events := [.statusEdge mention.Status mention1.Status, .mentionUpdate false] }
  | .ok coll =>
    let w1 : World := { w with mentions := coll }
    match env.analyze mention1.Content mention1.Author.Username with
    | .error e =>
      let mention2 := mention1.MarkFailed env.nowDone ("AI analysis failed: " ++ e.Error)
      let (w2, ok2) := saveMention env.updFinalErr w1 mention2
      { world := w2, mention := mention2, reply := none,
        events := [.statusEdge mention.Status mention1.Status, .mentionUpdate true,
          .analyzeCall, .statusEdge mention1.Status mention2.Status, .mentionUpdate ok2] }
    | .ok analysis =>
      processMentionAsync.compose env w1 mention1 user analysis
        [.statusEdge mention.Status mention1.Status, .mentionUpdate true, .analyzeCall]

/-- Outcomes of the collaborators during one `RetryMention` call. -/
structure RetryEnv where
  /-- Driver failure of `mentionRepo.GetByID` (line 218). -/
  mentionErr : Option GoError
  /-- Driver failure of `userRepo.GetByID` (line 240). -/
  userErr : Option GoError

/-- Method `GetMention` (mention_service.go 217-228). -/
def GetMention (fault : Option GoError) (w : World) (userID mentionID : ObjectID) :
    Except GoError Mention :=
  match MentionRepository.GetByID fault w.mentions mentionID with
  | .error e => .error e
  | .ok mention =>
    if mention.UserID ≠ userID then .error .ErrForbidden
    else .ok mention

/-- Method `RetryMention` (mention_service.go 230-248). -/
def RetryMention (env : RetryEnv) (w : World) (userID mentionID : ObjectID) : CallResult :=
  match GetMention env.mentionErr w userID mentionID with
  | .error e => { err := some e, world := w, spawned := none, events := [] }
  | .ok mention =>
    if mention.Status ≠ .failed then
      { err := some (.other "can only retry failed mentions"), world := w, spawned := none,
        events := [] }
    else
      match UserRepository.GetByID env.userErr w.users userID with
      | .error e => { err := some e, world := w, spawned := none, events := [] }
      | .ok user => { err := none, world := w, spawned := some (mention, user), events := [] }

/-- A synchronous call followed by the goroutine it started, if any, run to its end:
the final database and all the events. -/
def CallResult.thenContinuation (aenv : AsyncEnv) (r : CallResult) : World × List Event :=
  match r.spawned with
  | none => (r.world, r.events)
  | some (mention, user) =>
    let a := processMentionAsync aenv r.world mention user
    (a.world, r.events ++ a.events)

/-- The database some time after a synchronous call: right after it returned (`none`),
or after the goroutine it started has also run to its end (`some aenv`). -/
def CallResult.worldAfter (r : CallResult) (cont : Option AsyncEnv) : World :=
  match cont with
  | none => r.world
  | some aenv => (r.thenContinuation aenv).1

/-- The number of stored mentions with a given post id. -/
def countByPost (w : World) (threadsPostID : String) : Nat :=
  (w.mentions.filter (fun d => d.ThreadsPostID == threadsPostID)).length

/-- The shape of the `mentions` collection after a mention with identifier `id` and post
id `p` was appended to a collection holding neither. -/
def admittedShape (pre : List Mention) (id : ObjectID) (p : String) (coll : List Mention) :
    Prop :=
  ∃ d, coll = pre ++ [d] ∧ d.ID = id ∧ d.ThreadsPostID = p

/-- The `TemplateVariables` built by `generateReply` (mention_service.go 189-195). -/
def templateVariablesOf (env : AsyncEnv) (mention : Mention) (analysis : MentionAnalysis) :
    TemplateVariables :=
  { Username := mention.Author.Username
    DisplayName := mention.Author.DisplayName
    Content := mention.Content
    MentionType := analysis.MentionType
    Sentiment := env.formatSentiment analysis.Sentiment }

/-- Whether an event is a call of `threadsClient.CreateReply`. -/
def isDeliveryCall : Event → Bool
  | .deliveryCall _ => true
  | _ => false

/-- Whether an event is a call of `threadsClient.CreateReply` that returned a remote id. -/
def isDelivered : Event → Bool
  | .deliveryCall ok => ok
  | _ => false

/-- The number of `CreateReply` calls in an event log. -/
def deliveryCalls (log : List Event) : Nat := log.countP isDeliveryCall

/-- The number of successful `CreateReply` calls in an event log. -/
def deliveries (log : List Event) : Nat := log.countP isDelivered

/-- One retry request for a mention: what the rest of the pipeline has written to the
database since the previous step (`others`), the caller and the environment of the
`RetryMention` call, and the environment of the continuation it may start. -/
structure RetryRound where
  others : World → World
  userID : ObjectID
  renv : RetryEnv
  aenv : AsyncEnv

/-- Retry requests for the mention `mentionID` served one after the other, the
continuation started by a request running to its end before the next request:
the final database and the events of all the continuations. -/
def retryRounds (mentionID : ObjectID) : List RetryRound → World → World × List Event
  | [], w => (w, [])
  | r :: rest, w =>
    let after := (RetryMention r.renv (r.others w) r.userID mentionID).thenContinuation r.aenv
    let tail := retryRounds mentionID rest after.1
    (tail.1, after.2 ++ tail.2)

/-- Whether a reply status is `sent`. -/
def ReplyStatus.isSent : ReplyStatus → Bool
  | .sent => true
  | _ => false

/-- Whether a reply status is `sent` or `pending`. -/
def ReplyStatus.isSentOrPending : ReplyStatus → Bool
  | .sent => true
  | .pending => true
  | .failed => false

/-- Whether a stored mention agrees with the stored replies: a mention with status
`replied` has a reply reference, and `replyRepo.GetByID` of that reference returns a
reply whose status passes `ok`. A mention with another status always agrees. -/
def linkedTo (ok : ReplyStatus → Bool) (replies : List Reply) (m : Mention) : Bool :=
  if m.Status = .replied then
    match m.ReplyID with
    | none => false
    | some rid =>
      match ReplyRepository.GetByID none replies rid with
      | .ok r => ok r.Status
      | .error _ => false
  else true

/-- Whether every stored mention agrees with the stored replies. -/
def repliedLinked (ok : ReplyStatus → Bool) (w : World) : Bool :=
  w.mentions.all (linkedTo ok w.replies)

/-- The database `w1` differs from `w0` only by writes that keep every reply of `w0`
found under its identifier, and that store no mention with status `replied`. -/
def QuietExtension (w0 w1 : World) : Prop :=
  (∀ rid r, w0.replies.find? (fun d => d.ID == rid) = some r →
      w1.replies.find? (fun d => d.ID == rid) = some r)
  ∧ ∀ n ∈ w1.mentions, n ∈ w0.mentions ∨ n.Status ≠ .replied

/-- The database states reachable from a store without mentions and replies. A step is
a change of the accounts, a `ProcessMention` call, a `RetryMention` call, or a run of
`processMentionAsync` whose collaborators satisfy `allowed`; every call and every run is
taken as one step. A run may start from any mention and account, which covers the
goroutines started by the two calls. -/
inductive Reachable (allowed : AsyncEnv → Prop) : World → Prop where
  | empty (users : List User) :
      Reachable allowed { users := users, mentions := [], replies := [] }
  | accounts {w : World} (users : List User) :
      Reachable allowed w → Reachable allowed { w with users := users }
  | ingest {w : World} (env : ProcessEnv) (userID : ObjectID) (threadsPostID : String)
      (author : MentionAuthor) (content : String) :
      Reachable allowed w →
      Reachable allowed (ProcessMention env w userID threadsPostID author content).world
  | retry {w : World} (env : RetryEnv) (userID mentionID : ObjectID) :
      Reachable allowed w → Reachable allowed (RetryMention env w userID mentionID).world
  | run {w : World} (env : AsyncEnv) (m : Mention) (u : User) :
      allowed env → Reachable allowed w →
      Reachable allowed (processMentionAsync env w m u).world

/-! ## `internal/pkg/threads/types.go` and `ExtractMentions` -/

/-- The dynamic values that `json.Unmarshal` stores in a Go `interface{}`. -/
inductive JSONValue where
  | null
  | bool (b : Bool)
  | number (x : Rat)
  | string (s : String)
  | array (items : List JSONValue)
  | object (fields : List (String × JSONValue))

/-- The struct `WebhookChange`. -/
structure WebhookChange where
  Field : String
  Value : JSONValue

/-- The struct `WebhookEntry`. -/
structure WebhookEntry where
  ID : String
  Time : Int
  Changes : List WebhookChange

/-- The struct `WebhookPayload`. -/
structure WebhookPayload where
  Object : String
  Entry : List WebhookEntry

/-- The anonymous struct of the field `From` of `MentionValue`. -/
structure MentionFrom where
  ID : String
  Username : String
deriving DecidableEq, Repr

/-- The struct `MentionValue`. -/
structure MentionValue where
  From : MentionFrom
  MediaID : String
  Text : String
  Timestamp : String
deriving DecidableEq, Repr

/-- The body of the inner loop of `ExtractMentions` (webhook.go 59-66) for one change.
The library calls `json.Marshal` and `json.Unmarshal` into a `MentionValue` are the
parameters `jsonMarshal` and `jsonUnmarshal`. -/
def ExtractMentions.change (jsonMarshal : JSONValue → Except GoError Bytes)
    (jsonUnmarshal : Bytes → Except GoError MentionValue)
    (mentions : List MentionValue) (change : WebhookChange) : List MentionValue :=
  if change.Field = "mentions" then
    match jsonMarshal change.Value with
    | .ok valueData =>
      match jsonUnmarshal valueData with
      | .ok mention => mentions ++ [mention]
      | .error _ => mentions
    | .error _ => mentions
  else mentions

/-- Function `ExtractMentions` (webhook.go 54-71): the two nested `range` loops over the
entries and their changes, appending to the slice `mentions`. -/
def ExtractMentions (jsonMarshal : JSONValue → Except GoError Bytes)
    (jsonUnmarshal : Bytes → Except GoError MentionValue) (payload : WebhookPayload) :
    List MentionValue :=
  payload.Entry.foldl
    (fun mentions entry =>
      entry.Changes.foldl (ExtractMentions.change jsonMarshal jsonUnmarshal) mentions)
    []

/-! ## `internal/handler/webhook_handler.go` -/

/-- What `WebhookHandler.Handle` answers: the status code written, the code of the JSON
error body written by `Error` (`none` when no body is written), and the body handed to
the goroutine that calls `ProcessWebhook`, if the goroutine is started. -/
structure HandleResult where
  status : Nat
  errorCode : Option String
  background : Option Bytes
deriving DecidableEq, Repr

/-- The constant `http.StatusOK`. -/
def StatusOK : Nat := 200

/-- The constant `http.StatusBadRequest`. -/
def StatusBadRequest : Nat := 400

/-- The constant `http.StatusUnauthorized`. -/
def StatusUnauthorized : Nat := 401

/-- Method `WebhookHandler.Handle` (webhook_handler.go 44-72). `readBody` is the outcome
of `io.ReadAll(r.Body)` and `signature` the value of `r.Header.Get("X-Hub-Signature-256")`
(empty when the header is absent). `WebhookService.VerifySignature` is the call of the
verifier (webhook_service.go 37-39). The result is `none` when `VerifySignature` would
fail at run time. -/
def WebhookHandler.Handle (hmacSHA256 : Bytes → Bytes → Bytes) (v : WebhookVerifier)
    (readBody : Except GoError Bytes) (signature : Bytes) : Option HandleResult :=
  match readBody with
  | .error _ =>
    some { status := StatusBadRequest, errorCode := some "READ_ERROR", background := none }
  | .ok body =>
    if signature = [] then
      some { status := StatusUnauthorized, errorCode := some "MISSING_SIGNATURE",
             background := none }
    else
      match v.VerifySignature hmacSHA256 body signature with
      | none => none
      | some false =>
        some { status := StatusUnauthorized, errorCode := some "INVALID_SIGNATURE",
               background := none }
      | some true => some { status := StatusOK, errorCode := none, background := some body }

/-! ## `internal/service/webhook_service.go` -/

/-- Method `UserRepository.GetByThreadsUserID` (user_repository.go 47-57). -/
def UserRepository.GetByThreadsUserID (fault : Option GoError) (coll : List User)
    (threadsUserID : String) : Except GoError User :=
  match fault with
  | some e => .error e
  | none =>
    match coll.find? (fun u => u.ThreadsUserID == threadsUserID) with
    | some u => .ok u
    | none => .error .ErrNotFound

/-- Outcome of one `WebhookService.processMention` call: the outcome of the call as a
service call, and two ghost lists: the Threads user ids passed to `GetByThreadsUserID`
and the (account id, post id) pairs passed to `ProcessMention`. -/
structure WebhookStep where
  call : CallResult
  lookups : List String
  admissions : List (ObjectID × String)
deriving DecidableEq, Repr

/-- Method `WebhookService.processMention` (webhook_service.go 58-81). `fault` is a
driver failure of the account lookup, `penv` the environment of the `ProcessMention`
call. -/
def WebhookService.processMention (fault : Option GoError) (penv : ProcessEnv) (w : World)
    (payload : WebhookPayload) (mention : MentionValue) : WebhookStep :=
  match payload.Entry with
  | [] =>
    { call := { err := none, world := w, spawned := none, events := [] },
      lookups := [], admissions := [] }
  | first :: _ =>
    let threadsUserID := first.ID
    match UserRepository.GetByThreadsUserID fault w.users threadsUserID with
    | .error e =>
      if e.Is .ErrNotFound then
        { call := { err := none, world := w, spawned := none, events := [] },
          lookups := [threadsUserID], admissions := [] }
      else
        { call := { err := some e, world := w, spawned := none, events := [] },
          lookups := [threadsUserID], admissions := [] }
    | .ok user =>
      let author : MentionAuthor :=
        { ThreadsUserID := mention.From.ID
          Username := mention.From.Username
          DisplayName := mention.From.Username }
      { call := ProcessMention penv w user.ID mention.MediaID author mention.Text,
        lookups := [threadsUserID], admissions := [(user.ID, mention.MediaID)] }

/-- Outcomes of the collaborators during one `ProcessWebhook` call. The calls made for
the `k`-th extracted mention have their own outcomes. -/
structure WebhookEnv where
  /-- The `json.Unmarshal` of `ParseWebhookPayload` (webhook.go 46-52). -/
  jsonUnmarshalPayload : Bytes → Except GoError WebhookPayload
  /-- The `json.Marshal` of `ExtractMentions`. -/
  jsonMarshal : JSONValue → Except GoError Bytes
  /-- The `json.Unmarshal` into a `MentionValue` of `ExtractMentions`. -/
  jsonUnmarshal : Bytes → Except GoError MentionValue
  /-- Driver failure of `GetByThreadsUserID` in the `k`-th `processMention`. -/
  userErr : Nat → Option GoError
  /-- Environment of the `ProcessMention` call of the `k`-th `processMention`. -/
  penv : Nat → ProcessEnv

/-- Outcome of `ProcessWebhook`: the returned error, the database afterwards, the
goroutines started, the events of the `ProcessMention` calls, and the two ghost lists
of `WebhookStep` over all the calls. -/
structure WebhookResult where
  err : Option GoError
  world : World
  spawned : List (Mention × User)
  events : List Event
  lookups : List String
  admissions : List (ObjectID × String)
deriving DecidableEq, Repr

/-- The loop of `ProcessWebhook` (webhook_service.go 49-53) from the `k`-th mention on;
an error of `processMention` is only logged. The goroutines started are collected, not
run. -/
def WebhookService.ProcessWebhook.loop (env : WebhookEnv) (payload : WebhookPayload) :
    Nat → List MentionValue → WebhookResult → WebhookResult
  | _, [], acc => acc
  | k, mention :: rest, acc =>
    let step := WebhookService.processMention (env.userErr k) (env.penv k) acc.world payload
      mention
    WebhookService.ProcessWebhook.loop env payload (k + 1) rest
      { err := none
        world := step.call.world
        spawned := acc.spawned ++ step.call.spawned.toList
        events := acc.events ++ step.call.events
        lookups := acc.lookups ++ step.lookups
        admissions := acc.admissions ++ step.admissions }

/-- Method `WebhookService.ProcessWebhook` (webhook_service.go 41-56). -/
def WebhookService.ProcessWebhook (env : WebhookEnv) (w : World) (payload : Bytes) :
    WebhookResult :=
  match env.jsonUnmarshalPayload payload with
  | .error e =>
    { err := some e, world := w, spawned := [], events := [], lookups := [], admissions := [] }
  | .ok webhookPayload =>
    let mentions := ExtractMentions env.jsonMarshal env.jsonUnmarshal webhookPayload
    WebhookService.ProcessWebhook.loop env webhookPayload 0 mentions
      { err := none, world := w, spawned := [], events := [], lookups := [], admissions := [] }

/-! ## The pipeline as a transition system -/

/-- The pipeline at some moment: the database, the goroutines `processMentionAsync` that
were started and have not run yet (each with the mention and the account it was given),
and, as a ghost, the identifiers of the mentions for which `RetryMention` started a
goroutine. -/
structure Pipeline where
  world : World
  running : List (Mention × User)
  retried : List ObjectID
deriving DecidableEq, Repr

/-- The pipeline over an empty store holding the accounts `users`. -/
def Pipeline.start (users : List User) : Pipeline :=
  { world := { users := users, mentions := [], replies := [] }, running := [], retried := [] }

/-- A `ProcessMention` call: the goroutine it starts, if any, joins the running ones. -/
def Pipeline.ingest (s : Pipeline) (env : ProcessEnv) (userID : ObjectID)
    (threadsPostID : String) (author : MentionAuthor) (content : String) : Pipeline :=
  let r := ProcessMention env s.world userID threadsPostID author content
  { world := r.world, running := s.running ++ r.spawned.toList, retried := s.retried }

/-- A `RetryMention` call: the goroutine it starts, if any, joins the running ones. -/
def Pipeline.retry (s : Pipeline) (env : RetryEnv) (userID mentionID : ObjectID) : Pipeline :=
  let r := RetryMention env s.world userID mentionID
  { world := r.world
    running := s.running ++ r.spawned.toList
    retried := s.retried ++ r.spawned.toList.map (fun g => g.1.ID) }

/-- The `k`-th running goroutine runs to its end, with collaborators `env`. -/
def Pipeline.run (s : Pipeline) (env : AsyncEnv) (k : Nat) : Pipeline :=
  match s.running.get? k with
  | none => s
  | some (m, u) =>
    { world := (processMentionAsync env s.world m u).world
      running := s.running.eraseIdx k
      retried := s.retried }

/-- The states of the pipeline reachable from an empty store: by changes of the
accounts, `ProcessMention` calls, `RetryMention` calls, and runs of goroutines that
these calls started, in any order; every call and every run is taken as one step. -/
inductive Pipeline.Reachable : Pipeline → Prop where
  | start (users : List User) : Pipeline.Reachable (Pipeline.start users)
  | accounts {s : Pipeline} (users : List User) :
      Pipeline.Reachable s →
      Pipeline.Reachable { s with world := { s.world with users := users } }
  | ingest {s : Pipeline} (env : ProcessEnv) (userID : ObjectID) (threadsPostID : String)
      (author : MentionAuthor) (content : String) :
      Pipeline.Reachable s →
      Pipeline.Reachable (s.ingest env userID threadsPostID author content)
  | retry {s : Pipeline} (env : RetryEnv) (userID mentionID : ObjectID) :
      Pipeline.Reachable s → Pipeline.Reachable (s.retry env userID mentionID)
  | run {s : Pipeline} (env : AsyncEnv) (k : Nat) :
      Pipeline.Reachable s → Pipeline.Reachable (s.run env k)

/-! ## `PullMentions` (mention_service.go 250-341) -/

/-- The struct `ConversationThread` (types.go). -/
structure ConversationThread where
  ID : String
  Text : String
  Timestamp : String
  MediaType : String
  Permalink : String
  Username : String
deriving DecidableEq, Repr

/-- The struct `PostRef` (types.go). -/
structure PostRef where
  ID : String
deriving DecidableEq, Repr

/-- The struct `ReplyThread` (types.go). -/
structure ReplyThread where
  ID : String
  Text : String
  Timestamp : String
  MediaType : String
  Permalink : String
  Username : String
  IsReply : Bool
  RootPost : Option PostRef
  RepliedTo : Option PostRef
  HideStatus : String
  ReplyAudience : String
deriving DecidableEq, Repr

/-- The struct `PullMentionsResult`. The counters are Go `int`s that count list
elements, so they stay far from the machine bounds. -/
structure PullMentionsResult where
  ThreadsChecked : Int
  NewMentions : Int
  Skipped : Int
  Errors : Int
deriving DecidableEq, Repr

/-- Ghost record of what `PullMentions` visits, in program order: a post with the
outcome of its `GetReplies`, and a reply with the branch taken for it (own reply, post id
already recorded, `ProcessMention` returned an error, `ProcessMention` returned nil). -/
inductive PullVisit where
  | thread (id : String) (fetched : Bool)
  | own (replyID : String)
  | known (replyID : String)
  | failed (replyID : String)
  | handled (replyID : String)
deriving DecidableEq, Repr

/-- The post or reply a visit is about: its id, and whether it is a post. -/
def PullVisit.target : PullVisit → String × Bool
  | .thread id _ => (id, true)
  | .own id => (id, false)
  | .known id => (id, false)
  | .failed id => (id, false)
  | .handled id => (id, false)

/-- Whether a visit incremented `Skipped`. -/
def PullVisit.isSkipped : PullVisit → Bool
  | .own _ => true
  | .known _ => true
  | _ => false

/-- Whether a visit incremented `Errors`. -/
def PullVisit.isError : PullVisit → Bool
  | .thread _ false => true
  | .failed _ => true
  | _ => false

/-- Whether a visit incremented `NewMentions`. -/
def PullVisit.isHandled : PullVisit → Bool
  | .handled _ => true
  | _ => false

/-- Outcomes of the collaborators during one `PullMentions` call. The calls made for the
`j`-th reply of the `i`-th post have their own outcomes. -/
structure PullEnv where
  /-- Driver failure of `userRepo.GetByID` (line 261). -/
  userErr : Option GoError
  /-- The credential resolver `authService.GetDecryptedAccessToken(userID)`. -/
  accessToken : ObjectID → Except GoError String
  /-- Reading of `time.Now()` (line 274). -/
  nowPull : Time
  /-- The call `threadsClient.GetUserThreads(token, threadsUserID, limit, since)`. -/
  getUserThreads : String → String → Int → Time → Except GoError (List ConversationThread)
  /-- The call `threadsClient.GetReplies(token, mediaID, reverse)`. -/
  getReplies : String → String → Bool → Except GoError (List ReplyThread)
  /-- Driver failure of `mentionRepo.GetByThreadsPostID` (line 306). -/
  lookupErr : Nat → Nat → Option GoError
  /-- Environment of the `ProcessMention` call (line 318). -/
  penv : Nat → Nat → ProcessEnv

/-- The state of a `PullMentions` call in progress: the counters, the database, the
goroutines started by its `ProcessMention` calls, their events, and the visits. -/
structure PullState where
  result : PullMentionsResult
  world : World
  spawned : List (Mention × User)
  events : List Event
  visits : List PullVisit
deriving DecidableEq, Repr

/-- The body of the inner loop (lines 298-329) for the `j`-th reply of the `i`-th post. -/
def PullMentions.reply (env : PullEnv) (user : User) (userID : ObjectID) (i j : Nat)
    (st : PullState) (reply : ReplyThread) : PullState :=
  if reply.Username = user.Username then
    { st with result := { st.result with Skipped := st.result.Skipped + 1 }
              visits := st.visits ++ [.own reply.ID] }
  else
    match MentionRepository.GetByThreadsPostID (env.lookupErr i j) st.world.mentions
        reply.ID with
    | .ok _ =>
      { st with result := { st.result with Skipped := st.result.Skipped + 1 }
                visits := st.visits ++ [.known reply.ID] }
    | .error _ =>
      let author : MentionAuthor :=
        { ThreadsUserID := reply.Username, Username := reply.Username, DisplayName := "" }
      let r := ProcessMention (env.penv i j) st.world userID reply.ID author reply.Text
      match r.err with
      | some _ =>
        { result := { st.result with Errors := st.result.Errors + 1 }
          world := r.world
          spawned := st.spawned ++ r.spawned.toList
          events := st.events ++ r.events
          visits := st.visits ++ [.failed reply.ID] }
      | none =>
        { result := { st.result with NewMentions := st.result.NewMentions + 1 }
          world := r.world
          spawned := st.spawned ++ r.spawned.toList
          events := st.events ++ r.events
          visits := st.visits ++ [.handled reply.ID] }

/-- The inner loop (line 298) over the replies of the `i`-th post, from the `j`-th on. -/
def PullMentions.replies (env : PullEnv) (user : User) (userID : ObjectID) (i : Nat) :
    Nat → List ReplyThread → PullState → PullState
  | _, [], st => st
  | j, reply :: rest, st =>
    PullMentions.replies env user userID i (j + 1) rest
      (PullMentions.reply env user userID i j st reply)

/-- The body of the outer loop (lines 287-330) for the `i`-th post. -/
def PullMentions.thread (env : PullEnv) (user : User) (userID : ObjectID)
    (accessToken : String) (i : Nat) (st : PullState) (thread : ConversationThread) :
    PullState :=
  let checked : PullMentionsResult :=
    { st.result with ThreadsChecked := st.result.ThreadsChecked + 1 }
  match env.getReplies accessToken thread.ID true with
  | .error _ =>
    { st with result := { checked with Errors := checked.Errors + 1 }
              visits := st.visits ++ [.thread thread.ID false] }
  | .ok replies =>
    PullMentions.replies env user userID i 0 replies
      { st with result := checked, visits := st.visits ++ [.thread thread.ID true] }

/-- The outer loop (line 287) over the posts, from the `i`-th on. -/
def PullMentions.threads (env : PullEnv) (user : User) (userID : ObjectID)
    (accessToken : String) : Nat → List ConversationThread → PullState → PullState
  | _, [], st => st
  | i, thread :: rest, st =>
    PullMentions.threads env user userID accessToken (i + 1) rest
      (PullMentions.thread env user userID accessToken i st thread)

/-- The state in which `PullMentions` enters its loops. -/
def PullState.init (w : World) : PullState :=
  { result := { ThreadsChecked := 0, NewMentions := 0, Skipped := 0, Errors := 0 }
    world := w, spawned := [], events := [], visits := [] }

/-- Outcome of `PullMentions`: the returned pair (a result, or an error with a nil
result) and the final state of the call. -/
structure PullOutcome where
  ret : Except GoError PullMentionsResult
  state : PullState

/-- Method `PullMentions` (mention_service.go 260-341), run without interference; the
goroutines started by its `ProcessMention` calls are collected, not run. -/
def PullMentions (env : PullEnv) (w : World) (userID : ObjectID) : PullOutcome :=
  match UserRepository.GetByID env.userErr w.users userID with
  | .error e => { ret := .error (.wrap "failed to get user" e), state := PullState.init w }
  | .ok user =>
    match env.accessToken userID with
    | .error e =>
      { ret := .error (.wrap "failed to get access token" e), state := PullState.init w }
    | .ok accessToken =>
      let since := env.nowPull - 24 * hour
      match env.getUserThreads accessToken user.ThreadsUserID 25 since with
      | .error e =>
        { ret := .error (.wrap "failed to fetch threads" e), state := PullState.init w }
      | .ok userThreads =>
        let st := PullMentions.threads env user userID accessToken 0 userThreads
          (PullState.init w)
        { ret := .ok st.result, state := st }

/-- The pairs (identifier, post id) of the stored mentions, in store order. -/
def keysOf (w : World) : List (ObjectID × String) :=
  w.mentions.map (fun d => (d.ID, d.ThreadsPostID))

/-- Goroutines run to their end one after the other, each with its own collaborators:
the database afterwards. -/
def runAll : List ((Mention × User) × AsyncEnv) → World → World
  | [], w => w
  | c :: rest, w => runAll rest (processMentionAsync c.2 w c.1.1 c.1.2).world

/-- Whether a visit is the visit of a post, which incremented `ThreadsChecked`. -/
def PullVisit.isThread : PullVisit → Bool
  | .thread _ _ => true
  | _ => false

/-- The counters that a list of visits adds up to. -/
def tally (visits : List PullVisit) : PullMentionsResult :=
  { ThreadsChecked := visits.countP PullVisit.isThread
    NewMentions := visits.countP PullVisit.isHandled
    Skipped := visits.countP PullVisit.isSkipped
    Errors := visits.countP PullVisit.isError }

/-- Whether an event is a `mentionRepo.Create` that stored a new mention. -/
def isCreated : Event → Bool
  | .mentionCreate ok => ok
  | _ => false

/-- The number of mentions that the calls of an event log stored as new documents. -/
def createdCount (log : List Event) : Nat := log.countP isCreated

/-- The visits of one post: the post, then its replies when they were fetched. -/
def threadTargets (env : PullEnv) (accessToken : String) (t : ConversationThread) :
    List (String × Bool) :=
  (t.ID, true) ::
    (match env.getReplies accessToken t.ID true with
     | .ok replies => replies.map (fun r => (r.ID, false))
     | .error _ => [])

/-! ## Steps of the pipeline -/

/-- One step of the pipeline: a change of the accounts, a `ProcessMention` call, a
`RetryMention` call, or the run of a goroutine that such a call started. -/
inductive Pipeline.Step : Pipeline → Pipeline → Prop where
  | accounts (s : Pipeline) (users : List User) :
      Pipeline.Step s { s with world := { s.world with users := users } }
  | ingest (s : Pipeline) (env : ProcessEnv) (userID : ObjectID) (threadsPostID : String)
      (author : MentionAuthor) (content : String) :
      Pipeline.Step s (s.ingest env userID threadsPostID author content)
  | retry (s : Pipeline) (env : RetryEnv) (userID mentionID : ObjectID) :
      Pipeline.Step s (s.retry env userID mentionID)
  | run (s : Pipeline) (env : AsyncEnv) (k : Nat) : Pipeline.Step s (s.run env k)

/-- The states of the pipeline reachable from an empty store without overlapping retries:
as `Pipeline.Reachable`, except that no `RetryMention` call starts a goroutine for a
mention that still has a goroutine waiting to run. -/
inductive Pipeline.Orderly : Pipeline → Prop where
  | start (users : List User) : Pipeline.Orderly (Pipeline.start users)
  | accounts {s : Pipeline} (users : List User) :
      Pipeline.Orderly s →
      Pipeline.Orderly { s with world := { s.world with users := users } }
  | ingest {s : Pipeline} (env : ProcessEnv) (userID : ObjectID) (threadsPostID : String)
      (author : MentionAuthor) (content : String) :
      Pipeline.Orderly s →
      Pipeline.Orderly (s.ingest env userID threadsPostID author content)
  | retry {s : Pipeline} (env : RetryEnv) (userID mentionID : ObjectID) :
      Pipeline.Orderly s →
      (∀ g ∈ s.running, g.1.ID = mentionID →
        (RetryMention env s.world userID mentionID).spawned = none) →
      Pipeline.Orderly (s.retry env userID mentionID)
  | run {s : Pipeline} (env : AsyncEnv) (k : Nat) :
      Pipeline.Orderly s → Pipeline.Orderly (s.run env k)

/-! ## Concrete data for evaluating the model -/

/-- A toy keyed function for evaluating the verifier on concrete inputs:
the key followed by the message. -/
def toyMAC (key msg : Bytes) : Bytes := key ++ msg

def demoAuthor : MentionAuthor :=
  { ThreadsUserID := "u77", Username := "alice", DisplayName := "Alice" }

/-- An account with auto-reply on, at most two replies per hour, one ignore-keyword. -/
def demoUser : User :=
  { ID := 1
    ThreadsUserID := "t1"
    Username := "shop"
    DisplayName := "Shop"
    ProfilePictureURL := ""
    AccessToken := "enc"
    RefreshToken := ""
    TokenExpiresAt := 9000000
    AutoReplyEnabled := true
    DefaultTemplateID := none
    Settings :=
      { ReplyDelaySeconds := 0
        MaxRepliesPerHour := 2
        IgnoreVerifiedAccounts := false
        IgnoreKeywords := ["giveaway"] }
    CreatedAt := 0
    UpdatedAt := 0 }

/-- The same account with auto-reply off. -/
def demoUserOff : User := { demoUser with AutoReplyEnabled := false }

/-- A database holding only the account `demoUser`. -/
def demoWorld : World := { users := [demoUser], mentions := [], replies := [] }

/-- A database holding only the account `demoUserOff`. -/
def demoWorldOff : World := { users := [demoUserOff], mentions := [], replies := [] }

/-- A mention of `demoUser` stored with a given identifier, post id and status. -/
def demoMention (id : ObjectID) (post : String) (st : MentionStatus) (done : Option Time) :
    Mention :=
  { NewMention 10 1 post demoAuthor "hello" with ID := id, Status := st, ProcessedAt := done }

/-- The mention that `demoEnv` admits for `demoUser`, as stored under identifier `id`. -/
def demoAdmitted (id : ObjectID) (post content : String) : Mention :=
  { NewMention 5000000 1 post demoAuthor content with ID := id }

/-- An environment in which no store call fails. -/
def demoEnv : ProcessEnv :=
  { unicodeToLower := Char.toLower
    userErr := none
    lookupErr := none
    createErr := none
    updateErr := none
    countErr := none
    nowCreated := 5000000
    nowSkipped := 5000001
    nowCount := 5000002 }

/-- A database holding `demoUser` and one mention of post `p1`, already replied. -/
def demoWorldSeen : World :=
  { users := [demoUser]
    mentions := [demoMention 1 "p1" .replied (some 4999000)]
    replies := [] }

/-- An analysis classifying a mention as a complaint. -/
def demoAnalysis : MentionAnalysis :=
  { MentionType := MentionTypeComplaint
    Sentiment := .finite (-3 / 5)
    Intent := "seeking_resolution"
    Urgency := "high"
    Keywords := ["broken"]
    SuggestedTone := "apologetic"
    RawAnalysis := "raw" }

/-- An environment in which every collaborator of the continuation succeeds: no template
is configured, the generator answers `Sorry about that!`, the delivery returns `R123`. -/
def demoAsyncEnv : AsyncEnv :=
  { unicodeToLower := Char.toLower
    updProcessingErr := none
    analyze := fun _ _ => .ok demoAnalysis
    updAnalysisErr := none
    updFinalErr := none
    templates := fun _ _ => .ok []
    formatSentiment := fun _ => "-0.60"
    render := fun t _ => .ok t.Content
    generate := fun _ _ _ _ => .ok "Sorry about that!"
    replyCreateErr := none
    accessToken := fun _ => .ok "token"
    createReply := fun _ _ _ _ => .ok "R123"
    replyUpdateErr := none
    nowDone := 5000300
    nowReply := 5000100
    nowSent := 5000200 }

/-- A database holding `demoUser`, two mentions replied within the last hour and one
failed mention. -/
def demoWorldBusy : World :=
  { users := [demoUser]
    mentions := [demoMention 1 "a" .replied (some 4999000),
      demoMention 2 "b" .replied (some 4000000),
      demoMention 3 "c" .failed (some 4000500)]
    replies := [] }

/-- The admission of post `p1` by another goroutine. -/
def demoRacer (w : World) : World :=
  { w with mentions := w.mentions ++ [demoMention 9 "p1" .pending none] }

/-- An environment of `RetryMention` in which no store call fails. -/
def demoRetryEnv : RetryEnv := { mentionErr := none, userErr := none }

/-- Template `A`: priority 1, sentiment threshold 0, no keywords. -/
def demoTemplateA : Template :=
  { ID := 11
    UserID := 1
    Name := "A"
    MentionType := MentionTypeComplaint
    Content := "We are sorry, {{.Username}}."
    Variables := ["Username"]
    IsActive := true
    Priority := 1
    Conditions := some { Keywords := [], SentimentThreshold := some (.finite 0) }
    CreatedAt := 0
    UpdatedAt := 0 }

/-- Template `B`: priority 2, no conditions. -/
def demoTemplateB : Template :=
  { ID := 12
    UserID := 1
    Name := "B"
    MentionType := MentionTypeComplaint
    Content := "Thanks for reaching out."
    Variables := []
    IsActive := true
    Priority := 2
    Conditions := none
    CreatedAt := 0
    UpdatedAt := 0 }

/-- The environment `demoAsyncEnv` with the templates `A` then `B` returned by the
repository; rendering returns the template content. -/
def demoAsyncEnvAB : AsyncEnv :=
  { demoAsyncEnv with templates := fun _ _ => .ok [demoTemplateA, demoTemplateB] }

/-- An analysis with a given finite sentiment. -/
def demoAnalysisWith (sentiment : Rat) : MentionAnalysis :=
  { demoAnalysis with Sentiment := .finite sentiment }

/-- An analysis whose sentiment is NaN. -/
def demoAnalysisNaN : MentionAnalysis := { demoAnalysis with Sentiment := .nan }

/-- Template `K`: sentiment threshold 0 and the keyword `Refund`. -/
def demoTemplateK : Template :=
  { demoTemplateA with
    ID := 13
    Name := "K"
    Conditions := some { Keywords := ["Refund"], SentimentThreshold := some (.finite 0) } }

/-- An analysis with sentiment `-1/2` whose rationale mentions a refund. -/
def demoAnalysisRefund : MentionAnalysis :=
  { demoAnalysis with Sentiment := .finite (-1 / 2), RawAnalysis := "wants a REFUND now" }

/-- A database holding `demoUser` and the pending mention of post `p1` with a given
content, as admitted under `demoEnv`. -/
def demoWorldAdmitted (content : String) : World :=
  { demoWorld with mentions := [demoAdmitted 1 "p1" content] }

/-- The reply that `demoAsyncEnv` records for mention `1`, as stored under identifier `1`. -/
def demoReply : Reply :=
  { NewReply 5000100 1 1 none "Sorry about that!" with ID := 1 }

/-- The environment `demoAsyncEnv` with a delivery that fails with `rate limited`. -/
def demoAsyncEnvUndelivered : AsyncEnv :=
  { demoAsyncEnv with createReply := fun _ _ _ _ => .error (.other "rate limited") }

/-- The environment `demoAsyncEnv` with a credential resolution that fails with
`token expired`. -/
def demoAsyncEnvNoToken : AsyncEnv :=
  { demoAsyncEnv with accessToken := fun _ => .error (.other "token expired") }

/-- The environment `demoAsyncEnv` with a failing `replyRepo.Update`. -/
def demoAsyncEnvReplyUnsaved : AsyncEnv :=
  { demoAsyncEnv with replyUpdateErr := some (.other "context deadline exceeded") }

/-- A retry request by `demoUser` with nothing else happening and no failing call. -/
def demoRound : RetryRound :=
  { others := id, userID := 1, renv := demoRetryEnv, aenv := demoAsyncEnv }

/-- The database after `demoEnv` admitted post `p1` into `demoWorld` and the goroutine
it started ran with a failing `replyRepo.Update`. -/
def demoWorldUnsaved : World :=
  ((ProcessMention demoEnv demoWorld 1 "p1" demoAuthor "hello").thenContinuation
    demoAsyncEnvReplyUnsaved).1

/-- The database after `demoEnv` admitted post `p1` into `demoWorld` and the goroutine
it started ran without any failure. -/
def demoWorldReplied : World :=
  ((ProcessMention demoEnv demoWorld 1 "p1" demoAuthor "hello").thenContinuation
    demoAsyncEnv).1

/-- A second account, with auto-reply on. -/
def demoUserB : User := { demoUser with ID := 2, ThreadsUserID := "t2", Username := "cafe" }

/-- A database holding two accounts and one mention of post `p1` recorded for the first. -/
def demoWorldTwo : World :=
  { users := [demoUser, demoUserB]
    mentions := [demoMention 1 "p1" .replied (some 4999000)]
    replies := [] }

/-- The account `demoUser` with the empty string as its only ignore-keyword. -/
def demoUserEmptyKeyword : User :=
  { demoUser with Settings := { demoUser.Settings with IgnoreKeywords := [""] } }

/-- The account `demoUser` with no ignore-keyword and `MaxRepliesPerHour = 0`. -/
def demoUserZeroRate : User :=
  { demoUser with
    Settings := { demoUser.Settings with IgnoreKeywords := [], MaxRepliesPerHour := 0 } }

/-- The environment `demoEnv` with a failing count query. -/
def demoEnvCountFails : ProcessEnv :=
  { demoEnv with countErr := some (.other "context deadline exceeded") }

/-- A stand-in for `json.Marshal`: the bytes of the `media_id` of an object holding only
that field, no bytes for any other value. -/
def toyMarshal : JSONValue → Except GoError Bytes
  | .object [("media_id", .string s)] => .ok (asciiBytes s)
  | _ => .ok []

/-- A stand-in for `json.Unmarshal` into a `MentionValue`: fails on no bytes, and
otherwise answers a mention by `alice` whose `media_id` is read from the bytes. -/
def toyUnmarshal (data : Bytes) : Except GoError MentionValue :=
  if data = [] then .error (.other "cannot unmarshal")
  else .ok { From := { ID := "u77", Username := "alice" }
             MediaID := String.mk (data.map (fun b => Char.ofNat b.toNat))
             Text := "hello"
             Timestamp := "" }

/-- A payload with two entries: the first, of account `t1`, holds a mention of post `m1`,
a change of another field and a `mentions` change that does not decode; the second, of
account `t2`, holds a mention of post `m2`. -/
def demoPayload : WebhookPayload :=
  { Object := "threads"
    Entry :=
      [{ ID := "t1", Time := 0,
         Changes := [{ Field := "mentions", Value := .object [("media_id", .string "m1")] },
                     { Field := "likes", Value := .object [("media_id", .string "m7")] },
                     { Field := "mentions", Value := .number 3 }] },
       { ID := "t2", Time := 0,
         Changes := [{ Field := "mentions", Value := .object [("media_id", .string "m2")] }] }] }

/-- A database holding the two demo accounts and nothing else. -/
def demoWorldAccounts : World := { users := [demoUser, demoUserB], mentions := [], replies := [] }

/-- An environment of `ProcessWebhook` in which the body parses to `demoPayload` and no
store call fails. -/
def demoWebhookEnv : WebhookEnv :=
  { jsonUnmarshalPayload := fun _ => .ok demoPayload
    jsonMarshal := toyMarshal
    jsonUnmarshal := toyUnmarshal
    userErr := fun _ => none
    penv := fun _ => demoEnv }

/-- The environment `demoAsyncEnv` with a classifier that fails with `model overloaded`. -/
def demoAsyncEnvDown : AsyncEnv :=
  { demoAsyncEnv with analyze := fun _ _ => .error (.other "model overloaded") }

/-- The pipeline after post `p1` was admitted and its goroutine ran with a failing
classifier. -/
def demoPipelineFailed : Pipeline :=
  (((Pipeline.start [demoUser]).ingest demoEnv 1 "p1" demoAuthor "hello").run
    demoAsyncEnvDown 0)

/-- The pipeline `demoPipelineFailed` after a retry of the failed mention was accepted. -/
def demoPipelineRetrying : Pipeline := demoPipelineFailed.retry demoRetryEnv 1 1

/-- The pipeline `demoPipelineRetrying` after the goroutine of the retry ran with every
collaborator succeeding. -/
def demoPipelineRetried : Pipeline := demoPipelineRetrying.run demoAsyncEnv 0

/-- Three posts of the account. -/
def demoThreads : List ConversationThread :=
  [{ ID := "T1", Text := "one", Timestamp := "", MediaType := "TEXT", Permalink := "",
     Username := "shop" },
   { ID := "T2", Text := "two", Timestamp := "", MediaType := "TEXT", Permalink := "",
     Username := "shop" },
   { ID := "T3", Text := "three", Timestamp := "", MediaType := "TEXT", Permalink := "",
     Username := "shop" }]

/-- A reply with a given id, author and text. -/
def demoReplyThread (id username text : String) : ReplyThread :=
  { ID := id, Text := text, Timestamp := "", MediaType := "TEXT", Permalink := "",
    Username := username, IsReply := true, RootPost := none, RepliedTo := none,
    HideStatus := "", ReplyAudience := "" }

/-- The provider side: the replies of `T1` cannot be fetched, `T2` has a reply of the
account itself and replies `r2`, `r3` of others, `T3` has the reply `r4`. -/
def demoGetReplies (_token mediaID : String) (_reverse : Bool) :
    Except GoError (List ReplyThread) :=
  if mediaID = "T2" then
    .ok [demoReplyThread "r1" "shop" "thanks all", demoReplyThread "r2" "bob" "hi",
         demoReplyThread "r3" "carol" "hello"]
  else if mediaID = "T3" then .ok [demoReplyThread "r4" "dave" "nice"]
  else .error (.other "rate limited")

/-- An environment of `PullMentions` over that provider side in which no store call
fails. -/
def demoPullEnv : PullEnv :=
  { userErr := none
    accessToken := fun _ => .ok "token"
    nowPull := 5000000
    getUserThreads := fun _ _ _ _ => .ok demoThreads
    getReplies := demoGetReplies
    lookupErr := fun _ _ => none
    penv := fun _ _ => demoEnv }

/-- The environment `demoPullEnv` in which the `Create` for the third reply of the second
post fails. -/
def demoPullEnvFaulty : PullEnv :=
  { demoPullEnv with
    penv := fun i j =>
      if i = 1 ∧ j = 2 then { demoEnv with createErr := some (.other "write failed") }
      else demoEnv }

/-- An environment of `RetryMention` in which the account cannot be loaded. -/
def demoRetryEnvNoAccount : RetryEnv :=
  { mentionErr := none, userErr := some (.other "connection reset") }

/-- The environment `demoAsyncEnvDown` in which the last `mentionRepo.Update` of the run
fails as well. -/
def demoAsyncEnvStuck : AsyncEnv :=
  { demoAsyncEnvDown with updFinalErr := some (.other "context deadline exceeded") }

/-- The pipeline `demoPipelineRetrying` after a second retry of the same failed mention
was accepted: two goroutines wait, each with its own copy of the failed mention. -/
def demoPipelineRetryingTwice : Pipeline := demoPipelineRetrying.retry demoRetryEnv 1 1

/-- The pipeline `demoPipelineRetryingTwice` after the goroutine of the first retry ran
with every collaborator succeeding: the stored mention is `replied`, the goroutine of the
second retry still waits. -/
def demoPipelineStale : Pipeline := demoPipelineRetryingTwice.run demoAsyncEnv 0

/-- The mention of post `p1` as stored in `demoPipelineFailed`: marked `failed` when the
classifier failed. -/
def demoFailedMention : Mention :=
  (demoAdmitted 1 "p1" "hello").MarkProcessing.MarkFailed 5000300
    "AI analysis failed: model overloaded"

/-- The mention of post `p1` as stored in `demoPipelineRetried`: the goroutine of the
retry took the failed mention, analysed it and marked it `replied` with reply `1`. -/
def demoRepliedMention : Mention :=
  ((demoFailedMention.MarkProcessing).SetAnalysis demoAnalysis).MarkReplied 5000300 1

/-! ## Properties of the webhook verifier -/

theorem hexEncodeToString_length (bs : Bytes) :
    (hexEncodeToString bs).length = 2 * bs.length := by
  induction bs with
  | nil => rfl
  | cons v rest ih => simp [hexEncodeToString, ih]; omega

theorem asciiBytes_sha256_length : (asciiBytes "sha256=").length = 7 := by decide

theorem VerifySignature_eq (hmacSHA256 : Bytes → Bytes → Bytes) (v : WebhookVerifier)
    (payload signature : Bytes) :
    v.VerifySignature hmacSHA256 payload signature
      = some (decide (signature
          = asciiBytes "sha256=" ++ hexEncodeToString (hmacSHA256 v.appSecret payload))) := by
  by_cases hlen : signature.length < 7
  · have hne : signature
        ≠ asciiBytes "sha256=" ++ hexEncodeToString (hmacSHA256 v.appSecret payload) := by
      intro h
      have := congrArg List.length h
      rw [List.length_append, asciiBytes_sha256_length] at this
      omega
    simp [WebhookVerifier.VerifySignature, hlen, hne]
  · have hle : 7 ≤ signature.length := by omega
    have hsplit : signature.take 7 ++ signature.drop 7 = signature := List.take_append_drop 7 _
    by_cases htag : signature.take 7 = asciiBytes "sha256="
    · have hiff : signature
            = asciiBytes "sha256=" ++ hexEncodeToString (hmacSHA256 v.appSecret payload)
          ↔ hexEncodeToString (hmacSHA256 v.appSecret payload) = signature.drop 7 := by
        constructor
        · intro h
          have h2 : asciiBytes "sha256=" ++ signature.drop 7
              = asciiBytes "sha256=" ++ hexEncodeToString (hmacSHA256 v.appSecret payload) := by
            rw [← htag, hsplit]; rw [htag]; exact h
          exact (List.append_cancel_left h2).symm
        · intro h
          rw [h, ← htag, hsplit]
      simp [WebhookVerifier.VerifySignature, hlen, sliceTo, sliceFrom, hle, htag, hmacEqual,
        WebhookVerifier.computeHMAC, hiff]
    · have hne : signature
          ≠ asciiBytes "sha256=" ++ hexEncodeToString (hmacSHA256 v.appSecret payload) := by
        intro h
        apply htag
        rw [h, List.take_left' asciiBytes_sha256_length]
      simp [WebhookVerifier.VerifySignature, hlen, sliceTo, hle, htag, hne]

/-- C1: `VerifySignature` never performs an out-of-range slice and returns true exactly
when the header is `sha256=` followed by the lowercase hex encoding of the keyed hash
of the payload under the configured secret (the keyed hash is an arbitrary function);
so it returns false for every header shorter than 7 bytes, for every header that does
not start with `sha256=`, and, the digest being non-empty, for `sha256=` alone. -/
theorem VerifySignature_spec (hmacSHA256 : Bytes → Bytes → Bytes) (v : WebhookVerifier)
    (payload signature : Bytes) :
    (v.VerifySignature hmacSHA256 payload signature = some true
        ↔ signature
          = asciiBytes "sha256=" ++ hexEncodeToString (hmacSHA256 v.appSecret payload))
    ∧ (v.VerifySignature hmacSHA256 payload signature = some true
        ∨ v.VerifySignature hmacSHA256 payload signature = some false)
    ∧ (signature.length < 7 → v.VerifySignature hmacSHA256 payload signature = some false)
    ∧ (¬ asciiBytes "sha256=" <+: signature
        → v.VerifySignature hmacSHA256 payload signature = some false)
    ∧ (hmacSHA256 v.appSecret payload ≠ []
        → v.VerifySignature hmacSHA256 payload (asciiBytes "sha256=") = some false) := by
  refine ⟨?_, ?_, ?_, ?_, ?_⟩
  · rw [VerifySignature_eq]; simp
  · rw [VerifySignature_eq]
    by_cases h : signature
        = asciiBytes "sha256=" ++ hexEncodeToString (hmacSHA256 v.appSecret payload)
    · left; simp [h]
    · right; simp [h]
  · intro hlen
    rw [VerifySignature_eq]
    have hne : signature
        ≠ asciiBytes "sha256=" ++ hexEncodeToString (hmacSHA256 v.appSecret payload) := by
      intro h
      have := congrArg List.length h
      rw [List.length_append, asciiBytes_sha256_length] at this
      omega
    simp [hne]
  · intro hpre
    rw [VerifySignature_eq]
    have hne : signature
        ≠ asciiBytes "sha256=" ++ hexEncodeToString (hmacSHA256 v.appSecret payload) := by
      intro h
      exact hpre ⟨_, h.symm⟩
    simp [hne]
  · intro hdig
    rw [VerifySignature_eq]
    have hne : asciiBytes "sha256="
        ≠ asciiBytes "sha256=" ++ hexEncodeToString (hmacSHA256 v.appSecret payload) := by
      intro h
      have h2 := congrArg List.length h
      rw [List.length_append, hexEncodeToString_length] at h2
      have : (hmacSHA256 v.appSecret payload).length = 0 := by omega
      exact hdig (List.length_eq_zero.mp this)
    simp [hne]

/-- Witness for C1: a six-byte header, a header with another tag, and the bare tag are
all rejected under the toy keyed function. -/
theorem VerifySignature_spec_witness :
    (⟨[1], []⟩ : WebhookVerifier).VerifySignature toyMAC [2] (asciiBytes "sha256") = some false
    ∧ (⟨[1], []⟩ : WebhookVerifier).VerifySignature toyMAC [2] (asciiBytes "sha512=0102")
        = some false
    ∧ (⟨[1], []⟩ : WebhookVerifier).VerifySignature toyMAC [2] (asciiBytes "sha256=")
        = some false :=
  ⟨(VerifySignature_spec toyMAC ⟨[1], []⟩ [2] (asciiBytes "sha256")).2.2.1 (by decide),
   (VerifySignature_spec toyMAC ⟨[1], []⟩ [2] (asciiBytes "sha512=0102")).2.2.2.1 (by decide),
   (VerifySignature_spec toyMAC ⟨[1], []⟩ [2] []).2.2.2.2 (by decide)⟩

/-- C2: `VerifyChallenge` returns the challenge with `true` exactly when the mode is
`subscribe` and the token is the configured verify token, and the empty string with
`false` in every other case. -/
theorem VerifyChallenge_spec (v : WebhookVerifier) (mode token challenge : Bytes) :
    (v.VerifyChallenge mode token challenge = (challenge, true)
        ↔ mode = asciiBytes "subscribe" ∧ token = v.verifyToken)
    ∧ (¬ (mode = asciiBytes "subscribe" ∧ token = v.verifyToken)
        → v.VerifyChallenge mode token challenge = ([], false)) := by
  unfold WebhookVerifier.VerifyChallenge
  by_cases h : mode = asciiBytes "subscribe" ∧ token = v.verifyToken
  · simp [h]
  · simp [h]

/-- Witness for C2: the right mode with a wrong token is refused. -/
theorem VerifyChallenge_spec_witness :
    (⟨[], asciiBytes "tok"⟩ : WebhookVerifier).VerifyChallenge
        (asciiBytes "subscribe") (asciiBytes "bad") (asciiBytes "c1") = ([], false) :=
  (VerifyChallenge_spec ⟨[], asciiBytes "tok"⟩ (asciiBytes "subscribe") (asciiBytes "bad")
    (asciiBytes "c1")).2 (by decide)

/-! ## Store lemmas -/

theorem le_foldr_max (ids : List ObjectID) (x : ObjectID) (h : x ∈ ids) :
    x ≤ ids.foldr max 0 := by
  induction ids with
  | nil => cases h
  | cons a rest ih =>
    simp only [List.foldr_cons]
    rcases List.mem_cons.mp h with h1 | h1
    · subst h1; exact Nat.le_max_left _ _
    · exact Nat.le_trans (ih h1) (Nat.le_max_right _ _)

theorem freshID_not_mem (ids : List ObjectID) : freshID ids ∉ ids := by
  intro h
  have := le_foldr_max ids _ h
  unfold freshID at this
  exact Nat.not_succ_le_self _ this

theorem replaceFirst_append_last {α : Type} (p : α → Bool) (new last : α) (xs : List α)
    (hxs : ∀ x ∈ xs, p x = false) (hlast : p last = true) :
    replaceFirst p new (xs ++ [last]) = xs ++ [new] := by
  induction xs with
  | nil => simp [replaceFirst, hlast]
  | cons a rest ih =>
    have ha : p a = false := hxs a (List.mem_cons_self _ _)
    have hrest : ∀ x ∈ rest, p x = false := fun x hx => hxs x (List.mem_cons_of_mem _ hx)
    simp [replaceFirst, ha, ih hrest]

/-- What a successful `Create` of a new mention establishes. -/
theorem Create_ok {fault : Option GoError} {coll coll1 : List Mention} {mention doc : Mention}
    (h : MentionRepository.Create fault coll mention = .ok (coll1, doc)) :
    fault = none ∧ coll1 = coll ++ [doc]
    ∧ (∀ d ∈ coll, d.ID ≠ doc.ID ∧ d.ThreadsPostID ≠ doc.ThreadsPostID)
    ∧ doc = (if mention.ID = 0 then { mention with ID := freshID (coll.map (fun d => d.ID)) }
              else mention) := by
  cases fault with
  | some e => simp [MentionRepository.Create] at h
  | none =>
    simp only [MentionRepository.Create] at h
    generalize (if mention.ID = 0 then
        ({ mention with ID := freshID (coll.map (fun d => d.ID)) } : Mention)
      else mention) = doc0 at h ⊢
    by_cases hany :
        coll.any (fun d => d.ID == doc0.ID || d.ThreadsPostID == doc0.ThreadsPostID) = true
    · simp [hany] at h
    · rw [if_neg hany] at h
      simp only [Except.ok.injEq, Prod.mk.injEq] at h
      obtain ⟨h1, h2⟩ := h
      subst h2
      refine ⟨rfl, h1.symm, ?_, rfl⟩
      intro d hd
      simp only [List.any_eq_true, not_exists, not_and, Bool.not_eq_true] at hany
      have := hany d hd
      simpa [Bool.or_eq_false_iff] using this

/-- An `Update` right after a successful `Create` rewrites the document just inserted. -/
theorem Update_after_Create {coll : List Mention} {doc marked : Mention}
    (hfresh : ∀ d ∈ coll, d.ID ≠ doc.ID) (hid : marked.ID = doc.ID) :
    MentionRepository.Update none (coll ++ [doc]) marked = .ok (coll ++ [marked]) := by
  unfold MentionRepository.Update
  have hany : (coll ++ [doc]).any (fun d => d.ID == marked.ID) = true := by
    simp [hid]
  simp only [hany, if_true]
  congr 1
  apply replaceFirst_append_last
  · intro x hx
    simpa [hid] using hfresh x hx
  · simp [hid]

theorem find_by_id_append_last {coll : List Mention} {doc : Mention}
    (hfresh : ∀ d ∈ coll, d.ID ≠ doc.ID) :
    (coll ++ [doc]).find? (fun d => d.ID == doc.ID) = some doc := by
  induction coll with
  | nil => simp [List.find?]
  | cons a rest ih =>
    have ha : (a.ID == doc.ID) = false := by
      simpa using hfresh a (List.mem_cons_self _ _)
    have hrest : ∀ d ∈ rest, d.ID ≠ doc.ID := fun d hd => hfresh d (List.mem_cons_of_mem _ hd)
    simp only [List.cons_append, List.find?, ha]
    exact ih hrest

theorem find_by_post_append_last {coll : List Mention} {doc : Mention}
    (hfresh : ∀ d ∈ coll, d.ThreadsPostID ≠ doc.ThreadsPostID) :
    (coll ++ [doc]).find? (fun d => d.ThreadsPostID == doc.ThreadsPostID) = some doc := by
  induction coll with
  | nil => simp [List.find?]
  | cons a rest ih =>
    have ha : (a.ThreadsPostID == doc.ThreadsPostID) = false := by
      simpa using hfresh a (List.mem_cons_self _ _)
    have hrest : ∀ d ∈ rest, d.ThreadsPostID ≠ doc.ThreadsPostID :=
      fun d hd => hfresh d (List.mem_cons_of_mem _ hd)
    simp only [List.cons_append, List.find?, ha]
    exact ih hrest

theorem lookup_miss {w : World} {p : String} (fault : Option GoError)
    (hnone : ∀ d ∈ w.mentions, d.ThreadsPostID ≠ p) :
    ∃ e, MentionRepository.GetByThreadsPostID fault w.mentions p = .error e := by
  unfold MentionRepository.GetByThreadsPostID
  cases fault with
  | some e => exact ⟨e, rfl⟩
  | none =>
    have : w.mentions.find? (fun d => d.ThreadsPostID == p) = none := by
      rw [List.find?_eq_none]
      intro x hx
      simpa using hnone x hx
    simp only [this]
    exact ⟨_, rfl⟩

/-! ## `strings.Contains` -/

theorem hasPrefixChars_iff (p s : List Char) : hasPrefixChars p s = true ↔ p <+: s := by
  induction p generalizing s with
  | nil => simp [hasPrefixChars]
  | cons a p ih =>
    cases s with
    | nil => simp [hasPrefixChars]
    | cons b s =>
      simp only [hasPrefixChars, Bool.and_eq_true, beq_iff_eq, ih, List.cons_prefix_cons]

theorem containsChars_iff (sub s : List Char) : containsChars sub s = true ↔ sub <:+: s := by
  induction s with
  | nil => simp [containsChars, List.isEmpty_iff]
  | cons c s ih =>
    simp only [containsChars, Bool.or_eq_true, hasPrefixChars_iff, ih, List.infix_cons_iff]

/-- The result of `strings.Contains(s, substr)`: `substr` occurs in `s` as a contiguous
run of characters. -/
theorem stringsContains_iff (s substr : String) :
    stringsContains s substr = true ↔ ∃ pre post, s.data = pre ++ substr.data ++ post := by
  unfold stringsContains
  rw [containsChars_iff]
  constructor
  · rintro ⟨pre, post, h⟩
    exact ⟨pre, post, h.symm⟩
  · rintro ⟨pre, post, h⟩
    exact ⟨pre, post, h.symm⟩

/-! ## Admission and policy (`ProcessMention`) -/

theorem ProcessMentionRaced_of_lookup_miss {env : ProcessEnv} {between : World → World}
    {w : World} {userID : ObjectID} {threadsPostID : String} {author : MentionAuthor}
    {content : String} {user : User} {e : GoError}
    (huser : UserRepository.GetByID env.userErr w.users userID = .ok user)
    (hauto : user.AutoReplyEnabled = true)
    (hmiss : MentionRepository.GetByThreadsPostID env.lookupErr w.mentions threadsPostID
      = .error e) :
    ProcessMentionRaced env between w userID threadsPostID author content
      = ProcessMention.admitNew env (between w) user userID threadsPostID author content := by
  simp [ProcessMentionRaced, huser, hauto, hmiss]

/-- The skip statements after a successful `Create`, when the `Update` does not fail. -/
theorem skip_after_Create {env : ProcessEnv} {w : World} {coll : List Mention} {doc : Mention}
    (reason : String) (log : List Event)
    (hfresh : ∀ d ∈ coll, d.ID ≠ doc.ID) (hupd : env.updateErr = none) :
    ProcessMention.skip env { w with mentions := coll ++ [doc] } doc reason log
      = { err := none
          world := { w with mentions := coll ++ [doc.MarkSkipped env.nowSkipped reason] }
          spawned := none
          events := log ++ [.statusEdge doc.Status .skipped, .mentionUpdate true] } := by
  unfold ProcessMention.skip
  simp only [hupd]
  rw [Update_after_Create hfresh (by rfl)]
  rfl

theorem skip_spawns_nothing (env : ProcessEnv) (w : World) (doc : Mention) (reason : String)
    (log : List Event) :
    (ProcessMention.skip env w doc reason log).spawned = none
    ∧ (∃ b, (ProcessMention.skip env w doc reason log).events
        = log ++ [.statusEdge doc.Status .skipped, .mentionUpdate b])
    ∧ statusEdges (ProcessMention.skip env w doc reason log).events
        = statusEdges log ++ [(doc.Status, .skipped)] := by
  have hse : ∀ (l : List Event) (b : Bool),
      statusEdges (l ++ [.statusEdge doc.Status .skipped, .mentionUpdate b])
        = statusEdges l ++ [(doc.Status, .skipped)] := by
    intro l b
    induction l with
    | nil => simp [statusEdges]
    | cons x xs ih => cases x <;> simp [statusEdges, ih]
  simp only [ProcessMention.skip]
  cases MentionRepository.Update env.updateErr w.mentions
      (doc.MarkSkipped env.nowSkipped reason) with
  | error e => exact ⟨rfl, ⟨false, rfl⟩, hse _ _⟩
  | ok coll => exact ⟨rfl, ⟨true, rfl⟩, hse _ _⟩

/-- C4: on an auto-reply-enabled account, when the lookup by post id finds a mention,
`ProcessMention` returns nil and does nothing else: no `Create`, no `Update`, no
rate-limit count (the event log is empty), no continuation, and the database is the one
it started from; the same holds whatever other goroutines write meanwhile. -/
theorem ProcessMention_existing_noop (env : ProcessEnv) (between : World → World)
    (aenv : AsyncEnv) (w : World) (userID : ObjectID) (threadsPostID : String)
    (author : MentionAuthor) (content : String) (user : User) (existing : Mention)
    (huser : UserRepository.GetByID env.userErr w.users userID = .ok user)
    (hauto : user.AutoReplyEnabled = true)
    (hfound : MentionRepository.GetByThreadsPostID env.lookupErr w.mentions threadsPostID
      = .ok existing) :
    ProcessMention env w userID threadsPostID author content
      = { err := none, world := w, spawned := none, events := [] }
    ∧ ProcessMentionRaced env between w userID threadsPostID author content
      = { err := none, world := w, spawned := none, events := [] }
    ∧ (ProcessMention env w userID threadsPostID author content).thenContinuation aenv
      = (w, []) := by
  have h : ∀ b, ProcessMentionRaced env b w userID threadsPostID author content
      = { err := none, world := w, spawned := none, events := [] } := by
    intro b
    simp [ProcessMentionRaced, huser, hauto, hfound]
  refine ⟨h id, h between, ?_⟩
  unfold ProcessMention
  rw [h id]
  rfl

/-- Witness for C4: the post `p1` is already stored for the account. -/
theorem ProcessMention_existing_noop_witness :
    ProcessMention demoEnv demoWorldSeen 1 "p1" demoAuthor "hello again"
      = { err := none, world := demoWorldSeen, spawned := none, events := [] } :=
  (ProcessMention_existing_noop demoEnv id demoAsyncEnv demoWorldSeen 1 "p1" demoAuthor
    "hello again" demoUser (demoMention 1 "p1" .replied (some 4999000)) rfl rfl rfl).1

/-- C6: for an account whose `AutoReplyEnabled` flag is false, `ProcessMention` returns
nil, leaves the database unchanged (so no mention is created and none becomes
`processing`), starts no continuation and makes no call at all: no status edge is taken
and the classifier is not invoked. -/
theorem ProcessMention_disabled_noop (env : ProcessEnv) (between : World → World)
    (aenv : AsyncEnv) (w : World) (userID : ObjectID) (threadsPostID : String)
    (author : MentionAuthor) (content : String) (user : User)
    (huser : UserRepository.GetByID env.userErr w.users userID = .ok user)
    (hauto : user.AutoReplyEnabled = false) :
    ProcessMention env w userID threadsPostID author content
      = { err := none, world := w, spawned := none, events := [] }
    ∧ ProcessMentionRaced env between w userID threadsPostID author content
      = { err := none, world := w, spawned := none, events := [] }
    ∧ (ProcessMention env w userID threadsPostID author content).thenContinuation aenv
      = (w, [])
    ∧ Event.analyzeCall
        ∉ ((ProcessMention env w userID threadsPostID author content).thenContinuation aenv).2
    ∧ statusEdges
        ((ProcessMention env w userID threadsPostID author content).thenContinuation aenv).2
      = [] := by
  have h : ∀ b, ProcessMentionRaced env b w userID threadsPostID author content
      = { err := none, world := w, spawned := none, events := [] } := by
    intro b
    simp [ProcessMentionRaced, huser, hauto]
  have h2 : (ProcessMention env w userID threadsPostID author content).thenContinuation aenv
      = (w, []) := by
    unfold ProcessMention
    rw [h id]
    rfl
  refine ⟨h id, h between, h2, ?_, ?_⟩
  · rw [h2]; simp
  · rw [h2]; rfl

/-- Witness for C6: the account `demoUserOff` has auto-reply off. -/
theorem ProcessMention_disabled_noop_witness :
    ProcessMention demoEnv demoWorldOff 1 "p1" demoAuthor "hello"
      = { err := none, world := demoWorldOff, spawned := none, events := [] } :=
  (ProcessMention_disabled_noop demoEnv id demoAsyncEnv demoWorldOff 1 "p1" demoAuthor
    "hello" demoUserOff rfl rfl).1

/-- The characterisation of `shouldSkipMention`. -/
theorem shouldSkipMention_iff (unicodeToLower : Char → Char) (user : User)
    (author : MentionAuthor) (content : String) :
    shouldSkipMention unicodeToLower user author content = true
      ↔ ∃ kw ∈ user.Settings.IgnoreKeywords, ∃ pre post,
          (stringsToLower unicodeToLower content).data
            = pre ++ (stringsToLower unicodeToLower kw).data ++ post := by
  unfold shouldSkipMention
  simp only [List.any_eq_true, stringsContains_iff]

theorem statusEdges_append (l1 l2 : List Event) :
    statusEdges (l1 ++ l2) = statusEdges l1 ++ statusEdges l2 := by
  induction l1 with
  | nil => rfl
  | cons x xs ih => cases x <;> simp [statusEdges, ih]

theorem CallResult.thenContinuation_none (aenv : AsyncEnv) (r : CallResult)
    (h : r.spawned = none) : r.thenContinuation aenv = (r.world, r.events) := by
  unfold CallResult.thenContinuation
  rw [h]

/-- C7: a newly admitted mention of an auto-reply-enabled account whose lower-cased
content contains a lower-cased ignore-keyword is marked `skipped` (from `pending`) with
reason `matched skip criteria`; no continuation is started and the classifier is not
invoked; when the `Update` does not fail the call returns nil and the stored mention is
the skipped one. And `shouldSkipMention` is true exactly when such a keyword exists. -/
theorem ProcessMention_keyword_skip (env : ProcessEnv) (aenv : AsyncEnv) (w : World)
    (userID : ObjectID) (threadsPostID : String) (author : MentionAuthor) (content : String)
    (user : User) (coll : List Mention) (doc : Mention)
    (huser : UserRepository.GetByID env.userErr w.users userID = .ok user)
    (hauto : user.AutoReplyEnabled = true)
    (hcreate : MentionRepository.Create env.createErr w.mentions
      (NewMention env.nowCreated userID threadsPostID author content) = .ok (coll, doc))
    (hkw : ∃ kw ∈ user.Settings.IgnoreKeywords, ∃ pre post,
      (stringsToLower env.unicodeToLower content).data
        = pre ++ (stringsToLower env.unicodeToLower kw).data ++ post) :
    (ProcessMention env w userID threadsPostID author content).spawned = none
    ∧ statusEdges (ProcessMention env w userID threadsPostID author content).events
        = [(.pending, .skipped)]
    ∧ Event.analyzeCall
        ∉ ((ProcessMention env w userID threadsPostID author content).thenContinuation aenv).2
    ∧ (env.updateErr = none →
        ProcessMention env w userID threadsPostID author content
          = { err := none
              world := { w with mentions :=
                w.mentions ++ [doc.MarkSkipped env.nowSkipped "matched skip criteria"] }
              spawned := none
              events := [.mentionCreate true, .statusEdge .pending .skipped,
                .mentionUpdate true] }
        ∧ MentionRepository.GetByThreadsPostID none
            (ProcessMention env w userID threadsPostID author content).world.mentions
            threadsPostID
          = .ok (doc.MarkSkipped env.nowSkipped "matched skip criteria"))
    ∧ (doc.MarkSkipped env.nowSkipped "matched skip criteria").Status = .skipped
    ∧ (doc.MarkSkipped env.nowSkipped "matched skip criteria").SkipReason
        = "matched skip criteria"
    ∧ (∀ (f : Char → Char) (u : User) (a : MentionAuthor) (c : String),
        shouldSkipMention f u a c = true
          ↔ ∃ kw ∈ u.Settings.IgnoreKeywords, ∃ pre post,
              (stringsToLower f c).data = pre ++ (stringsToLower f kw).data ++ post) := by
  have hskip : shouldSkipMention env.unicodeToLower user author content = true :=
    (shouldSkipMention_iff _ _ _ _).mpr hkw
  obtain ⟨_, hcoll, hfresh, hdoc⟩ := Create_ok hcreate
  have hdocSt : doc.Status = .pending := by rw [hdoc]; simp [NewMention]
  have hdocPost : doc.ThreadsPostID = threadsPostID := by rw [hdoc]; simp [NewMention]
  have hnone : ∀ d ∈ w.mentions, d.ThreadsPostID ≠ threadsPostID := by
    intro d hd
    have := (hfresh d hd).2
    rwa [hdocPost] at this
  obtain ⟨e, hmiss⟩ := lookup_miss env.lookupErr hnone
  have hrun : ProcessMention env w userID threadsPostID author content
      = ProcessMention.skip env { w with mentions := coll } doc "matched skip criteria"
          [.mentionCreate true] := by
    unfold ProcessMention
    rw [ProcessMentionRaced_of_lookup_miss huser hauto hmiss]
    simp [ProcessMention.admitNew, hcreate, hskip]
  have hsp := skip_spawns_nothing env { w with mentions := coll } doc "matched skip criteria"
    [.mentionCreate true]
  refine ⟨?_, ?_, ?_, ?_, rfl, rfl, shouldSkipMention_iff⟩
  · rw [hrun]; exact hsp.1
  · rw [hrun, hsp.2.2, hdocSt]; rfl
  · rw [CallResult.thenContinuation_none aenv _ (by rw [hrun]; exact hsp.1), hrun]
    obtain ⟨b, hb⟩ := hsp.2.1
    rw [hb]
    simp
  · intro hupd
    have hfreshID : ∀ d ∈ w.mentions, d.ID ≠ doc.ID := fun d hd => (hfresh d hd).1
    have hres := skip_after_Create (w := w) "matched skip criteria" [.mentionCreate true]
      hfreshID hupd
    rw [hrun, hcoll, hres, hdocSt]
    refine ⟨rfl, ?_⟩
    simp only [MentionRepository.GetByThreadsPostID]
    have hfp : ∀ d ∈ w.mentions, d.ThreadsPostID
        ≠ (doc.MarkSkipped env.nowSkipped "matched skip criteria").ThreadsPostID :=
      fun d hd => (hfresh d hd).2
    have := find_by_post_append_last hfp
    rw [show (doc.MarkSkipped env.nowSkipped "matched skip criteria").ThreadsPostID
      = threadsPostID from hdocPost] at this
    rw [this]

/-- Witness for C7: the content `Free GIVEAWAY here` contains the ignore-keyword
`giveaway` of `demoUser` once lower-cased. -/
theorem ProcessMention_keyword_skip_witness :
    ProcessMention demoEnv demoWorld 1 "p1" demoAuthor "Free GIVEAWAY here"
      = { err := none
          world := { demoWorld with mentions :=
            [(demoAdmitted 1 "p1" "Free GIVEAWAY here").MarkSkipped 5000001
              "matched skip criteria"] }
          spawned := none
          events := [.mentionCreate true, .statusEdge .pending .skipped, .mentionUpdate true] } :=
  ((ProcessMention_keyword_skip demoEnv demoAsyncEnv demoWorld 1 "p1" demoAuthor
    "Free GIVEAWAY here" demoUser
    [demoAdmitted 1 "p1" "Free GIVEAWAY here"] (demoAdmitted 1 "p1" "Free GIVEAWAY here")
    rfl rfl rfl
    ⟨"giveaway", by decide, "free ".data, " here".data, by decide⟩).2.2.2.1 rfl).1

theorem filter_replied_append_pending (coll : List Mention) (doc : Mention)
    (userID : ObjectID) (now : Time) (h : doc.Status = .pending) :
    (coll ++ [doc]).filter (repliedLastHour userID now)
      = coll.filter (repliedLastHour userID now) := by
  simp [List.filter_append, List.filter_cons, repliedLastHour, h]

/-- C8: for a newly admitted mention that matched no ignore-keyword, on an account with
`MaxRepliesPerHour = N` whose count query succeeds: if at least `N` mentions of the
account are `replied` with `processed_at` in the trailing hour, the mention is marked
`skipped` (from `pending`) with reason `rate limit exceeded`, no continuation is started,
and when the `Update` does not fail the call returns nil and stores the skipped mention;
if fewer than `N` are, the mention stays `pending`, no status edge is taken and the
continuation is started. -/
theorem ProcessMention_rate_limit (env : ProcessEnv) (w : World) (N : Int)
    (userID : ObjectID) (threadsPostID : String) (author : MentionAuthor) (content : String)
    (user : User) (coll : List Mention) (doc : Mention)
    (huser : UserRepository.GetByID env.userErr w.users userID = .ok user)
    (hauto : user.AutoReplyEnabled = true)
    (hN : user.Settings.MaxRepliesPerHour = N)
    (hcreate : MentionRepository.Create env.createErr w.mentions
      (NewMention env.nowCreated userID threadsPostID author content) = .ok (coll, doc))
    (hnokw : shouldSkipMention env.unicodeToLower user author content = false)
    (hcount : env.countErr = none) :
    (N ≤ ((w.mentions.filter (repliedLastHour userID env.nowCount)).length : Int) →
      (ProcessMention env w userID threadsPostID author content).spawned = none
      ∧ statusEdges (ProcessMention env w userID threadsPostID author content).events
          = [(.pending, .skipped)]
      ∧ (env.updateErr = none →
          ProcessMention env w userID threadsPostID author content
            = { err := none
                world := { w with mentions :=
                  w.mentions ++ [doc.MarkSkipped env.nowSkipped "rate limit exceeded"] }
                spawned := none
                events := [.mentionCreate true, .countQuery, .statusEdge .pending .skipped,
                  .mentionUpdate true] }
          ∧ MentionRepository.GetByThreadsPostID none
              (ProcessMention env w userID threadsPostID author content).world.mentions
              threadsPostID
            = .ok (doc.MarkSkipped env.nowSkipped "rate limit exceeded")))
    ∧ (((w.mentions.filter (repliedLastHour userID env.nowCount)).length : Int) < N →
        ProcessMention env w userID threadsPostID author content
          = { err := none
              world := { w with mentions := w.mentions ++ [doc] }
              spawned := some (doc, user)
              events := [.mentionCreate true, .countQuery] })
    ∧ doc.Status = .pending
    ∧ (doc.MarkSkipped env.nowSkipped "rate limit exceeded").Status = .skipped
    ∧ (doc.MarkSkipped env.nowSkipped "rate limit exceeded").SkipReason
        = "rate limit exceeded" := by
  obtain ⟨_, hcoll, hfresh, hdoc⟩ := Create_ok hcreate
  subst hcoll
  have hdocSt : doc.Status = .pending := by rw [hdoc]; simp [NewMention]
  have hdocPost : doc.ThreadsPostID = threadsPostID := by rw [hdoc]; simp [NewMention]
  have hnone : ∀ d ∈ w.mentions, d.ThreadsPostID ≠ threadsPostID := by
    intro d hd
    have := (hfresh d hd).2
    rwa [hdocPost] at this
  obtain ⟨e, hmiss⟩ := lookup_miss env.lookupErr hnone
  have hcnt : MentionRepository.CountByUserIDLastHour env.countErr (w.mentions ++ [doc])
        userID env.nowCount
      = .ok ((w.mentions.filter (repliedLastHour userID env.nowCount)).length : Int) := by
    simp only [MentionRepository.CountByUserIDLastHour, hcount]
    rw [filter_replied_append_pending _ _ _ _ hdocSt]
  have hadm : ProcessMention env w userID threadsPostID author content
      = ProcessMention.admitNew env w user userID threadsPostID author content := by
    unfold ProcessMention
    rw [ProcessMentionRaced_of_lookup_miss huser hauto hmiss]
    rfl
  refine ⟨?_, ?_, hdocSt, rfl, rfl⟩
  · intro hge
    have hrun : ProcessMention env w userID threadsPostID author content
        = ProcessMention.skip env { w with mentions := w.mentions ++ [doc] } doc
            "rate limit exceeded" [.mentionCreate true, .countQuery] := by
      rw [hadm]
      simp [ProcessMention.admitNew, hcreate, hnokw, hcnt, hN, hge]
    have hsp := skip_spawns_nothing env { w with mentions := w.mentions ++ [doc] } doc
      "rate limit exceeded" [.mentionCreate true, .countQuery]
    refine ⟨?_, ?_, ?_⟩
    · rw [hrun]; exact hsp.1
    · rw [hrun, hsp.2.2, hdocSt]; rfl
    · intro hupd
      have hfreshID : ∀ d ∈ w.mentions, d.ID ≠ doc.ID := fun d hd => (hfresh d hd).1
      have hres := skip_after_Create (w := w) "rate limit exceeded"
        [.mentionCreate true, .countQuery] hfreshID hupd
      rw [hrun, hres, hdocSt]
      refine ⟨rfl, ?_⟩
      simp only [MentionRepository.GetByThreadsPostID]
      have hfp : ∀ d ∈ w.mentions, d.ThreadsPostID
          ≠ (doc.MarkSkipped env.nowSkipped "rate limit exceeded").ThreadsPostID :=
        fun d hd => (hfresh d hd).2
      have := find_by_post_append_last hfp
      rw [show (doc.MarkSkipped env.nowSkipped "rate limit exceeded").ThreadsPostID
        = threadsPostID from hdocPost] at this
      rw [this]
  · intro hlt
    rw [hadm]
    have hnge : ¬ N ≤ ((w.mentions.filter (repliedLastHour userID env.nowCount)).length : Int) :=
      by omega
    simp [ProcessMention.admitNew, hcreate, hnokw, hcnt, hN, hnge]

/-- Witness for C8: with `MaxRepliesPerHour = 2`, two replies in the last hour make the
next admitted mention skipped, and one reply lets it through. -/
theorem ProcessMention_rate_limit_witness :
    ProcessMention demoEnv demoWorldBusy 1 "p1" demoAuthor "hello"
      = { err := none
          world := { demoWorldBusy with mentions := demoWorldBusy.mentions ++
            [(demoAdmitted 4 "p1" "hello").MarkSkipped 5000001 "rate limit exceeded"] }
          spawned := none
          events := [.mentionCreate true, .countQuery, .statusEdge .pending .skipped,
            .mentionUpdate true] }
    ∧ ProcessMention demoEnv demoWorldSeen 1 "p2" demoAuthor "hello"
      = { err := none
          world := { demoWorldSeen with mentions := demoWorldSeen.mentions ++
            [demoAdmitted 2 "p2" "hello"] }
          spawned := some (demoAdmitted 2 "p2" "hello", demoUser)
          events := [.mentionCreate true, .countQuery] } :=
  ⟨(((ProcessMention_rate_limit demoEnv demoWorldBusy 2 1 "p1" demoAuthor "hello" demoUser
      (demoWorldBusy.mentions ++ [demoAdmitted 4 "p1" "hello"]) (demoAdmitted 4 "p1" "hello")
      rfl rfl rfl rfl rfl rfl).1 (by decide)).2.2 rfl).1,
   (ProcessMention_rate_limit demoEnv demoWorldSeen 2 1 "p2" demoAuthor "hello" demoUser
      (demoWorldSeen.mentions ++ [demoAdmitted 2 "p2" "hello"]) (demoAdmitted 2 "p2" "hello")
      rfl rfl rfl rfl rfl rfl).2.1 (by decide)⟩

/-- C5: evaluation of the code where `Create` answers `ErrDuplicateEntry`. First run: the
lookup finds nothing, another goroutine admits the same post, then `Create` runs. Second
run: the lookup itself fails while the post is stored. In both, `ProcessMention` returns
the error `failed to create mention: duplicate entry` to its caller, not nil. -/
theorem ProcessMention_duplicate_key_returns_error :
    ProcessMentionRaced demoEnv demoRacer demoWorld 1 "p1" demoAuthor "hello"
      = { err := some (.wrap "failed to create mention" .ErrDuplicateEntry)
          world := demoRacer demoWorld
          spawned := none
          events := [.mentionCreate false] }
    ∧ ProcessMention { demoEnv with lookupErr := some (.other "context deadline exceeded") }
        demoWorldSeen 1 "p1" demoAuthor "hello"
      = { err := some (.wrap "failed to create mention" .ErrDuplicateEntry)
          world := demoWorldSeen
          spawned := none
          events := [.mentionCreate false] }
    ∧ (GoError.wrap "failed to create mention" .ErrDuplicateEntry).Error
      = "failed to create mention: duplicate entry" := by
  refine ⟨rfl, rfl, by decide⟩

/-! ## The continuation (`processMentionAsync`) and `RetryMention` -/

theorem generateReply_edges (env : AsyncEnv) (userID : ObjectID) (m : Mention)
    (a : MentionAnalysis) : statusEdges (generateReply env userID m a).2 = [] := by
  unfold generateReply
  split
  · rfl
  · simp only
    split
    · split
      · split <;> simp [statusEdges_append, statusEdges]
      · simp [statusEdges]
    · split <;> simp [statusEdges_append, statusEdges]

theorem deliver_edges (env : AsyncEnv) (w : World) (m : Mention) (u : User) (rc : String)
    (tid : Option ObjectID) (log : List Event) :
    ∃ l, statusEdges (processMentionAsync.deliver env w m u rc tid log).events
        = statusEdges log ++ l
      ∧ ∀ e ∈ l, e = (m.Status, .replied) ∨ e = (m.Status, .failed) := by
  unfold processMentionAsync.deliver
  simp only
  split
  · exact ⟨[], by simp [statusEdges_append, statusEdges], by simp⟩
  · split
    · refine ⟨[(m.Status, .failed)], ?_, by simp⟩
      simp [statusEdges_append, statusEdges, Mention.MarkFailed]
    · split
      · refine ⟨[(m.Status, .failed)], ?_, by simp⟩
        simp [statusEdges_append, statusEdges, Mention.MarkFailed]
      · refine ⟨[(m.Status, .replied)], ?_, by simp⟩
        simp [statusEdges_append, statusEdges, Mention.MarkReplied]

theorem compose_edges (env : AsyncEnv) (w : World) (m : Mention) (u : User)
    (a : MentionAnalysis) (log : List Event) :
    ∃ l, statusEdges (processMentionAsync.compose env w m u a log).events
        = statusEdges log ++ l
      ∧ ∀ e ∈ l, e = (m.Status, .replied) ∨ e = (m.Status, .skipped)
          ∨ e = (m.Status, .failed) := by
  have hpaced : statusEdges (if u.Settings.ReplyDelaySeconds > 0
      then [Event.sleep u.Settings.ReplyDelaySeconds] else []) = [] := by
    split <;> rfl
  unfold processMentionAsync.compose
  simp only
  split
  · refine ⟨[(m.Status, .skipped)], ?_, by simp⟩
    simp [statusEdges_append, statusEdges, Mention.MarkSkipped, Mention.SetAnalysis]
  · split
    · rename_i e glog hg
      have hglog : statusEdges glog = [] := by
        have := generateReply_edges env u.ID (m.SetAnalysis a) a
        rw [hg] at this
        exact this
      refine ⟨[(m.Status, .failed)], ?_, by simp⟩
      simp [statusEdges_append, statusEdges, Mention.MarkFailed, Mention.SetAnalysis,
        hpaced, hglog]
    · rename_i rc tid glog hg
      have hglog : statusEdges glog = [] := by
        have := generateReply_edges env u.ID (m.SetAnalysis a) a
        rw [hg] at this
        exact this
      obtain ⟨l, hl, hall⟩ := deliver_edges env
        (saveMention env.updAnalysisErr w (m.SetAnalysis a)).1 (m.SetAnalysis a) u rc tid
        (log ++ [.mentionUpdate (saveMention env.updAnalysisErr w (m.SetAnalysis a)).2]
          ++ (if u.Settings.ReplyDelaySeconds > 0
                then [Event.sleep u.Settings.ReplyDelaySeconds] else []) ++ glog)
      refine ⟨l, ?_, ?_⟩
      · rw [hl]
        simp [statusEdges_append, statusEdges, hpaced, hglog]
      · intro e he
        rcases hall e he with h | h
        · left; exact h
        · right; right; exact h

theorem processMentionAsync_edges (env : AsyncEnv) (w : World) (m : Mention) (u : User) :
    ∃ l, statusEdges (processMentionAsync env w m u).events = (m.Status, .processing) :: l
      ∧ ∀ e ∈ l, e = (.processing, .replied) ∨ e = (.processing, .skipped)
          ∨ e = (.processing, .failed) := by
  unfold processMentionAsync
  simp only
  split
  · exact ⟨[], by simp [statusEdges, Mention.MarkProcessing], by simp⟩
  · split
    · refine ⟨[(.processing, .failed)], ?_, by simp⟩
      simp [statusEdges, Mention.MarkProcessing, Mention.MarkFailed]
    · rename_i coll hupd x analysis han
      obtain ⟨l, hl, hall⟩ := compose_edges env { w with mentions := coll } m.MarkProcessing u
        analysis [.statusEdge m.Status m.MarkProcessing.Status, .mentionUpdate true,
          .analyzeCall]
      refine ⟨l, ?_, ?_⟩
      · rw [hl]
        simp [statusEdges, Mention.MarkProcessing]
      · intro e he
        simpa [Mention.MarkProcessing] using hall e he

theorem admitNew_edges (env : ProcessEnv) (w : World) (user : User) (userID : ObjectID)
    (threadsPostID : String) (author : MentionAuthor) (content : String) :
    (∀ e ∈ statusEdges
        (ProcessMention.admitNew env w user userID threadsPostID author content).events,
      e = (.pending, .skipped))
    ∧ (∀ m u, (ProcessMention.admitNew env w user userID threadsPostID author content).spawned
        = some (m, u) → m.Status = .pending) := by
  unfold ProcessMention.admitNew
  simp only
  split
  · simp [statusEdges]
  · rename_i x coll doc hcreate
    have hdocSt : doc.Status = .pending := by
      rw [(Create_ok hcreate).2.2.2]; simp [NewMention]
    split
    · have hsp := skip_spawns_nothing env { w with mentions := coll } doc
        "matched skip criteria" [.mentionCreate true]
      rw [hsp.1, hsp.2.2, hdocSt]
      simp [statusEdges]
    · split
      · simp [statusEdges, hdocSt]
      · split
        · have hsp := skip_spawns_nothing env { w with mentions := coll } doc
            "rate limit exceeded" [.mentionCreate true, .countQuery]
          rw [hsp.1, hsp.2.2, hdocSt]
          simp [statusEdges]
        · simp [statusEdges, hdocSt]

theorem ProcessMentionRaced_edges (env : ProcessEnv) (between : World → World) (w : World)
    (userID : ObjectID) (threadsPostID : String) (author : MentionAuthor) (content : String) :
    (∀ e ∈ statusEdges
        (ProcessMentionRaced env between w userID threadsPostID author content).events,
      e = (.pending, .skipped))
    ∧ (∀ m u, (ProcessMentionRaced env between w userID threadsPostID author content).spawned
        = some (m, u) → m.Status = .pending) := by
  unfold ProcessMentionRaced
  split
  · simp [statusEdges]
  · split
    · simp [statusEdges]
    · split
      · simp [statusEdges]
      · exact admitNew_edges env (between w) _ userID threadsPostID author content

theorem RetryMention_spawned (env : RetryEnv) (w : World) (userID mentionID : ObjectID) :
    (RetryMention env w userID mentionID).events = []
    ∧ (RetryMention env w userID mentionID).world = w
    ∧ (∀ m u, (RetryMention env w userID mentionID).spawned = some (m, u) →
        m.Status = .failed
        ∧ GetMention env.mentionErr w userID mentionID = .ok m
        ∧ UserRepository.GetByID env.userErr w.users userID = .ok u) := by
  unfold RetryMention
  split
  · simp
  · split
    · simp
    · rename_i hst
      split
      · simp
      · rename_i x1 m0 hm x2 u0 hu
        refine ⟨rfl, rfl, ?_⟩
        intro m u h
        simp only [Option.some.injEq, Prod.mk.injEq] at h
        obtain ⟨h1, h2⟩ := h
        subst h1 h2
        exact ⟨by simpa using hst, hm, hu⟩

/-- The status changes of the in-memory mention: those made by `ProcessMention` are all
`pending → skipped`; a continuation it starts, on whatever database it later runs, only
takes `pending → processing` and then `processing → replied`, `processing → skipped` or
`processing → failed`; `RetryMention` itself changes no status, and a continuation it
starts only takes `failed → processing` and then the same three edges out of
`processing`. -/
theorem status_edges_in_memory :
    (∀ (env : ProcessEnv) (between : World → World) (w : World) (userID : ObjectID)
        (threadsPostID : String) (author : MentionAuthor) (content : String),
      (∀ e ∈ statusEdges
          (ProcessMentionRaced env between w userID threadsPostID author content).events,
        e = (.pending, .skipped))
      ∧ (∀ (m : Mention) (u : User) (aenv : AsyncEnv) (w1 : World),
          (ProcessMentionRaced env between w userID threadsPostID author content).spawned
            = some (m, u) →
          ∀ e ∈ statusEdges (processMentionAsync aenv w1 m u).events,
            e = (.pending, .processing) ∨ e = (.processing, .replied)
              ∨ e = (.processing, .skipped) ∨ e = (.processing, .failed)))
    ∧ (∀ (env : RetryEnv) (w : World) (userID mentionID : ObjectID),
      statusEdges (RetryMention env w userID mentionID).events = []
      ∧ (∀ (m : Mention) (u : User) (aenv : AsyncEnv) (w1 : World),
          (RetryMention env w userID mentionID).spawned = some (m, u) →
          ∀ e ∈ statusEdges (processMentionAsync aenv w1 m u).events,
            e = (.failed, .processing) ∨ e = (.processing, .replied)
              ∨ e = (.processing, .skipped) ∨ e = (.processing, .failed))) := by
  have hcont : ∀ (st : MentionStatus) (m : Mention) (u : User) (aenv : AsyncEnv)
      (w1 : World), m.Status = st →
      ∀ e ∈ statusEdges (processMentionAsync aenv w1 m u).events,
        e = (st, .processing) ∨ e = (.processing, .replied)
          ∨ e = (.processing, .skipped) ∨ e = (.processing, .failed) := by
    intro st m u aenv w1 hst e he
    obtain ⟨l, hl, hall⟩ := processMentionAsync_edges aenv w1 m u
    rw [hl] at he
    rcases List.mem_cons.mp he with h | h
    · left; rw [h, hst]
    · right; exact hall e h
  refine ⟨?_, ?_⟩
  · intro env between w userID threadsPostID author content
    have h := ProcessMentionRaced_edges env between w userID threadsPostID author content
    exact ⟨h.1, fun m u aenv w1 hsp => hcont .pending m u aenv w1 (h.2 m u hsp)⟩
  · intro env w userID mentionID
    have h := RetryMention_spawned env w userID mentionID
    refine ⟨by rw [h.1]; rfl, fun m u aenv w1 hsp => ?_⟩
    exact hcont .failed m u aenv w1 (h.2.2 m u hsp).1

theorem processMentionAsync_first_event (env : AsyncEnv) (w : World) (m : Mention) (u : User) :
    (processMentionAsync env w m u).events.head? = some (.statusEdge m.Status .processing) := by
  unfold processMentionAsync
  simp only
  split
  · rfl
  · split
    · rfl
    · unfold processMentionAsync.compose
      simp only
      split
      · rfl
      · split
        · rfl
        · unfold processMentionAsync.deliver
          simp only
          split
          · rfl
          · split
            · rfl
            · split <;> rfl

/-- One `RetryMention` call for a mention that is stored and owned by the caller: it
returns nil and starts a continuation (on the stored mention, beginning again with the
move to `processing`) exactly when the stored status is `failed`, the account being
loaded; for every other status it returns the error `can only retry failed mentions`,
starts no continuation and changes nothing. `RetryMention` itself never writes to the
database. When the status is `failed` but the account cannot be loaded, the load error is
returned and no continuation is started. -/
theorem RetryMention_call (env : RetryEnv) (aenv : AsyncEnv) (w : World)
    (userID mentionID : ObjectID) (m : Mention)
    (hm : GetMention env.mentionErr w userID mentionID = .ok m) :
    (∀ u, UserRepository.GetByID env.userErr w.users userID = .ok u →
      (((RetryMention env w userID mentionID).err = none
          ∧ (RetryMention env w userID mentionID).spawned = some (m, u))
        ↔ m.Status = .failed))
    ∧ ((RetryMention env w userID mentionID).err = none → m.Status = .failed)
    ∧ ((RetryMention env w userID mentionID).spawned ≠ none → m.Status = .failed)
    ∧ (m.Status ≠ .failed →
        RetryMention env w userID mentionID
          = { err := some (.other "can only retry failed mentions"), world := w,
              spawned := none, events := [] }
        ∧ (RetryMention env w userID mentionID).thenContinuation aenv = (w, []))
    ∧ (∀ e, m.Status = .failed →
        UserRepository.GetByID env.userErr w.users userID = .error e →
        RetryMention env w userID mentionID
          = { err := some e, world := w, spawned := none, events := [] })
    ∧ (RetryMention env w userID mentionID).world = w
    ∧ (∀ u w1, (processMentionAsync aenv w1 m u).events.head?
        = some (.statusEdge m.Status .processing)) := by
  have hbad : m.Status ≠ .failed →
      RetryMention env w userID mentionID
        = { err := some (.other "can only retry failed mentions"), world := w,
            spawned := none, events := [] } := by
    intro hst
    simp [RetryMention, hm, hst]
  refine ⟨?_, ?_, ?_, ?_, ?_, (RetryMention_spawned env w userID mentionID).2.1,
    fun u w1 => processMentionAsync_first_event aenv w1 m u⟩
  · intro u hu
    constructor
    · intro h
      exact ((RetryMention_spawned env w userID mentionID).2.2 m u h.2).1
    · intro hst
      simp [RetryMention, hm, hst, hu]
  · intro herr
    by_contra hst
    rw [hbad hst] at herr
    simp at herr
  · intro hsp
    by_contra hst
    rw [hbad hst] at hsp
    simp at hsp
  · intro hst
    refine ⟨hbad hst, ?_⟩
    rw [hbad hst]
    rfl
  · intro e hst hu
    simp [RetryMention, hm, hst, hu]

/-! ## Deduplication -/

/-- Once a mention with post id `p` is stored, `ProcessMention` for `p` changes nothing
and starts nothing, whatever the account, the environment and the interference. -/
theorem ProcessMentionRaced_post_present (env : ProcessEnv) (w : World)
    (userID : ObjectID) (threadsPostID : String) (author : MentionAuthor) (content : String)
    (d : Mention) (hd : d ∈ w.mentions) (hp : d.ThreadsPostID = threadsPostID) :
    (ProcessMentionRaced env id w userID threadsPostID author content).world = w
    ∧ (ProcessMentionRaced env id w userID threadsPostID author content).spawned = none := by
  unfold ProcessMentionRaced
  split
  · exact ⟨rfl, rfl⟩
  · split
    · exact ⟨rfl, rfl⟩
    · split
      · exact ⟨rfl, rfl⟩
      · have hcreate : ∀ f m, m.ThreadsPostID = threadsPostID →
            ∃ e, MentionRepository.Create f w.mentions m = .error e := by
          intro f m hm
          unfold MentionRepository.Create
          cases f with
          | some e => exact ⟨e, rfl⟩
          | none =>
            refine ⟨.ErrDuplicateEntry, ?_⟩
            simp only
            rw [if_pos]
            rw [List.any_eq_true]
            refine ⟨d, hd, ?_⟩
            have : d.ThreadsPostID = (if m.ID = 0 then
                ({ m with ID := freshID (w.mentions.map (fun d => d.ID)) } : Mention)
              else m).ThreadsPostID := by
              split <;> simp [hp, hm]
            simp [this]
        obtain ⟨e, he⟩ := hcreate env.createErr
          (NewMention env.nowCreated userID threadsPostID author content) rfl
        simp [ProcessMention.admitNew, he]

theorem admittedShape_replace {pre : List Mention} {id : ObjectID} {p : String}
    {coll : List Mention} (hpre : ∀ x ∈ pre, x.ID ≠ id)
    (h : admittedShape pre id p coll) (m : Mention) (hid : m.ID = id)
    (hpost : m.ThreadsPostID = p) :
    admittedShape pre id p (replaceFirst (fun d => d.ID == id) m coll) := by
  obtain ⟨d, hcoll, hdid, _⟩ := h
  refine ⟨m, ?_, hid, hpost⟩
  rw [hcoll]
  apply replaceFirst_append_last
  · intro x hx
    simpa using hpre x hx
  · simp [hdid]

theorem admittedShape_count {pre : List Mention} {id : ObjectID} {p : String}
    {w : World} (hpre : ∀ x ∈ pre, x.ThreadsPostID ≠ p)
    (h : admittedShape pre id p w.mentions) :
    countByPost w p = 1 := by
  unfold countByPost
  obtain ⟨d, hcoll, _, hdp⟩ := h
  have hnil : pre.filter (fun d => d.ThreadsPostID == p) = [] := by
    rw [List.filter_eq_nil_iff]
    intro x hx
    simpa using hpre x hx
  rw [hcoll, List.filter_append, hnil]
  simp [List.filter_cons, hdp]

theorem Update_ok {fault : Option GoError} {coll coll1 : List Mention} {m : Mention}
    (h : MentionRepository.Update fault coll m = .ok coll1) :
    coll1 = replaceFirst (fun d => d.ID == m.ID) m coll := by
  unfold MentionRepository.Update at h
  cases fault with
  | some e => simp at h
  | none =>
    simp only at h
    split at h
    · simpa using h.symm
    · simp at h

theorem saveReply_mentions (fault : Option GoError) (w : World) (r : Reply) :
    (saveReply fault w r).1.mentions = w.mentions
    ∧ (saveReply fault w r).1.users = w.users := by
  unfold saveReply
  split <;> exact ⟨rfl, rfl⟩

theorem saveMention_inv {I : List Mention → Prop} {id : ObjectID} {p : String}
    (hstep : ∀ coll m1, I coll → m1.ID = id → m1.ThreadsPostID = p →
      I (replaceFirst (fun d => d.ID == id) m1 coll))
    (fault : Option GoError) (w : World) (m : Mention) (hid : m.ID = id)
    (hp : m.ThreadsPostID = p) (h0 : I w.mentions) :
    I (saveMention fault w m).1.mentions := by
  unfold saveMention
  split
  · exact h0
  · rename_i coll hU
    have := Update_ok hU
    rw [hid] at this
    simp only
    rw [this]
    exact hstep _ _ h0 hid hp

theorem deliver_mentions_inv {I : List Mention → Prop} {id : ObjectID} {p : String}
    (hstep : ∀ coll m1, I coll → m1.ID = id → m1.ThreadsPostID = p →
      I (replaceFirst (fun d => d.ID == id) m1 coll))
    (env : AsyncEnv) (w : World) (m : Mention) (u : User) (rc : String)
    (tid : Option ObjectID) (log : List Event) (hid : m.ID = id) (hp : m.ThreadsPostID = p)
    (h0 : I w.mentions) :
    I (processMentionAsync.deliver env w m u rc tid log).world.mentions := by
  unfold processMentionAsync.deliver
  simp only
  split
  · exact h0
  · rename_i x coll reply hC
    split
    · rename_i x2 e he
      show I (saveMention env.updFinalErr
        (saveReply env.replyUpdateErr { w with replies := coll }
          (reply.MarkFailed ("token error: " ++ e.Error))).1
        (m.MarkFailed env.nowDone "token error")).1.mentions
      refine saveMention_inv hstep _ _ _ hid hp ?_
      rw [(saveReply_mentions _ _ _).1]
      exact h0
    · split
      · rename_i x2 tok htok x3 e he
        show I (saveMention env.updFinalErr
          (saveReply env.replyUpdateErr { w with replies := coll }
            (reply.MarkFailed ("Threads API error: " ++ e.Error))).1
          (m.MarkFailed env.nowDone "failed to post reply")).1.mentions
        refine saveMention_inv hstep _ _ _ hid hp ?_
        rw [(saveReply_mentions _ _ _).1]
        exact h0
      · rename_i x2 tok htok x3 rid hrid
        show I (saveMention env.updFinalErr
          (saveReply env.replyUpdateErr { w with replies := coll }
            (reply.MarkSent env.nowSent rid)).1
          (m.MarkReplied env.nowDone (reply.MarkSent env.nowSent rid).ID)).1.mentions
        refine saveMention_inv hstep _ _ _ hid hp ?_
        rw [(saveReply_mentions _ _ _).1]
        exact h0

theorem compose_mentions_inv {I : List Mention → Prop} {id : ObjectID} {p : String}
    (hstep : ∀ coll m1, I coll → m1.ID = id → m1.ThreadsPostID = p →
      I (replaceFirst (fun d => d.ID == id) m1 coll))
    (env : AsyncEnv) (w : World) (m : Mention) (u : User) (a : MentionAnalysis)
    (log : List Event) (hid : m.ID = id) (hp : m.ThreadsPostID = p) (h0 : I w.mentions) :
    I (processMentionAsync.compose env w m u a log).world.mentions := by
  have h1 : I (saveMention env.updAnalysisErr w (m.SetAnalysis a)).1.mentions :=
    saveMention_inv hstep _ _ _ hid hp h0
  unfold processMentionAsync.compose
  simp only
  split
  · show I (saveMention env.updFinalErr (saveMention env.updAnalysisErr w (m.SetAnalysis a)).1
      ((m.SetAnalysis a).MarkSkipped env.nowDone "detected as spam")).1.mentions
    exact saveMention_inv hstep _ _ _ hid hp h1
  · split
    · rename_i x e glog hg
      show I (saveMention env.updFinalErr (saveMention env.updAnalysisErr w (m.SetAnalysis a)).1
        ((m.SetAnalysis a).MarkFailed env.nowDone
          ("reply generation failed: " ++ e.Error))).1.mentions
      exact saveMention_inv hstep _ _ _ hid hp h1
    · exact deliver_mentions_inv hstep env _ _ u _ _ _ hid hp h1

/-- Every write of `processMentionAsync` to the `mentions` collection replaces the
document whose identifier is the mention's by a version of the mention with the same
identifier and post id; so whatever is preserved by such a write holds afterwards. -/
theorem processMentionAsync_mentions_inv {I : List Mention → Prop} {id : ObjectID}
    {p : String}
    (hstep : ∀ coll m1, I coll → m1.ID = id → m1.ThreadsPostID = p →
      I (replaceFirst (fun d => d.ID == id) m1 coll))
    (env : AsyncEnv) (w : World) (m : Mention) (u : User) (hid : m.ID = id)
    (hp : m.ThreadsPostID = p) (h0 : I w.mentions) :
    I (processMentionAsync env w m u).world.mentions := by
  unfold processMentionAsync
  simp only
  split
  · exact h0
  · rename_i x coll hU
    have h1 : I coll := by
      have := Update_ok hU
      rw [show m.MarkProcessing.ID = id from hid] at this
      rw [this]
      exact hstep _ _ h0 hid hp
    split
    · rename_i x2 e he
      show I (saveMention env.updFinalErr { w with mentions := coll }
        (m.MarkProcessing.MarkFailed env.nowDone ("AI analysis failed: " ++ e.Error))).1.mentions
      exact saveMention_inv hstep _ _ _ hid hp h1
    · exact compose_mentions_inv hstep env _ _ u _ _ hid hp h1

theorem skip_shape (env : ProcessEnv) (w : World) (pre : List Mention) (doc : Mention)
    (reason : String) (log : List Event) (hw : w.mentions = pre ++ [doc])
    (hfresh : ∀ x ∈ pre, x.ID ≠ doc.ID) :
    admittedShape pre doc.ID doc.ThreadsPostID
      (ProcessMention.skip env w doc reason log).world.mentions := by
  unfold ProcessMention.skip
  simp only
  split
  · exact ⟨doc, hw, rfl, rfl⟩
  · rename_i x coll hU
    have := Update_ok hU
    simp only
    rw [this]
    exact admittedShape_replace hfresh ⟨doc, hw, rfl, rfl⟩ _ rfl rfl

/-- What `ProcessMention` does to the database when the post id is not stored yet:
either nothing (and no goroutine), or it appends one mention with that post id under a
new identifier, which is also the mention handed to the goroutine if one is started. -/
theorem admitNew_world_cases (env : ProcessEnv) (w : World) (user : User) (userID : ObjectID)
    (p : String) (author : MentionAuthor) (content : String)
    (hnone : ∀ d ∈ w.mentions, d.ThreadsPostID ≠ p) :
    (env.createErr ≠ none
      ∧ (ProcessMention.admitNew env w user userID p author content).world = w
      ∧ (ProcessMention.admitNew env w user userID p author content).spawned = none)
    ∨ (env.createErr = none ∧ ∃ id, (∀ x ∈ w.mentions, x.ID ≠ id)
      ∧ admittedShape w.mentions id p
          (ProcessMention.admitNew env w user userID p author content).world.mentions
      ∧ ∀ m u, (ProcessMention.admitNew env w user userID p author content).spawned
          = some (m, u) → m.ID = id ∧ m.ThreadsPostID = p) := by
  unfold ProcessMention.admitNew
  simp only
  split
  · rename_i x e hC
    left
    refine ⟨?_, rfl, rfl⟩
    intro hnil
    rw [hnil] at hC
    have hany : (w.mentions.any fun d =>
        d.ID == freshID (w.mentions.map fun d => d.ID) || d.ThreadsPostID == p) = false := by
      rw [List.any_eq_false]
      intro d hd
      have h1 : d.ID ≠ freshID (w.mentions.map fun d => d.ID) := by
        intro h
        have hmem : d.ID ∈ w.mentions.map (fun d => d.ID) :=
          List.mem_map_of_mem (fun (d : Mention) => d.ID) hd
        rw [h] at hmem
        exact freshID_not_mem _ hmem
      simp [h1, hnone d hd]
    simp [MentionRepository.Create, NewMention, hany] at hC
  · rename_i x coll doc hC
    right
    obtain ⟨hf, hcoll, hfresh, hdoc⟩ := Create_ok hC
    have hdocPost : doc.ThreadsPostID = p := by rw [hdoc]; simp [NewMention]
    have hfreshID : ∀ x ∈ w.mentions, x.ID ≠ doc.ID := fun x hx => (hfresh x hx).1
    refine ⟨hf, doc.ID, hfreshID, ?_⟩
    subst hcoll
    split
    · refine ⟨?_, ?_⟩
      · have := skip_shape env { w with mentions := w.mentions ++ [doc] } w.mentions doc
          "matched skip criteria" [.mentionCreate true] rfl hfreshID
        rw [hdocPost] at this
        exact this
      · intro m u h
        rw [(skip_spawns_nothing _ _ _ _ _).1] at h
        cases h
    · split
      · refine ⟨⟨doc, rfl, rfl, hdocPost⟩, ?_⟩
        intro m u h
        simp only [Option.some.injEq, Prod.mk.injEq] at h
        rw [← h.1]
        exact ⟨rfl, hdocPost⟩
      · split
        · refine ⟨?_, ?_⟩
          · have := skip_shape env { w with mentions := w.mentions ++ [doc] } w.mentions doc
              "rate limit exceeded" [.mentionCreate true, .countQuery] rfl hfreshID
            rw [hdocPost] at this
            exact this
          · intro m u h
            rw [(skip_spawns_nothing _ _ _ _ _).1] at h
            cases h
        · refine ⟨⟨doc, rfl, rfl, hdocPost⟩, ?_⟩
          intro m u h
          simp only [Option.some.injEq, Prod.mk.injEq] at h
          rw [← h.1]
          exact ⟨rfl, hdocPost⟩

theorem ProcessMention_world_cases (env : ProcessEnv) (w : World) (userID : ObjectID)
    (p : String) (author : MentionAuthor) (content : String)
    (hnone : ∀ d ∈ w.mentions, d.ThreadsPostID ≠ p) :
    ((ProcessMention env w userID p author content).world = w
      ∧ (ProcessMention env w userID p author content).spawned = none)
    ∨ (∃ id, (∀ x ∈ w.mentions, x.ID ≠ id)
      ∧ admittedShape w.mentions id p
          (ProcessMention env w userID p author content).world.mentions
      ∧ ∀ m u, (ProcessMention env w userID p author content).spawned = some (m, u) →
          m.ID = id ∧ m.ThreadsPostID = p) := by
  unfold ProcessMention ProcessMentionRaced
  split
  · left; exact ⟨rfl, rfl⟩
  · split
    · left; exact ⟨rfl, rfl⟩
    · split
      · left; exact ⟨rfl, rfl⟩
      · rename_i user hu hauto x2 e he
        rcases admitNew_world_cases env w user userID p author content hnone with h | h
        · left; exact h.2
        · right; exact h.2

/-- After a call on a database without the post id, and whether or not the goroutine it
started has run, the database is either the initial one or holds exactly one mention with
that post id, appended under a new identifier. -/
theorem worldAfter_cases (env : ProcessEnv) (cont : Option AsyncEnv) (w : World)
    (userID : ObjectID) (p : String) (author : MentionAuthor) (content : String)
    (hnone : ∀ d ∈ w.mentions, d.ThreadsPostID ≠ p) :
    ((ProcessMention env w userID p author content).worldAfter cont = w
      ∧ (ProcessMention env w userID p author content).world = w)
    ∨ (∃ id, (∀ x ∈ w.mentions, x.ID ≠ id)
      ∧ admittedShape w.mentions id p
          (ProcessMention env w userID p author content).world.mentions
      ∧ admittedShape w.mentions id p
          ((ProcessMention env w userID p author content).worldAfter cont).mentions) := by
  rcases ProcessMention_world_cases env w userID p author content hnone with h | h
  · left
    refine ⟨?_, h.1⟩
    unfold CallResult.worldAfter
    cases cont with
    | none => exact h.1
    | some aenv =>
      simp only [CallResult.thenContinuation_none aenv _ h.2]
      exact h.1
  · right
    obtain ⟨id, hfresh, hshape, hsp⟩ := h
    refine ⟨id, hfresh, hshape, ?_⟩
    unfold CallResult.worldAfter
    cases cont with
    | none => exact hshape
    | some aenv =>
      simp only [CallResult.thenContinuation]
      cases hs : (ProcessMention env w userID p author content).spawned with
      | none => exact hshape
      | some mu =>
        obtain ⟨m, u⟩ := mu
        obtain ⟨hid, hp⟩ := hsp m u hs
        have hinv : admittedShape w.mentions id p
            (processMentionAsync aenv (ProcessMention env w userID p author content).world
              m u).world.mentions :=
          processMentionAsync_mentions_inv
            (I := admittedShape w.mentions id p)
            (fun coll m1 hc h1 h2 => admittedShape_replace hfresh hc m1 h1 h2)
            aenv _ m u hid hp hshape
        exact hinv

theorem countByPost_zero {w : World} {p : String}
    (hnone : ∀ d ∈ w.mentions, d.ThreadsPostID ≠ p) : countByPost w p = 0 := by
  unfold countByPost
  rw [List.length_eq_zero, List.filter_eq_nil_iff]
  intro x hx
  simpa using hnone x hx

theorem second_call_of_shape (env : ProcessEnv) (w1 : World) (pre : List Mention)
    (id userID : ObjectID) (p : String) (author : MentionAuthor) (content : String)
    (hpre : ∀ d ∈ pre, d.ThreadsPostID ≠ p) (hshape : admittedShape pre id p w1.mentions) :
    countByPost (ProcessMention env w1 userID p author content).world p = 1 := by
  obtain ⟨d, hcoll, hid, hp⟩ := hshape
  have hd : d ∈ w1.mentions := by rw [hcoll]; simp
  have := (ProcessMentionRaced_post_present env w1 userID p author content d hd hp).1
  unfold ProcessMention
  rw [this]
  exact admittedShape_count hpre ⟨d, hcoll, hid, hp⟩

/-- C3, as the code has it: starting from a store with no mention of post id `p`, after
two sequential `ProcessMention` calls for the same account and `p` (whatever their
authors, contents and environments, and whether or not the goroutine started by the
first call has run in between) at most one mention with post id `p` is stored; exactly
one when the account is loaded with auto-reply enabled and the first insertion does not
fail; none when the account is loaded with auto-reply disabled. -/
theorem ProcessMention_twice_one_record (env1 env2 : ProcessEnv) (cont : Option AsyncEnv)
    (w : World) (userID : ObjectID) (p : String) (author1 author2 : MentionAuthor)
    (content1 content2 : String)
    (hnone : ∀ d ∈ w.mentions, d.ThreadsPostID ≠ p) :
    countByPost (ProcessMention env2
        ((ProcessMention env1 w userID p author1 content1).worldAfter cont)
        userID p author2 content2).world p ≤ 1
    ∧ (∀ user, UserRepository.GetByID env1.userErr w.users userID = .ok user →
        user.AutoReplyEnabled = true → env1.createErr = none →
        countByPost (ProcessMention env2
          ((ProcessMention env1 w userID p author1 content1).worldAfter cont)
          userID p author2 content2).world p = 1)
    ∧ (∀ user, UserRepository.GetByID env1.userErr w.users userID = .ok user →
        user.AutoReplyEnabled = false →
        countByPost (ProcessMention env2
          ((ProcessMention env1 w userID p author1 content1).worldAfter cont)
          userID p author2 content2).world p = 0) := by
  refine ⟨?_, ?_, ?_⟩
  · rcases worldAfter_cases env1 cont w userID p author1 content1 hnone with h | h
    · rw [h.1]
      rcases ProcessMention_world_cases env2 w userID p author2 content2 hnone with h2 | h2
      · rw [h2.1, countByPost_zero hnone]; omega
      · obtain ⟨id, _, hshape, _⟩ := h2
        rw [admittedShape_count hnone hshape]
    · obtain ⟨id, _, _, hshape⟩ := h
      rw [second_call_of_shape env2 _ w.mentions id userID p author2 content2 hnone hshape]
  · intro user huser hauto hcre
    obtain ⟨e, hmiss⟩ := lookup_miss env1.lookupErr hnone
    have hrun : ProcessMention env1 w userID p author1 content1
        = ProcessMention.admitNew env1 w user userID p author1 content1 := by
      unfold ProcessMention
      rw [ProcessMentionRaced_of_lookup_miss huser hauto hmiss]
      rfl
    rcases worldAfter_cases env1 cont w userID p author1 content1 hnone with h | h
    · exfalso
      rcases admitNew_world_cases env1 w user userID p author1 content1 hnone with h2 | h2
      · exact h2.1 hcre
      · obtain ⟨_, id, _, ⟨d, hcoll, _, _⟩, _⟩ := h2
        rw [← hrun, h.2] at hcoll
        have := congrArg List.length hcoll
        simp at this
    · obtain ⟨id, _, _, hshape⟩ := h
      exact second_call_of_shape env2 _ w.mentions id userID p author2 content2 hnone hshape
  · intro user huser hauto
    have h1 : ProcessMention env1 w userID p author1 content1
        = { err := none, world := w, spawned := none, events := [] } := by
      simp [ProcessMention, ProcessMentionRaced, huser, hauto]
    have hw1 : (ProcessMention env1 w userID p author1 content1).worldAfter cont = w := by
      rw [h1]
      cases cont <;> rfl
    rw [hw1]
    have hfind : UserRepository.GetByID none w.users userID = .ok user := by
      unfold UserRepository.GetByID at huser ⊢
      cases hf : env1.userErr with
      | some e => rw [hf] at huser; simp at huser
      | none => rw [hf] at huser; exact huser
    have h2 : (ProcessMention env2 w userID p author2 content2).world = w := by
      unfold ProcessMention ProcessMentionRaced
      cases hf : env2.userErr with
      | some e => simp [UserRepository.GetByID]
      | none => simp [hfind, hauto]
    rw [h2]
    exact countByPost_zero hnone

/-- Counterexample to C3 as stated: for an account with auto-reply disabled, two
sequential `ProcessMention` calls for a post id that is not stored both return nil and
leave no mention with that post id, not exactly one. -/
theorem ProcessMention_twice_disabled_none :
    countByPost demoWorldOff "p1" = 0
    ∧ (ProcessMention demoEnv demoWorldOff 1 "p1" demoAuthor "hello").err = none
    ∧ (ProcessMention demoEnv
        (ProcessMention demoEnv demoWorldOff 1 "p1" demoAuthor "hello").world
        1 "p1" demoAuthor "hello").err = none
    ∧ countByPost (ProcessMention demoEnv
        (ProcessMention demoEnv demoWorldOff 1 "p1" demoAuthor "hello").world
        1 "p1" demoAuthor "hello").world "p1" = 0
    ∧ countByPost (ProcessMention demoEnv
        (ProcessMention demoEnv demoWorldOff 1 "p1" demoAuthor "hello").world
        1 "p1" demoAuthor "hello").world "p1" ≠ 1 := by
  refine ⟨by decide, by decide, by decide, by decide, by decide⟩

/-- Witness for C3: the account `demoUser` has auto-reply enabled; the post `p1` is
admitted once, the continuation runs, and the second call adds nothing. -/
theorem ProcessMention_twice_one_record_witness :
    countByPost (ProcessMention demoEnv
        ((ProcessMention demoEnv demoWorld 1 "p1" demoAuthor "hello").worldAfter
          (some demoAsyncEnv))
        1 "p1" demoAuthor "hello again").world "p1" = 1 :=
  (ProcessMention_twice_one_record demoEnv demoEnv (some demoAsyncEnv) demoWorld 1 "p1"
    demoAuthor demoAuthor "hello" "hello again" (by decide)).2.1 demoUser rfl rfl rfl

/-! ## Reply composition (`MatchesConditions`, `generateReply`) -/

/-- The test `a > b` of Go fails exactly when `a <= b` holds or an operand is NaN. -/
theorem Float64.gt_eq_false_iff (a b : Float64) :
    Float64.gt a b = false ↔ (Float64.le a b = true ∨ a = .nan ∨ b = .nan) := by
  cases a <;> cases b <;> simp [Float64.gt, Float64.le]

/-- C18 (amended): `MatchesConditions` is true exactly when the conditions are nil, or
both the sentiment threshold is absent, or the sentiment is at most the threshold, or one
of the two is NaN (the code rejects on `Sentiment > threshold`, which is false on NaN),
and the keyword list is empty or some lower-cased keyword occurs in the lower-cased
`RawAnalysis`; so nil conditions, and conditions with no threshold and no keywords, always
match. -/
theorem MatchesConditions_iff (unicodeToLower : Char → Char) (t : Template)
    (a : MentionAnalysis) :
    (t.MatchesConditions unicodeToLower a = true ↔
      t.Conditions = none ∨ ∃ c, t.Conditions = some c
        ∧ (c.SentimentThreshold = none
            ∨ ∃ th, c.SentimentThreshold = some th
              ∧ (Float64.le a.Sentiment th = true ∨ a.Sentiment = .nan ∨ th = .nan))
        ∧ (c.Keywords = [] ∨ ∃ kw ∈ c.Keywords, ∃ pre post,
            (stringsToLower unicodeToLower a.RawAnalysis).data
              = pre ++ (stringsToLower unicodeToLower kw).data ++ post))
    ∧ (t.Conditions = none → t.MatchesConditions unicodeToLower a = true)
    ∧ (∀ c, t.Conditions = some c → c.SentimentThreshold = none → c.Keywords = [] →
        t.MatchesConditions unicodeToLower a = true) := by
  have hmain : t.MatchesConditions unicodeToLower a = true ↔
      t.Conditions = none ∨ ∃ c, t.Conditions = some c
        ∧ (c.SentimentThreshold = none
            ∨ ∃ th, c.SentimentThreshold = some th
              ∧ (Float64.le a.Sentiment th = true ∨ a.Sentiment = .nan ∨ th = .nan))
        ∧ (c.Keywords = [] ∨ ∃ kw ∈ c.Keywords, ∃ pre post,
            (stringsToLower unicodeToLower a.RawAnalysis).data
              = pre ++ (stringsToLower unicodeToLower kw).data ++ post) := by
    unfold Template.MatchesConditions
    cases hc : t.Conditions with
    | none => simp
    | some c =>
      have hth : (match c.SentimentThreshold with
          | some th => Float64.gt a.Sentiment th
          | none => false) = true
          ↔ ¬ (c.SentimentThreshold = none
            ∨ ∃ th, c.SentimentThreshold = some th
              ∧ (Float64.le a.Sentiment th = true ∨ a.Sentiment = .nan ∨ th = .nan)) := by
        cases c.SentimentThreshold with
        | none => simp
        | some th =>
          have := Float64.gt_eq_false_iff a.Sentiment th
          constructor
          · intro h hor
            rcases hor with h1 | ⟨th2, h2, h3⟩
            · cases h1
            · simp only [Option.some.injEq] at h2
              subst h2
              have hf := this.mpr h3
              simp only at h
              rw [hf] at h
              cases h
          · intro h
            simp only
            cases hg : Float64.gt a.Sentiment th with
            | true => rfl
            | false => exact (h (Or.inr ⟨th, rfl, this.mp hg⟩)).elim
      have hkw : (c.Keywords.any (fun keyword => stringsContains
            (stringsToLower unicodeToLower a.RawAnalysis)
            (stringsToLower unicodeToLower keyword))) = true
          ↔ ∃ kw ∈ c.Keywords, ∃ pre post,
            (stringsToLower unicodeToLower a.RawAnalysis).data
              = pre ++ (stringsToLower unicodeToLower kw).data ++ post := by
        simp only [List.any_eq_true, stringsContains_iff]
      have hlen : c.Keywords.length > 0 ↔ c.Keywords ≠ [] := by
        rw [gt_iff_lt, List.length_pos]
      simp only [Option.some.injEq, false_or, exists_eq_left', reduceCtorEq]
      by_cases h1 : (c.SentimentThreshold = none
          ∨ ∃ th, c.SentimentThreshold = some th
            ∧ (Float64.le a.Sentiment th = true ∨ a.Sentiment = .nan ∨ th = .nan))
      · have h1b : ¬ ((match c.SentimentThreshold with
            | some th => Float64.gt a.Sentiment th
            | none => false) = true) := fun h => (hth.mp h) h1
        rw [if_neg h1b]
        by_cases h2 : c.Keywords = []
        · have : ¬ c.Keywords.length > 0 := fun h => (hlen.mp h) h2
          rw [if_neg this]
          exact ⟨fun _ => ⟨h1, Or.inl h2⟩, fun _ => rfl⟩
        · have h2b : c.Keywords.length > 0 := hlen.mpr h2
          rw [if_pos h2b]
          by_cases h3 : ∃ kw ∈ c.Keywords, ∃ pre post,
              (stringsToLower unicodeToLower a.RawAnalysis).data
                = pre ++ (stringsToLower unicodeToLower kw).data ++ post
          · have := hkw.mpr h3
            simp only [this]
            exact ⟨fun _ => ⟨h1, Or.inr h3⟩, fun _ => by simp⟩
          · have : (c.Keywords.any (fun keyword => stringsContains
                (stringsToLower unicodeToLower a.RawAnalysis)
                (stringsToLower unicodeToLower keyword))) = false := by
              rw [Bool.eq_false_iff]
              exact fun h => h3 (hkw.mp h)
            simp only [this]
            refine ⟨fun h => by simp at h, fun h => ?_⟩
            rcases h.2 with h4 | h4
            · exact (h2 h4).elim
            · exact (h3 h4).elim
      · have h1b : (match c.SentimentThreshold with
            | some th => Float64.gt a.Sentiment th
            | none => false) = true := hth.mpr h1
        rw [if_pos h1b]
        exact ⟨fun h => by simp at h, fun h => (h1 h.1).elim⟩
  refine ⟨hmain, ?_, ?_⟩
  · intro h
    exact hmain.mpr (Or.inl h)
  · intro c hc hth hk
    exact hmain.mpr (Or.inr ⟨c, hc, Or.inl hth, Or.inl hk⟩)

/-- Counterexample to C18 as stated: template `A` has the sentiment threshold `0` and no
keywords; an analysis whose sentiment is NaN matches it, because `NaN > 0` is false,
although the sentiment is not at most the threshold. -/
theorem MatchesConditions_nan_sentiment :
    demoTemplateA.MatchesConditions Char.toLower demoAnalysisNaN = true
    ∧ ¬ (demoTemplateA.Conditions = none ∨ ∃ c, demoTemplateA.Conditions = some c
        ∧ (c.SentimentThreshold = none
            ∨ ∃ th, c.SentimentThreshold = some th
              ∧ Float64.le demoAnalysisNaN.Sentiment th = true)
        ∧ (c.Keywords = [] ∨ ∃ kw ∈ c.Keywords, ∃ pre post,
            (stringsToLower Char.toLower demoAnalysisNaN.RawAnalysis).data
              = pre ++ (stringsToLower Char.toLower kw).data ++ post)) := by
  refine ⟨by decide, ?_⟩
  rintro (h | ⟨c, hc, hth, _⟩)
  · cases h
  · have hc2 : c = { Keywords := [], SentimentThreshold := some (.finite 0) } := by
      have : demoTemplateA.Conditions
          = some { Keywords := [], SentimentThreshold := some (.finite 0) } := rfl
      rw [this] at hc
      exact (Option.some.inj hc).symm
    subst hc2
    rcases hth with h | ⟨th, _, h⟩
    · cases h
    · cases th <;> simp [demoAnalysisNaN, Float64.le] at h

/-- Witness for C18 (amended): template `A` (threshold `0`, no keywords) matches the
sentiment `-1/2` and not the sentiment `1/2`; template `K` (threshold `0`, keyword
`Refund`) matches an analysis of sentiment `-1/2` whose rationale holds `REFUND`, and not
one whose rationale does not; template `B` (nil conditions) matches. -/
theorem MatchesConditions_iff_witness :
    demoTemplateA.MatchesConditions Char.toLower (demoAnalysisWith (-1 / 2)) = true
    ∧ demoTemplateA.MatchesConditions Char.toLower (demoAnalysisWith (1 / 2)) = false
    ∧ demoTemplateK.MatchesConditions Char.toLower demoAnalysisRefund = true
    ∧ demoTemplateK.MatchesConditions Char.toLower (demoAnalysisWith (-1 / 2)) = false
    ∧ demoTemplateB.MatchesConditions Char.toLower demoAnalysis = true :=
  ⟨(MatchesConditions_iff Char.toLower demoTemplateA (demoAnalysisWith (-1 / 2))).1.mpr
      (Or.inr ⟨_, rfl, Or.inr ⟨_, rfl, Or.inl (by
        norm_num [demoAnalysisWith, demoAnalysis, Float64.le])⟩, Or.inl rfl⟩),
   by
    norm_num [Template.MatchesConditions, demoTemplateA, demoAnalysisWith, demoAnalysis,
      Float64.gt],
   (MatchesConditions_iff Char.toLower demoTemplateK demoAnalysisRefund).1.mpr
      (Or.inr ⟨_, rfl, Or.inr ⟨_, rfl, Or.inl (by
        norm_num [demoAnalysisRefund, demoAnalysis, Float64.le])⟩,
        Or.inr ⟨"Refund", by simp, "wants a ".data, " now".data, by decide⟩⟩),
   Bool.eq_false_iff.mpr (fun h => by
    rcases (MatchesConditions_iff Char.toLower demoTemplateK
      (demoAnalysisWith (-1 / 2))).1.mp h with h1 | ⟨c, hc, _, hk⟩
    · cases h1
    · have hc2 : c = { Keywords := ["Refund"], SentimentThreshold := some (.finite 0) } :=
        (Option.some.inj hc).symm
      subst hc2
      rcases hk with h2 | ⟨kw, hkw, hin⟩
      · cases h2
      · have hkw2 : kw = "Refund" := by simpa using hkw
        subst hkw2
        have hno : stringsContains (stringsToLower Char.toLower "raw")
            (stringsToLower Char.toLower "Refund") = false := by decide
        have hyes := (stringsContains_iff _ _).mpr hin
        exact absurd (hno ▸ hyes) (by simp)),
   (MatchesConditions_iff Char.toLower demoTemplateB demoAnalysis).2.1 rfl⟩

theorem find_first_match {α : Type} (p : α → Bool) (pre post : List α) (t : α)
    (hpre : ∀ x ∈ pre, p x = false) (ht : p t = true) :
    (pre ++ t :: post).find? p = some t := by
  induction pre with
  | nil => simp [List.find?, ht]
  | cons x xs ih =>
    have hx : p x = false := hpre x (List.mem_cons_self _ _)
    have hxs : ∀ y ∈ xs, p y = false := fun y hy => hpre y (List.mem_cons_of_mem _ hy)
    simp only [List.cons_append, List.find?, hx]
    exact ih hxs

/-- The result of `generateReply` once the template query has answered, in terms of the
outcome of the selection loop. -/
theorem generateReply_of_query {env : AsyncEnv} {userID : ObjectID} (m : Mention)
    {a : MentionAnalysis} {ts : List Template}
    (hq : env.templates userID a.MentionType = .ok ts) :
    (∀ t, ts.find? (fun t => t.MatchesConditions env.unicodeToLower a) = some t →
      (∀ s, env.render t (templateVariablesOf env m a) = .ok s →
        generateReply env userID m a
          = (.ok (s, some t.ID), [.templateQuery, .renderCall t.ID]))
      ∧ (∀ e, env.render t (templateVariablesOf env m a) = .error e →
        generateReply env userID m a
          = (Except.map (fun r => (r, none))
              (env.generate m.Content m.Author.Username a ""),
             [.templateQuery, .renderCall t.ID, .generateCall ""])))
    ∧ (ts.find? (fun t => t.MatchesConditions env.unicodeToLower a) = none →
      generateReply env userID m a
        = (Except.map (fun r => (r, none))
            (env.generate m.Content m.Author.Username a ""),
           [.templateQuery, .generateCall ""])) := by
  refine ⟨?_, ?_⟩
  · intro t hsel
    refine ⟨?_, ?_⟩
    · intro s hr
      have hr2 : env.render t
          { Username := m.Author.Username, DisplayName := m.Author.DisplayName,
            Content := m.Content, MentionType := a.MentionType,
            Sentiment := env.formatSentiment a.Sentiment } = .ok s := hr
      simp only [generateReply, hq, hsel, hr2]
    · intro e hr
      have hr2 : env.render t
          { Username := m.Author.Username, DisplayName := m.Author.DisplayName,
            Content := m.Content, MentionType := a.MentionType,
            Sentiment := env.formatSentiment a.Sentiment } = .error e := hr
      simp only [generateReply, hq, hsel, hr2]
      cases env.generate m.Content m.Author.Username a "" <;> rfl
  · intro hsel
    simp only [generateReply, hq, hsel]
    cases env.generate m.Content m.Author.Username a "" <;> rfl

/-- C19: whatever list of templates the repository returns, `generateReply` uses the
first template of the list for which `MatchesConditions` holds (it is the one rendered,
and the one whose identifier is returned when rendering succeeds), and uses no template
(no rendering, generation by the AI) when none matches. -/
theorem generateReply_selects_first (env : AsyncEnv) (userID : ObjectID) (m : Mention)
    (a : MentionAnalysis) (ts : List Template)
    (hq : env.templates userID a.MentionType = .ok ts) :
    (∀ pre t post, ts = pre ++ t :: post →
      (∀ x ∈ pre, x.MatchesConditions env.unicodeToLower a = false) →
      t.MatchesConditions env.unicodeToLower a = true →
      ts.find? (fun t => t.MatchesConditions env.unicodeToLower a) = some t
      ∧ (generateReply env userID m a).2.take 2 = [.templateQuery, .renderCall t.ID]
      ∧ (∀ s, env.render t (templateVariablesOf env m a) = .ok s →
          generateReply env userID m a
            = (.ok (s, some t.ID), [.templateQuery, .renderCall t.ID])))
    ∧ ((∀ x ∈ ts, x.MatchesConditions env.unicodeToLower a = false) →
      ts.find? (fun t => t.MatchesConditions env.unicodeToLower a) = none
      ∧ generateReply env userID m a
        = (Except.map (fun r => (r, none))
            (env.generate m.Content m.Author.Username a ""),
           [.templateQuery, .generateCall ""])) := by
  have hgen := generateReply_of_query m hq
  refine ⟨?_, ?_⟩
  · intro pre t post hts hpre ht
    have hsel : ts.find? (fun t => t.MatchesConditions env.unicodeToLower a) = some t := by
      rw [hts]
      exact find_first_match _ pre post t hpre ht
    refine ⟨hsel, ?_, (hgen.1 t hsel).1⟩
    cases hr : env.render t (templateVariablesOf env m a) with
    | ok s => rw [(hgen.1 t hsel).1 s hr]; rfl
    | error e => rw [(hgen.1 t hsel).2 e hr]; rfl
  · intro hall
    have hsel : ts.find? (fun t => t.MatchesConditions env.unicodeToLower a) = none := by
      rw [List.find?_eq_none]
      intro x hx
      simp [hall x hx]
    exact ⟨hsel, hgen.2 hsel⟩

/-- Witness for C19: with `A` (priority 1, sentiment threshold 0) before `B` (priority 2,
no conditions), sentiment 1/2 selects `B` and sentiment -1/2 selects `A`. -/
theorem generateReply_selects_first_witness :
    generateReply demoAsyncEnvAB 1 (demoAdmitted 1 "p1" "hello") (demoAnalysisWith (1 / 2))
      = (.ok ("Thanks for reaching out.", some 12), [.templateQuery, .renderCall 12])
    ∧ generateReply demoAsyncEnvAB 1 (demoAdmitted 1 "p1" "hello") (demoAnalysisWith (-1 / 2))
      = (.ok ("We are sorry, {{.Username}}.", some 11), [.templateQuery, .renderCall 11]) :=
  ⟨((generateReply_selects_first demoAsyncEnvAB 1 (demoAdmitted 1 "p1" "hello")
      (demoAnalysisWith (1 / 2)) [demoTemplateA, demoTemplateB] rfl).1
      [demoTemplateA] demoTemplateB [] rfl
      (by norm_num [Template.MatchesConditions, demoTemplateA, demoAnalysisWith,
        demoAnalysis, demoAsyncEnvAB, demoAsyncEnv, Float64.gt])
      rfl).2.2 "Thanks for reaching out." rfl,
   ((generateReply_selects_first demoAsyncEnvAB 1 (demoAdmitted 1 "p1" "hello")
      (demoAnalysisWith (-1 / 2)) [demoTemplateA, demoTemplateB] rfl).1
      [] demoTemplateA [demoTemplateB] rfl
      (by simp)
      (by norm_num [Template.MatchesConditions, demoTemplateA, demoAnalysisWith,
        demoAnalysis, demoAsyncEnvAB, demoAsyncEnv, Float64.gt])).2.2
      "We are sorry, {{.Username}}." rfl⟩

/-- C20: `generateReply` returns a template id exactly when a template was selected and
its rendering succeeded, and then the text is the rendered content and the id is the
id of that template; when the query answered and no template matches or the rendering
fails, the AI generator is called with the empty hint and its outcome is returned with a
nil template id, so a rendering failure alone never yields an error. -/
theorem generateReply_template_id (env : AsyncEnv) (userID : ObjectID) (m : Mention)
    (a : MentionAnalysis) :
    (∀ text id, (generateReply env userID m a).1 = .ok (text, some id) ↔
      ∃ ts t, env.templates userID a.MentionType = .ok ts
        ∧ ts.find? (fun t => t.MatchesConditions env.unicodeToLower a) = some t
        ∧ env.render t (templateVariablesOf env m a) = .ok text ∧ id = t.ID)
    ∧ (∀ ts : List Template, env.templates userID a.MentionType = .ok ts →
        (ts.find? (fun t => t.MatchesConditions env.unicodeToLower a) = none
          ∨ ∃ t e, ts.find? (fun t => t.MatchesConditions env.unicodeToLower a) = some t
            ∧ env.render t (templateVariablesOf env m a) = .error e) →
        (generateReply env userID m a).1
          = Except.map (fun r => (r, none)) (env.generate m.Content m.Author.Username a "")
        ∧ Event.generateCall "" ∈ (generateReply env userID m a).2
        ∧ (∀ r, env.generate m.Content m.Author.Username a "" = .ok r →
            (generateReply env userID m a).1 = .ok (r, none)))
    ∧ (∀ hint, Event.generateCall hint ∈ (generateReply env userID m a).2 → hint = "") := by
  refine ⟨?_, ?_, ?_⟩
  · intro text id
    cases hq : env.templates userID a.MentionType with
    | error e =>
      simp [generateReply, hq]
    | ok ts =>
      have hgen := generateReply_of_query m hq
      cases hsel : ts.find? (fun t => t.MatchesConditions env.unicodeToLower a) with
      | none =>
        rw [hgen.2 hsel]
        constructor
        · intro h
          cases hg : env.generate m.Content m.Author.Username a "" with
          | error e => rw [hg] at h; simp [Except.map] at h
          | ok r => rw [hg] at h; simp [Except.map] at h
        · rintro ⟨ts1, t, h1, h2, _⟩
          simp only [Except.ok.injEq] at h1
          subst h1
          rw [hsel] at h2
          cases h2
      | some t =>
        cases hr : env.render t (templateVariablesOf env m a) with
        | ok s =>
          rw [(hgen.1 t hsel).1 s hr]
          constructor
          · intro h
            simp only [Except.ok.injEq, Prod.mk.injEq, Option.some.injEq] at h
            exact ⟨ts, t, rfl, hsel, by rw [hr, h.1], h.2.symm⟩
          · rintro ⟨ts1, t1, h1, h2, h3, h4⟩
            simp only [Except.ok.injEq] at h1
            subst h1
            rw [hsel] at h2
            simp only [Option.some.injEq] at h2
            subst h2
            rw [hr] at h3
            simp only [Except.ok.injEq] at h3
            simp [h3, h4]
        | error e =>
          rw [(hgen.1 t hsel).2 e hr]
          constructor
          · intro h
            cases hg : env.generate m.Content m.Author.Username a "" with
            | error e => rw [hg] at h; simp [Except.map] at h
            | ok r => rw [hg] at h; simp [Except.map] at h
          · rintro ⟨ts1, t1, h1, h2, h3, _⟩
            simp only [Except.ok.injEq] at h1
            subst h1
            rw [hsel] at h2
            simp only [Option.some.injEq] at h2
            subst h2
            rw [hr] at h3
            cases h3
  · intro ts hq hcase
    have hgen := generateReply_of_query m hq
    have hres : generateReply env userID m a
          = (Except.map (fun r => (r, none))
              (env.generate m.Content m.Author.Username a ""),
             [.templateQuery, .generateCall ""])
        ∨ ∃ t : Template, generateReply env userID m a
          = (Except.map (fun r => (r, none))
              (env.generate m.Content m.Author.Username a ""),
             [.templateQuery, .renderCall t.ID, .generateCall ""]) := by
      rcases hcase with hsel | ⟨t, e, hsel, hr⟩
      · exact Or.inl (hgen.2 hsel)
      · exact Or.inr ⟨t, (hgen.1 t hsel).2 e hr⟩
    have h1 : (generateReply env userID m a).1
        = Except.map (fun r => (r, none))
            (env.generate m.Content m.Author.Username a "") := by
      rcases hres with h | ⟨t, h⟩ <;> rw [h]
    refine ⟨h1, ?_, ?_⟩
    · rcases hres with h | ⟨t, h⟩ <;> rw [h] <;> simp
    · intro r hg
      rw [h1, hg]
      rfl
  · intro hint hmem
    unfold generateReply at hmem
    split at hmem
    · simp at hmem
    · simp only at hmem
      split at hmem
      · split at hmem
        · split at hmem <;> simpa using hmem
        · simp at hmem
      · split at hmem <;> simpa using hmem

/-- Witness for C20: with template `A` selected and a failing renderer, the generator
is called with the empty hint and its text is returned without template id. -/
theorem generateReply_template_id_witness :
    (generateReply { demoAsyncEnvAB with render := fun _ _ => .error (.other "bad template") }
        1 (demoAdmitted 1 "p1" "hello") (demoAnalysisWith (-1 / 2))).1
      = .ok ("Sorry about that!", none) :=
  ((generateReply_template_id
      { demoAsyncEnvAB with render := fun _ _ => .error (.other "bad template") }
      1 (demoAdmitted 1 "p1" "hello") (demoAnalysisWith (-1 / 2))).2.1
    [demoTemplateA, demoTemplateB] rfl
    (Or.inr ⟨demoTemplateA, .other "bad template",
      find_first_match _ [] [demoTemplateB] demoTemplateA (by simp)
        (by norm_num [Template.MatchesConditions, demoTemplateA, demoAnalysisWith,
          demoAnalysis, demoAsyncEnvAB, demoAsyncEnv, Float64.gt]),
      rfl⟩)).2.2 "Sorry about that!" rfl

/-! ## Paths of the continuation -/

theorem any_replaceFirst {α : Type} (p : α → Bool) (new : α) (l : List α)
    (hnew : p new = true) (h : l.any p = true) : (replaceFirst p new l).any p = true := by
  induction l with
  | nil => simp at h
  | cons x xs ih =>
    unfold replaceFirst
    by_cases hx : p x = true
    · simp [hx, hnew]
    · have hx2 : p x = false := by simpa using hx
      have hxs : xs.any p = true := by simpa [hx2] using h
      simp [hx2, ih hxs]

theorem find_replaceFirst {α : Type} (p : α → Bool) (new : α) (l : List α)
    (hnew : p new = true) (h : l.any p = true) : (replaceFirst p new l).find? p = some new := by
  induction l with
  | nil => simp at h
  | cons x xs ih =>
    unfold replaceFirst
    by_cases hx : p x = true
    · simp [hx, hnew, List.find?]
    · have hx2 : p x = false := by simpa using hx
      have hxs : xs.any p = true := by simpa [hx2] using h
      simp only [hx2, Bool.false_eq_true, if_false, List.find?]
      exact ih hxs

/-- A successful `Update` found a document with the identifier of the mention. -/
theorem Update_ok_any {fault : Option GoError} {coll coll1 : List Mention} {m : Mention}
    (h : MentionRepository.Update fault coll m = .ok coll1) :
    fault = none ∧ coll.any (fun d => d.ID == m.ID) = true := by
  unfold MentionRepository.Update at h
  cases fault with
  | some e => simp at h
  | none =>
    simp only at h
    split at h
    · rename_i hany
      exact ⟨rfl, hany⟩
    · simp at h

/-- Whether a document with identifier `id` is in the `mentions` collection. -/
theorem saveMention_stored (fault : Option GoError) (w : World) (m : Mention) (id : ObjectID)
    (hid : m.ID = id) (h : w.mentions.any (fun d => d.ID == id) = true) :
    (saveMention fault w m).1.mentions.any (fun d => d.ID == id) = true
    ∧ (saveMention fault w m).1.replies = w.replies
    ∧ (saveMention fault w m).1.users = w.users
    ∧ (fault = none →
        MentionRepository.GetByID none (saveMention fault w m).1.mentions id = .ok m
        ∧ (saveMention fault w m).2 = true) := by
  subst hid
  cases fault with
  | some e => exact ⟨h, rfl, rfl, fun hf => by cases hf⟩
  | none =>
    have hU : MentionRepository.Update none w.mentions m
        = .ok (replaceFirst (fun d => d.ID == m.ID) m w.mentions) := by
      simp [MentionRepository.Update, h]
    unfold saveMention
    rw [hU]
    refine ⟨any_replaceFirst _ _ _ (by simp) h, rfl, rfl, fun _ => ⟨?_, rfl⟩⟩
    show MentionRepository.GetByID none (replaceFirst (fun d => d.ID == m.ID) m w.mentions) m.ID
      = .ok m
    simp only [MentionRepository.GetByID]
    rw [find_replaceFirst _ _ _ (by simp) h]

/-- The run when the classifier fails. -/
theorem processMentionAsync_analyze_error {env : AsyncEnv} {w : World} {m : Mention}
    (u : User) {coll : List Mention} {e : GoError}
    (h1 : MentionRepository.Update env.updProcessingErr w.mentions m.MarkProcessing = .ok coll)
    (han : env.analyze m.Content m.Author.Username = .error e) :
    processMentionAsync env w m u
      = { world := (saveMention env.updFinalErr { w with mentions := coll }
            (m.MarkProcessing.MarkFailed env.nowDone ("AI analysis failed: " ++ e.Error))).1
          mention := m.MarkProcessing.MarkFailed env.nowDone ("AI analysis failed: " ++ e.Error)
          reply := none
          events := [.statusEdge m.Status .processing, .mentionUpdate true, .analyzeCall,
            .statusEdge .processing .failed,
            .mentionUpdate (saveMention env.updFinalErr { w with mentions := coll }
              (m.MarkProcessing.MarkFailed env.nowDone
                ("AI analysis failed: " ++ e.Error))).2] } := by
  have han2 : env.analyze m.MarkProcessing.Content m.MarkProcessing.Author.Username
      = .error e := han
  simp only [processMentionAsync, h1, han2]
  rfl

/-- The run from a successful classification on. -/
theorem processMentionAsync_analyze_ok {env : AsyncEnv} {w : World} {m : Mention}
    (u : User) {coll : List Mention} {a : MentionAnalysis}
    (h1 : MentionRepository.Update env.updProcessingErr w.mentions m.MarkProcessing = .ok coll)
    (han : env.analyze m.Content m.Author.Username = .ok a) :
    processMentionAsync env w m u
      = processMentionAsync.compose env { w with mentions := coll } m.MarkProcessing u a
          [.statusEdge m.Status .processing, .mentionUpdate true, .analyzeCall] := by
  have han2 : env.analyze m.MarkProcessing.Content m.MarkProcessing.Author.Username
      = .ok a := han
  simp only [processMentionAsync, h1, han2]
  rfl

/-- C14: in a run in which the classifier call fails with error text `d`, the mention
ends `failed` with reason `AI analysis failed: ` followed by `d`, its `Analysis` is the
one it had, no reply is created, and the only calls made are the two mention updates and
the classifier (no reply creation, no credential resolution, no delivery); the failed
mention is the stored one when the last update does not fail. -/
theorem classifier_failure_marks_failed (env : AsyncEnv) (w : World) (m : Mention) (u : User)
    (coll : List Mention) (e : GoError)
    (h1 : MentionRepository.Update env.updProcessingErr w.mentions m.MarkProcessing = .ok coll)
    (han : env.analyze m.Content m.Author.Username = .error e) :
    (processMentionAsync env w m u).mention.Status = .failed
    ∧ (processMentionAsync env w m u).mention.SkipReason = "AI analysis failed: " ++ e.Error
    ∧ (processMentionAsync env w m u).mention.Analysis = m.Analysis
    ∧ (processMentionAsync env w m u).reply = none
    ∧ (processMentionAsync env w m u).world.replies = w.replies
    ∧ (∃ b, (processMentionAsync env w m u).events
        = [.statusEdge m.Status .processing, .mentionUpdate true, .analyzeCall,
            .statusEdge .processing .failed, .mentionUpdate b])
    ∧ (∀ b, Event.replyCreate b ∉ (processMentionAsync env w m u).events)
    ∧ Event.tokenCall ∉ (processMentionAsync env w m u).events
    ∧ (∀ b, Event.deliveryCall b ∉ (processMentionAsync env w m u).events)
    ∧ (env.updFinalErr = none →
        MentionRepository.GetByID none (processMentionAsync env w m u).world.mentions m.ID
          = .ok (processMentionAsync env w m u).mention) := by
  have hrun := processMentionAsync_analyze_error u h1 han
  have hany : coll.any (fun d => d.ID == m.ID) = true := by
    rw [Update_ok h1]
    exact any_replaceFirst _ _ _ (by simp [Mention.MarkProcessing]) (Update_ok_any h1).2
  have hs := saveMention_stored env.updFinalErr { w with mentions := coll }
    (m.MarkProcessing.MarkFailed env.nowDone ("AI analysis failed: " ++ e.Error)) m.ID rfl hany
  rw [hrun]
  refine ⟨rfl, rfl, rfl, rfl, hs.2.1, ⟨_, rfl⟩, ?_, ?_, ?_, fun hf => (hs.2.2.2 hf).1⟩
  · intro b; simp
  · simp
  · intro b; simp

/-- Witness for C14: the classifier fails with `boom` on the retry of mention `3`. -/
theorem classifier_failure_marks_failed_witness :
    (processMentionAsync { demoAsyncEnv with analyze := fun _ _ => .error (.other "boom") }
        demoWorldBusy (demoMention 3 "c" .failed (some 4000500)) demoUser).mention.SkipReason
      = "AI analysis failed: " ++ (GoError.other "boom").Error :=
  (classifier_failure_marks_failed
    { demoAsyncEnv with analyze := fun _ _ => .error (.other "boom") }
    demoWorldBusy (demoMention 3 "c" .failed (some 4000500)) demoUser
    [demoMention 1 "a" .replied (some 4999000), demoMention 2 "b" .replied (some 4000000),
      (demoMention 3 "c" .failed (some 4000500)).MarkProcessing]
    (.other "boom") rfl rfl).2.1

theorem compose_spam {env : AsyncEnv} (w : World) (m : Mention) (u : User)
    {a : MentionAnalysis} (log : List Event) (hspam : a.MentionType = MentionTypeSpam) :
    processMentionAsync.compose env w m u a log
      = { world := (saveMention env.updFinalErr
              (saveMention env.updAnalysisErr w (m.SetAnalysis a)).1
              ((m.SetAnalysis a).MarkSkipped env.nowDone "detected as spam")).1
          mention := (m.SetAnalysis a).MarkSkipped env.nowDone "detected as spam"
          reply := none
          events := log ++ [.mentionUpdate (saveMention env.updAnalysisErr w (m.SetAnalysis a)).2,
            .statusEdge m.Status .skipped,
            .mentionUpdate (saveMention env.updFinalErr
              (saveMention env.updAnalysisErr w (m.SetAnalysis a)).1
              ((m.SetAnalysis a).MarkSkipped env.nowDone "detected as spam")).2] } := by
  simp only [processMentionAsync.compose, hspam, if_true]
  rfl

/-- C15: in a run in which the classifier returns an analysis of type `spam`, the mention
ends `skipped` with reason `detected as spam` and the analysis attached; the only calls
made are the classifier and the mention updates: no template query, no rendering, no
generation, no reply creation, no credential resolution, no delivery; the skipped
mention is the stored one when the last update does not fail. -/
theorem spam_marks_skipped (env : AsyncEnv) (w : World) (m : Mention) (u : User)
    (coll : List Mention) (a : MentionAnalysis)
    (h1 : MentionRepository.Update env.updProcessingErr w.mentions m.MarkProcessing = .ok coll)
    (han : env.analyze m.Content m.Author.Username = .ok a)
    (hspam : a.MentionType = MentionTypeSpam) :
    (processMentionAsync env w m u).mention.Status = .skipped
    ∧ (processMentionAsync env w m u).mention.SkipReason = "detected as spam"
    ∧ (processMentionAsync env w m u).mention.Analysis = some a
    ∧ (processMentionAsync env w m u).reply = none
    ∧ (processMentionAsync env w m u).world.replies = w.replies
    ∧ (∃ b1 b2, (processMentionAsync env w m u).events
        = [.statusEdge m.Status .processing, .mentionUpdate true, .analyzeCall,
            .mentionUpdate b1, .statusEdge .processing .skipped, .mentionUpdate b2])
    ∧ Event.templateQuery ∉ (processMentionAsync env w m u).events
    ∧ (∀ id, Event.renderCall id ∉ (processMentionAsync env w m u).events)
    ∧ (∀ hint, Event.generateCall hint ∉ (processMentionAsync env w m u).events)
    ∧ (∀ b, Event.replyCreate b ∉ (processMentionAsync env w m u).events)
    ∧ Event.tokenCall ∉ (processMentionAsync env w m u).events
    ∧ (∀ b, Event.deliveryCall b ∉ (processMentionAsync env w m u).events)
    ∧ (env.updFinalErr = none →
        MentionRepository.GetByID none (processMentionAsync env w m u).world.mentions m.ID
          = .ok (processMentionAsync env w m u).mention) := by
  have hrun : processMentionAsync env w m u = _ :=
    (processMentionAsync_analyze_ok u h1 han).trans (compose_spam _ _ u _ hspam)
  have hany : coll.any (fun d => d.ID == m.ID) = true := by
    rw [Update_ok h1]
    exact any_replaceFirst _ _ _ (by simp [Mention.MarkProcessing]) (Update_ok_any h1).2
  have hs1 := saveMention_stored env.updAnalysisErr { w with mentions := coll }
    (m.MarkProcessing.SetAnalysis a) m.ID rfl hany
  have hs2 := saveMention_stored env.updFinalErr
    (saveMention env.updAnalysisErr { w with mentions := coll }
      (m.MarkProcessing.SetAnalysis a)).1
    ((m.MarkProcessing.SetAnalysis a).MarkSkipped env.nowDone "detected as spam") m.ID rfl
    hs1.1
  rw [hrun]
  refine ⟨rfl, rfl, rfl, rfl, ?_, ⟨_, _, rfl⟩, ?_, ?_, ?_, ?_, ?_, ?_,
    fun hf => (hs2.2.2.2 hf).1⟩
  · exact hs2.2.1.trans hs1.2.1
  · simp
  · intro id; simp
  · intro hint; simp
  · intro b; simp
  · simp
  · intro b; simp

/-- Witness for C15: the classifier answers with type `spam` for the admitted post `p1`. -/
theorem spam_marks_skipped_witness :
    (processMentionAsync
        { demoAsyncEnv with
            analyze := fun _ _ => .ok { demoAnalysis with MentionType := MentionTypeSpam } }
        { demoWorld with mentions := [demoAdmitted 1 "p1" "buy followers"] }
        (demoAdmitted 1 "p1" "buy followers") demoUser).mention.SkipReason
      = "detected as spam" :=
  (spam_marks_skipped
    { demoAsyncEnv with
        analyze := fun _ _ => .ok { demoAnalysis with MentionType := MentionTypeSpam } }
    { demoWorld with mentions := [demoAdmitted 1 "p1" "buy followers"] }
    (demoAdmitted 1 "p1" "buy followers") demoUser
    [(demoAdmitted 1 "p1" "buy followers").MarkProcessing]
    { demoAnalysis with MentionType := MentionTypeSpam } rfl rfl rfl).2.1

/-- What a successful `Create` of a reply establishes. -/
theorem ReplyCreate_ok {fault : Option GoError} {coll coll1 : List Reply} {reply doc : Reply}
    (h : ReplyRepository.Create fault coll reply = .ok (coll1, doc)) :
    fault = none ∧ coll1 = coll ++ [doc] ∧ (∀ d ∈ coll, d.ID ≠ doc.ID)
    ∧ doc = (if reply.ID = 0 then { reply with ID := freshID (coll.map (fun d => d.ID)) }
              else reply) := by
  cases fault with
  | some e => simp [ReplyRepository.Create] at h
  | none =>
    simp only [ReplyRepository.Create] at h
    generalize (if reply.ID = 0 then
        ({ reply with ID := freshID (coll.map (fun d => d.ID)) } : Reply)
      else reply) = doc0 at h ⊢
    by_cases hany : coll.any (fun d => d.ID == doc0.ID) = true
    · simp [hany] at h
    · rw [if_neg hany] at h
      simp only [Except.ok.injEq, Prod.mk.injEq] at h
      obtain ⟨h1, h2⟩ := h
      subst h2
      refine ⟨rfl, h1.symm, ?_, rfl⟩
      intro d hd
      simp only [List.any_eq_true, not_exists, not_and, Bool.not_eq_true] at hany
      simpa using hany d hd

theorem find_reply_append_last {coll : List Reply} {doc : Reply}
    (hfresh : ∀ d ∈ coll, d.ID ≠ doc.ID) :
    (coll ++ [doc]).find? (fun d => d.ID == doc.ID) = some doc := by
  induction coll with
  | nil => simp [List.find?]
  | cons x xs ih =>
    have hx : (x.ID == doc.ID) = false := by
      simpa using hfresh x (List.mem_cons_self _ _)
    have hxs : ∀ d ∈ xs, d.ID ≠ doc.ID := fun d hd => hfresh d (List.mem_cons_of_mem _ hd)
    simp only [List.cons_append, List.find?, hx]
    exact ih hxs

/-- The statement `s.replyRepo.Update(ctx, reply)` right after the reply was created:
the stored reply is the updated one when the update does not fail, and stays the
created one when it fails. -/
theorem saveReply_created (fault : Option GoError) (w : World) (coll : List Reply)
    (doc r1 : Reply) (hfresh : ∀ d ∈ coll, d.ID ≠ doc.ID) (hid : r1.ID = doc.ID) :
    (saveReply fault { w with replies := coll ++ [doc] } r1).1.mentions = w.mentions
    ∧ (saveReply fault { w with replies := coll ++ [doc] } r1).1.users = w.users
    ∧ (fault = none →
        (saveReply fault { w with replies := coll ++ [doc] } r1).1.replies = coll ++ [r1]
        ∧ ReplyRepository.GetByID none
            (saveReply fault { w with replies := coll ++ [doc] } r1).1.replies doc.ID = .ok r1)
    ∧ (fault ≠ none →
        (saveReply fault { w with replies := coll ++ [doc] } r1).1.replies = coll ++ [doc]
        ∧ ReplyRepository.GetByID none
            (saveReply fault { w with replies := coll ++ [doc] } r1).1.replies doc.ID
          = .ok doc) := by
  cases fault with
  | some e =>
    refine ⟨rfl, rfl, fun h => (by cases h), fun _ => ⟨rfl, ?_⟩⟩
    show ReplyRepository.GetByID none (coll ++ [doc]) doc.ID = .ok doc
    simp only [ReplyRepository.GetByID, find_reply_append_last hfresh]
  | none =>
    have hany : (coll ++ [doc]).any (fun d => d.ID == r1.ID) = true := by simp [hid]
    have hrep : replaceFirst (fun d => d.ID == r1.ID) r1 (coll ++ [doc]) = coll ++ [r1] := by
      apply replaceFirst_append_last
      · intro x hx
        simpa [hid] using hfresh x hx
      · simp [hid]
    have hU : ReplyRepository.Update none (coll ++ [doc]) r1 = .ok (coll ++ [r1]) := by
      simp only [ReplyRepository.Update, hany, if_true, hrep]
    have hS : saveReply none { w with replies := coll ++ [doc] } r1
        = ({ w with replies := coll ++ [r1] }, true) := by
      unfold saveReply
      rw [show ({ w with replies := coll ++ [doc] } : World).replies = coll ++ [doc] from rfl,
        hU]
    rw [hS]
    refine ⟨rfl, rfl, fun _ => ⟨rfl, ?_⟩, fun h => (h rfl).elim⟩
    have hfresh1 : ∀ d ∈ coll, d.ID ≠ r1.ID := fun d hd => by
      rw [hid]; exact hfresh d hd
    show ReplyRepository.GetByID none (coll ++ [r1]) doc.ID = .ok r1
    simp only [ReplyRepository.GetByID]
    rw [← hid, find_reply_append_last hfresh1]

/-- The run from the classification to the delivery stage. -/
theorem processMentionAsync_to_deliver {env : AsyncEnv} {w : World} {m : Mention} (u : User)
    {coll : List Mention} {a : MentionAnalysis} {rc : String} {tid : Option ObjectID}
    (h1 : MentionRepository.Update env.updProcessingErr w.mentions m.MarkProcessing = .ok coll)
    (han : env.analyze m.Content m.Author.Username = .ok a)
    (hns : a.MentionType ≠ MentionTypeSpam)
    (hgen : (generateReply env u.ID (m.MarkProcessing.SetAnalysis a) a).1 = .ok (rc, tid)) :
    processMentionAsync env w m u
      = processMentionAsync.deliver env
          (saveMention env.updAnalysisErr { w with mentions := coll }
            (m.MarkProcessing.SetAnalysis a)).1
          (m.MarkProcessing.SetAnalysis a) u rc tid
          ([.statusEdge m.Status .processing, .mentionUpdate true, .analyzeCall]
            ++ [.mentionUpdate (saveMention env.updAnalysisErr { w with mentions := coll }
                (m.MarkProcessing.SetAnalysis a)).2]
            ++ (if u.Settings.ReplyDelaySeconds > 0 then [.sleep u.Settings.ReplyDelaySeconds]
                else [])
            ++ (generateReply env u.ID (m.MarkProcessing.SetAnalysis a) a).2) := by
  have hg : generateReply env u.ID (m.MarkProcessing.SetAnalysis a) a
      = (.ok (rc, tid), (generateReply env u.ID (m.MarkProcessing.SetAnalysis a) a).2) := by
    rw [← hgen]
  rw [processMentionAsync_analyze_ok u h1 han]
  simp only [processMentionAsync.compose, hns, if_false]
  rw [hg]

theorem generateReply_events_kind (env : AsyncEnv) (userID : ObjectID) (m : Mention)
    (a : MentionAnalysis) :
    ∀ ev ∈ (generateReply env userID m a).2,
      ev = .templateQuery ∨ (∃ id, ev = .renderCall id) ∨ ev = .generateCall "" := by
  intro ev hmem
  unfold generateReply at hmem
  split at hmem
  · simp at hmem; simp [hmem]
  · simp only at hmem
    split at hmem
    · split at hmem
      · split at hmem <;> simp at hmem <;> rcases hmem with h | h | h <;> simp [h]
      · simp at hmem; rcases hmem with h | h <;> simp [h]
    · split at hmem <;> simp at hmem <;> rcases hmem with h | h <;> simp [h]

theorem deliver_token_error {env : AsyncEnv} {W : World} {m : Mention} {u : User}
    {rc : String} {tid : Option ObjectID} (log : List Event) {rcoll : List Reply}
    {rep : Reply} {e : GoError}
    (hC : ReplyRepository.Create env.replyCreateErr W.replies
      (NewReply env.nowReply u.ID m.ID tid rc) = .ok (rcoll, rep))
    (htok : env.accessToken u.ID = .error e) :
    processMentionAsync.deliver env W m u rc tid log
      = { world := (saveMention env.updFinalErr
              (saveReply env.replyUpdateErr { W with replies := rcoll }
                (rep.MarkFailed ("token error: " ++ e.Error))).1
              (m.MarkFailed env.nowDone "token error")).1
          mention := m.MarkFailed env.nowDone "token error"
          reply := some (rep.MarkFailed ("token error: " ++ e.Error))
          events := log ++ [.replyCreate true, .tokenCall,
            .replyUpdate (saveReply env.replyUpdateErr { W with replies := rcoll }
                (rep.MarkFailed ("token error: " ++ e.Error))).2,
            .statusEdge m.Status .failed,
            .mentionUpdate (saveMention env.updFinalErr
              (saveReply env.replyUpdateErr { W with replies := rcoll }
                (rep.MarkFailed ("token error: " ++ e.Error))).1
              (m.MarkFailed env.nowDone "token error")).2] } := by
  simp only [processMentionAsync.deliver, hC, htok]
  rfl

theorem deliver_delivery_error {env : AsyncEnv} {W : World} {m : Mention} {u : User}
    {rc : String} {tid : Option ObjectID} (log : List Event) {rcoll : List Reply}
    {rep : Reply} {tok : String} {e : GoError}
    (hC : ReplyRepository.Create env.replyCreateErr W.replies
      (NewReply env.nowReply u.ID m.ID tid rc) = .ok (rcoll, rep))
    (htok : env.accessToken u.ID = .ok tok)
    (hdel : env.createReply tok u.ThreadsUserID rc m.ThreadsPostID = .error e) :
    processMentionAsync.deliver env W m u rc tid log
      = { world := (saveMention env.updFinalErr
              (saveReply env.replyUpdateErr { W with replies := rcoll }
                (rep.MarkFailed ("Threads API error: " ++ e.Error))).1
              (m.MarkFailed env.nowDone "failed to post reply")).1
          mention := m.MarkFailed env.nowDone "failed to post reply"
          reply := some (rep.MarkFailed ("Threads API error: " ++ e.Error))
          events := log ++ [.replyCreate true, .tokenCall, .deliveryCall false,
            .replyUpdate (saveReply env.replyUpdateErr { W with replies := rcoll }
                (rep.MarkFailed ("Threads API error: " ++ e.Error))).2,
            .statusEdge m.Status .failed,
            .mentionUpdate (saveMention env.updFinalErr
              (saveReply env.replyUpdateErr { W with replies := rcoll }
                (rep.MarkFailed ("Threads API error: " ++ e.Error))).1
              (m.MarkFailed env.nowDone "failed to post reply")).2] } := by
  simp only [processMentionAsync.deliver, hC, htok, hdel]
  rfl

theorem deliver_sent {env : AsyncEnv} {W : World} {m : Mention} {u : User}
    {rc : String} {tid : Option ObjectID} (log : List Event) {rcoll : List Reply}
    {rep : Reply} {tok r : String}
    (hC : ReplyRepository.Create env.replyCreateErr W.replies
      (NewReply env.nowReply u.ID m.ID tid rc) = .ok (rcoll, rep))
    (htok : env.accessToken u.ID = .ok tok)
    (hdel : env.createReply tok u.ThreadsUserID rc m.ThreadsPostID = .ok r) :
    processMentionAsync.deliver env W m u rc tid log
      = { world := (saveMention env.updFinalErr
              (saveReply env.replyUpdateErr { W with replies := rcoll }
                (rep.MarkSent env.nowSent r)).1
              (m.MarkReplied env.nowDone rep.ID)).1
          mention := m.MarkReplied env.nowDone rep.ID
          reply := some (rep.MarkSent env.nowSent r)
          events := log ++ [.replyCreate true, .tokenCall, .deliveryCall true,
            .replyUpdate (saveReply env.replyUpdateErr { W with replies := rcoll }
                (rep.MarkSent env.nowSent r)).2,
            .statusEdge m.Status .replied,
            .mentionUpdate (saveMention env.updFinalErr
              (saveReply env.replyUpdateErr { W with replies := rcoll }
                (rep.MarkSent env.nowSent r)).1
              (m.MarkReplied env.nowDone rep.ID)).2] } := by
  simp only [processMentionAsync.deliver, hC, htok, hdel]
  rfl

/-- The database after the two final writes of the delivery stage. -/
theorem deliver_final_world (env : AsyncEnv) (W : World) (rcoll : List Reply)
    (rep r1 : Reply) (m1 : Mention) (id : ObjectID)
    (hcoll : rcoll = W.replies ++ [rep]) (hfresh : ∀ d ∈ W.replies, d.ID ≠ rep.ID)
    (hr1 : r1.ID = rep.ID) (hm1 : m1.ID = id)
    (hst : W.mentions.any (fun d => d.ID == id) = true) :
    (env.replyUpdateErr = none →
      ReplyRepository.GetByID none (saveMention env.updFinalErr
        (saveReply env.replyUpdateErr { W with replies := rcoll } r1).1 m1).1.replies rep.ID
        = .ok r1)
    ∧ (env.replyUpdateErr ≠ none →
      ReplyRepository.GetByID none (saveMention env.updFinalErr
        (saveReply env.replyUpdateErr { W with replies := rcoll } r1).1 m1).1.replies rep.ID
        = .ok rep)
    ∧ (env.updFinalErr = none →
      MentionRepository.GetByID none (saveMention env.updFinalErr
        (saveReply env.replyUpdateErr { W with replies := rcoll } r1).1 m1).1.mentions id
        = .ok m1) := by
  subst hcoll
  have hsr := saveReply_created env.replyUpdateErr W W.replies rep r1 hfresh hr1
  have hst2 : (saveReply env.replyUpdateErr { W with replies := W.replies ++ [rep] }
      r1).1.mentions.any (fun d => d.ID == id) = true := by
    rw [hsr.1]; exact hst
  have hsm := saveMention_stored env.updFinalErr
    (saveReply env.replyUpdateErr { W with replies := W.replies ++ [rep] } r1).1 m1 id hm1 hst2
  refine ⟨?_, ?_, fun hf => (hsm.2.2.2 hf).1⟩
  · intro hf
    rw [hsm.2.1]
    exact (hsr.2.2.1 hf).2
  · intro hf
    rw [hsm.2.1]
    exact (hsr.2.2.2 hf).2

/-- Reaching the delivery stage: the database then holds the mention under its
identifier and the replies it started with. -/
theorem deliver_stage_world {env : AsyncEnv} {w : World} {m : Mention} {coll : List Mention}
    (a : MentionAnalysis)
    (h1 : MentionRepository.Update env.updProcessingErr w.mentions m.MarkProcessing = .ok coll) :
    (saveMention env.updAnalysisErr { w with mentions := coll }
        (m.MarkProcessing.SetAnalysis a)).1.replies = w.replies
    ∧ (saveMention env.updAnalysisErr { w with mentions := coll }
        (m.MarkProcessing.SetAnalysis a)).1.mentions.any (fun d => d.ID == m.ID) = true := by
  have hany : coll.any (fun d => d.ID == m.ID) = true := by
    rw [Update_ok h1]
    exact any_replaceFirst _ _ _ (by simp [Mention.MarkProcessing]) (Update_ok_any h1).2
  have hs := saveMention_stored env.updAnalysisErr { w with mentions := coll }
    (m.MarkProcessing.SetAnalysis a) m.ID rfl hany
  exact ⟨hs.2.1, hs.1⟩

theorem generateReply_no_delivery (env : AsyncEnv) (userID : ObjectID) (m : Mention)
    (a : MentionAnalysis) :
    (∀ b, Event.deliveryCall b ∉ (generateReply env userID m a).2)
    ∧ Event.tokenCall ∉ (generateReply env userID m a).2
    ∧ (∀ b, Event.replyCreate b ∉ (generateReply env userID m a).2) := by
  refine ⟨fun b h => ?_, fun h => ?_, fun b h => ?_⟩ <;>
    rcases generateReply_events_kind env userID m a _ h with h1 | ⟨id, h1⟩ | h1 <;>
    cases h1

/-- A run in which `CreateReply` fails with provider error text `e`, from any mention
and on any database: the reply ends `failed` with `Error` equal to `Threads API error: `
followed by `e`, and the mention ends `failed` with reason `failed to post reply` and the
`ReplyID` it was given; these are the stored reply and mention when the respective update
does not fail. -/
theorem delivery_failure_run (env : AsyncEnv) (w : World) (m : Mention) (u : User)
    (coll : List Mention) (a : MentionAnalysis) (rc : String) (tid : Option ObjectID)
    (rcoll : List Reply) (rep : Reply) (tok : String) (e : GoError)
    (h1 : MentionRepository.Update env.updProcessingErr w.mentions m.MarkProcessing = .ok coll)
    (han : env.analyze m.Content m.Author.Username = .ok a)
    (hns : a.MentionType ≠ MentionTypeSpam)
    (hgen : (generateReply env u.ID (m.MarkProcessing.SetAnalysis a) a).1 = .ok (rc, tid))
    (hC : ReplyRepository.Create env.replyCreateErr w.replies
      (NewReply env.nowReply u.ID m.ID tid rc) = .ok (rcoll, rep))
    (htok : env.accessToken u.ID = .ok tok)
    (hdel : env.createReply tok u.ThreadsUserID rc m.ThreadsPostID = .error e) :
    (processMentionAsync env w m u).reply
      = some (rep.MarkFailed ("Threads API error: " ++ e.Error))
    ∧ (rep.MarkFailed ("Threads API error: " ++ e.Error)).Status = .failed
    ∧ (rep.MarkFailed ("Threads API error: " ++ e.Error)).Error
        = "Threads API error: " ++ e.Error
    ∧ (processMentionAsync env w m u).mention.Status = .failed
    ∧ (processMentionAsync env w m u).mention.SkipReason = "failed to post reply"
    ∧ (processMentionAsync env w m u).mention.ReplyID = m.ReplyID
    ∧ (env.replyUpdateErr = none →
        ReplyRepository.GetByID none (processMentionAsync env w m u).world.replies rep.ID
          = .ok (rep.MarkFailed ("Threads API error: " ++ e.Error)))
    ∧ (env.updFinalErr = none →
        MentionRepository.GetByID none (processMentionAsync env w m u).world.mentions m.ID
          = .ok (processMentionAsync env w m u).mention) := by
  obtain ⟨hWrep, hWst⟩ := deliver_stage_world a h1
  have hC2 : ReplyRepository.Create env.replyCreateErr
      (saveMention env.updAnalysisErr { w with mentions := coll }
        (m.MarkProcessing.SetAnalysis a)).1.replies
      (NewReply env.nowReply u.ID (m.MarkProcessing.SetAnalysis a).ID tid rc)
      = .ok (rcoll, rep) := by
    rw [hWrep]; exact hC
  obtain ⟨_, hrcoll, hfresh, _⟩ := ReplyCreate_ok hC2
  have hfin := deliver_final_world env _ rcoll rep
    (rep.MarkFailed ("Threads API error: " ++ e.Error))
    ((m.MarkProcessing.SetAnalysis a).MarkFailed env.nowDone "failed to post reply") m.ID
    hrcoll hfresh rfl rfl hWst
  rw [processMentionAsync_to_deliver u h1 han hns hgen,
    deliver_delivery_error _ hC2 htok hdel]
  exact ⟨rfl, rfl, rfl, rfl, rfl, rfl, hfin.1, hfin.2.2⟩

/-- Counterexample to C16 as stated: when the delivery fails with provider error text
`rate limited`, the `Error` of the reply, in memory and as stored, is
`Threads API error: rate limited`, not the provider error text. -/
theorem delivery_failure_error_has_tag :
    (GoError.other "rate limited").Error = "rate limited"
    ∧ ((processMentionAsync demoAsyncEnvUndelivered (demoWorldAdmitted "hello")
        (demoAdmitted 1 "p1" "hello") demoUser).reply.map (fun r => r.Error))
      = some "Threads API error: rate limited"
    ∧ ((processMentionAsync demoAsyncEnvUndelivered (demoWorldAdmitted "hello")
        (demoAdmitted 1 "p1" "hello") demoUser).world.replies.map (fun r => r.Error))
      = ["Threads API error: rate limited"]
    ∧ "Threads API error: rate limited" ≠ "rate limited" := by
  refine ⟨by decide, by decide, by decide, by decide⟩

/-- C17, as the code has it: in a run in which the credential resolution fails with
error text `d` after the reply was created, the reply ends `failed` with `Error` equal
to `token error: ` followed by `d`, the mention ends `failed` with reason exactly
`token error`, and the delivery client is not invoked; these are the stored reply and
mention when the respective update does not fail. -/
theorem token_failure_marks_failed (env : AsyncEnv) (w : World) (m : Mention) (u : User)
    (coll : List Mention) (a : MentionAnalysis) (rc : String) (tid : Option ObjectID)
    (rcoll : List Reply) (rep : Reply) (e : GoError)
    (h1 : MentionRepository.Update env.updProcessingErr w.mentions m.MarkProcessing = .ok coll)
    (han : env.analyze m.Content m.Author.Username = .ok a)
    (hns : a.MentionType ≠ MentionTypeSpam)
    (hgen : (generateReply env u.ID (m.MarkProcessing.SetAnalysis a) a).1 = .ok (rc, tid))
    (hC : ReplyRepository.Create env.replyCreateErr w.replies
      (NewReply env.nowReply u.ID m.ID tid rc) = .ok (rcoll, rep))
    (htok : env.accessToken u.ID = .error e) :
    (processMentionAsync env w m u).reply
      = some (rep.MarkFailed ("token error: " ++ e.Error))
    ∧ (rep.MarkFailed ("token error: " ++ e.Error)).Status = .failed
    ∧ (rep.MarkFailed ("token error: " ++ e.Error)).Error = "token error: " ++ e.Error
    ∧ (processMentionAsync env w m u).mention.Status = .failed
    ∧ (processMentionAsync env w m u).mention.SkipReason = "token error"
    ∧ (∀ b, Event.deliveryCall b ∉ (processMentionAsync env w m u).events)
    ∧ (env.replyUpdateErr = none →
        ReplyRepository.GetByID none (processMentionAsync env w m u).world.replies rep.ID
          = .ok (rep.MarkFailed ("token error: " ++ e.Error)))
    ∧ (env.updFinalErr = none →
        MentionRepository.GetByID none (processMentionAsync env w m u).world.mentions m.ID
          = .ok (processMentionAsync env w m u).mention) := by
  obtain ⟨hWrep, hWst⟩ := deliver_stage_world a h1
  have hC2 : ReplyRepository.Create env.replyCreateErr
      (saveMention env.updAnalysisErr { w with mentions := coll }
        (m.MarkProcessing.SetAnalysis a)).1.replies
      (NewReply env.nowReply u.ID (m.MarkProcessing.SetAnalysis a).ID tid rc)
      = .ok (rcoll, rep) := by
    rw [hWrep]; exact hC
  obtain ⟨_, hrcoll, hfresh, _⟩ := ReplyCreate_ok hC2
  have hfin := deliver_final_world env _ rcoll rep
    (rep.MarkFailed ("token error: " ++ e.Error))
    ((m.MarkProcessing.SetAnalysis a).MarkFailed env.nowDone "token error") m.ID
    hrcoll hfresh rfl rfl hWst
  have hnd := (generateReply_no_delivery env u.ID (m.MarkProcessing.SetAnalysis a) a).1
  rw [processMentionAsync_to_deliver u h1 han hns hgen, deliver_token_error _ hC2 htok]
  refine ⟨rfl, rfl, rfl, rfl, rfl, ?_, hfin.1, hfin.2.2⟩
  intro b hmem
  simp only [List.mem_append, List.mem_cons, List.mem_singleton, reduceCtorEq, or_false,
    false_or, List.not_mem_nil] at hmem
  rcases hmem with hmem | hmem
  · split at hmem <;> simp at hmem
  · exact hnd b hmem

/-- Counterexample to C17 as stated: when the credential resolution fails with
`token expired`, the `Error` of the reply, in memory and as stored, is
`token error: token expired`, not `token error`. -/
theorem token_failure_error_has_detail :
    ((processMentionAsync demoAsyncEnvNoToken (demoWorldAdmitted "hello")
        (demoAdmitted 1 "p1" "hello") demoUser).reply.map (fun r => r.Error))
      = some "token error: token expired"
    ∧ ((processMentionAsync demoAsyncEnvNoToken (demoWorldAdmitted "hello")
        (demoAdmitted 1 "p1" "hello") demoUser).world.replies.map (fun r => r.Error))
      = ["token error: token expired"]
    ∧ "token error: token expired" ≠ "token error" := by
  refine ⟨by decide, by decide, by decide⟩

/-- Witness for C17: the credential resolution for the admitted post `p1` fails. -/
theorem token_failure_marks_failed_witness :
    (processMentionAsync demoAsyncEnvNoToken (demoWorldAdmitted "hello")
        (demoAdmitted 1 "p1" "hello") demoUser).mention.SkipReason = "token error" :=
  (token_failure_marks_failed demoAsyncEnvNoToken (demoWorldAdmitted "hello")
    (demoAdmitted 1 "p1" "hello") demoUser [(demoAdmitted 1 "p1" "hello").MarkProcessing]
    demoAnalysis "Sorry about that!" none [demoReply] demoReply
    (.other "token expired") rfl rfl (by decide) rfl rfl rfl).2.2.2.2.1

/-- C11: in a run in which the classifier succeeds with a non-spam type, the reply is
composed, the reply record is created, the credential resolves, the delivery returns
the remote id `r`, and the reply update and the last mention update do not fail, the
stored reply has status `sent` and `ThreadsReplyID = r`, and the stored mention has
status `replied` and `ReplyID` equal to the identifier of that reply. -/
theorem delivery_success_final_state (env : AsyncEnv) (w : World) (m : Mention) (u : User)
    (coll : List Mention) (a : MentionAnalysis) (rc : String) (tid : Option ObjectID)
    (rcoll : List Reply) (rep : Reply) (tok r : String)
    (h1 : MentionRepository.Update env.updProcessingErr w.mentions m.MarkProcessing = .ok coll)
    (han : env.analyze m.Content m.Author.Username = .ok a)
    (hns : a.MentionType ≠ MentionTypeSpam)
    (hgen : (generateReply env u.ID (m.MarkProcessing.SetAnalysis a) a).1 = .ok (rc, tid))
    (hC : ReplyRepository.Create env.replyCreateErr w.replies
      (NewReply env.nowReply u.ID m.ID tid rc) = .ok (rcoll, rep))
    (htok : env.accessToken u.ID = .ok tok)
    (hdel : env.createReply tok u.ThreadsUserID rc m.ThreadsPostID = .ok r)
    (hru : env.replyUpdateErr = none) (hmu : env.updFinalErr = none) :
    ReplyRepository.GetByID none (processMentionAsync env w m u).world.replies rep.ID
      = .ok (rep.MarkSent env.nowSent r)
    ∧ (rep.MarkSent env.nowSent r).ID = rep.ID
    ∧ (rep.MarkSent env.nowSent r).Status = .sent
    ∧ (rep.MarkSent env.nowSent r).ThreadsReplyID = r
    ∧ MentionRepository.GetByID none (processMentionAsync env w m u).world.mentions m.ID
      = .ok ((m.MarkProcessing.SetAnalysis a).MarkReplied env.nowDone rep.ID)
    ∧ ((m.MarkProcessing.SetAnalysis a).MarkReplied env.nowDone rep.ID).Status = .replied
    ∧ ((m.MarkProcessing.SetAnalysis a).MarkReplied env.nowDone rep.ID).ReplyID
        = some rep.ID := by
  obtain ⟨hWrep, hWst⟩ := deliver_stage_world a h1
  have hC2 : ReplyRepository.Create env.replyCreateErr
      (saveMention env.updAnalysisErr { w with mentions := coll }
        (m.MarkProcessing.SetAnalysis a)).1.replies
      (NewReply env.nowReply u.ID (m.MarkProcessing.SetAnalysis a).ID tid rc)
      = .ok (rcoll, rep) := by
    rw [hWrep]; exact hC
  obtain ⟨_, hrcoll, hfresh, _⟩ := ReplyCreate_ok hC2
  have hfin := deliver_final_world env _ rcoll rep (rep.MarkSent env.nowSent r)
    ((m.MarkProcessing.SetAnalysis a).MarkReplied env.nowDone rep.ID) m.ID
    hrcoll hfresh rfl rfl hWst
  rw [processMentionAsync_to_deliver u h1 han hns hgen, deliver_sent _ hC2 htok hdel]
  exact ⟨hfin.1 hru, rfl, rfl, rfl, hfin.2.2 hmu, rfl, rfl⟩

/-- Witness for C11: text `This app is broken, please fix it`, type `complaint`,
sentiment -3/5, no template, remote id `R123`. -/
theorem delivery_success_final_state_witness :
    ReplyRepository.GetByID none
        (processMentionAsync demoAsyncEnv
          (demoWorldAdmitted "This app is broken, please fix it")
          (demoAdmitted 1 "p1" "This app is broken, please fix it") demoUser).world.replies 1
      = .ok (demoReply.MarkSent 5000200 "R123")
    ∧ MentionRepository.GetByID none
        (processMentionAsync demoAsyncEnv
          (demoWorldAdmitted "This app is broken, please fix it")
          (demoAdmitted 1 "p1" "This app is broken, please fix it") demoUser).world.mentions 1
      = .ok (((demoAdmitted 1 "p1" "This app is broken, please fix it").MarkProcessing.SetAnalysis
          demoAnalysis).MarkReplied 5000300 1) :=
  have h := delivery_success_final_state demoAsyncEnv
    (demoWorldAdmitted "This app is broken, please fix it")
    (demoAdmitted 1 "p1" "This app is broken, please fix it") demoUser
    [(demoAdmitted 1 "p1" "This app is broken, please fix it").MarkProcessing]
    demoAnalysis "Sorry about that!" none [demoReply] demoReply "token" "R123"
    rfl rfl (by decide) rfl rfl rfl rfl rfl rfl
  ⟨h.1, h.2.2.2.2.1⟩

/-! ## Deliveries across retries -/

theorem compose_generate_error {env : AsyncEnv} (w : World) (m : Mention) (u : User)
    {a : MentionAnalysis} (log : List Event) {e : GoError}
    (hns : a.MentionType ≠ MentionTypeSpam)
    (hgen : (generateReply env u.ID (m.SetAnalysis a) a).1 = .error e) :
    processMentionAsync.compose env w m u a log
      = { world := (saveMention env.updFinalErr
              (saveMention env.updAnalysisErr w (m.SetAnalysis a)).1
              ((m.SetAnalysis a).MarkFailed env.nowDone
                ("reply generation failed: " ++ e.Error))).1
          mention := (m.SetAnalysis a).MarkFailed env.nowDone
            ("reply generation failed: " ++ e.Error)
          reply := none
          events := log ++ [.mentionUpdate (saveMention env.updAnalysisErr w (m.SetAnalysis a)).2]
            ++ (if u.Settings.ReplyDelaySeconds > 0 then [.sleep u.Settings.ReplyDelaySeconds]
                else [])
            ++ (generateReply env u.ID (m.SetAnalysis a) a).2
            ++ [.statusEdge m.Status .failed,
              .mentionUpdate (saveMention env.updFinalErr
                (saveMention env.updAnalysisErr w (m.SetAnalysis a)).1
                ((m.SetAnalysis a).MarkFailed env.nowDone
                  ("reply generation failed: " ++ e.Error))).2] } := by
  have hg : generateReply env u.ID (m.SetAnalysis a) a
      = (.error e, (generateReply env u.ID (m.SetAnalysis a) a).2) := by
    rw [← hgen]
  simp only [processMentionAsync.compose, hns, if_false]
  rw [hg]
  rfl

theorem deliver_create_error {env : AsyncEnv} {W : World} {m : Mention} {u : User}
    {rc : String} {tid : Option ObjectID} (log : List Event) {e : GoError}
    (hC : ReplyRepository.Create env.replyCreateErr W.replies
      (NewReply env.nowReply u.ID m.ID tid rc) = .error e) :
    processMentionAsync.deliver env W m u rc tid log
      = { world := W, mention := m
          reply := some (NewReply env.nowReply u.ID m.ID tid rc)
          events := log ++ [.replyCreate false] } := by
  simp only [processMentionAsync.deliver, hC]

theorem generateReply_deliveryCalls (env : AsyncEnv) (userID : ObjectID) (m : Mention)
    (a : MentionAnalysis) :
    deliveryCalls (generateReply env userID m a).2 = 0 := by
  unfold deliveryCalls
  rw [List.countP_eq_zero]
  intro ev hev
  rcases generateReply_events_kind env userID m a ev hev with h | ⟨id, h⟩ | h <;>
    simp [h, isDeliveryCall]

theorem deliveryCalls_append (l1 l2 : List Event) :
    deliveryCalls (l1 ++ l2) = deliveryCalls l1 + deliveryCalls l2 := by
  unfold deliveryCalls
  exact List.countP_append _ _ _

theorem deliveries_append (l1 l2 : List Event) :
    deliveries (l1 ++ l2) = deliveries l1 + deliveries l2 := by
  unfold deliveries
  exact List.countP_append _ _ _

theorem deliveries_le_deliveryCalls (l : List Event) : deliveries l ≤ deliveryCalls l := by
  unfold deliveries deliveryCalls
  apply List.countP_mono_left
  intro ev _ h
  cases ev <;> simp_all [isDelivered, isDeliveryCall]

theorem deliveries_pos_iff (l : List Event) :
    0 < deliveries l ↔ Event.deliveryCall true ∈ l := by
  unfold deliveries
  rw [List.countP_pos_iff]
  constructor
  · rintro ⟨ev, hev, h⟩
    cases ev <;> simp_all [isDelivered]
  · intro h
    exact ⟨_, h, rfl⟩

theorem saveMention_find (fault : Option GoError) (w : World) (m1 : Mention) (id : ObjectID)
    (d : Mention) (hid : m1.ID = id)
    (hfind : w.mentions.find? (fun x => x.ID == id) = some d) :
    (saveMention fault w m1).1.mentions.find? (fun x => x.ID == id) = some d
    ∨ (saveMention fault w m1).1.mentions.find? (fun x => x.ID == id) = some m1 := by
  subst hid
  have hp : (d.ID == m1.ID) = true :=
    List.find?_some (p := fun x : Mention => x.ID == m1.ID) hfind
  have hany : w.mentions.any (fun x => x.ID == m1.ID) = true :=
    List.any_eq_true.mpr ⟨d, List.mem_of_find?_eq_some hfind, hp⟩
  cases fault with
  | some e => exact Or.inl hfind
  | none =>
    right
    have hU : MentionRepository.Update none w.mentions m1
        = .ok (replaceFirst (fun d => d.ID == m1.ID) m1 w.mentions) := by
      simp [MentionRepository.Update, hany]
    unfold saveMention
    rw [hU]
    exact find_replaceFirst _ _ _ (by simp) hany

theorem saveMention_locked (fault : Option GoError) (w : World) (m1 : Mention)
    (id : ObjectID) (hid : m1.ID = id) (hst : m1.Status ≠ .failed)
    (h : ∃ d, w.mentions.find? (fun x => x.ID == id) = some d ∧ d.Status ≠ .failed) :
    ∃ d, (saveMention fault w m1).1.mentions.find? (fun x => x.ID == id) = some d
      ∧ d.Status ≠ .failed := by
  obtain ⟨d, hfind, hd⟩ := h
  rcases saveMention_find fault w m1 id d hid hfind with h1 | h1
  · exact ⟨d, h1, hd⟩
  · exact ⟨m1, h1, hst⟩

theorem paced_deliveryCalls (u : User) :
    deliveryCalls (if u.Settings.ReplyDelaySeconds > 0
      then [Event.sleep u.Settings.ReplyDelaySeconds] else []) = 0 := by
  split <;> rfl

/-- One run calls `CreateReply` at most once, and after a successful delivery the stored
mention is not `failed`. -/
theorem run_deliveries (env : AsyncEnv) (w : World) (m : Mention) (u : User) :
    deliveryCalls (processMentionAsync env w m u).events ≤ 1
    ∧ (Event.deliveryCall true ∈ (processMentionAsync env w m u).events →
        ∃ d, (processMentionAsync env w m u).world.mentions.find? (fun x => x.ID == m.ID)
            = some d ∧ d.Status ≠ .failed) := by
  have hzero : ∀ l : List Event, deliveryCalls l = 0 → Event.deliveryCall true ∉ l := by
    intro l hl hmem
    have h1 := (deliveries_pos_iff l).mpr hmem
    have h2 := deliveries_le_deliveryCalls l
    omega
  cases h1 : MentionRepository.Update env.updProcessingErr w.mentions m.MarkProcessing with
  | error e =>
    have hrun : (processMentionAsync env w m u).events
        = [.statusEdge m.Status .processing, .mentionUpdate false] := by
      simp only [processMentionAsync, h1]
      rfl
    have hc : deliveryCalls (processMentionAsync env w m u).events = 0 := by
      rw [hrun]; rfl
    exact ⟨by omega, fun h => (hzero _ hc h).elim⟩
  | ok coll =>
    have hlock0 : ∃ d, coll.find? (fun x => x.ID == m.ID) = some d ∧ d.Status ≠ .failed := by
      refine ⟨m.MarkProcessing, ?_, by simp [Mention.MarkProcessing]⟩
      rw [Update_ok h1]
      exact find_replaceFirst _ _ _ (by simp [Mention.MarkProcessing]) (Update_ok_any h1).2
    cases han : env.analyze m.Content m.Author.Username with
    | error e =>
      have hc : deliveryCalls (processMentionAsync env w m u).events = 0 := by
        rw [processMentionAsync_analyze_error u h1 han]; rfl
      exact ⟨by omega, fun h => (hzero _ hc h).elim⟩
    | ok a =>
      by_cases hspam : a.MentionType = MentionTypeSpam
      · have hc : deliveryCalls (processMentionAsync env w m u).events = 0 := by
          rw [processMentionAsync_analyze_ok u h1 han, compose_spam _ _ u _ hspam]; rfl
        exact ⟨by omega, fun h => (hzero _ hc h).elim⟩
      · cases hgen : (generateReply env u.ID (m.MarkProcessing.SetAnalysis a) a).1 with
        | error e =>
          have hc : deliveryCalls (processMentionAsync env w m u).events = 0 := by
            rw [processMentionAsync_analyze_ok u h1 han,
              compose_generate_error _ _ u _ hspam hgen]
            simp only [deliveryCalls_append, paced_deliveryCalls,
              generateReply_deliveryCalls]
            rfl
          exact ⟨by omega, fun h => (hzero _ hc h).elim⟩
        | ok res =>
          obtain ⟨rc, tid⟩ := res
          have hlog : deliveryCalls
              ([.statusEdge m.Status .processing, .mentionUpdate true, .analyzeCall]
                ++ [.mentionUpdate (saveMention env.updAnalysisErr { w with mentions := coll }
                    (m.MarkProcessing.SetAnalysis a)).2]
                ++ (if u.Settings.ReplyDelaySeconds > 0
                    then [Event.sleep u.Settings.ReplyDelaySeconds] else [])
                ++ (generateReply env u.ID (m.MarkProcessing.SetAnalysis a) a).2) = 0 := by
            simp only [deliveryCalls_append, paced_deliveryCalls,
              generateReply_deliveryCalls]
            rfl
          have hlock1 := saveMention_locked env.updAnalysisErr { w with mentions := coll }
            (m.MarkProcessing.SetAnalysis a) m.ID rfl
            (by simp [Mention.MarkProcessing, Mention.SetAnalysis]) hlock0
          have hbranch : ∀ (tail : List Event),
              (processMentionAsync env w m u).events
                = ([.statusEdge m.Status .processing, .mentionUpdate true, .analyzeCall]
                  ++ [.mentionUpdate (saveMention env.updAnalysisErr
                      { w with mentions := coll } (m.MarkProcessing.SetAnalysis a)).2]
                  ++ (if u.Settings.ReplyDelaySeconds > 0
                      then [Event.sleep u.Settings.ReplyDelaySeconds] else [])
                  ++ (generateReply env u.ID (m.MarkProcessing.SetAnalysis a) a).2) ++ tail →
              deliveryCalls tail ≤ 1 →
              (Event.deliveryCall true ∈ tail →
                ∃ d, (processMentionAsync env w m u).world.mentions.find?
                  (fun x => x.ID == m.ID) = some d ∧ d.Status ≠ .failed) →
              deliveryCalls (processMentionAsync env w m u).events ≤ 1
              ∧ (Event.deliveryCall true ∈ (processMentionAsync env w m u).events →
                ∃ d, (processMentionAsync env w m u).world.mentions.find?
                  (fun x => x.ID == m.ID) = some d ∧ d.Status ≠ .failed) := by
            intro tail hev htail hmemtail
            rw [hev, deliveryCalls_append, hlog]
            refine ⟨by omega, fun h => ?_⟩
            rcases List.mem_append.mp h with h2 | h2
            · exact (hzero _ hlog h2).elim
            · exact hmemtail h2
          cases hC : ReplyRepository.Create env.replyCreateErr
              (saveMention env.updAnalysisErr { w with mentions := coll }
                (m.MarkProcessing.SetAnalysis a)).1.replies
              (NewReply env.nowReply u.ID (m.MarkProcessing.SetAnalysis a).ID tid rc) with
          | error e =>
            have hrun := (processMentionAsync_to_deliver u h1 han hspam hgen).trans
              (deliver_create_error _ hC)
            exact hbranch _ (congrArg AsyncResult.events hrun) (Nat.zero_le 1)
              (fun h => by simp at h)
          | ok res2 =>
            obtain ⟨rcoll, rep⟩ := res2
            cases htok : env.accessToken u.ID with
            | error e =>
              have hrun := (processMentionAsync_to_deliver u h1 han hspam hgen).trans
                (deliver_token_error _ hC htok)
              exact hbranch _ (congrArg AsyncResult.events hrun) (Nat.zero_le 1)
                (fun h => by simp at h)
            | ok tok =>
              cases hdel : env.createReply tok u.ThreadsUserID rc
                  (m.MarkProcessing.SetAnalysis a).ThreadsPostID with
              | error e =>
                have hrun := (processMentionAsync_to_deliver u h1 han hspam hgen).trans
                  (deliver_delivery_error _ hC htok hdel)
                exact hbranch _ (congrArg AsyncResult.events hrun) (Nat.le_refl 1)
                  (fun h => by simp at h)
              | ok r =>
                have hrun := (processMentionAsync_to_deliver u h1 han hspam hgen).trans
                  (deliver_sent _ hC htok hdel)
                refine hbranch _ (congrArg AsyncResult.events hrun) (Nat.le_refl 1)
                  (fun _ => ?_)
                rw [hrun]
                obtain ⟨_, hrcoll, hfresh, _⟩ := ReplyCreate_ok hC
                subst hrcoll
                have hsr := saveReply_created env.replyUpdateErr
                  (saveMention env.updAnalysisErr { w with mentions := coll }
                    (m.MarkProcessing.SetAnalysis a)).1 _ rep (rep.MarkSent env.nowSent r)
                  hfresh rfl
                refine saveMention_locked env.updFinalErr _
                  ((m.MarkProcessing.SetAnalysis a).MarkReplied env.nowDone rep.ID) m.ID rfl
                  (by simp [Mention.MarkReplied]) ?_
                rw [hsr.1]
                exact hlock1

theorem GetMention_ok {fault : Option GoError} {w : World} {userID mentionID : ObjectID}
    {m : Mention} (h : GetMention fault w userID mentionID = .ok m) :
    m.ID = mentionID ∧ m.UserID = userID
    ∧ w.mentions.find? (fun x => x.ID == mentionID) = some m := by
  unfold GetMention MentionRepository.GetByID at h
  cases fault with
  | some e => simp at h
  | none =>
    simp only at h
    cases hf : w.mentions.find? (fun d => d.ID == mentionID) with
    | none => rw [hf] at h; simp at h
    | some d =>
      rw [hf] at h
      simp only at h
      split at h
      · cases h
      · rename_i hown
        simp only [Except.ok.injEq] at h
        subst h
        have hp : (d.ID == mentionID) = true :=
          List.find?_some (p := fun x : Mention => x.ID == mentionID) hf
        exact ⟨by simpa using hp, by simpa using hown, rfl⟩

/-- A retry of a mention whose stored status is not `failed` is refused. -/
theorem retry_refused (renv : RetryEnv) (w : World) (userID mentionID : ObjectID)
    (h : ∃ d, w.mentions.find? (fun x => x.ID == mentionID) = some d ∧ d.Status ≠ .failed) :
    (RetryMention renv w userID mentionID).spawned = none
    ∧ (RetryMention renv w userID mentionID).world = w
    ∧ (RetryMention renv w userID mentionID).events = [] := by
  obtain ⟨d, hfind, hd⟩ := h
  have hsp := RetryMention_spawned renv w userID mentionID
  refine ⟨?_, hsp.2.1, hsp.1⟩
  cases hs : (RetryMention renv w userID mentionID).spawned with
  | none => rfl
  | some mu =>
    obtain ⟨m, u⟩ := mu
    obtain ⟨hst, hget, _⟩ := hsp.2.2 m u hs
    have := (GetMention_ok hget).2.2
    rw [hfind] at this
    simp only [Option.some.injEq] at this
    subst this
    exact (hd hst).elim

theorem retryRounds_locked (mentionID : ObjectID) (rounds : List RetryRound) (w : World)
    (hothers : ∀ r ∈ rounds, ∀ w1 : World,
      (r.others w1).mentions.find? (fun x => x.ID == mentionID)
        = w1.mentions.find? (fun x => x.ID == mentionID))
    (h : ∃ d, w.mentions.find? (fun x => x.ID == mentionID) = some d ∧ d.Status ≠ .failed) :
    (retryRounds mentionID rounds w).2 = [] := by
  induction rounds generalizing w with
  | nil => rfl
  | cons r rest ih =>
    have hr : ∃ d, (r.others w).mentions.find? (fun x => x.ID == mentionID) = some d
        ∧ d.Status ≠ .failed := by
      rw [hothers r (List.mem_cons_self _ _) w]; exact h
    obtain ⟨hsp, hw, hev⟩ := retry_refused r.renv (r.others w) r.userID mentionID hr
    have hafter : (RetryMention r.renv (r.others w) r.userID mentionID).thenContinuation r.aenv
        = (r.others w, []) := by
      rw [CallResult.thenContinuation_none _ _ hsp, hw, hev]
    simp only [retryRounds, hafter, List.nil_append]
    exact ih (r.others w) (fun r1 hr1 => hothers r1 (List.mem_cons_of_mem _ hr1)) hr

theorem retryRounds_deliveries (mentionID : ObjectID) (rounds : List RetryRound) (w : World)
    (hothers : ∀ r ∈ rounds, ∀ w1 : World,
      (r.others w1).mentions.find? (fun x => x.ID == mentionID)
        = w1.mentions.find? (fun x => x.ID == mentionID)) :
    deliveries (retryRounds mentionID rounds w).2 ≤ 1 := by
  induction rounds generalizing w with
  | nil => exact Nat.zero_le 1
  | cons r rest ih =>
    have hrest : ∀ r1 ∈ rest, ∀ w1 : World,
        (r1.others w1).mentions.find? (fun x => x.ID == mentionID)
          = w1.mentions.find? (fun x => x.ID == mentionID) :=
      fun r1 hr1 => hothers r1 (List.mem_cons_of_mem _ hr1)
    have hsp := RetryMention_spawned r.renv (r.others w) r.userID mentionID
    simp only [retryRounds]
    rw [deliveries_append]
    cases hs : (RetryMention r.renv (r.others w) r.userID mentionID).spawned with
    | none =>
      rw [CallResult.thenContinuation_none _ _ hs, hsp.1]
      have := ih (RetryMention r.renv (r.others w) r.userID mentionID).world hrest
      simpa [deliveries] using this
    | some mu =>
      obtain ⟨m, u⟩ := mu
      have hid : m.ID = mentionID := (GetMention_ok (hsp.2.2 m u hs).2.1).1
      have hafter : (RetryMention r.renv (r.others w) r.userID mentionID).thenContinuation
          r.aenv = ((processMentionAsync r.aenv (r.others w) m u).world,
            (processMentionAsync r.aenv (r.others w) m u).events) := by
        simp only [CallResult.thenContinuation, hs, hsp.1, hsp.2.1, List.nil_append]
      rw [hafter]
      dsimp only
      have hrun := run_deliveries r.aenv (r.others w) m u
      have hle := deliveries_le_deliveryCalls (processMentionAsync r.aenv (r.others w) m u).events
      by_cases hdel :
          Event.deliveryCall true ∈ (processMentionAsync r.aenv (r.others w) m u).events
      · have hlock := hrun.2 hdel
        rw [hid] at hlock
        rw [retryRounds_locked mentionID rest _ hrest hlock]
        have : deliveries ([] : List Event) = 0 := rfl
        omega
      · have h0 : deliveries (processMentionAsync r.aenv (r.others w) m u).events = 0 := by
          by_contra hne
          exact hdel ((deliveries_pos_iff _).mp (Nat.pos_of_ne_zero hne))
        have := ih (processMentionAsync r.aenv (r.others w) m u).world hrest
        omega

/-- C13: for every mention, over its continuation and any number of retry requests served
one after the other (each continuation ending before the next request, the rest of the
pipeline leaving the stored mention alone in between), `CreateReply` succeeds at most
once; a single continuation calls `CreateReply` at most once; and after a continuation
in which the delivery succeeded every `RetryMention` for that mention is refused. -/
theorem delivery_at_most_once (aenv : AsyncEnv) (w : World) (m : Mention) (u : User)
    (rounds : List RetryRound)
    (hothers : ∀ r ∈ rounds, ∀ w1 : World,
      (r.others w1).mentions.find? (fun x => x.ID == m.ID)
        = w1.mentions.find? (fun x => x.ID == m.ID)) :
    deliveries ((processMentionAsync aenv w m u).events
        ++ (retryRounds m.ID rounds (processMentionAsync aenv w m u).world).2) ≤ 1
    ∧ deliveryCalls (processMentionAsync aenv w m u).events ≤ 1
    ∧ (Event.deliveryCall true ∈ (processMentionAsync aenv w m u).events →
        ∀ renv userID,
          (RetryMention renv (processMentionAsync aenv w m u).world userID m.ID).spawned
            = none
          ∧ (RetryMention renv (processMentionAsync aenv w m u).world userID m.ID).err
            ≠ none) := by
  have hrun := run_deliveries aenv w m u
  have hle := deliveries_le_deliveryCalls (processMentionAsync aenv w m u).events
  refine ⟨?_, hrun.1, ?_⟩
  · rw [deliveries_append]
    by_cases hdel : Event.deliveryCall true ∈ (processMentionAsync aenv w m u).events
    · rw [retryRounds_locked m.ID rounds _ hothers (hrun.2 hdel)]
      have : deliveries ([] : List Event) = 0 := rfl
      omega
    · have h0 : deliveries (processMentionAsync aenv w m u).events = 0 := by
        by_contra hne
        exact hdel ((deliveries_pos_iff _).mp (Nat.pos_of_ne_zero hne))
      have := retryRounds_deliveries m.ID rounds (processMentionAsync aenv w m u).world hothers
      omega
  · intro hdel renv userID
    have href := retry_refused renv _ userID m.ID (hrun.2 hdel)
    refine ⟨href.1, ?_⟩
    intro herr
    obtain ⟨d, hfind, hd⟩ := hrun.2 hdel
    unfold RetryMention GetMention MentionRepository.GetByID at herr
    cases hf : renv.mentionErr with
    | some e => simp [hf] at herr
    | none =>
      simp only [hf, hfind] at herr
      by_cases hown : d.UserID ≠ userID
      · simp [hown] at herr
      · simp only [hown, if_false, hd, ne_eq, not_false_eq_true, if_true] at herr
        simp at herr

/-- Witness for C13: the post `p1` is delivered by its first continuation; two retry
requests follow and deliver nothing. -/
theorem delivery_at_most_once_witness :
    deliveries ((processMentionAsync demoAsyncEnv (demoWorldAdmitted "hello")
        (demoAdmitted 1 "p1" "hello") demoUser).events
      ++ (retryRounds 1 [demoRound, demoRound]
          (processMentionAsync demoAsyncEnv (demoWorldAdmitted "hello")
            (demoAdmitted 1 "p1" "hello") demoUser).world).2) ≤ 1
    ∧ deliveries (processMentionAsync demoAsyncEnv (demoWorldAdmitted "hello")
        (demoAdmitted 1 "p1" "hello") demoUser).events = 1 :=
  ⟨(delivery_at_most_once demoAsyncEnv (demoWorldAdmitted "hello")
    (demoAdmitted 1 "p1" "hello") demoUser [demoRound, demoRound]
    (fun _ _ _ => by simp_all [demoRound])).1, by decide⟩

/-! ## Replied mentions and their replies -/

theorem mem_replaceFirst {α : Type} (p : α → Bool) (new : α) (l : List α) (x : α)
    (h : x ∈ replaceFirst p new l) : x ∈ l ∨ x = new := by
  induction l with
  | nil => simp [replaceFirst] at h
  | cons y ys ih =>
    unfold replaceFirst at h
    split at h
    · rcases List.mem_cons.mp h with h1 | h1
      · exact Or.inr h1
      · exact Or.inl (List.mem_cons_of_mem _ h1)
    · rcases List.mem_cons.mp h with h1 | h1
      · exact Or.inl (h1 ▸ List.mem_cons_self _ _)
      · rcases ih h1 with h2 | h2
        · exact Or.inl (List.mem_cons_of_mem _ h2)
        · exact Or.inr h2

theorem saveMention_mem (fault : Option GoError) (w : World) (m1 n : Mention)
    (h : n ∈ (saveMention fault w m1).1.mentions) : n ∈ w.mentions ∨ n = m1 := by
  unfold saveMention at h
  split at h
  · exact Or.inl h
  · rename_i coll hU
    have hn : n ∈ coll := h
    rw [Update_ok hU] at hn
    exact mem_replaceFirst _ _ _ _ hn

theorem saveMention_replies (fault : Option GoError) (w : World) (m1 : Mention) :
    (saveMention fault w m1).1.replies = w.replies := by
  unfold saveMention
  split <;> rfl

theorem QuietExtension_refl (w : World) : QuietExtension w w :=
  ⟨fun _ _ h => h, fun _ hn => Or.inl hn⟩

theorem quiet_saveMention {w0 w : World} (fault : Option GoError) (m1 : Mention)
    (h : QuietExtension w0 w) (hst : m1.Status ≠ .replied) :
    QuietExtension w0 (saveMention fault w m1).1 := by
  refine ⟨fun rid r hr => ?_, fun n hn => ?_⟩
  · rw [saveMention_replies]
    exact h.1 rid r hr
  · rcases saveMention_mem _ _ _ _ hn with h1 | h1
    · exact h.2 n h1
    · exact Or.inr (h1 ▸ hst)

theorem quiet_update {w0 w : World} {fault : Option GoError} {m1 : Mention}
    {coll : List Mention}
    (hU : MentionRepository.Update fault w.mentions m1 = .ok coll)
    (h : QuietExtension w0 w) (hst : m1.Status ≠ .replied) :
    QuietExtension w0 { w with mentions := coll } := by
  refine ⟨h.1, fun n hn => ?_⟩
  have hn2 : n ∈ coll := hn
  rw [Update_ok hU] at hn2
  rcases mem_replaceFirst _ _ _ _ hn2 with h1 | h1
  · exact h.2 n h1
  · exact Or.inr (h1 ▸ hst)

theorem find_append_kept {coll : List Reply} (extra : List Reply) {rid : ObjectID} {r : Reply}
    (h : coll.find? (fun d => d.ID == rid) = some r) :
    (coll ++ extra).find? (fun d => d.ID == rid) = some r := by
  rw [List.find?_append, h]
  rfl

/-- The two reply writes of the delivery stage: the creation of the reply and the
update that follows. Earlier replies are kept, and the reply found under the new
identifier is the updated one, or the created one when the update fails. -/
theorem quiet_reply_writes {w0 W : World} {fc : Option GoError} (fu : Option GoError)
    {x rep : Reply} (r1 : Reply) {rcoll : List Reply}
    (hC : ReplyRepository.Create fc W.replies x = .ok (rcoll, rep)) (hid : r1.ID = rep.ID)
    (h : QuietExtension w0 W) :
    QuietExtension w0 (saveReply fu { W with replies := rcoll } r1).1
    ∧ rep.Status = x.Status
    ∧ ((fu = none ∧ ReplyRepository.GetByID none
          (saveReply fu { W with replies := rcoll } r1).1.replies rep.ID = .ok r1)
      ∨ (fu ≠ none ∧ ReplyRepository.GetByID none
          (saveReply fu { W with replies := rcoll } r1).1.replies rep.ID = .ok rep)) := by
  obtain ⟨_, hrcoll, hfresh, hdoc⟩ := ReplyCreate_ok hC
  subst hrcoll
  have hsr := saveReply_created fu W W.replies rep r1 hfresh hid
  have hst : rep.Status = x.Status := by
    rw [hdoc]
    split <;> rfl
  refine ⟨⟨fun rid r hr => ?_, fun n hn => ?_⟩, hst, ?_⟩
  · have hr2 := h.1 rid r hr
    by_cases hf : fu = none
    · rw [(hsr.2.2.1 hf).1]
      exact find_append_kept _ hr2
    · rw [(hsr.2.2.2 hf).1]
      exact find_append_kept _ hr2
  · rw [hsr.1] at hn
    exact h.2 n hn
  · by_cases hf : fu = none
    · exact Or.inl ⟨hf, (hsr.2.2.1 hf).2⟩
    · exact Or.inr ⟨hf, (hsr.2.2.2 hf).2⟩

theorem linkedTo_of_not_replied (ok : ReplyStatus → Bool) (replies : List Reply) (n : Mention)
    (h : n.Status ≠ .replied) : linkedTo ok replies n = true := by
  unfold linkedTo
  rw [if_neg h]

theorem linkedTo_quiet {ok : ReplyStatus → Bool} {w0 w1 : World} (h : QuietExtension w0 w1)
    (n : Mention) (hl : linkedTo ok w0.replies n = true) :
    linkedTo ok w1.replies n = true := by
  by_cases hst : n.Status = .replied
  · unfold linkedTo at hl ⊢
    rw [if_pos hst] at hl ⊢
    cases hrid : n.ReplyID with
    | none => rw [hrid] at hl; simp at hl
    | some rid =>
      rw [hrid] at hl
      simp only [ReplyRepository.GetByID] at hl ⊢
      cases hf : w0.replies.find? (fun d => d.ID == rid) with
      | none => rw [hf] at hl; simp at hl
      | some r =>
        rw [hf] at hl
        rw [h.1 rid r hf]
        exact hl
  · exact linkedTo_of_not_replied _ _ _ hst

theorem repliedLinked_quiet {ok : ReplyStatus → Bool} {w0 w1 : World}
    (h : QuietExtension w0 w1) (h0 : repliedLinked ok w0 = true) :
    repliedLinked ok w1 = true := by
  unfold repliedLinked at h0 ⊢
  rw [List.all_eq_true] at h0 ⊢
  intro n hn
  rcases h.2 n hn with h1 | h1
  · exact linkedTo_quiet h n (h0 n h1)
  · exact linkedTo_of_not_replied _ _ _ h1

theorem repliedLinked_saveMention {ok : ReplyStatus → Bool} (fault : Option GoError)
    (w : World) (m1 : Mention) (h0 : repliedLinked ok w = true)
    (h1 : linkedTo ok w.replies m1 = true) :
    repliedLinked ok (saveMention fault w m1).1 = true := by
  unfold repliedLinked at h0 ⊢
  rw [List.all_eq_true] at h0 ⊢
  intro n hn
  rw [saveMention_replies]
  rcases saveMention_mem _ _ _ _ hn with h2 | h2
  · exact h0 n h2
  · rw [h2]; exact h1

theorem skip_quiet {w0 : World} (env : ProcessEnv) (w : World) (doc : Mention)
    (reason : String) (log : List Event) (h : QuietExtension w0 w) :
    QuietExtension w0 (ProcessMention.skip env w doc reason log).world := by
  unfold ProcessMention.skip
  simp only
  split
  · exact h
  · rename_i x coll hU
    exact quiet_update hU h (by simp [Mention.MarkSkipped])

theorem admitNew_quiet (env : ProcessEnv) (w : World) (user : User) (userID : ObjectID)
    (p : String) (author : MentionAuthor) (content : String) :
    QuietExtension w (ProcessMention.admitNew env w user userID p author content).world := by
  unfold ProcessMention.admitNew
  simp only
  split
  · exact QuietExtension_refl w
  · rename_i x coll doc hC
    obtain ⟨_, hcoll, _, hdoc⟩ := Create_ok hC
    have hpend : doc.Status ≠ .replied := by
      rw [hdoc]
      split <;> simp [NewMention]
    have hq : QuietExtension w { w with mentions := coll } := by
      refine ⟨fun _ _ h => h, fun n hn => ?_⟩
      have hn2 : n ∈ coll := hn
      rw [hcoll] at hn2
      rcases List.mem_append.mp hn2 with h1 | h1
      · exact Or.inl h1
      · rw [List.mem_singleton] at h1
        exact Or.inr (h1 ▸ hpend)
    split
    · exact skip_quiet env _ _ _ _ hq
    · split
      · exact hq
      · split
        · exact skip_quiet env _ _ _ _ hq
        · exact hq

theorem ProcessMention_quiet (env : ProcessEnv) (w : World) (userID : ObjectID)
    (p : String) (author : MentionAuthor) (content : String) :
    QuietExtension w (ProcessMention env w userID p author content).world := by
  unfold ProcessMention ProcessMentionRaced
  split
  · exact QuietExtension_refl w
  · split
    · exact QuietExtension_refl w
    · split
      · exact QuietExtension_refl w
      · exact admitNew_quiet env w _ userID p author content

/-- What a run of `processMentionAsync` writes: either no mention with status `replied`,
or, after a successful delivery, the mention marked `replied` with a reference to the
reply of the run, which is stored as `sent`, or as created when its update failed. -/
theorem run_quiet_or_replied (env : AsyncEnv) (w : World) (m : Mention) (u : User) :
    QuietExtension w (processMentionAsync env w m u).world
    ∨ ∃ (W : World) (rep stored : Reply) (mm : Mention) (r : String),
        QuietExtension w W
        ∧ (processMentionAsync env w m u).world
            = (saveMention env.updFinalErr W (mm.MarkReplied env.nowDone rep.ID)).1
        ∧ (processMentionAsync env w m u).reply = some (rep.MarkSent env.nowSent r)
        ∧ Event.deliveryCall true ∈ (processMentionAsync env w m u).events
        ∧ ReplyRepository.GetByID none W.replies rep.ID = .ok stored
        ∧ ((env.replyUpdateErr = none ∧ stored.Status = .sent)
          ∨ (env.replyUpdateErr ≠ none ∧ stored.Status = .pending)) := by
  cases h1 : MentionRepository.Update env.updProcessingErr w.mentions m.MarkProcessing with
  | error e =>
    left
    have hw : (processMentionAsync env w m u).world = w := by
      simp only [processMentionAsync, h1]
    rw [hw]
    exact QuietExtension_refl w
  | ok coll =>
    have hq1 : QuietExtension w { w with mentions := coll } :=
      quiet_update h1 (QuietExtension_refl w) (by simp [Mention.MarkProcessing])
    cases han : env.analyze m.Content m.Author.Username with
    | error e =>
      left
      rw [processMentionAsync_analyze_error u h1 han]
      exact quiet_saveMention _ _ hq1 (by simp [Mention.MarkFailed])
    | ok a =>
      have hq2 : QuietExtension w (saveMention env.updAnalysisErr { w with mentions := coll }
          (m.MarkProcessing.SetAnalysis a)).1 :=
        quiet_saveMention _ _ hq1 (by simp [Mention.MarkProcessing, Mention.SetAnalysis])
      by_cases hspam : a.MentionType = MentionTypeSpam
      · left
        rw [processMentionAsync_analyze_ok u h1 han, compose_spam _ _ u _ hspam]
        exact quiet_saveMention _ _ hq2 (by simp [Mention.MarkSkipped])
      · cases hgen : (generateReply env u.ID (m.MarkProcessing.SetAnalysis a) a).1 with
        | error e =>
          left
          rw [processMentionAsync_analyze_ok u h1 han,
            compose_generate_error _ _ u _ hspam hgen]
          exact quiet_saveMention _ _ hq2 (by simp [Mention.MarkFailed])
        | ok res =>
          obtain ⟨rc, tid⟩ := res
          cases hC : ReplyRepository.Create env.replyCreateErr
              (saveMention env.updAnalysisErr { w with mentions := coll }
                (m.MarkProcessing.SetAnalysis a)).1.replies
              (NewReply env.nowReply u.ID (m.MarkProcessing.SetAnalysis a).ID tid rc) with
          | error e =>
            left
            rw [(processMentionAsync_to_deliver u h1 han hspam hgen).trans
              (deliver_create_error _ hC)]
            exact hq2
          | ok res2 =>
            obtain ⟨rcoll, rep⟩ := res2
            cases htok : env.accessToken u.ID with
            | error e =>
              left
              rw [(processMentionAsync_to_deliver u h1 han hspam hgen).trans
                (deliver_token_error _ hC htok)]
              exact quiet_saveMention _ _
                (quiet_reply_writes env.replyUpdateErr
                  (rep.MarkFailed ("token error: " ++ e.Error)) hC rfl hq2).1
                (by simp [Mention.MarkFailed])
            | ok tok =>
              cases hdel : env.createReply tok u.ThreadsUserID rc
                  (m.MarkProcessing.SetAnalysis a).ThreadsPostID with
              | error e =>
                left
                rw [(processMentionAsync_to_deliver u h1 han hspam hgen).trans
                  (deliver_delivery_error _ hC htok hdel)]
                exact quiet_saveMention _ _
                  (quiet_reply_writes env.replyUpdateErr
                    (rep.MarkFailed ("Threads API error: " ++ e.Error)) hC rfl hq2).1
                  (by simp [Mention.MarkFailed])
              | ok r =>
                right
                have hrun := (processMentionAsync_to_deliver u h1 han hspam hgen).trans
                  (deliver_sent _ hC htok hdel)
                obtain ⟨hq3, hst, hstored⟩ := quiet_reply_writes env.replyUpdateErr
                  (rep.MarkSent env.nowSent r) hC rfl hq2
                rcases hstored with ⟨hf, hg⟩ | ⟨hf, hg⟩
                · refine ⟨_, rep, rep.MarkSent env.nowSent r,
                    m.MarkProcessing.SetAnalysis a, r, hq3, ?_, ?_, ?_, hg,
                    Or.inl ⟨hf, rfl⟩⟩
                  · rw [hrun]
                  · rw [hrun]
                  · rw [hrun]; simp
                · refine ⟨_, rep, rep, m.MarkProcessing.SetAnalysis a, r, hq3, ?_, ?_, ?_, hg,
                    Or.inr ⟨hf, ?_⟩⟩
                  · rw [hrun]
                  · rw [hrun]
                  · rw [hrun]; simp
                  · rw [hst]; rfl

/-- A run of `processMentionAsync` keeps every stored mention in agreement with the
stored replies, for a status test that passes `sent`, and `pending` when the reply
update of the run fails. -/
theorem run_linked (ok : ReplyStatus → Bool) (env : AsyncEnv) (w : World) (m : Mention)
    (u : User) (hsent : ok .sent = true)
    (hpend : env.replyUpdateErr ≠ none → ok .pending = true)
    (h0 : repliedLinked ok w = true) :
    repliedLinked ok (processMentionAsync env w m u).world = true := by
  rcases run_quiet_or_replied env w m u with hq | ⟨W, rep, stored, mm, r, hq, hw, _, _, hg, hs⟩
  · exact repliedLinked_quiet hq h0
  · rw [hw]
    refine repliedLinked_saveMention _ _ _ (repliedLinked_quiet hq h0) ?_
    have hok : ok stored.Status = true := by
      rcases hs with ⟨_, h2⟩ | ⟨h1, h2⟩
      · rw [h2]; exact hsent
      · rw [h2]; exact hpend h1
    simp only [linkedTo, Mention.MarkReplied, if_true, hg]
    exact hok

theorem reachable_linked (ok : ReplyStatus → Bool) (allowed : AsyncEnv → Prop)
    (hsent : ok .sent = true)
    (hpend : ∀ env, allowed env → env.replyUpdateErr ≠ none → ok .pending = true)
    (w : World) (h : Reachable allowed w) : repliedLinked ok w = true := by
  induction h with
  | empty users => rfl
  | accounts users _ ih => exact ih
  | ingest env userID p author content _ ih =>
    exact repliedLinked_quiet (ProcessMention_quiet env _ userID p author content) ih
  | retry env userID mentionID _ ih =>
    rw [(RetryMention_spawned env _ userID mentionID).2.1]
    exact ih
  | run env m u hallowed _ ih =>
    exact run_linked ok env _ m u hsent (hpend env hallowed) ih

/-- C12 (amended): in every database state reachable from an empty store by account
changes, `ProcessMention` calls, `RetryMention` calls and runs of `processMentionAsync`,
with any store call allowed to fail, every stored mention with status `replied` has a
reply reference under which a reply is stored whose status is `sent` or `pending`; when
no run has a failing `replyRepo.Update`, that status is `sent`. Conversely, a mention
with status `replied` that a run adds to the store is the mention of that run, the run
delivered, and its reply was marked `sent`; and `ProcessMention` adds no mention with
status `replied`. -/
theorem replied_mention_has_reply (allowed : AsyncEnv → Prop) (w : World)
    (h : Reachable allowed w) :
    repliedLinked ReplyStatus.isSentOrPending w = true
    ∧ ((∀ env, allowed env → env.replyUpdateErr = none) →
        repliedLinked ReplyStatus.isSent w = true)
    ∧ (∀ env m u, ∀ n ∈ (processMentionAsync env w m u).world.mentions,
        n.Status = .replied → n ∉ w.mentions →
          ∃ rep, (processMentionAsync env w m u).reply = some rep ∧ rep.Status = .sent
            ∧ n.ReplyID = some rep.ID
            ∧ Event.deliveryCall true ∈ (processMentionAsync env w m u).events)
    ∧ (∀ env userID p author content,
        ∀ n ∈ (ProcessMention env w userID p author content).world.mentions,
          n.Status = .replied → n ∈ w.mentions) := by
  refine ⟨reachable_linked _ allowed rfl (fun _ _ _ => rfl) w h,
    fun hall => reachable_linked _ allowed rfl (fun env ha hf => (hf (hall env ha)).elim) w h,
    ?_, ?_⟩
  · intro env m u n hn hst hnew
    rcases run_quiet_or_replied env w m u with
      hq | ⟨W, rep, stored, mm, r, hq, hw, hr, he, _, _⟩
    · rcases hq.2 n hn with h1 | h1
      · exact (hnew h1).elim
      · exact (h1 hst).elim
    · rw [hw] at hn
      rcases saveMention_mem _ _ _ _ hn with h1 | h1
      · rcases hq.2 n h1 with h2 | h2
        · exact (hnew h2).elim
        · exact (h2 hst).elim
      · exact ⟨rep.MarkSent env.nowSent r, hr, rfl, by rw [h1]; rfl, he⟩
  · intro env userID p author content n hn hst
    rcases (ProcessMention_quiet env w userID p author content).2 n hn with h1 | h1
    · exact h1
    · exact (h1 hst).elim

/-- Counterexample for C12: `demoEnv` admits post `p1` into an empty store and the
goroutine it starts delivers the reply, but its `replyRepo.Update` fails. The stored
mention is `replied` with reply reference `1` while the stored reply `1` is `pending`. -/
theorem replied_mention_reply_pending :
    demoWorldUnsaved.mentions.map (fun m => (m.Status, m.ReplyID)) = [(.replied, some 1)]
    ∧ demoWorldUnsaved.replies.map (fun r => (r.ID, r.Status)) = [(1, .pending)]
    ∧ repliedLinked ReplyStatus.isSent demoWorldUnsaved = false := by
  decide

/-- Witness for C12 (amended): the store of the counterexample is reachable, and its
replied mention refers to a stored reply that is `pending`, hence `sent` or `pending`. -/
theorem replied_mention_has_reply_witness :
    Reachable (fun _ => True) demoWorldUnsaved
    ∧ repliedLinked ReplyStatus.isSentOrPending demoWorldUnsaved = true :=
  have hreach : Reachable (fun _ => True) demoWorldUnsaved :=
    Reachable.run demoAsyncEnvReplyUnsaved (demoAdmitted 1 "p1" "hello") demoUser trivial
      (Reachable.ingest demoEnv 1 "p1" demoAuthor "hello" (Reachable.empty [demoUser]))
  ⟨hreach, (replied_mention_has_reply (fun _ => True) demoWorldUnsaved hreach).1⟩

/-! ## Admission across accounts and degenerate policies -/

/-- The call on a post that `Create` accepts: the lookup found nothing, and the rest of
the call is `admitNew` on a collection extended by the new pending document. -/
theorem ProcessMention_of_created {env : ProcessEnv} {w : World} {userID : ObjectID}
    {p : String} {author : MentionAuthor} {content : String} {user : User}
    {coll : List Mention} {doc : Mention}
    (huser : UserRepository.GetByID env.userErr w.users userID = .ok user)
    (hauto : user.AutoReplyEnabled = true)
    (hcreate : MentionRepository.Create env.createErr w.mentions
      (NewMention env.nowCreated userID p author content) = .ok (coll, doc)) :
    ProcessMention env w userID p author content
      = ProcessMention.admitNew env w user userID p author content
    ∧ coll = w.mentions ++ [doc] ∧ doc.Status = .pending ∧ doc.ThreadsPostID = p
    ∧ (∀ d ∈ w.mentions, d.ID ≠ doc.ID) := by
  obtain ⟨_, hcoll, hfresh, hdoc⟩ := Create_ok hcreate
  have hdocSt : doc.Status = .pending := by rw [hdoc]; simp [NewMention]
  have hdocPost : doc.ThreadsPostID = p := by rw [hdoc]; simp [NewMention]
  have hnone : ∀ d ∈ w.mentions, d.ThreadsPostID ≠ p := by
    intro d hd
    have := (hfresh d hd).2
    rwa [hdocPost] at this
  obtain ⟨e, hmiss⟩ := lookup_miss env.lookupErr hnone
  refine ⟨?_, hcoll, hdocSt, hdocPost, fun d hd => (hfresh d hd).1⟩
  unfold ProcessMention
  rw [ProcessMentionRaced_of_lookup_miss huser hauto hmiss]
  rfl

/-- C28: the admission lookup is by post id alone. When a mention with post id `p` is
stored for account `a`, a call for another account `b` (loaded, auto-reply on, lookup
not failing) with the same post id returns nil, makes no store call, starts nothing and
leaves the database as it is, so no mention is created for `b`; the document the lookup
returns has post id `p`, and it is the one of account `a` when no other has that post
id. -/
theorem ProcessMention_other_account_noop (env : ProcessEnv) (w : World) (a : ObjectID)
    (userB : User) (p : String) (author : MentionAuthor) (content : String) (d : Mention)
    (hAB : a ≠ userB.ID)
    (hB : UserRepository.GetByID env.userErr w.users userB.ID = .ok userB)
    (hauto : userB.AutoReplyEnabled = true)
    (hd : d ∈ w.mentions) (hdA : d.UserID = a) (hdp : d.ThreadsPostID = p)
    (hlookup : env.lookupErr = none) :
    ProcessMention env w userB.ID p author content
      = { err := none, world := w, spawned := none, events := [] }
    ∧ (∀ m ∈ (ProcessMention env w userB.ID p author content).world.mentions,
        m.ThreadsPostID = p → m ∈ w.mentions)
    ∧ (∃ existing, MentionRepository.GetByThreadsPostID env.lookupErr w.mentions p
          = .ok existing ∧ existing.ThreadsPostID = p)
    ∧ ((∀ x ∈ w.mentions, x.ThreadsPostID = p → x = d) →
        ∃ existing, MentionRepository.GetByThreadsPostID env.lookupErr w.mentions p
          = .ok existing ∧ existing.UserID ≠ userB.ID) := by
  have hfound : ∃ existing, w.mentions.find? (fun x => x.ThreadsPostID == p) = some existing := by
    cases hf : w.mentions.find? (fun x => x.ThreadsPostID == p) with
    | some x => exact ⟨x, rfl⟩
    | none =>
      rw [List.find?_eq_none] at hf
      have := hf d hd
      simp [hdp] at this
  obtain ⟨existing, hex⟩ := hfound
  have hget : MentionRepository.GetByThreadsPostID env.lookupErr w.mentions p = .ok existing := by
    simp only [MentionRepository.GetByThreadsPostID, hlookup, hex]
  have hexp : existing.ThreadsPostID = p := by
    have := List.find?_some (p := fun x : Mention => x.ThreadsPostID == p) hex
    simpa using this
  have hrun : ProcessMention env w userB.ID p author content
      = { err := none, world := w, spawned := none, events := [] } := by
    simp [ProcessMention, ProcessMentionRaced, hB, hauto, hget]
  refine ⟨hrun, ?_, ⟨existing, hget, hexp⟩, ?_⟩
  · intro m hm _
    rw [hrun] at hm
    exact hm
  · intro huniq
    refine ⟨existing, hget, ?_⟩
    have hmem : existing ∈ w.mentions := List.mem_of_find?_eq_some hex
    rw [huniq existing hmem hexp, hdA]
    exact hAB

/-- Witness for C28: post `p1` is stored for account `1`; the call for account `2`
changes nothing. -/
theorem ProcessMention_other_account_noop_witness :
    ProcessMention demoEnv demoWorldTwo 2 "p1" demoAuthor "hello"
      = { err := none, world := demoWorldTwo, spawned := none, events := [] } :=
  (ProcessMention_other_account_noop demoEnv demoWorldTwo 1 demoUserB "p1" demoAuthor "hello"
    (demoMention 1 "p1" .replied (some 4999000)) (by decide) rfl rfl (by decide) rfl rfl
    rfl).1

/-- C29: for a newly admitted mention that matched no ignore-keyword, when the count
query fails, `ProcessMention` takes no status edge (the mention stays `pending`),
returns nil and starts the continuation on the stored mention, whatever
`MaxRepliesPerHour` is. -/
theorem ProcessMention_count_error_fails_open (env : ProcessEnv) (w : World)
    (userID : ObjectID) (p : String) (author : MentionAuthor) (content : String)
    (user : User) (coll : List Mention) (doc : Mention) (e : GoError)
    (huser : UserRepository.GetByID env.userErr w.users userID = .ok user)
    (hauto : user.AutoReplyEnabled = true)
    (hcreate : MentionRepository.Create env.createErr w.mentions
      (NewMention env.nowCreated userID p author content) = .ok (coll, doc))
    (hnokw : shouldSkipMention env.unicodeToLower user author content = false)
    (hcount : MentionRepository.CountByUserIDLastHour env.countErr coll userID env.nowCount
      = .error e) :
    ProcessMention env w userID p author content
      = { err := none
          world := { w with mentions := w.mentions ++ [doc] }
          spawned := some (doc, user)
          events := [.mentionCreate true, .countQuery] }
    ∧ doc.Status = .pending
    ∧ statusEdges (ProcessMention env w userID p author content).events = []
    ∧ MentionRepository.GetByID none
        (ProcessMention env w userID p author content).world.mentions doc.ID = .ok doc := by
  obtain ⟨hadm, hcoll, hdocSt, _, hfreshID⟩ := ProcessMention_of_created huser hauto hcreate
  have hrun : ProcessMention env w userID p author content
      = { err := none
          world := { w with mentions := w.mentions ++ [doc] }
          spawned := some (doc, user)
          events := [.mentionCreate true, .countQuery] } := by
    rw [hadm]
    subst hcoll
    simp [ProcessMention.admitNew, hcreate, hnokw, hcount]
  refine ⟨hrun, hdocSt, ?_, ?_⟩
  · rw [hrun]; rfl
  · rw [hrun]
    simp only [MentionRepository.GetByID, find_by_id_append_last hfreshID]

/-- Witness for C29: the count query fails and the account allows two replies per hour;
the mention is handed to the continuation. -/
theorem ProcessMention_count_error_fails_open_witness :
    ProcessMention demoEnvCountFails demoWorld 1 "p1" demoAuthor "hello"
      = { err := none
          world := { demoWorld with
            mentions := demoWorld.mentions ++ [demoAdmitted 1 "p1" "hello"] }
          spawned := some (demoAdmitted 1 "p1" "hello", demoUser)
          events := [.mentionCreate true, .countQuery] } :=
  (ProcessMention_count_error_fails_open demoEnvCountFails demoWorld 1 "p1" demoAuthor "hello"
    demoUser [demoAdmitted 1 "p1" "hello"] (demoAdmitted 1 "p1" "hello")
    (.other "context deadline exceeded") rfl rfl rfl (by decide) rfl).1

theorem shouldSkipMention_empty_keyword (unicodeToLower : Char → Char) (user : User)
    (author : MentionAuthor) (content : String)
    (h : "" ∈ user.Settings.IgnoreKeywords) :
    shouldSkipMention unicodeToLower user author content = true := by
  rw [shouldSkipMention_iff]
  exact ⟨"", h, [], (stringsToLower unicodeToLower content).data, by simp [stringsToLower]⟩

/-- C30: degenerate policy settings skip every admitted mention. If the ignore-keyword
list contains the empty string, `shouldSkipMention` is true for every content (the
empty content included), and a newly admitted mention is marked `skipped` with reason
`matched skip criteria`. If `MaxRepliesPerHour` is zero or negative, a newly admitted
mention that matched no keyword and whose count query succeeds is marked `skipped` with
reason `rate limit exceeded`. In both cases no continuation is started, and when the
`Update` does not fail the call returns nil and stores the skipped mention. -/
theorem degenerate_settings_skip_all (env : ProcessEnv) (w : World)
    (userID : ObjectID) (p : String) (author : MentionAuthor) (content : String)
    (user : User) (coll : List Mention) (doc : Mention)
    (huser : UserRepository.GetByID env.userErr w.users userID = .ok user)
    (hauto : user.AutoReplyEnabled = true)
    (hcreate : MentionRepository.Create env.createErr w.mentions
      (NewMention env.nowCreated userID p author content) = .ok (coll, doc)) :
    ("" ∈ user.Settings.IgnoreKeywords →
      (∀ (f : Char → Char) (a : MentionAuthor) (c : String),
        shouldSkipMention f user a c = true)
      ∧ shouldSkipMention env.unicodeToLower user author "" = true
      ∧ (ProcessMention env w userID p author content).spawned = none
      ∧ statusEdges (ProcessMention env w userID p author content).events
          = [(.pending, .skipped)]
      ∧ (env.updateErr = none →
          ProcessMention env w userID p author content
            = { err := none
                world := { w with mentions :=
                  w.mentions ++ [doc.MarkSkipped env.nowSkipped "matched skip criteria"] }
                spawned := none
                events := [.mentionCreate true, .statusEdge .pending .skipped,
                  .mentionUpdate true] }))
    ∧ (user.Settings.MaxRepliesPerHour ≤ 0 →
        shouldSkipMention env.unicodeToLower user author content = false →
        env.countErr = none →
        (ProcessMention env w userID p author content).spawned = none
        ∧ statusEdges (ProcessMention env w userID p author content).events
            = [(.pending, .skipped)]
        ∧ (env.updateErr = none →
            ProcessMention env w userID p author content
              = { err := none
                  world := { w with mentions :=
                    w.mentions ++ [doc.MarkSkipped env.nowSkipped "rate limit exceeded"] }
                  spawned := none
                  events := [.mentionCreate true, .countQuery, .statusEdge .pending .skipped,
                    .mentionUpdate true] }))
    ∧ (doc.MarkSkipped env.nowSkipped "matched skip criteria").Status = .skipped
    ∧ (doc.MarkSkipped env.nowSkipped "matched skip criteria").SkipReason
        = "matched skip criteria"
    ∧ (doc.MarkSkipped env.nowSkipped "rate limit exceeded").Status = .skipped
    ∧ (doc.MarkSkipped env.nowSkipped "rate limit exceeded").SkipReason
        = "rate limit exceeded" := by
  obtain ⟨hadm, hcoll, hdocSt, _, hfreshID⟩ := ProcessMention_of_created huser hauto hcreate
  subst hcoll
  have hfin : ∀ (reason : String) (log : List Event),
      ProcessMention env w userID p author content
        = ProcessMention.skip env { w with mentions := w.mentions ++ [doc] } doc reason log →
      (ProcessMention env w userID p author content).spawned = none
      ∧ statusEdges (ProcessMention env w userID p author content).events
          = statusEdges log ++ [(.pending, .skipped)]
      ∧ (env.updateErr = none →
          ProcessMention env w userID p author content
            = { err := none
                world := { w with mentions :=
                  w.mentions ++ [doc.MarkSkipped env.nowSkipped reason] }
                spawned := none
                events := log ++ [.statusEdge .pending .skipped, .mentionUpdate true] }) := by
    intro reason log hrun
    have hsp := skip_spawns_nothing env { w with mentions := w.mentions ++ [doc] } doc
      reason log
    refine ⟨?_, ?_, ?_⟩
    · rw [hrun]; exact hsp.1
    · rw [hrun, hsp.2.2, hdocSt]
    · intro hupd
      rw [hrun, skip_after_Create (w := w) reason log hfreshID hupd, hdocSt]
  refine ⟨?_, ?_, rfl, rfl, rfl, rfl⟩
  · intro hkw
    have hskip := shouldSkipMention_empty_keyword env.unicodeToLower user author content hkw
    have hrun : ProcessMention env w userID p author content
        = ProcessMention.skip env { w with mentions := w.mentions ++ [doc] } doc
            "matched skip criteria" [.mentionCreate true] := by
      rw [hadm]
      simp [ProcessMention.admitNew, hcreate, hskip]
    exact ⟨fun f a c => shouldSkipMention_empty_keyword f user a c hkw,
      shouldSkipMention_empty_keyword _ user author "" hkw,
      hfin _ _ hrun⟩
  · intro hmax hnokw hcount
    have hcnt : MentionRepository.CountByUserIDLastHour env.countErr (w.mentions ++ [doc])
          userID env.nowCount
        = .ok (((w.mentions ++ [doc]).filter (repliedLastHour userID env.nowCount)).length
            : Int) := by
      simp only [MentionRepository.CountByUserIDLastHour, hcount]
    have hge : user.Settings.MaxRepliesPerHour
        ≤ (((w.mentions ++ [doc]).filter (repliedLastHour userID env.nowCount)).length
            : Int) :=
      le_trans hmax (Int.ofNat_nonneg _)
    have hrun : ProcessMention env w userID p author content
        = ProcessMention.skip env { w with mentions := w.mentions ++ [doc] } doc
            "rate limit exceeded" [.mentionCreate true, .countQuery] := by
      rw [hadm]
      simp only [ProcessMention.admitNew, hcreate, hnokw, hcnt, Bool.false_eq_true, if_false]
      rw [if_pos hge]
    exact hfin _ _ hrun

/-- Witness for C30: with the empty ignore-keyword the content `hello` is skipped, and
with `MaxRepliesPerHour = 0` it is skipped by the rate limit although no reply was sent. -/
theorem degenerate_settings_skip_all_witness :
    ProcessMention demoEnv { demoWorld with users := [demoUserEmptyKeyword] } 1 "p1"
        demoAuthor "hello"
      = { err := none
          world := { users := [demoUserEmptyKeyword]
                     mentions := [(demoAdmitted 1 "p1" "hello").MarkSkipped 5000001
                       "matched skip criteria"]
                     replies := [] }
          spawned := none
          events := [.mentionCreate true, .statusEdge .pending .skipped, .mentionUpdate true] }
    ∧ ProcessMention demoEnv { demoWorld with users := [demoUserZeroRate] } 1 "p1"
        demoAuthor "hello"
      = { err := none
          world := { users := [demoUserZeroRate]
                     mentions := [(demoAdmitted 1 "p1" "hello").MarkSkipped 5000001
                       "rate limit exceeded"]
                     replies := [] }
          spawned := none
          events := [.mentionCreate true, .countQuery, .statusEdge .pending .skipped,
            .mentionUpdate true] } :=
  ⟨((degenerate_settings_skip_all demoEnv { demoWorld with users := [demoUserEmptyKeyword] }
      1 "p1" demoAuthor "hello" demoUserEmptyKeyword [demoAdmitted 1 "p1" "hello"]
      (demoAdmitted 1 "p1" "hello") rfl rfl rfl).1 (by decide)).2.2.2.2 rfl,
   ((degenerate_settings_skip_all demoEnv { demoWorld with users := [demoUserZeroRate] }
      1 "p1" demoAuthor "hello" demoUserZeroRate [demoAdmitted 1 "p1" "hello"]
      (demoAdmitted 1 "p1" "hello") rfl rfl rfl).2.1 (by decide) (by decide) rfl).2.2 rfl⟩

/-! ## The webhook handler and `ExtractMentions` -/

/-- C25: for a request whose body was read, `Handle` always answers, with status 401
when the signature header is empty or `VerifySignature` on the body as read is false,
and with status 200 otherwise; so with a verified signature the status is 200 whatever
the body is. The handler parses nothing: the bytes given to `VerifySignature` are the
bytes read, and the same bytes are handed to the goroutine that parses them, which is
started only after the verification succeeded. -/
theorem Handle_status (hmacSHA256 : Bytes → Bytes → Bytes) (v : WebhookVerifier)
    (body signature : Bytes) :
    (∃ r, WebhookHandler.Handle hmacSHA256 v (.ok body) signature = some r
      ∧ r.status = (if signature = [] ∨ v.VerifySignature hmacSHA256 body signature = some false
          then 401 else 200)
      ∧ (r.status = 401 ∨ r.status = 200)
      ∧ (r.status = 200 ↔ v.VerifySignature hmacSHA256 body signature = some true)
      ∧ (r.status = 200 → r.background = some body ∧ r.errorCode = none)
      ∧ (r.status = 401 → r.background = none))
    ∧ (v.VerifySignature hmacSHA256 body signature = some true →
        WebhookHandler.Handle hmacSHA256 v (.ok body) signature
          = some { status := 200, errorCode := none, background := some body })
    ∧ (signature = [] →
        WebhookHandler.Handle hmacSHA256 v (.ok body) signature
          = some { status := 401, errorCode := some "MISSING_SIGNATURE", background := none })
    ∧ (signature ≠ [] → v.VerifySignature hmacSHA256 body signature = some false →
        WebhookHandler.Handle hmacSHA256 v (.ok body) signature
          = some { status := 401, errorCode := some "INVALID_SIGNATURE", background := none }) := by
  have hempty : signature = [] → v.VerifySignature hmacSHA256 body signature = some false := by
    intro h
    subst h
    rw [VerifySignature_eq]
    simp [asciiBytes]
  have h3 : signature = [] →
      WebhookHandler.Handle hmacSHA256 v (.ok body) signature
        = some { status := 401, errorCode := some "MISSING_SIGNATURE", background := none } := by
    intro h
    simp [WebhookHandler.Handle, h, StatusUnauthorized]
  have h4 : signature ≠ [] → v.VerifySignature hmacSHA256 body signature = some false →
      WebhookHandler.Handle hmacSHA256 v (.ok body) signature
        = some { status := 401, errorCode := some "INVALID_SIGNATURE", background := none } := by
    intro h hv
    simp [WebhookHandler.Handle, h, hv, StatusUnauthorized]
  have h2 : v.VerifySignature hmacSHA256 body signature = some true →
      WebhookHandler.Handle hmacSHA256 v (.ok body) signature
        = some { status := 200, errorCode := none, background := some body } := by
    intro hv
    have hne : signature ≠ [] := by
      intro h
      rw [hempty h] at hv
      cases hv
    simp [WebhookHandler.Handle, hne, hv, StatusOK]
  refine ⟨?_, h2, h3, h4⟩
  by_cases hs : signature = []
  · refine ⟨_, h3 hs, ?_⟩
    have hv := hempty hs
    subst hs
    simp [hv]
  · cases hv : decide (signature
        = asciiBytes "sha256=" ++ hexEncodeToString (hmacSHA256 v.appSecret body)) with
    | false =>
      have hv2 : v.VerifySignature hmacSHA256 body signature = some false := by
        rw [VerifySignature_eq, hv]
      refine ⟨_, h4 hs hv2, ?_⟩
      simp [hv2]
    | true =>
      have hv2 : v.VerifySignature hmacSHA256 body signature = some true := by
        rw [VerifySignature_eq, hv]
      refine ⟨_, h2 hv2, ?_⟩
      simp [hv2, hs]

theorem foldl_change_eq (jsonMarshal : JSONValue → Except GoError Bytes)
    (jsonUnmarshal : Bytes → Except GoError MentionValue) (changes : List WebhookChange)
    (acc : List MentionValue) :
    changes.foldl (ExtractMentions.change jsonMarshal jsonUnmarshal) acc
      = acc ++ changes.filterMap (fun c =>
          if c.Field = "mentions" then ((jsonMarshal c.Value).bind jsonUnmarshal).toOption
          else none) := by
  induction changes generalizing acc with
  | nil => simp
  | cons c cs ih =>
    rw [List.foldl_cons, ih]
    unfold ExtractMentions.change
    by_cases hf : c.Field = "mentions"
    · cases hm : jsonMarshal c.Value with
      | error e => simp [List.filterMap_cons, hf, hm, Except.bind, Except.toOption]
      | ok d =>
        cases hu : jsonUnmarshal d with
        | error e => simp [List.filterMap_cons, hf, hm, hu, Except.bind, Except.toOption]
        | ok m => simp [List.filterMap_cons, hf, hm, hu, Except.bind, Except.toOption]
    · simp [List.filterMap_cons, hf]

theorem foldl_entries_eq (jsonMarshal : JSONValue → Except GoError Bytes)
    (jsonUnmarshal : Bytes → Except GoError MentionValue) (entries : List WebhookEntry)
    (acc : List MentionValue) :
    entries.foldl
        (fun mentions entry =>
          entry.Changes.foldl (ExtractMentions.change jsonMarshal jsonUnmarshal) mentions)
        acc
      = acc ++ (entries.flatMap (fun e => e.Changes)).filterMap (fun c =>
          if c.Field = "mentions" then ((jsonMarshal c.Value).bind jsonUnmarshal).toOption
          else none) := by
  induction entries generalizing acc with
  | nil => simp
  | cons e es ih =>
    rw [List.foldl_cons, ih, foldl_change_eq]
    simp [List.flatMap_cons, List.filterMap_append, List.append_assoc]

/-- C21: `ExtractMentions` returns, in entry order and then change order, the values
decoded (`json.Marshal` then `json.Unmarshal`) from the changes whose field is
`mentions` and whose value decodes; a change with another field, or whose value does
not decode, adds nothing and leaves what the other changes add as it is; and the result
is never longer than the number of `mentions` changes. -/
theorem ExtractMentions_spec (jsonMarshal : JSONValue → Except GoError Bytes)
    (jsonUnmarshal : Bytes → Except GoError MentionValue) (payload : WebhookPayload) :
    ExtractMentions jsonMarshal jsonUnmarshal payload
      = (payload.Entry.flatMap (fun e => e.Changes)).filterMap (fun c =>
          if c.Field = "mentions" then ((jsonMarshal c.Value).bind jsonUnmarshal).toOption
          else none)
    ∧ (ExtractMentions jsonMarshal jsonUnmarshal payload).length
        ≤ (payload.Entry.flatMap (fun e => e.Changes)).countP (fun c => c.Field == "mentions")
    ∧ (∀ (acc : List MentionValue) (c : WebhookChange),
        (c.Field ≠ "mentions" →
          ExtractMentions.change jsonMarshal jsonUnmarshal acc c = acc)
        ∧ (∀ e, (jsonMarshal c.Value).bind jsonUnmarshal = .error e →
          ExtractMentions.change jsonMarshal jsonUnmarshal acc c = acc)
        ∧ (∀ m, c.Field = "mentions" → (jsonMarshal c.Value).bind jsonUnmarshal = .ok m →
          ExtractMentions.change jsonMarshal jsonUnmarshal acc c = acc ++ [m]))
    ∧ (∀ (pre post : List WebhookEntry) (e : WebhookEntry) (cs1 cs2 : List WebhookChange)
        (c : WebhookChange),
        payload.Entry = pre ++ { e with Changes := cs1 ++ c :: cs2 } :: post →
        (c.Field ≠ "mentions"
          ∨ ∃ err, (jsonMarshal c.Value).bind jsonUnmarshal = .error err) →
        ExtractMentions jsonMarshal jsonUnmarshal payload
          = ExtractMentions jsonMarshal jsonUnmarshal
              { payload with Entry := pre ++ { e with Changes := cs1 ++ cs2 } :: post }) := by
  have hchar : ∀ p : WebhookPayload, ExtractMentions jsonMarshal jsonUnmarshal p
      = (p.Entry.flatMap (fun e => e.Changes)).filterMap (fun c =>
          if c.Field = "mentions" then ((jsonMarshal c.Value).bind jsonUnmarshal).toOption
          else none) := by
    intro p
    unfold ExtractMentions
    rw [foldl_entries_eq]
    rfl
  refine ⟨hchar payload, ?_, ?_, ?_⟩
  · rw [hchar]
    generalize payload.Entry.flatMap (fun e => e.Changes) = cs
    induction cs with
    | nil => simp
    | cons c cs ih =>
      by_cases hf : c.Field = "mentions"
      · rw [List.countP_cons_of_pos _ _ (by simpa using hf)]
        rw [List.filterMap_cons]
        split
        · omega
        · simp only [List.length_cons]; omega
      · rw [List.countP_cons_of_neg _ _ (by simpa using hf)]
        rw [List.filterMap_cons]
        simp only [hf, if_false]
        exact ih
  · intro acc c
    refine ⟨fun hf => ?_, fun e he => ?_, fun m hf hm => ?_⟩
    · simp [ExtractMentions.change, hf]
    · unfold ExtractMentions.change
      split
      · cases hm : jsonMarshal c.Value with
        | error e1 => rfl
        | ok d =>
          rw [hm] at he
          simp only [Except.bind] at he
          simp only [he]
      · rfl
    · unfold ExtractMentions.change
      rw [if_pos hf]
      cases hmar : jsonMarshal c.Value with
      | error e1 => rw [hmar] at hm; simp [Except.bind] at hm
      | ok d =>
        rw [hmar] at hm
        simp only [Except.bind] at hm
        simp only [hm]
  · intro pre post e cs1 cs2 c hE hc
    rw [hchar, hchar, hE]
    have hnone : (if c.Field = "mentions"
        then ((jsonMarshal c.Value).bind jsonUnmarshal).toOption else none) = none := by
      rcases hc with hf | ⟨err, herr⟩
      · rw [if_neg hf]
      · rw [herr]; simp [Except.toOption]
    simp [List.flatMap_append, List.flatMap_cons, List.filterMap_append, List.filterMap_cons, hnone]

/-- Witness for C25: a body signed under the toy keyed function is acknowledged with
200 and handed on unchanged. -/
theorem Handle_status_witness :
    WebhookHandler.Handle toyMAC { appSecret := [1], verifyToken := [] } (.ok [2])
        (asciiBytes "sha256=0102")
      = some { status := 200, errorCode := none, background := some [2] } :=
  (Handle_status toyMAC { appSecret := [1], verifyToken := [] } [2]
    (asciiBytes "sha256=0102")).2.1 (by decide)

/-- Witness for C21: of the four changes of `demoPayload`, the two `mentions` changes
that decode are returned, in order. -/
theorem ExtractMentions_spec_witness :
    ExtractMentions toyMarshal toyUnmarshal demoPayload
        = (demoPayload.Entry.flatMap (fun e => e.Changes)).filterMap (fun c =>
            if c.Field = "mentions" then ((toyMarshal c.Value).bind toyUnmarshal).toOption
            else none)
    ∧ (ExtractMentions toyMarshal toyUnmarshal demoPayload).map (fun m => m.MediaID)
        = ["m1", "m2"] :=
  ⟨(ExtractMentions_spec toyMarshal toyUnmarshal demoPayload).1, by decide⟩

/-! ## `WebhookService` -/

theorem ProcessMention_users (env : ProcessEnv) (w : World) (userID : ObjectID)
    (p : String) (author : MentionAuthor) (content : String) :
    (ProcessMention env w userID p author content).world.users = w.users := by
  have hskip : ∀ (w1 : World) (doc : Mention) (reason : String) (log : List Event),
      (ProcessMention.skip env w1 doc reason log).world.users = w1.users := by
    intro w1 doc reason log
    unfold ProcessMention.skip
    simp only
    split <;> rfl
  unfold ProcessMention ProcessMentionRaced
  split
  · rfl
  · split
    · rfl
    · split
      · rfl
      · unfold ProcessMention.admitNew
        simp only [id]
        split
        · rfl
        · split
          · rw [hskip]
          · split
            · rfl
            · split
              · rw [hskip]
              · rfl

theorem processMention_first (fault : Option GoError) (penv : ProcessEnv) (w : World)
    (payload : WebhookPayload) (first : WebhookEntry) (rest : List WebhookEntry)
    (mention : MentionValue) (hE : payload.Entry = first :: rest) :
    WebhookService.processMention fault penv w payload mention
      = WebhookService.processMention fault penv w { payload with Entry := [first] } mention
    ∧ (WebhookService.processMention fault penv w payload mention).lookups = [first.ID]
    ∧ (WebhookService.processMention fault penv w payload mention).call.world.users = w.users
    ∧ (∀ a ∈ (WebhookService.processMention fault penv w payload mention).admissions,
        ∃ user, UserRepository.GetByThreadsUserID fault w.users first.ID = .ok user
          ∧ a = (user.ID, mention.MediaID)) := by
  have h1 : WebhookService.processMention fault penv w payload mention
      = WebhookService.processMention fault penv w { payload with Entry := [first] }
          mention := by
    simp only [WebhookService.processMention, hE]
  refine ⟨h1, ?_⟩
  rw [h1]
  simp only [WebhookService.processMention]
  cases hu : UserRepository.GetByThreadsUserID fault w.users first.ID with
  | error e =>
    simp only
    split <;> exact ⟨rfl, rfl, fun a ha => by simp at ha⟩
  | ok user =>
    refine ⟨rfl, ProcessMention_users _ _ _ _ _ _, fun a ha => ?_⟩
    simp only [List.mem_singleton] at ha
    exact ⟨user, rfl, ha⟩

theorem ProcessWebhook_loop_first (env : WebhookEnv) (payload : WebhookPayload)
    (first : WebhookEntry) (rest : List WebhookEntry) (hE : payload.Entry = first :: rest)
    (users : List User) (mentions : List MentionValue) :
    ∀ (k : Nat) (acc : WebhookResult), acc.world.users = users →
      (WebhookService.ProcessWebhook.loop env payload k mentions acc).lookups
        = acc.lookups ++ List.replicate mentions.length first.ID
      ∧ ∀ a ∈ (WebhookService.ProcessWebhook.loop env payload k mentions acc).admissions,
          a ∈ acc.admissions
          ∨ ∃ user j, UserRepository.GetByThreadsUserID (env.userErr j) users first.ID
              = .ok user ∧ a.1 = user.ID := by
  induction mentions with
  | nil =>
    intro k acc _
    exact ⟨by simp [WebhookService.ProcessWebhook.loop], fun a ha => Or.inl ha⟩
  | cons m ms ih =>
    intro k acc husers
    obtain ⟨_, hl, hu, hadm⟩ := processMention_first (env.userErr k) (env.penv k) acc.world
      payload first rest m hE
    simp only [WebhookService.ProcessWebhook.loop]
    obtain ⟨ih1, ih2⟩ := ih (k + 1)
      { err := none
        world := (WebhookService.processMention (env.userErr k) (env.penv k) acc.world
          payload m).call.world
        spawned := acc.spawned ++ (WebhookService.processMention (env.userErr k) (env.penv k)
          acc.world payload m).call.spawned.toList
        events := acc.events ++ (WebhookService.processMention (env.userErr k) (env.penv k)
          acc.world payload m).call.events
        lookups := acc.lookups ++ (WebhookService.processMention (env.userErr k) (env.penv k)
          acc.world payload m).lookups
        admissions := acc.admissions ++ (WebhookService.processMention (env.userErr k)
          (env.penv k) acc.world payload m).admissions }
      (by rw [← husers]; exact hu)
    refine ⟨?_, fun a ha => ?_⟩
    · rw [ih1, hl]
      simp [List.replicate_succ]
    · rcases ih2 a ha with h | h
      · rcases List.mem_append.mp h with h1 | h1
        · exact Or.inl h1
        · obtain ⟨user, hget, ha2⟩ := hadm a h1
          right
          refine ⟨user, k, ?_, by rw [ha2]⟩
          rw [← husers]; exact hget
      · exact Or.inr h

/-- C27: for a payload whose first entry is `first`, whatever entries follow,
`processMention` looks the account up under `first.ID` only, gives the same outcome as
for the payload reduced to its first entry, and calls `ProcessMention` for the account
found under `first.ID`. So in `ProcessWebhook` every extracted mention, those of later
entries included, is attributed to that account: each lookup is made under `first.ID`,
and the id of a later entry that differs from it is never looked up. -/
theorem processMention_uses_first_entry (env : WebhookEnv) (w : World)
    (payload : WebhookPayload) (first : WebhookEntry) (rest : List WebhookEntry)
    (hE : payload.Entry = first :: rest) :
    (∀ (fault : Option GoError) (penv : ProcessEnv) (w1 : World) (mention : MentionValue),
      WebhookService.processMention fault penv w1 payload mention
        = WebhookService.processMention fault penv w1 { payload with Entry := [first] }
            mention
      ∧ (WebhookService.processMention fault penv w1 payload mention).lookups = [first.ID]
      ∧ (∀ a ∈ (WebhookService.processMention fault penv w1 payload mention).admissions,
          ∃ user, UserRepository.GetByThreadsUserID fault w1.users first.ID = .ok user
            ∧ a = (user.ID, mention.MediaID)))
    ∧ (∀ body, env.jsonUnmarshalPayload body = .ok payload →
        (WebhookService.ProcessWebhook env w body).lookups
          = List.replicate (ExtractMentions env.jsonMarshal env.jsonUnmarshal payload).length
              first.ID
        ∧ (∀ e ∈ rest, e.ID ≠ first.ID →
            e.ID ∉ (WebhookService.ProcessWebhook env w body).lookups)
        ∧ (∀ a ∈ (WebhookService.ProcessWebhook env w body).admissions,
            ∃ user k, UserRepository.GetByThreadsUserID (env.userErr k) w.users first.ID
              = .ok user ∧ a.1 = user.ID)) := by
  refine ⟨fun fault penv w1 mention => ?_, fun body hparse => ?_⟩
  · obtain ⟨h1, h2, _, h4⟩ := processMention_first fault penv w1 payload first rest mention hE
    exact ⟨h1, h2, h4⟩
  · obtain ⟨hl, hadm⟩ := ProcessWebhook_loop_first env payload first rest hE w.users
      (ExtractMentions env.jsonMarshal env.jsonUnmarshal payload) 0
      { err := none, world := w, spawned := [], events := [], lookups := [], admissions := [] }
      rfl
    have hrun : WebhookService.ProcessWebhook env w body
        = WebhookService.ProcessWebhook.loop env payload 0
            (ExtractMentions env.jsonMarshal env.jsonUnmarshal payload)
            { err := none, world := w, spawned := [], events := [], lookups := [],
              admissions := [] } := by
      simp only [WebhookService.ProcessWebhook, hparse]
    rw [hrun]
    refine ⟨by simpa using hl, fun e _ hne hmem => ?_, fun a ha => ?_⟩
    · rw [hl] at hmem
      simp only [List.nil_append] at hmem
      exact hne (List.eq_of_mem_replicate hmem)
    · rcases hadm a ha with h | h
      · simp at h
      · exact h

/-- Witness for C27: in `demoPayload` the mention of post `m2` sits in the entry of
account `t2`, yet both extracted mentions are looked up under `t1` and recorded for the
account with that Threads user id. -/
theorem processMention_uses_first_entry_witness :
    (WebhookService.ProcessWebhook demoWebhookEnv demoWorldAccounts []).lookups
        = List.replicate (ExtractMentions toyMarshal toyUnmarshal demoPayload).length "t1"
    ∧ (WebhookService.ProcessWebhook demoWebhookEnv demoWorldAccounts []).admissions
        = [(1, "m1"), (1, "m2")]
    ∧ (WebhookService.ProcessWebhook demoWebhookEnv demoWorldAccounts []).world.mentions.map
          (fun m => (m.UserID, m.ThreadsPostID))
        = [(1, "m1"), (1, "m2")] :=
  ⟨((processMention_uses_first_entry demoWebhookEnv demoWorldAccounts demoPayload _ _ rfl).2
      [] rfl).1, by decide, by decide⟩

/-! ## The fields `SkipReason` and `ReplyID` -/

/-- What a run writes and ends with, for a property `P` that holds of the mention once
marked `processing` and is kept by `SetAnalysis`, and a property `Q` that every terminal
mark establishes from `P`: each stored mention was stored before or has `P` or `Q`, and
so has the mention the run ends with. -/
theorem run_written (P Q : Mention → Prop) (env : AsyncEnv) (w : World) (m : Mention)
    (u : User) (h0 : P m.MarkProcessing)
    (hA : ∀ x a, P x → P (x.SetAnalysis a))
    (hF : ∀ x t r, P x → Q (x.MarkFailed t r))
    (hS : ∀ x t r, P x → Q (x.MarkSkipped t r))
    (hR : ∀ x t i, P x → Q (x.MarkReplied t i)) :
    (∀ n ∈ (processMentionAsync env w m u).world.mentions, n ∈ w.mentions ∨ P n ∨ Q n)
    ∧ (P (processMentionAsync env w m u).mention
      ∨ Q (processMentionAsync env w m u).mention) := by
  have hsave : ∀ (f : Option GoError) (w1 : World) (m1 : Mention),
      (∀ n ∈ w1.mentions, n ∈ w.mentions ∨ P n ∨ Q n) → (P m1 ∨ Q m1) →
      ∀ n ∈ (saveMention f w1 m1).1.mentions, n ∈ w.mentions ∨ P n ∨ Q n := by
    intro f w1 m1 hw hm n hn
    rcases saveMention_mem _ _ _ _ hn with h | h
    · exact hw n h
    · exact Or.inr (h ▸ hm)
  have hreply : ∀ (f : Option GoError) (w1 : World) (rcoll : List Reply) (r : Reply),
      (∀ n ∈ w1.mentions, n ∈ w.mentions ∨ P n ∨ Q n) →
      ∀ n ∈ (saveReply f { w1 with replies := rcoll } r).1.mentions,
        n ∈ w.mentions ∨ P n ∨ Q n := by
    intro f w1 rcoll r hw n hn
    rw [(saveReply_mentions _ _ _).1] at hn
    exact hw n hn
  cases h1 : MentionRepository.Update env.updProcessingErr w.mentions m.MarkProcessing with
  | error e =>
    have hrun : processMentionAsync env w m u
        = { world := w, mention := m.MarkProcessing, reply := none,
            events := [.statusEdge m.Status m.MarkProcessing.Status, .mentionUpdate false] } := by
      simp only [processMentionAsync, h1]
    rw [hrun]
    exact ⟨fun n hn => Or.inl hn, Or.inl h0⟩
  | ok coll =>
    have hq1 : ∀ n ∈ ({ w with mentions := coll } : World).mentions,
        n ∈ w.mentions ∨ P n ∨ Q n := by
      intro n hn
      have hn2 : n ∈ coll := hn
      rw [Update_ok h1] at hn2
      rcases mem_replaceFirst _ _ _ _ hn2 with h | h
      · exact Or.inl h
      · exact Or.inr (Or.inl (h ▸ h0))
    cases han : env.analyze m.Content m.Author.Username with
    | error e =>
      rw [processMentionAsync_analyze_error u h1 han]
      exact ⟨hsave _ _ _ hq1 (Or.inr (hF _ _ _ h0)), Or.inr (hF _ _ _ h0)⟩
    | ok a =>
      have hPa : P (m.MarkProcessing.SetAnalysis a) := hA _ _ h0
      have hq2 := hsave env.updAnalysisErr { w with mentions := coll }
        (m.MarkProcessing.SetAnalysis a) hq1 (Or.inl hPa)
      by_cases hspam : a.MentionType = MentionTypeSpam
      · rw [processMentionAsync_analyze_ok u h1 han, compose_spam _ _ u _ hspam]
        exact ⟨hsave _ _ _ hq2 (Or.inr (hS _ _ _ hPa)), Or.inr (hS _ _ _ hPa)⟩
      · cases hgen : (generateReply env u.ID (m.MarkProcessing.SetAnalysis a) a).1 with
        | error e =>
          rw [processMentionAsync_analyze_ok u h1 han,
            compose_generate_error _ _ u _ hspam hgen]
          exact ⟨hsave _ _ _ hq2 (Or.inr (hF _ _ _ hPa)), Or.inr (hF _ _ _ hPa)⟩
        | ok res =>
          obtain ⟨rc, tid⟩ := res
          cases hC : ReplyRepository.Create env.replyCreateErr
              (saveMention env.updAnalysisErr { w with mentions := coll }
                (m.MarkProcessing.SetAnalysis a)).1.replies
              (NewReply env.nowReply u.ID (m.MarkProcessing.SetAnalysis a).ID tid rc) with
          | error e =>
            rw [(processMentionAsync_to_deliver u h1 han hspam hgen).trans
              (deliver_create_error _ hC)]
            exact ⟨hq2, Or.inl hPa⟩
          | ok res2 =>
            obtain ⟨rcoll, rep⟩ := res2
            cases htok : env.accessToken u.ID with
            | error e =>
              rw [(processMentionAsync_to_deliver u h1 han hspam hgen).trans
                (deliver_token_error _ hC htok)]
              exact ⟨hsave _ _ _ (hreply _ _ _ _ hq2) (Or.inr (hF _ _ _ hPa)),
                Or.inr (hF _ _ _ hPa)⟩
            | ok tok =>
              cases hdel : env.createReply tok u.ThreadsUserID rc
                  (m.MarkProcessing.SetAnalysis a).ThreadsPostID with
              | error e =>
                rw [(processMentionAsync_to_deliver u h1 han hspam hgen).trans
                  (deliver_delivery_error _ hC htok hdel)]
                exact ⟨hsave _ _ _ (hreply _ _ _ _ hq2) (Or.inr (hF _ _ _ hPa)),
                  Or.inr (hF _ _ _ hPa)⟩
              | ok r =>
                rw [(processMentionAsync_to_deliver u h1 han hspam hgen).trans
                  (deliver_sent _ hC htok hdel)]
                exact ⟨hsave _ _ _ (hreply _ _ _ _ hq2) (Or.inr (hR _ _ _ hPa)),
                  Or.inr (hR _ _ _ hPa)⟩

/-- What `ProcessMention` writes and hands to the goroutine: a stored mention was
stored before or has no reply reference and is either without reason or `skipped`;
the mention given to the goroutine has no reply reference and no reason. -/
theorem ProcessMention_written (env : ProcessEnv) (w : World) (userID : ObjectID)
    (p : String) (author : MentionAuthor) (content : String) :
    (∀ n ∈ (ProcessMention env w userID p author content).world.mentions,
      n ∈ w.mentions ∨ (n.ReplyID = none ∧ (n.SkipReason = "" ∨ n.Status = .skipped)))
    ∧ (∀ m u, (ProcessMention env w userID p author content).spawned = some (m, u) →
        m.ReplyID = none ∧ m.SkipReason = "") := by
  have hskip : ∀ (coll : List Mention) (doc : Mention) (reason : String) (log : List Event),
      doc.ReplyID = none →
      (∀ n ∈ coll, n ∈ w.mentions
        ∨ (n.ReplyID = none ∧ (n.SkipReason = "" ∨ n.Status = .skipped))) →
      (∀ n ∈
          (ProcessMention.skip env { w with mentions := coll } doc reason log).world.mentions,
        n ∈ w.mentions ∨ (n.ReplyID = none ∧ (n.SkipReason = "" ∨ n.Status = .skipped)))
      ∧ (∀ m u, (ProcessMention.skip env { w with mentions := coll } doc reason log).spawned
          = some (m, u) → m.ReplyID = none ∧ m.SkipReason = "") := by
    intro coll doc reason log hdoc hcoll
    refine ⟨?_, fun m u h => ?_⟩
    · unfold ProcessMention.skip
      simp only
      split
      · exact hcoll
      · rename_i x coll1 hU
        intro n hn
        have hn2 : n ∈ coll1 := hn
        rw [Update_ok hU] at hn2
        rcases mem_replaceFirst _ _ _ _ hn2 with h | h
        · exact hcoll n h
        · right
          rw [h]
          exact ⟨hdoc, Or.inr rfl⟩
    · rw [(skip_spawns_nothing _ _ _ _ _).1] at h
      cases h
  have hid : (∀ n ∈ w.mentions,
        n ∈ w.mentions ∨ (n.ReplyID = none ∧ (n.SkipReason = "" ∨ n.Status = .skipped)))
      ∧ (∀ m u, (none : Option (Mention × User)) = some (m, u) →
          m.ReplyID = none ∧ m.SkipReason = "") :=
    ⟨fun n hn => Or.inl hn, fun m u h => by cases h⟩
  unfold ProcessMention ProcessMentionRaced
  split
  · exact hid
  · split
    · exact hid
    · split
      · exact hid
      · unfold ProcessMention.admitNew
        simp only [id]
        split
        · exact hid
        · rename_i x coll doc hC
          obtain ⟨_, hcoll, _, hdoc⟩ := Create_ok hC
          have hdocR : doc.ReplyID = none := by
            rw [hdoc]; split <;> rfl
          have hdocS : doc.SkipReason = "" := by
            rw [hdoc]; split <;> rfl
          have hq : ∀ n ∈ coll, n ∈ w.mentions
              ∨ (n.ReplyID = none ∧ (n.SkipReason = "" ∨ n.Status = .skipped)) := by
            intro n hn
            rw [hcoll] at hn
            rcases List.mem_append.mp hn with h | h
            · exact Or.inl h
            · rw [List.mem_singleton] at h
              rw [h]
              exact Or.inr ⟨hdocR, Or.inl hdocS⟩
          have hgo : ∀ usr : User,
              (∀ n ∈ ({ w with mentions := coll } : World).mentions, n ∈ w.mentions
                ∨ (n.ReplyID = none ∧ (n.SkipReason = "" ∨ n.Status = .skipped)))
              ∧ (∀ m u, some (doc, usr) = some (m, u) →
                  m.ReplyID = none ∧ m.SkipReason = "") := by
            intro usr
            refine ⟨hq, fun m u h => ?_⟩
            simp only [Option.some.injEq, Prod.mk.injEq] at h
            rw [← h.1]
            exact ⟨hdocR, hdocS⟩
          split
          · exact hskip coll doc _ _ hdocR hq
          · split
            · exact hgo _
            · split
              · exact hskip coll doc _ _ hdocR hq
              · exact hgo _

theorem pipeline_fields_inv (s : Pipeline) (h : Pipeline.Reachable s) :
    (∀ n ∈ s.world.mentions, n.ReplyID ≠ none → n.Status = .replied)
    ∧ (∀ n ∈ s.world.mentions, n.ID ∉ s.retried → n.SkipReason ≠ "" →
        n.Status = .skipped ∨ n.Status = .failed)
    ∧ (∀ g ∈ s.running, g.1.ReplyID = none)
    ∧ (∀ g ∈ s.running, g.1.ID ∉ s.retried → g.1.SkipReason = "") := by
  induction h with
  | start users =>
    refine ⟨fun n hn => ?_, fun n hn => ?_, fun g hg => ?_, fun g hg => ?_⟩ <;>
      simp [Pipeline.start] at *
  | accounts users _ ih => exact ih
  | @ingest s env userID p author content _ ih =>
    obtain ⟨i1, i2, i3, i4⟩ := ih
    obtain ⟨hw, hsp⟩ := ProcessMention_written env s.world userID p author content
    refine ⟨fun n hn hr => ?_, fun n hn hnr hs => ?_, fun g hg => ?_, fun g hg hnr => ?_⟩
    · rcases hw n hn with h | h
      · exact i1 n h hr
      · exact (hr h.1).elim
    · rcases hw n hn with h | h
      · exact i2 n h hnr hs
      · rcases h.2 with h2 | h2
        · exact (hs h2).elim
        · exact Or.inl h2
    · rcases List.mem_append.mp hg with h | h
      · exact i3 g h
      · obtain ⟨m, u⟩ := g
        exact (hsp m u (by simpa using h)).1
    · rcases List.mem_append.mp hg with h | h
      · exact i4 g h hnr
      · obtain ⟨m, u⟩ := g
        exact (hsp m u (by simpa using h)).2
  | @retry s env userID mentionID _ ih =>
    obtain ⟨i1, i2, i3, i4⟩ := ih
    obtain ⟨_, hworld, hsp⟩ := RetryMention_spawned env s.world userID mentionID
    have hsub : ∀ id : ObjectID,
        id ∉ (s.retry env userID mentionID).retried → id ∉ s.retried :=
      fun id hid hmem => hid (List.mem_append_left _ hmem)
    refine ⟨fun n hn hr => ?_, fun n hn hnr hs => ?_, fun g hg => ?_, fun g hg hnr => ?_⟩
    · have hn2 : n ∈ s.world.mentions := by
        have : (s.retry env userID mentionID).world = s.world := hworld
        rw [this] at hn; exact hn
      exact i1 n hn2 hr
    · have hn2 : n ∈ s.world.mentions := by
        have : (s.retry env userID mentionID).world = s.world := hworld
        rw [this] at hn; exact hn
      exact i2 n hn2 (hsub _ hnr) hs
    · rcases List.mem_append.mp hg with h | h
      · exact i3 g h
      · obtain ⟨m, u⟩ := g
        have hs : (RetryMention env s.world userID mentionID).spawned = some (m, u) := by
          simpa using h
        obtain ⟨hst, hget, _⟩ := hsp m u hs
        have hmem : m ∈ s.world.mentions :=
          List.mem_of_find?_eq_some (GetMention_ok hget).2.2
        cases hr : m.ReplyID with
        | none => rfl
        | some rid =>
          have := i1 m hmem (by rw [hr]; simp)
          rw [hst] at this
          cases this
    · rcases List.mem_append.mp hg with h | h
      · exact i4 g h (hsub _ hnr)
      · exfalso
        apply hnr
        apply List.mem_append_right
        exact List.mem_map_of_mem (fun g : Mention × User => g.1.ID) h
  | @run s env k _ ih =>
    obtain ⟨i1, i2, i3, i4⟩ := ih
    unfold Pipeline.run
    cases hk : s.running.get? k with
    | none => exact ⟨i1, i2, i3, i4⟩
    | some g =>
      obtain ⟨m, u⟩ := g
      have hmem : (m, u) ∈ s.running := List.get?_mem hk
      have hm3 : m.ReplyID = none := i3 _ hmem
      have hwr := run_written
        (fun n => n.ID = m.ID ∧ n.ReplyID = none ∧ n.SkipReason = m.SkipReason)
        (fun n => n.ID = m.ID
          ∧ ((n.ReplyID = none ∧ (n.Status = .skipped ∨ n.Status = .failed))
            ∨ (n.Status = .replied ∧ n.SkipReason = m.SkipReason)))
        env s.world m u ⟨rfl, hm3, rfl⟩
        (fun x a hx => hx)
        (fun x t r hx => ⟨hx.1, Or.inl ⟨hx.2.1, Or.inr rfl⟩⟩)
        (fun x t r hx => ⟨hx.1, Or.inl ⟨hx.2.1, Or.inl rfl⟩⟩)
        (fun x t i hx => ⟨hx.1, Or.inr ⟨rfl, hx.2.2⟩⟩)
      refine ⟨fun n hn hr => ?_, fun n hn hnr hs => ?_, fun g hg => ?_, fun g hg hnr => ?_⟩
      · rcases hwr.1 n hn with h | h | h
        · exact i1 n h hr
        · exact (hr h.2.1).elim
        · rcases h.2 with h2 | h2
          · exact (hr h2.1).elim
          · exact h2.1
      · rcases hwr.1 n hn with h | h | h
        · exact i2 n h hnr hs
        · have hm4 := i4 _ hmem (by rw [← h.1]; exact hnr)
          exact (hs (h.2.2.trans hm4)).elim
        · rcases h.2 with h2 | h2
          · exact h2.2
          · have hm4 := i4 _ hmem (by rw [← h.1]; exact hnr)
            exact (hs (h2.2.trans hm4)).elim
      · exact i3 g (List.mem_of_mem_eraseIdx hg)
      · exact i4 g (List.mem_of_mem_eraseIdx hg) hnr

/-- C26 (amended): in every state of the pipeline reachable from an empty store, retries
included, a stored mention has a reply reference only when its status is `replied`, and
a stored mention for which no `RetryMention` started a goroutine has a non-empty
`SkipReason` only when its status is `skipped` or `failed`; the same holds of the mention
a running goroutine ends with. (A retried mention keeps the reason of its failed attempt:
`MarkProcessing` and `MarkReplied` do not clear it.) -/
theorem mention_fields_of_reachable (s : Pipeline) (h : Pipeline.Reachable s) :
    (∀ n ∈ s.world.mentions, n.ReplyID ≠ none → n.Status = .replied)
    ∧ (∀ n ∈ s.world.mentions, n.ID ∉ s.retried → n.SkipReason ≠ "" →
        n.Status = .skipped ∨ n.Status = .failed)
    ∧ (∀ (env : AsyncEnv) (k : Nat) (m : Mention) (u : User),
        s.running.get? k = some (m, u) →
        ((processMentionAsync env s.world m u).mention.ReplyID ≠ none →
          (processMentionAsync env s.world m u).mention.Status = .replied)
        ∧ (m.ID ∉ s.retried →
            (processMentionAsync env s.world m u).mention.SkipReason ≠ "" →
            (processMentionAsync env s.world m u).mention.Status = .skipped
            ∨ (processMentionAsync env s.world m u).mention.Status = .failed)) := by
  obtain ⟨i1, i2, i3, i4⟩ := pipeline_fields_inv s h
  refine ⟨i1, i2, fun env k m u hk => ?_⟩
  have hmem : (m, u) ∈ s.running := List.get?_mem hk
  have hm3 : m.ReplyID = none := i3 _ hmem
  have hwr := (run_written
    (fun n => n.ID = m.ID ∧ n.ReplyID = none ∧ n.SkipReason = m.SkipReason)
    (fun n => n.ID = m.ID ∧ ((n.ReplyID = none ∧ (n.Status = .skipped ∨ n.Status = .failed))
      ∨ (n.Status = .replied ∧ n.SkipReason = m.SkipReason)))
    env s.world m u ⟨rfl, hm3, rfl⟩
    (fun x a hx => hx)
    (fun x t r hx => ⟨hx.1, Or.inl ⟨hx.2.1, Or.inr rfl⟩⟩)
    (fun x t r hx => ⟨hx.1, Or.inl ⟨hx.2.1, Or.inl rfl⟩⟩)
    (fun x t i hx => ⟨hx.1, Or.inr ⟨rfl, hx.2.2⟩⟩)).2
  refine ⟨fun hr => ?_, fun hnr hs => ?_⟩
  · rcases hwr with h1 | h1
    · exact (hr h1.2.1).elim
    · rcases h1.2 with h2 | h2
      · exact (hr h2.1).elim
      · exact h2.1
  · have hm4 := i4 _ hmem hnr
    rcases hwr with h1 | h1
    · exact (hs (h1.2.2.trans hm4)).elim
    · rcases h1.2 with h2 | h2
      · exact h2.2
      · exact (hs (h2.2.trans hm4)).elim

/-- Counterexample to C26 as stated: post `p1` is admitted, its goroutine fails at the
classifier, the mention is retried and the goroutine of the retry replies. In the state
reached the stored mention is `replied` and its `SkipReason` is still the reason of the
failed attempt. -/
theorem retried_mention_keeps_reason :
    Pipeline.Reachable demoPipelineRetried
    ∧ demoPipelineRetried.world.mentions.map (fun m => (m.Status, m.SkipReason))
        = [(.replied, "AI analysis failed: model overloaded")] :=
  ⟨Pipeline.Reachable.run _ _ (Pipeline.Reachable.retry _ _ _ (Pipeline.Reachable.run _ _
      (Pipeline.Reachable.ingest _ _ _ _ _ (Pipeline.Reachable.start _)))),
   by decide⟩

/-- Witness for C26 (amended): in the state of the counterexample the reply reference of
the stored mention goes with the status `replied`; and before the retry the stored
mention, never retried, carries its reason with the status `failed`. -/
theorem mention_fields_of_reachable_witness :
    (∀ n ∈ demoPipelineRetried.world.mentions, n.ReplyID ≠ none → n.Status = .replied)
    ∧ (∀ n ∈ demoPipelineFailed.world.mentions, n.ID ∉ demoPipelineFailed.retried →
        n.SkipReason ≠ "" → n.Status = .skipped ∨ n.Status = .failed)
    ∧ demoPipelineFailed.world.mentions.map (fun m => (m.Status, m.SkipReason, m.ReplyID))
        = [(.failed, "AI analysis failed: model overloaded", none)] :=
  ⟨(mention_fields_of_reachable demoPipelineRetried
      (Pipeline.Reachable.run _ _ (Pipeline.Reachable.retry _ _ _ (Pipeline.Reachable.run _ _
        (Pipeline.Reachable.ingest _ _ _ _ _ (Pipeline.Reachable.start _)))))).1,
   (mention_fields_of_reachable demoPipelineFailed
      (Pipeline.Reachable.run _ _
        (Pipeline.Reachable.ingest _ _ _ _ _ (Pipeline.Reachable.start _)))).2.1,
   by decide⟩

/-! ## `PullMentions`: visits and counters -/

theorem tally_snoc (vs : List PullVisit) (v : PullVisit) :
    tally (vs ++ [v])
      = { ThreadsChecked := (tally vs).ThreadsChecked + (if v.isThread then 1 else 0)
          NewMentions := (tally vs).NewMentions + (if v.isHandled then 1 else 0)
          Skipped := (tally vs).Skipped + (if v.isSkipped then 1 else 0)
          Errors := (tally vs).Errors + (if v.isError then 1 else 0) } := by
  unfold tally
  simp only [List.countP_append, List.countP_cons, List.countP_nil, Nat.zero_add,
    Nat.cast_add, PullMentionsResult.mk.injEq]
  refine ⟨?_, ?_, ?_, ?_⟩ <;> split <;> simp

/-- What one pass of the inner loop does: it appends one visit, about the reply, and
moves the counters by that visit. -/
theorem pull_reply_step (env : PullEnv) (user : User) (userID : ObjectID) (i j : Nat)
    (st : PullState) (reply : ReplyThread) :
    ∃ v, (PullMentions.reply env user userID i j st reply).visits = st.visits ++ [v]
      ∧ v.target = (reply.ID, false)
      ∧ (st.result = tally st.visits →
          (PullMentions.reply env user userID i j st reply).result = tally (st.visits ++ [v]))
      ∧ (v = .failed reply.ID →
          (PullMentions.reply env user userID i j st reply).result
            = { st.result with Errors := st.result.Errors + 1 }) := by
  unfold PullMentions.reply
  split
  · refine ⟨.own reply.ID, rfl, rfl, fun h => ?_, fun h => by cases h⟩
    rw [tally_snoc, ← h]
    simp [PullVisit.isThread, PullVisit.isHandled, PullVisit.isSkipped, PullVisit.isError]
  · split
    · refine ⟨.known reply.ID, rfl, rfl, fun h => ?_, fun h => by cases h⟩
      rw [tally_snoc, ← h]
      simp [PullVisit.isThread, PullVisit.isHandled, PullVisit.isSkipped, PullVisit.isError]
    · simp only
      split
      · refine ⟨.failed reply.ID, rfl, rfl, fun h => ?_, fun _ => rfl⟩
        rw [tally_snoc, ← h]
        simp [PullVisit.isThread, PullVisit.isHandled, PullVisit.isSkipped, PullVisit.isError]
      · refine ⟨.handled reply.ID, rfl, rfl, fun h => ?_, fun h => by cases h⟩
        rw [tally_snoc, ← h]
        simp [PullVisit.isThread, PullVisit.isHandled, PullVisit.isSkipped, PullVisit.isError]

theorem pull_replies_loop (env : PullEnv) (user : User) (userID : ObjectID) (i : Nat)
    (replies : List ReplyThread) :
    ∀ (j : Nat) (st : PullState),
      ∃ vs, (PullMentions.replies env user userID i j replies st).visits = st.visits ++ vs
        ∧ vs.map PullVisit.target = replies.map (fun r => (r.ID, false))
        ∧ (st.result = tally st.visits →
            (PullMentions.replies env user userID i j replies st).result
              = tally (st.visits ++ vs)) := by
  induction replies with
  | nil =>
    intro j st
    exact ⟨[], by simp [PullMentions.replies], rfl, fun h => by
      simpa [PullMentions.replies] using h⟩
  | cons r rs ih =>
    intro j st
    obtain ⟨v, hv, ht, hres, _⟩ := pull_reply_step env user userID i j st r
    obtain ⟨vs, hvs, hts, hress⟩ := ih (j + 1) (PullMentions.reply env user userID i j st r)
    refine ⟨v :: vs, ?_, ?_, fun h => ?_⟩
    · simp only [PullMentions.replies]
      rw [hvs, hv]
      simp
    · simp [ht, hts]
    · simp only [PullMentions.replies]
      have := hress (by rw [hv]; exact hres h)
      rw [this, hv]
      simp

theorem pull_thread_step (env : PullEnv) (user : User) (userID : ObjectID)
    (accessToken : String) (i : Nat) (st : PullState) (t : ConversationThread) :
    ∃ vs, (PullMentions.thread env user userID accessToken i st t).visits = st.visits ++ vs
      ∧ vs.map PullVisit.target = threadTargets env accessToken t
      ∧ (st.result = tally st.visits →
          (PullMentions.thread env user userID accessToken i st t).result
            = tally (st.visits ++ vs)) := by
  unfold PullMentions.thread threadTargets
  simp only
  cases hg : env.getReplies accessToken t.ID true with
  | error e =>
    refine ⟨[.thread t.ID false], rfl, rfl, fun h => ?_⟩
    simp only
    rw [tally_snoc, ← h]
    simp [PullVisit.isThread, PullVisit.isHandled, PullVisit.isSkipped, PullVisit.isError]
  | ok replies =>
    simp only
    obtain ⟨vs, hvs, hts, hres⟩ := pull_replies_loop env user userID i replies 0
      { st with result := { st.result with ThreadsChecked := st.result.ThreadsChecked + 1 }
                visits := st.visits ++ [.thread t.ID true] }
    refine ⟨.thread t.ID true :: vs, ?_, ?_, fun h => ?_⟩
    · rw [hvs]; simp
    · simp [hts, PullVisit.target]
    · have h2 := hres (by
        simp only
        rw [tally_snoc, ← h]
        simp [PullVisit.isThread, PullVisit.isHandled, PullVisit.isSkipped, PullVisit.isError])
      rw [h2]
      simp

theorem pull_threads_loop (env : PullEnv) (user : User) (userID : ObjectID)
    (accessToken : String) (threads : List ConversationThread) :
    ∀ (i : Nat) (st : PullState),
      ∃ vs, (PullMentions.threads env user userID accessToken i threads st).visits
          = st.visits ++ vs
        ∧ vs.map PullVisit.target = threads.flatMap (threadTargets env accessToken)
        ∧ (st.result = tally st.visits →
            (PullMentions.threads env user userID accessToken i threads st).result
              = tally (st.visits ++ vs)) := by
  induction threads with
  | nil =>
    intro i st
    exact ⟨[], by simp [PullMentions.threads], rfl, fun h => by
      simpa [PullMentions.threads] using h⟩
  | cons t ts ih =>
    intro i st
    obtain ⟨v, hv, ht, hres⟩ := pull_thread_step env user userID accessToken i st t
    obtain ⟨vs, hvs, hts, hress⟩ := ih (i + 1)
      (PullMentions.thread env user userID accessToken i st t)
    refine ⟨v ++ vs, ?_, ?_, fun h => ?_⟩
    · simp only [PullMentions.threads]
      rw [hvs, hv]
      simp
    · simp [ht, hts, List.flatMap_cons]
    · simp only [PullMentions.threads]
      have := hress (by rw [hv]; exact hres h)
      rw [this, hv]
      simp

/-- The run of `PullMentions` once the account, the credential and the posts were
obtained. -/
theorem PullMentions_of_fetched {env : PullEnv} {w : World} {userID : ObjectID} {user : User}
    {tok : String} {threads : List ConversationThread}
    (huser : UserRepository.GetByID env.userErr w.users userID = .ok user)
    (htok : env.accessToken userID = .ok tok)
    (hthreads : env.getUserThreads tok user.ThreadsUserID 25 (env.nowPull - 24 * hour)
      = .ok threads) :
    (PullMentions env w userID).state
      = PullMentions.threads env user userID tok 0 threads (PullState.init w)
    ∧ (PullMentions env w userID).ret
      = .ok (PullMentions.threads env user userID tok 0 threads (PullState.init w)).result := by
  constructor <;> simp only [PullMentions, huser, htok, hthreads]

/-- C24: once the account, its credential and its posts were obtained, `PullMentions`
returns a result and a nil error. Every post is visited in order, and so is every reply
of every post whose replies were fetched, whatever failed before: a failed `GetReplies`
moves only `ThreadsChecked` and `Errors` and leaves the database as it is, and a failed
`ProcessMention` moves only `Errors`. -/
theorem PullMentions_visits_all (env : PullEnv) (w : World) (userID : ObjectID) (user : User)
    (tok : String) (threads : List ConversationThread)
    (huser : UserRepository.GetByID env.userErr w.users userID = .ok user)
    (htok : env.accessToken userID = .ok tok)
    (hthreads : env.getUserThreads tok user.ThreadsUserID 25 (env.nowPull - 24 * hour)
      = .ok threads) :
    (PullMentions env w userID).ret = .ok (PullMentions env w userID).state.result
    ∧ (PullMentions env w userID).state.visits.map PullVisit.target
        = threads.flatMap (fun t =>
            (t.ID, true) ::
              (match env.getReplies tok t.ID true with
               | .ok replies => replies.map (fun r => (r.ID, false))
               | .error _ => []))
    ∧ (∀ (i : Nat) (st : PullState) (t : ConversationThread) (e : GoError),
        env.getReplies tok t.ID true = .error e →
        PullMentions.thread env user userID tok i st t
          = { st with
              result := { st.result with ThreadsChecked := st.result.ThreadsChecked + 1
                                         Errors := st.result.Errors + 1 }
              visits := st.visits ++ [.thread t.ID false] })
    ∧ (∀ (i j : Nat) (st : PullState) (reply : ReplyThread),
        (PullMentions.reply env user userID i j st reply).visits
            = st.visits ++ [.failed reply.ID] →
        (PullMentions.reply env user userID i j st reply).result
          = { st.result with Errors := st.result.Errors + 1 }) := by
  obtain ⟨hstate, hret⟩ := PullMentions_of_fetched huser htok hthreads
  refine ⟨?_, ?_, ?_, ?_⟩
  · rw [hret, hstate]
  · rw [hstate]
    obtain ⟨vs, hvs, hts, _⟩ := pull_threads_loop env user userID tok threads 0
      (PullState.init w)
    rw [hvs]
    show List.map PullVisit.target ([] ++ vs) = _
    rw [List.nil_append, hts]
    rfl
  · intro i st t e he
    simp only [PullMentions.thread, he]
  · intro i j st reply hv
    obtain ⟨v, hv2, _, _, hfail⟩ := pull_reply_step env user userID i j st reply
    apply hfail
    rw [hv2] at hv
    simpa using hv

/-- Witness for C24: the replies of `T1` cannot be fetched and the `Create` for `r3`
fails; `T2` and `T3` and all their replies are visited all the same. -/
theorem PullMentions_visits_all_witness :
    (PullMentions demoPullEnvFaulty demoWorld 1).state.visits.map PullVisit.target
        = demoThreads.flatMap (fun t =>
            (t.ID, true) ::
              (match demoPullEnvFaulty.getReplies "token" t.ID true with
               | .ok replies => replies.map (fun r => (r.ID, false))
               | .error _ => []))
    ∧ (PullMentions demoPullEnvFaulty demoWorld 1).state.visits
        = [.thread "T1" false, .thread "T2" true, .own "r1", .handled "r2", .failed "r3",
           .thread "T3" true, .handled "r4"]
    ∧ (PullMentions demoPullEnvFaulty demoWorld 1).state.result
        = { ThreadsChecked := 3, NewMentions := 2, Skipped := 1, Errors := 2 } :=
  ⟨(PullMentions_visits_all demoPullEnvFaulty demoWorld 1 demoUser "token" demoThreads
      rfl rfl rfl).2.1, by decide, by decide⟩

theorem length_replaceFirst {α : Type} (p : α → Bool) (new : α) (l : List α) :
    (replaceFirst p new l).length = l.length := by
  induction l with
  | nil => rfl
  | cons x xs ih =>
    unfold replaceFirst
    split
    · rfl
    · simp [ih]

theorem createdCount_append (l1 l2 : List Event) :
    createdCount (l1 ++ l2) = createdCount l1 + createdCount l2 := by
  simp [createdCount, List.countP_append]

theorem skip_length (env : ProcessEnv) (w : World) (doc : Mention) (reason : String)
    (log : List Event) :
    (ProcessMention.skip env w doc reason log).world.mentions.length = w.mentions.length
    ∧ createdCount (ProcessMention.skip env w doc reason log).events = createdCount log := by
  unfold ProcessMention.skip
  simp only
  split
  · exact ⟨rfl, by simp [createdCount_append, createdCount, isCreated]⟩
  · rename_i x coll hU
    refine ⟨?_, by simp [createdCount_append, createdCount, isCreated]⟩
    show coll.length = w.mentions.length
    rw [Update_ok hU, length_replaceFirst]

/-- The number of documents that a `ProcessMention` call adds to the `mentions`
collection is the number of its successful `Create` calls. -/
theorem ProcessMention_length (env : ProcessEnv) (w : World) (userID : ObjectID)
    (p : String) (author : MentionAuthor) (content : String) :
    (ProcessMention env w userID p author content).world.mentions.length
      = w.mentions.length + createdCount (ProcessMention env w userID p author content).events := by
  unfold ProcessMention ProcessMentionRaced
  split
  · rfl
  · split
    · rfl
    · split
      · rfl
      · unfold ProcessMention.admitNew
        simp only [id]
        split
        · rfl
        · rename_i x coll doc hC
          obtain ⟨_, hcoll, _, _⟩ := Create_ok hC
          have hlen : coll.length = w.mentions.length + 1 := by
            rw [hcoll]; simp
          split
          · obtain ⟨h1, h2⟩ := skip_length env { w with mentions := coll } doc
              "matched skip criteria" [.mentionCreate true]
            rw [h1, h2]
            exact hlen
          · split
            · exact hlen
            · split
              · obtain ⟨h1, h2⟩ := skip_length env { w with mentions := coll } doc
                  "rate limit exceeded" [.mentionCreate true, .countQuery]
                rw [h1, h2]
                exact hlen
              · exact hlen

/-- For a post id that is not stored, on a loaded account with auto-reply on and with
an `Update` that does not fail, `ProcessMention` returns nil exactly when its `Create`
stored the mention. -/
theorem ProcessMention_created_of_new (env : ProcessEnv) (w : World) (userID : ObjectID)
    (p : String) (author : MentionAuthor) (content : String) (user : User)
    (huser : UserRepository.GetByID none w.users userID = .ok user)
    (hauto : user.AutoReplyEnabled = true)
    (hnew : ∀ d ∈ w.mentions, d.ThreadsPostID ≠ p) (hupd : env.updateErr = none) :
    createdCount (ProcessMention env w userID p author content).events
      = (if (ProcessMention env w userID p author content).err = none then 1 else 0) := by
  cases hf : env.userErr with
  | some e =>
    have hrun : ProcessMention env w userID p author content
        = { err := some (.wrap "failed to get user" e), world := w, spawned := none,
            events := [] } := by
      simp [ProcessMention, ProcessMentionRaced, UserRepository.GetByID, hf]
    rw [hrun]
    rfl
  | none =>
    have huser2 : UserRepository.GetByID env.userErr w.users userID = .ok user := by
      rw [hf]; exact huser
    obtain ⟨e, hmiss⟩ := lookup_miss env.lookupErr hnew
    have hadm : ProcessMention env w userID p author content
        = ProcessMention.admitNew env w user userID p author content := by
      unfold ProcessMention
      rw [ProcessMentionRaced_of_lookup_miss huser2 hauto hmiss]
      rfl
    rw [hadm]
    unfold ProcessMention.admitNew
    simp only
    cases hC : MentionRepository.Create env.createErr w.mentions
        (NewMention env.nowCreated userID p author content) with
    | error e2 => rfl
    | ok res =>
      obtain ⟨coll, doc⟩ := res
      obtain ⟨_, hcoll, hfresh, _⟩ := Create_ok hC
      subst hcoll
      have hfreshID : ∀ d ∈ w.mentions, d.ID ≠ doc.ID := fun d hd => (hfresh d hd).1
      simp only
      split
      · rw [skip_after_Create (w := w) _ _ hfreshID hupd]
        rfl
      · split
        · rfl
        · split
          · rw [skip_after_Create (w := w) _ _ hfreshID hupd]
            rfl
          · rfl

theorem isThread_eq_target (v : PullVisit) : v.isThread = v.target.2 := by
  cases v <;> rfl

theorem countP_thread_targets (env : PullEnv) (tok : String)
    (threads : List ConversationThread) :
    (threads.flatMap (threadTargets env tok)).countP (fun x => x.2) = threads.length := by
  induction threads with
  | nil => rfl
  | cons t ts ih =>
    rw [List.flatMap_cons, List.countP_append, ih]
    have : (threadTargets env tok t).countP (fun x => x.2) = 1 := by
      unfold threadTargets
      rw [List.countP_cons_of_pos _ _ (by rfl)]
      split
      · simp [List.countP_map]
      · rfl
    rw [this]
    simp [Nat.add_comm]

/-- A property of the state of `PullMentions` kept by each pass of the inner loop and by
the bookkeeping of the outer loop holds when the loops end. -/
theorem pull_threads_inv (I : PullState → Prop) (env : PullEnv) (user : User)
    (userID : ObjectID) (tok : String)
    (hreply : ∀ i j st reply, I st → I (PullMentions.reply env user userID i j st reply))
    (hthread : ∀ (st : PullState) (r : PullMentionsResult) (id : String) (b : Bool),
      I st → I { st with result := r, visits := st.visits ++ [.thread id b] })
    (threads : List ConversationThread) :
    ∀ (i : Nat) (st : PullState), I st →
      I (PullMentions.threads env user userID tok i threads st) := by
  have hreplies : ∀ (i : Nat) (replies : List ReplyThread) (j : Nat) (st : PullState),
      I st → I (PullMentions.replies env user userID i j replies st) := by
    intro i replies
    induction replies with
    | nil => intro j st h; exact h
    | cons r rs ih =>
      intro j st h
      exact ih (j + 1) _ (hreply i j st r h)
  induction threads with
  | nil => intro i st h; exact h
  | cons t ts ih =>
    intro i st h
    apply ih (i + 1)
    unfold PullMentions.thread
    simp only
    split
    · exact hthread st _ _ _ h
    · exact hreplies i _ 0 _ (hthread st _ _ _ h)

theorem GetByID_no_fault {fault : Option GoError} {users : List User} {userID : ObjectID}
    {user : User} (h : UserRepository.GetByID fault users userID = .ok user) :
    UserRepository.GetByID none users userID = .ok user := by
  cases fault with
  | none => exact h
  | some e => simp [UserRepository.GetByID] at h

theorem lookup_error_not_stored {coll : List Mention} {p : String} {e : GoError}
    (h : MentionRepository.GetByThreadsPostID none coll p = .error e) :
    ∀ d ∈ coll, d.ThreadsPostID ≠ p := by
  intro d hd hp
  simp only [MentionRepository.GetByThreadsPostID] at h
  cases hf : coll.find? (fun d => d.ThreadsPostID == p) with
  | some x => rw [hf] at h; cases h
  | none =>
    rw [List.find?_eq_none] at hf
    have := hf d hd
    simp [hp] at this

theorem pull_created_length (env : PullEnv) (w : World) (user : User) (userID : ObjectID)
    (tok : String) (threads : List ConversationThread) :
    (PullMentions.threads env user userID tok 0 threads (PullState.init w)).world.mentions.length
      = w.mentions.length
        + createdCount (PullMentions.threads env user userID tok 0 threads
            (PullState.init w)).events := by
  refine pull_threads_inv
    (fun st => st.world.mentions.length = w.mentions.length + createdCount st.events)
    env user userID tok ?_ ?_ threads 0 (PullState.init w) rfl
  · intro i j st reply h
    unfold PullMentions.reply
    split
    · exact h
    · split
      · exact h
      · simp only
        split
        · simp only
          rw [ProcessMention_length, createdCount_append, h]
          omega
        · simp only
          rw [ProcessMention_length, createdCount_append, h]
          omega
  · intro st r id b h
    exact h

theorem pull_handled_created (env : PullEnv) (w : World) (user : User) (userID : ObjectID)
    (tok : String) (threads : List ConversationThread)
    (huser : UserRepository.GetByID none w.users userID = .ok user)
    (hauto : user.AutoReplyEnabled = true)
    (hok : ∀ i j, env.lookupErr i j = none ∧ (env.penv i j).updateErr = none) :
    createdCount (PullMentions.threads env user userID tok 0 threads (PullState.init w)).events
      = (PullMentions.threads env user userID tok 0 threads
          (PullState.init w)).visits.countP PullVisit.isHandled := by
  have hinv := pull_threads_inv
    (fun st => st.world.users = w.users
      ∧ createdCount st.events = st.visits.countP PullVisit.isHandled)
    env user userID tok ?_ ?_ threads 0 (PullState.init w) ⟨rfl, rfl⟩
  · exact hinv.2
  · intro i j st reply h
    obtain ⟨hu, hc⟩ := h
    unfold PullMentions.reply
    split
    · exact ⟨hu, by simp [List.countP_append, PullVisit.isHandled, hc]⟩
    · split
      · exact ⟨hu, by simp [List.countP_append, PullVisit.isHandled, hc]⟩
      · rename_i x e hlook
        rw [(hok i j).1] at hlook
        have hnew := lookup_error_not_stored hlook
        have huser2 : UserRepository.GetByID none st.world.users userID = .ok user := by
          rw [hu]; exact huser
        have hcr := ProcessMention_created_of_new (env.penv i j) st.world userID reply.ID
          { ThreadsUserID := reply.Username, Username := reply.Username, DisplayName := "" }
          reply.Text user huser2 hauto hnew (hok i j).2
        have husers := ProcessMention_users (env.penv i j) st.world userID reply.ID
          { ThreadsUserID := reply.Username, Username := reply.Username, DisplayName := "" }
          reply.Text
        simp only
        split
        · rename_i e2 herr
          rw [herr] at hcr
          refine ⟨husers.trans hu, ?_⟩
          simp only [createdCount_append, hcr, List.countP_append, hc]
          simp [PullVisit.isHandled]
        · rename_i herr
          rw [herr] at hcr
          refine ⟨husers.trans hu, ?_⟩
          simp only [createdCount_append, hcr, List.countP_append, hc]
          simp [PullVisit.isHandled]
  · intro st r id b h
    exact ⟨h.1, by simp [List.countP_append, PullVisit.isHandled, h.2]⟩

/-- C23 (amended): when `PullMentions` returns a result, `ThreadsChecked` is the number
of posts fetched; `Skipped` is the number of replies visited that are the account's own
or whose post id the lookup found recorded; `Errors` is the number of posts whose
`GetReplies` failed plus the number of replies whose `ProcessMention` returned an error;
and `NewMentions` is the number of replies whose `ProcessMention` returned nil. The
number of mentions the run added to the store is the number of its successful `Create`
calls, and this is `NewMentions` when the account has auto-reply on and no lookup and no
`Update` of the run fails. -/
theorem PullMentions_counters (env : PullEnv) (w : World) (userID : ObjectID) (user : User)
    (tok : String) (threads : List ConversationThread)
    (huser : UserRepository.GetByID env.userErr w.users userID = .ok user)
    (htok : env.accessToken userID = .ok tok)
    (hthreads : env.getUserThreads tok user.ThreadsUserID 25 (env.nowPull - 24 * hour)
      = .ok threads) :
    (PullMentions env w userID).ret = .ok (tally (PullMentions env w userID).state.visits)
    ∧ (PullMentions env w userID).state.result.ThreadsChecked = threads.length
    ∧ (PullMentions env w userID).state.result.Skipped
        = (PullMentions env w userID).state.visits.countP PullVisit.isSkipped
    ∧ (PullMentions env w userID).state.result.Errors
        = (PullMentions env w userID).state.visits.countP PullVisit.isError
    ∧ (PullMentions env w userID).state.result.NewMentions
        = (PullMentions env w userID).state.visits.countP PullVisit.isHandled
    ∧ (∀ (i j : Nat) (st : PullState) (reply : ReplyThread),
        (PullMentions.reply env user userID i j st reply).visits
          = st.visits ++
            [if reply.Username = user.Username then .own reply.ID
             else if (MentionRepository.GetByThreadsPostID (env.lookupErr i j)
                 st.world.mentions reply.ID).toOption.isSome then .known reply.ID
             else if (ProcessMention (env.penv i j) st.world userID reply.ID
                 { ThreadsUserID := reply.Username, Username := reply.Username,
                   DisplayName := "" } reply.Text).err.isSome then .failed reply.ID
             else .handled reply.ID])
    ∧ (PullMentions env w userID).state.world.mentions.length
        = w.mentions.length + createdCount (PullMentions env w userID).state.events
    ∧ (user.AutoReplyEnabled = true →
        (∀ i j, env.lookupErr i j = none ∧ (env.penv i j).updateErr = none) →
        (PullMentions env w userID).state.result.NewMentions
          = createdCount (PullMentions env w userID).state.events) := by
  obtain ⟨hstate, hret⟩ := PullMentions_of_fetched huser htok hthreads
  obtain ⟨vs, hvs, hts, hres⟩ := pull_threads_loop env user userID tok threads 0
    (PullState.init w)
  have hvis : (PullMentions env w userID).state.visits = vs := by
    rw [hstate, hvs]; rfl
  have hresult : (PullMentions env w userID).state.result = tally vs := by
    rw [hstate, hres rfl]; rfl
  refine ⟨?_, ?_, ?_, ?_, ?_, ?_, ?_, ?_⟩
  · rw [hret, ← hstate, hresult, hvis]
  · rw [hresult]
    show ((vs.countP PullVisit.isThread : Nat) : Int) = threads.length
    have h1 : vs.countP PullVisit.isThread = (vs.map PullVisit.target).countP (fun x => x.2) := by
      rw [List.countP_map]
      congr 1
      funext v
      exact isThread_eq_target v
    rw [h1, hts, countP_thread_targets]
  · rw [hresult, hvis]; rfl
  · rw [hresult, hvis]; rfl
  · rw [hresult, hvis]; rfl
  · intro i j st reply
    unfold PullMentions.reply
    split
    · rfl
    · split
      · rename_i x m hm
        simp [hm, Except.toOption]
      · rename_i x e hm
        simp only [hm, Except.toOption, Option.isSome_none, Bool.false_eq_true, if_false]
        split
        · rename_i e2 herr
          simp [herr]
        · rename_i herr
          simp [herr]
  · rw [hstate]
    exact pull_created_length env w user userID tok threads
  · intro hauto hok
    rw [hresult, hstate]
    rw [pull_handled_created env w user userID tok threads (GetByID_no_fault huser) hauto hok,
      hvs]
    rfl

/-- Counterexample to C23 as stated: the account has auto-reply off. `PullMentions`
counts three new mentions, while no mention is created: the store stays empty and no
`Create` is called. -/
theorem PullMentions_counts_without_record :
    (PullMentions demoPullEnv demoWorldOff 1).state.result
        = { ThreadsChecked := 3, NewMentions := 3, Skipped := 1, Errors := 1 }
    ∧ (PullMentions demoPullEnv demoWorldOff 1).ret.toOption
        = some (PullMentions demoPullEnv demoWorldOff 1).state.result
    ∧ (PullMentions demoPullEnv demoWorldOff 1).state.world.mentions = []
    ∧ createdCount (PullMentions demoPullEnv demoWorldOff 1).state.events = 0 := by
  decide

/-- Witness for C23 (amended): with auto-reply on, one failed `GetReplies` and one failed
`Create`, the counters are 3 posts, 2 new mentions, 1 skipped, 2 errors, and the two new
mentions are the two records created. -/
theorem PullMentions_counters_witness :
    (PullMentions demoPullEnvFaulty demoWorld 1).state.result.NewMentions
        = createdCount (PullMentions demoPullEnvFaulty demoWorld 1).state.events
    ∧ (PullMentions demoPullEnvFaulty demoWorld 1).state.result
        = { ThreadsChecked := 3, NewMentions := 2, Skipped := 1, Errors := 2 }
    ∧ (PullMentions demoPullEnvFaulty demoWorld 1).state.world.mentions.map
          (fun m => m.ThreadsPostID)
        = ["r2", "r4"] :=
  ⟨(PullMentions_counters demoPullEnvFaulty demoWorld 1 demoUser "token" demoThreads
      rfl rfl rfl).2.2.2.2.2.2.2 rfl
      (fun i j => ⟨rfl, by
        show (if i = 1 ∧ j = 2 then
          ({ demoEnv with createErr := some (.other "write failed") } : ProcessEnv)
          else demoEnv).updateErr = none
        split <;> rfl⟩),
   by decide, by decide⟩

/-! ## `PullMentions` run twice -/

theorem keysOf_of_shape {w w1 : World} {id : ObjectID} {p : String}
    (h : admittedShape w.mentions id p w1.mentions) :
    keysOf w1 = keysOf w ++ [(id, p)] := by
  obtain ⟨d, hcoll, hid, hp⟩ := h
  unfold keysOf
  rw [hcoll, List.map_append, List.map_singleton, hid, hp]

/-- What `admitNew` does to the stored keys: either nothing changes (and then the post id
is already stored when the `Create` did not fail for another reason), or one key with a
new identifier and the post id is appended, which is the key of the mention handed to
the goroutine if one is started. -/
theorem admitNew_keys (env : ProcessEnv) (w : World) (user : User) (userID : ObjectID)
    (p : String) (author : MentionAuthor) (content : String) :
    ((ProcessMention.admitNew env w user userID p author content).world = w
      ∧ (ProcessMention.admitNew env w user userID p author content).spawned = none
      ∧ (env.createErr = none → p ∈ (keysOf w).map Prod.snd))
    ∨ (∃ id, id ∉ (keysOf w).map Prod.fst
      ∧ keysOf (ProcessMention.admitNew env w user userID p author content).world
          = keysOf w ++ [(id, p)]
      ∧ ∀ m u, (ProcessMention.admitNew env w user userID p author content).spawned
          = some (m, u) → m.ID = id ∧ m.ThreadsPostID = p) := by
  unfold ProcessMention.admitNew
  simp only
  split
  · rename_i x e hC
    left
    refine ⟨rfl, rfl, fun hnil => ?_⟩
    rw [hnil] at hC
    by_cases hany : (w.mentions.any fun d =>
        d.ID == freshID (w.mentions.map fun d => d.ID) || d.ThreadsPostID == p) = true
    · rw [List.any_eq_true] at hany
      obtain ⟨d, hd, hdp⟩ := hany
      have h1 : d.ID ≠ freshID (w.mentions.map fun d => d.ID) := by
        intro h
        have hmem : d.ID ∈ w.mentions.map (fun d => d.ID) :=
          List.mem_map_of_mem (fun (d : Mention) => d.ID) hd
        rw [h] at hmem
        exact freshID_not_mem _ hmem
      have h2 : d.ThreadsPostID = p := by simpa [h1] using hdp
      unfold keysOf
      rw [List.map_map]
      exact List.mem_map.mpr ⟨d, hd, h2⟩
    · simp [MentionRepository.Create, NewMention, hany] at hC
  · rename_i x coll doc hC
    right
    obtain ⟨_, hcoll, hfresh, hdoc⟩ := Create_ok hC
    have hdocPost : doc.ThreadsPostID = p := by rw [hdoc]; simp [NewMention]
    have hfreshID : ∀ x ∈ w.mentions, x.ID ≠ doc.ID := fun x hx => (hfresh x hx).1
    have hnot : doc.ID ∉ (keysOf w).map Prod.fst := by
      unfold keysOf
      rw [List.map_map]
      intro hmem
      obtain ⟨d, hd, hdid⟩ := List.mem_map.mp hmem
      exact hfreshID d hd hdid
    have hbase : keysOf ({ w with mentions := coll } : World) = keysOf w ++ [(doc.ID, p)] := by
      unfold keysOf
      rw [show ({ w with mentions := coll } : World).mentions = coll from rfl, hcoll,
        List.map_append, List.map_singleton, hdocPost]
    refine ⟨doc.ID, hnot, ?_⟩
    subst hcoll
    split
    · refine ⟨?_, ?_⟩
      · have := skip_shape env { w with mentions := w.mentions ++ [doc] } w.mentions doc
          "matched skip criteria" [.mentionCreate true] rfl hfreshID
        rw [hdocPost] at this
        exact keysOf_of_shape this
      · intro m u h
        rw [(skip_spawns_nothing _ _ _ _ _).1] at h
        cases h
    · split
      · refine ⟨hbase, ?_⟩
        intro m u h
        simp only [Option.some.injEq, Prod.mk.injEq] at h
        rw [← h.1]
        exact ⟨rfl, hdocPost⟩
      · split
        · refine ⟨?_, ?_⟩
          · have := skip_shape env { w with mentions := w.mentions ++ [doc] } w.mentions doc
              "rate limit exceeded" [.mentionCreate true, .countQuery] rfl hfreshID
            rw [hdocPost] at this
            exact keysOf_of_shape this
          · intro m u h
            rw [(skip_spawns_nothing _ _ _ _ _).1] at h
            cases h
        · refine ⟨hbase, ?_⟩
          intro m u h
          simp only [Option.some.injEq, Prod.mk.injEq] at h
          rw [← h.1]
          exact ⟨rfl, hdocPost⟩

/-- What `ProcessMention` does to the stored keys. When nothing changes and the account
is loaded with auto-reply on and the `Create` does not fail for a reason other than a
duplicate, the post id is already stored. -/
theorem ProcessMention_keys (env : ProcessEnv) (w : World) (userID : ObjectID)
    (p : String) (author : MentionAuthor) (content : String) :
    ((ProcessMention env w userID p author content).world = w
      ∧ (ProcessMention env w userID p author content).spawned = none
      ∧ (∀ user, UserRepository.GetByID env.userErr w.users userID = .ok user →
          user.AutoReplyEnabled = true → env.createErr = none →
          p ∈ (keysOf w).map Prod.snd))
    ∨ (∃ id, id ∉ (keysOf w).map Prod.fst
      ∧ keysOf (ProcessMention env w userID p author content).world = keysOf w ++ [(id, p)]
      ∧ ∀ m u, (ProcessMention env w userID p author content).spawned = some (m, u) →
          m.ID = id ∧ m.ThreadsPostID = p) := by
  unfold ProcessMention ProcessMentionRaced
  split
  · rename_i x e hu
    left
    refine ⟨rfl, rfl, fun user huser _ _ => ?_⟩
    rw [hu] at huser
    cases huser
  · rename_i x user hu
    split
    · rename_i hauto
      left
      refine ⟨rfl, rfl, fun user2 huser hauto2 _ => ?_⟩
      rw [hu] at huser
      simp only [Except.ok.injEq] at huser
      subst huser
      simp [hauto2] at hauto
    · split
      · rename_i x2 existing hfound
        left
        refine ⟨rfl, rfl, fun _ _ _ _ => ?_⟩
        unfold MentionRepository.GetByThreadsPostID at hfound
        cases hf : env.lookupErr with
        | some e => rw [hf] at hfound; cases hfound
        | none =>
          rw [hf] at hfound
          simp only at hfound
          cases hfind : w.mentions.find? (fun d => d.ThreadsPostID == p) with
          | none => rw [hfind] at hfound; cases hfound
          | some d =>
            have hp : (d.ThreadsPostID == p) = true :=
              List.find?_some (p := fun x : Mention => x.ThreadsPostID == p) hfind
            unfold keysOf
            rw [List.map_map]
            exact List.mem_map.mpr ⟨d, List.mem_of_find?_eq_some hfind, by simpa using hp⟩
      · rcases admitNew_keys env w user userID p author content with h | h
        · left
          exact ⟨h.1, h.2.1, fun _ _ _ hc => h.2.2 hc⟩
        · right
          exact h

theorem map_key_replaceFirst (coll : List Mention) (m1 : Mention)
    (h : ∀ d ∈ coll, d.ID = m1.ID → d.ThreadsPostID = m1.ThreadsPostID) :
    (replaceFirst (fun d => d.ID == m1.ID) m1 coll).map (fun d => (d.ID, d.ThreadsPostID))
      = coll.map (fun d => (d.ID, d.ThreadsPostID)) := by
  induction coll with
  | nil => rfl
  | cons x xs ih =>
    unfold replaceFirst
    split
    · rename_i hx
      have hid : x.ID = m1.ID := by simpa using hx
      have hp := h x (List.mem_cons_self _ _) hid
      simp [hid, hp]
    · simp only [List.map_cons]
      rw [ih (fun d hd => h d (List.mem_cons_of_mem _ hd))]

/-- A property of the database kept by every `Update` of a version of the mention (same
identifier and post id) and by every change of the `replies` collection holds after a
run of `processMentionAsync`. -/
theorem run_world_inv (I : World → Prop) (env : AsyncEnv) (w : World) (m : Mention)
    (u : User)
    (hU : ∀ (w1 : World) (f : Option GoError) (m1 : Mention) (coll : List Mention),
      MentionRepository.Update f w1.mentions m1 = .ok coll → m1.ID = m.ID →
      m1.ThreadsPostID = m.ThreadsPostID → I w1 → I { w1 with mentions := coll })
    (hR : ∀ (w1 : World) (rs : List Reply), I w1 → I { w1 with replies := rs })
    (h0 : I w) : I (processMentionAsync env w m u).world := by
  have hsave : ∀ (f : Option GoError) (w1 : World) (m1 : Mention),
      m1.ID = m.ID → m1.ThreadsPostID = m.ThreadsPostID → I w1 →
      I (saveMention f w1 m1).1 := by
    intro f w1 m1 hid hp hw
    unfold saveMention
    split
    · exact hw
    · rename_i coll hUp
      exact hU w1 f m1 coll hUp hid hp hw
  have hreply : ∀ (f : Option GoError) (w1 : World) (rcoll : List Reply) (r : Reply),
      I w1 → I (saveReply f { w1 with replies := rcoll } r).1 := by
    intro f w1 rcoll r hw
    unfold saveReply
    split
    · exact hR w1 rcoll hw
    · rename_i coll _
      exact hR w1 coll hw
  cases h1 : MentionRepository.Update env.updProcessingErr w.mentions m.MarkProcessing with
  | error e =>
    have hrun : (processMentionAsync env w m u).world = w := by
      simp only [processMentionAsync, h1]
    rw [hrun]
    exact h0
  | ok coll =>
    have hq1 : I { w with mentions := coll } := hU w _ _ coll h1 rfl rfl h0
    cases han : env.analyze m.Content m.Author.Username with
    | error e =>
      rw [processMentionAsync_analyze_error u h1 han]
      exact hsave _ _ _ rfl rfl hq1
    | ok a =>
      have hq2 := hsave env.updAnalysisErr { w with mentions := coll }
        (m.MarkProcessing.SetAnalysis a) rfl rfl hq1
      by_cases hspam : a.MentionType = MentionTypeSpam
      · rw [processMentionAsync_analyze_ok u h1 han, compose_spam _ _ u _ hspam]
        exact hsave _ _ _ rfl rfl hq2
      · cases hgen : (generateReply env u.ID (m.MarkProcessing.SetAnalysis a) a).1 with
        | error e =>
          rw [processMentionAsync_analyze_ok u h1 han,
            compose_generate_error _ _ u _ hspam hgen]
          exact hsave _ _ _ rfl rfl hq2
        | ok res =>
          obtain ⟨rc, tid⟩ := res
          cases hC : ReplyRepository.Create env.replyCreateErr
              (saveMention env.updAnalysisErr { w with mentions := coll }
                (m.MarkProcessing.SetAnalysis a)).1.replies
              (NewReply env.nowReply u.ID (m.MarkProcessing.SetAnalysis a).ID tid rc) with
          | error e =>
            rw [(processMentionAsync_to_deliver u h1 han hspam hgen).trans
              (deliver_create_error _ hC)]
            exact hq2
          | ok res2 =>
            obtain ⟨rcoll, rep⟩ := res2
            cases htok : env.accessToken u.ID with
            | error e =>
              rw [(processMentionAsync_to_deliver u h1 han hspam hgen).trans
                (deliver_token_error _ hC htok)]
              exact hsave _ _ _ rfl rfl (hreply _ _ _ _ hq2)
            | ok tok =>
              cases hdel : env.createReply tok u.ThreadsUserID rc
                  (m.MarkProcessing.SetAnalysis a).ThreadsPostID with
              | error e =>
                rw [(processMentionAsync_to_deliver u h1 han hspam hgen).trans
                  (deliver_delivery_error _ hC htok hdel)]
                exact hsave _ _ _ rfl rfl (hreply _ _ _ _ hq2)
              | ok r =>
                rw [(processMentionAsync_to_deliver u h1 han hspam hgen).trans
                  (deliver_sent _ hC htok hdel)]
                exact hsave _ _ _ rfl rfl (hreply _ _ _ _ hq2)

/-- A run of a goroutine whose mention is stored under its identifier with its post id
changes neither the stored keys nor the accounts. -/
theorem run_keys (env : AsyncEnv) (w : World) (m : Mention) (u : User)
    (h : ∀ k ∈ keysOf w, k.1 = m.ID → k.2 = m.ThreadsPostID) :
    keysOf (processMentionAsync env w m u).world = keysOf w
    ∧ (processMentionAsync env w m u).world.users = w.users := by
  refine run_world_inv (fun w1 => keysOf w1 = keysOf w ∧ w1.users = w.users) env w m u
    ?_ ?_ ⟨rfl, rfl⟩
  · intro w1 f m1 coll hUp hid hp hw
    refine ⟨?_, hw.2⟩
    rw [← hw.1]
    unfold keysOf
    show coll.map _ = w1.mentions.map _
    rw [Update_ok hUp]
    apply map_key_replaceFirst
    intro d hd hdid
    have hk : (d.ID, d.ThreadsPostID) ∈ keysOf w := by
      rw [← hw.1]
      exact List.mem_map.mpr ⟨d, hd, rfl⟩
    have := h _ hk (hdid.trans hid)
    exact this.trans hp.symm
  · intro w1 rs hw
    exact hw

theorem key_unique {K : List (ObjectID × String)} (hnd : (K.map Prod.fst).Nodup)
    {a : ObjectID} {b : String} (hmem : (a, b) ∈ K) :
    ∀ k ∈ K, k.1 = a → k.2 = b := by
  induction K with
  | nil => cases hmem
  | cons x xs ih =>
    rw [List.map_cons, List.nodup_cons] at hnd
    intro k hk hka
    rcases List.mem_cons.mp hmem with h1 | h1
    · rcases List.mem_cons.mp hk with h2 | h2
      · rw [h2, ← h1]
      · exfalso
        apply hnd.1
        have : k.1 ∈ xs.map Prod.fst := List.mem_map_of_mem Prod.fst h2
        rw [hka] at this
        rw [← h1]
        exact this
    · rcases List.mem_cons.mp hk with h2 | h2
      · exfalso
        apply hnd.1
        have : a ∈ xs.map Prod.fst := List.mem_map.mpr ⟨(a, b), h1, rfl⟩
        rw [← h2, hka]
        exact this
      · exact ih hnd.2 h1 k h2 hka

/-- Goroutines whose mentions are stored under their identifiers with their post ids,
run one after the other, change neither the stored keys nor the accounts. -/
theorem runAll_keys (conts : List ((Mention × User) × AsyncEnv)) (w : World)
    (hnd : ((keysOf w).map Prod.fst).Nodup)
    (h : ∀ c ∈ conts, (c.1.1.ID, c.1.1.ThreadsPostID) ∈ keysOf w) :
    keysOf (runAll conts w) = keysOf w ∧ (runAll conts w).users = w.users := by
  induction conts generalizing w with
  | nil => exact ⟨rfl, rfl⟩
  | cons c rest ih =>
    have hc := h c (List.mem_cons_self _ _)
    obtain ⟨hk, hu⟩ := run_keys c.2 w c.1.1 c.1.2 (key_unique hnd hc)
    have := ih (processMentionAsync c.2 w c.1.1 c.1.2).world (by rw [hk]; exact hnd)
      (fun c2 hc2 => by rw [hk]; exact h c2 (List.mem_cons_of_mem _ hc2))
    simp only [runAll]
    exact ⟨this.1.trans hk, this.2.trans hu⟩

theorem pull_replies_inv (I : PullState → Prop) (env : PullEnv) (user : User)
    (userID : ObjectID)
    (hreply : ∀ i j st reply, I st → I (PullMentions.reply env user userID i j st reply))
    (i : Nat) (replies : List ReplyThread) :
    ∀ (j : Nat) (st : PullState), I st →
      I (PullMentions.replies env user userID i j replies st) := by
  induction replies with
  | nil => intro j st h; exact h
  | cons r rs ih =>
    intro j st h
    exact ih (j + 1) _ (hreply i j st r h)

theorem lookup_ok_stored {fault : Option GoError} {coll : List Mention} {p : String}
    {d : Mention} (h : MentionRepository.GetByThreadsPostID fault coll p = .ok d) :
    p ∈ (coll.map (fun d => (d.ID, d.ThreadsPostID))).map Prod.snd := by
  unfold MentionRepository.GetByThreadsPostID at h
  cases fault with
  | some e => cases h
  | none =>
    simp only at h
    cases hfind : coll.find? (fun d => d.ThreadsPostID == p) with
    | none => rw [hfind] at h; cases h
    | some x =>
      have hp : (x.ThreadsPostID == p) = true :=
        List.find?_some (p := fun x : Mention => x.ThreadsPostID == p) hfind
      rw [List.map_map]
      exact List.mem_map.mpr ⟨x, List.mem_of_find?_eq_some hfind, by simpa using hp⟩

theorem lookup_stored_ok {coll : List Mention} {p : String}
    (h : p ∈ (coll.map (fun d => (d.ID, d.ThreadsPostID))).map Prod.snd) :
    ∃ d, MentionRepository.GetByThreadsPostID none coll p = .ok d := by
  rw [List.map_map] at h
  obtain ⟨x, hx, hxp⟩ := List.mem_map.mp h
  cases hfind : coll.find? (fun d => d.ThreadsPostID == p) with
  | some d => exact ⟨d, by simp [MentionRepository.GetByThreadsPostID, hfind]⟩
  | none =>
    rw [List.find?_eq_none] at hfind
    have := hfind x hx
    simp at hxp
    simp [hxp] at this

/-- What one pass of the inner loop does to the database and the goroutines: nothing, or
it appends the key of the reply under a new identifier and starts at most the goroutine
of that key. -/
theorem pull_reply_world (env : PullEnv) (user : User) (userID : ObjectID) (i j : Nat)
    (st : PullState) (reply : ReplyThread) :
    (PullMentions.reply env user userID i j st reply).world.users = st.world.users
    ∧ (((PullMentions.reply env user userID i j st reply).world = st.world
        ∧ (PullMentions.reply env user userID i j st reply).spawned = st.spawned)
      ∨ (∃ id, id ∉ (keysOf st.world).map Prod.fst
        ∧ keysOf (PullMentions.reply env user userID i j st reply).world
            = keysOf st.world ++ [(id, reply.ID)]
        ∧ ∀ g ∈ (PullMentions.reply env user userID i j st reply).spawned,
            g ∈ st.spawned ∨ (g.1.ID, g.1.ThreadsPostID) = (id, reply.ID))) := by
  unfold PullMentions.reply
  split
  · exact ⟨rfl, Or.inl ⟨rfl, rfl⟩⟩
  · split
    · exact ⟨rfl, Or.inl ⟨rfl, rfl⟩⟩
    · have husers := ProcessMention_users (env.penv i j) st.world userID reply.ID
        { ThreadsUserID := reply.Username, Username := reply.Username, DisplayName := "" }
        reply.Text
      have hkeys := ProcessMention_keys (env.penv i j) st.world userID reply.ID
        { ThreadsUserID := reply.Username, Username := reply.Username, DisplayName := "" }
        reply.Text
      have hboth : ∀ (res : PullMentionsResult) (v : PullVisit),
          let r := ProcessMention (env.penv i j) st.world userID reply.ID
            { ThreadsUserID := reply.Username, Username := reply.Username, DisplayName := "" }
            reply.Text
          let st1 : PullState :=
            { result := res, world := r.world, spawned := st.spawned ++ r.spawned.toList,
              events := st.events ++ r.events, visits := st.visits ++ [v] }
          st1.world.users = st.world.users
          ∧ ((st1.world = st.world ∧ st1.spawned = st.spawned)
            ∨ (∃ id, id ∉ (keysOf st.world).map Prod.fst
              ∧ keysOf st1.world = keysOf st.world ++ [(id, reply.ID)]
              ∧ ∀ g ∈ st1.spawned,
                  g ∈ st.spawned ∨ (g.1.ID, g.1.ThreadsPostID) = (id, reply.ID))) := by
        intro res v
        refine ⟨husers, ?_⟩
        rcases hkeys with h | ⟨id, hid, hk, hsp⟩
        · left
          refine ⟨h.1, ?_⟩
          show st.spawned ++ _ = st.spawned
          rw [h.2.1]
          simp
        · right
          refine ⟨id, hid, hk, fun g hg => ?_⟩
          rcases List.mem_append.mp hg with h1 | h1
          · exact Or.inl h1
          · right
            obtain ⟨m, u⟩ := g
            obtain ⟨h2, h3⟩ := hsp m u (by simpa using h1)
            simp [h2, h3]
      simp only
      split
      · exact hboth _ _
      · exact hboth _ _

/-- One pass of the inner loop for a reply of another author, with the account loaded
with auto-reply on and the account lookup and the `Create` of the pass not failing on
their own: afterwards the post id of the reply is stored. -/
theorem pull_reply_stores (env : PullEnv) (user : User) (userID : ObjectID) (i j : Nat)
    (st : PullState) (reply : ReplyThread)
    (huser : UserRepository.GetByID none st.world.users userID = .ok user)
    (hauto : user.AutoReplyEnabled = true)
    (hok : (env.penv i j).userErr = none ∧ (env.penv i j).createErr = none)
    (hother : reply.Username ≠ user.Username) :
    reply.ID ∈ (keysOf (PullMentions.reply env user userID i j st reply).world).map
      Prod.snd := by
  have hkeys := ProcessMention_keys (env.penv i j) st.world userID reply.ID
    { ThreadsUserID := reply.Username, Username := reply.Username, DisplayName := "" }
    reply.Text
  have hPM : reply.ID ∈ (keysOf (ProcessMention (env.penv i j) st.world userID reply.ID
      { ThreadsUserID := reply.Username, Username := reply.Username, DisplayName := "" }
      reply.Text).world).map Prod.snd := by
    rcases hkeys with h | ⟨id, _, hk, _⟩
    · rw [h.1]
      exact h.2.2 user (by rw [hok.1]; exact huser) hauto hok.2
    · rw [hk]
      simp
  unfold PullMentions.reply
  rw [if_neg hother]
  split
  · rename_i x d hd
    exact lookup_ok_stored hd
  · simp only
    split
    · exact hPM
    · exact hPM

theorem pull_reply_mono (env : PullEnv) (user : User) (userID : ObjectID) (users : List User)
    (p : String) (i j : Nat) (st : PullState) (reply : ReplyThread)
    (h : st.world.users = users ∧ p ∈ (keysOf st.world).map Prod.snd) :
    (PullMentions.reply env user userID i j st reply).world.users = users
    ∧ p ∈ (keysOf (PullMentions.reply env user userID i j st reply).world).map Prod.snd := by
  obtain ⟨hu, hw⟩ := pull_reply_world env user userID i j st reply
  refine ⟨hu.trans h.1, ?_⟩
  rcases hw with h1 | ⟨id, _, hk, _⟩
  · rw [h1.1]; exact h.2
  · rw [hk, List.map_append]
    exact List.mem_append_left _ h.2

theorem pull_first_inv (env : PullEnv) (user : User) (userID : ObjectID) (tok : String)
    (threads : List ConversationThread) (w : World)
    (hnd : ((keysOf w).map Prod.fst).Nodup) :
    (PullMentions.threads env user userID tok 0 threads (PullState.init w)).world.users
      = w.users
    ∧ ((keysOf (PullMentions.threads env user userID tok 0 threads
        (PullState.init w)).world).map Prod.fst).Nodup
    ∧ (∀ g ∈ (PullMentions.threads env user userID tok 0 threads (PullState.init w)).spawned,
        (g.1.ID, g.1.ThreadsPostID)
          ∈ keysOf (PullMentions.threads env user userID tok 0 threads
              (PullState.init w)).world) := by
  refine pull_threads_inv
    (fun st => st.world.users = w.users ∧ ((keysOf st.world).map Prod.fst).Nodup
      ∧ (∀ g ∈ st.spawned, (g.1.ID, g.1.ThreadsPostID) ∈ keysOf st.world))
    env user userID tok ?_ ?_ threads 0 (PullState.init w)
    ⟨rfl, hnd, fun g hg => by simp [PullState.init] at hg⟩
  · intro i j st reply h
    obtain ⟨h1, h2, h3⟩ := h
    obtain ⟨hu, hw⟩ := pull_reply_world env user userID i j st reply
    refine ⟨hu.trans h1, ?_, ?_⟩
    · rcases hw with hsame | ⟨id, hid, hk, _⟩
      · rw [hsame.1]; exact h2
      · rw [hk, List.map_append, List.map_singleton]
        rw [List.nodup_append]
        refine ⟨h2, List.nodup_singleton _, ?_⟩
        intro a ha hb
        rw [List.mem_singleton] at hb
        rw [hb] at ha
        exact hid ha
    · intro g hg
      rcases hw with hsame | ⟨id, _, hk, hsp⟩
      · rw [hsame.1]
        rw [hsame.2] at hg
        exact h3 g hg
      · rw [hk]
        rcases hsp g hg with h4 | h4
        · exact List.mem_append_left _ (h3 g h4)
        · rw [h4]; simp
  · intro st r id b h
    exact h

theorem pull_replies_stores (env : PullEnv) (user : User) (userID : ObjectID)
    (users : List User) (huser : UserRepository.GetByID none users userID = .ok user)
    (hauto : user.AutoReplyEnabled = true)
    (hok : ∀ i j, (env.penv i j).userErr = none ∧ (env.penv i j).createErr = none)
    (i : Nat) (replies : List ReplyThread) :
    ∀ (j : Nat) (st : PullState), st.world.users = users →
      ∀ r ∈ replies, r.Username ≠ user.Username →
        r.ID ∈ (keysOf (PullMentions.replies env user userID i j replies st).world).map
          Prod.snd := by
  induction replies with
  | nil => intro j st _ r hr; cases hr
  | cons r0 rs ih =>
    intro j st hu r hr hother
    have hu1 : (PullMentions.reply env user userID i j st r0).world.users = users :=
      (pull_reply_world env user userID i j st r0).1.trans hu
    simp only [PullMentions.replies]
    rcases List.mem_cons.mp hr with h | h
    · subst h
      have hst := pull_reply_stores env user userID i j st r
        (by rw [hu]; exact huser) hauto (hok i j) hother
      exact (pull_replies_inv
        (fun s => s.world.users = users ∧ r.ID ∈ (keysOf s.world).map Prod.snd)
        env user userID (fun i j s rp hs => pull_reply_mono env user userID users r.ID i j s rp hs)
        i rs (j + 1) _ ⟨hu1, hst⟩).2
    · exact ih (j + 1) _ hu1 r h hother

theorem pull_threads_stores (env : PullEnv) (user : User) (userID : ObjectID)
    (tok : String) (users : List User)
    (huser : UserRepository.GetByID none users userID = .ok user)
    (hauto : user.AutoReplyEnabled = true)
    (hok : ∀ i j, (env.penv i j).userErr = none ∧ (env.penv i j).createErr = none)
    (threads : List ConversationThread) :
    ∀ (i : Nat) (st : PullState), st.world.users = users →
      ∀ t ∈ threads, ∀ replies, env.getReplies tok t.ID true = .ok replies →
        ∀ r ∈ replies, r.Username ≠ user.Username →
          r.ID ∈ (keysOf (PullMentions.threads env user userID tok i threads st).world).map
            Prod.snd := by
  induction threads with
  | nil => intro i st _ t ht; cases ht
  | cons t0 ts ih =>
    intro i st hu t ht replies hget r hr hother
    have hu1 : (PullMentions.thread env user userID tok i st t0).world.users = users := by
      unfold PullMentions.thread
      simp only
      split
      · exact hu
      · rename_i x replies hget
        exact (pull_replies_inv (fun s => s.world.users = users) env user userID
          (fun i j s rp hs => (pull_reply_world env user userID i j s rp).1.trans hs)
          i replies 0
          { st with
            result := { st.result with ThreadsChecked := st.result.ThreadsChecked + 1 }
            visits := st.visits ++ [.thread t0.ID true] }
          hu)
    simp only [PullMentions.threads]
    rcases List.mem_cons.mp ht with h | h
    · subst h
      have hst : r.ID ∈ (keysOf (PullMentions.thread env user userID tok i st t).world).map
          Prod.snd := by
        unfold PullMentions.thread
        simp only [hget]
        exact pull_replies_stores env user userID users huser hauto hok i replies 0
          { st with
            result := { st.result with ThreadsChecked := st.result.ThreadsChecked + 1 }
            visits := st.visits ++ [.thread t.ID true] }
          hu r hr hother
      exact (pull_threads_inv
        (fun s => s.world.users = users ∧ r.ID ∈ (keysOf s.world).map Prod.snd)
        env user userID tok
        (fun i j s rp hs => pull_reply_mono env user userID users r.ID i j s rp hs)
        (fun s _ _ _ hs => hs) ts (i + 1) _ ⟨hu1, hst⟩).2
    · exact ih (i + 1) _ hu1 t h replies hget r hr hother

theorem pull_replies_known (env : PullEnv) (user : User) (userID : ObjectID) (i : Nat)
    (hlook : ∀ j, env.lookupErr i j = none) (replies : List ReplyThread) :
    ∀ (j : Nat) (st : PullState),
      (∀ r ∈ replies, r.Username ≠ user.Username →
        r.ID ∈ (keysOf st.world).map Prod.snd) →
      (PullMentions.replies env user userID i j replies st).world = st.world
      ∧ (PullMentions.replies env user userID i j replies st).result.NewMentions
          = st.result.NewMentions
      ∧ (PullMentions.replies env user userID i j replies st).spawned = st.spawned
      ∧ (PullMentions.replies env user userID i j replies st).events = st.events := by
  induction replies with
  | nil => intro j st _; exact ⟨rfl, rfl, rfl, rfl⟩
  | cons r0 rs ih =>
    intro j st hst
    have hstep : (PullMentions.reply env user userID i j st r0).world = st.world
        ∧ (PullMentions.reply env user userID i j st r0).result.NewMentions
            = st.result.NewMentions
        ∧ (PullMentions.reply env user userID i j st r0).spawned = st.spawned
        ∧ (PullMentions.reply env user userID i j st r0).events = st.events := by
      unfold PullMentions.reply
      split
      · exact ⟨rfl, rfl, rfl, rfl⟩
      · rename_i hother
        obtain ⟨d, hd⟩ := lookup_stored_ok (hst r0 (List.mem_cons_self _ _) hother)
        rw [hlook j, hd]
        exact ⟨rfl, rfl, rfl, rfl⟩
    simp only [PullMentions.replies]
    obtain ⟨h1, h2, h3, h4⟩ := ih (j + 1) (PullMentions.reply env user userID i j st r0)
      (fun r hr hother => by
        rw [hstep.1]
        exact hst r (List.mem_cons_of_mem _ hr) hother)
    exact ⟨h1.trans hstep.1, h2.trans hstep.2.1, h3.trans hstep.2.2.1,
      h4.trans hstep.2.2.2⟩

theorem pull_threads_known (env : PullEnv) (user : User) (userID : ObjectID) (tok : String)
    (hlook : ∀ i j, env.lookupErr i j = none) (threads : List ConversationThread) :
    ∀ (i : Nat) (st : PullState),
      (∀ t ∈ threads, ∀ replies, env.getReplies tok t.ID true = .ok replies →
        ∀ r ∈ replies, r.Username ≠ user.Username →
          r.ID ∈ (keysOf st.world).map Prod.snd) →
      (PullMentions.threads env user userID tok i threads st).world = st.world
      ∧ (PullMentions.threads env user userID tok i threads st).result.NewMentions
          = st.result.NewMentions
      ∧ (PullMentions.threads env user userID tok i threads st).spawned = st.spawned
      ∧ (PullMentions.threads env user userID tok i threads st).events = st.events := by
  induction threads with
  | nil => intro i st _; exact ⟨rfl, rfl, rfl, rfl⟩
  | cons t0 ts ih =>
    intro i st hst
    have hstep : (PullMentions.thread env user userID tok i st t0).world = st.world
        ∧ (PullMentions.thread env user userID tok i st t0).result.NewMentions
            = st.result.NewMentions
        ∧ (PullMentions.thread env user userID tok i st t0).spawned = st.spawned
        ∧ (PullMentions.thread env user userID tok i st t0).events = st.events := by
      unfold PullMentions.thread
      simp only
      cases hget : env.getReplies tok t0.ID true with
      | error e => exact ⟨rfl, rfl, rfl, rfl⟩
      | ok replies =>
        exact pull_replies_known env user userID i (hlook i) replies 0
          { st with
            result := { st.result with ThreadsChecked := st.result.ThreadsChecked + 1 }
            visits := st.visits ++ [.thread t0.ID true] }
          (fun r hr hother => hst t0 (List.mem_cons_self _ _) replies hget r hr hother)
    simp only [PullMentions.threads]
    obtain ⟨h1, h2, h3, h4⟩ := ih (i + 1) (PullMentions.thread env user userID tok i st t0)
      (fun t ht replies hget r hr hother => by
        rw [hstep.1]
        exact hst t (List.mem_cons_of_mem _ ht) replies hget r hr hother)
    exact ⟨h1.trans hstep.1, h2.trans hstep.2.1, h3.trans hstep.2.2.1,
      h4.trans hstep.2.2.2⟩

/-- C22 (amended): for an account with auto-reply on, `PullMentions` run twice over the
same provider-side posts and replies counts no new mention the second time. The first
run starts from a store whose identifiers are distinct and its account lookups and
`Create` calls do not fail on their own; any of the goroutines it started may have run
to their end in between, in any order and with any outcome; the lookups of the second
run do not fail. The second run then returns `NewMentions = 0`, leaves the database as
it found it, calls `Create` for nothing and starts no goroutine, whatever the other
policy settings of the account are. -/
theorem PullMentions_twice_no_new (env1 env2 : PullEnv) (w : World) (userID : ObjectID)
    (user : User) (tok : String) (threads : List ConversationThread)
    (conts : List ((Mention × User) × AsyncEnv))
    (hids : (w.mentions.map (fun d => d.ID)).Nodup)
    (huser : UserRepository.GetByID env1.userErr w.users userID = .ok user)
    (hauto : user.AutoReplyEnabled = true)
    (htok1 : env1.accessToken userID = .ok tok)
    (hth1 : env1.getUserThreads tok user.ThreadsUserID 25 (env1.nowPull - 24 * hour)
      = .ok threads)
    (hstore1 : ∀ i j, (env1.penv i j).userErr = none ∧ (env1.penv i j).createErr = none)
    (hconts : ∀ c ∈ conts, c.1 ∈ (PullMentions env1 w userID).state.spawned)
    (huser2 : env2.userErr = none)
    (htok2 : env2.accessToken userID = .ok tok)
    (hth2 : env2.getUserThreads tok user.ThreadsUserID 25 (env2.nowPull - 24 * hour)
      = .ok threads)
    (hrep : ∀ id, env2.getReplies tok id true = env1.getReplies tok id true)
    (hlook2 : ∀ i j, env2.lookupErr i j = none) :
    ∃ r, (PullMentions env2 (runAll conts (PullMentions env1 w userID).state.world)
          userID).ret = .ok r
      ∧ r.NewMentions = 0
      ∧ (PullMentions env2 (runAll conts (PullMentions env1 w userID).state.world)
          userID).state.world = runAll conts (PullMentions env1 w userID).state.world
      ∧ (PullMentions env2 (runAll conts (PullMentions env1 w userID).state.world)
          userID).state.spawned = []
      ∧ createdCount (PullMentions env2 (runAll conts (PullMentions env1 w userID).state.world)
          userID).state.events = 0 := by
  have hnd : ((keysOf w).map Prod.fst).Nodup := by
    have : (keysOf w).map Prod.fst = w.mentions.map (fun d => d.ID) := by
      unfold keysOf
      rw [List.map_map]
      rfl
    rw [this]
    exact hids
  have huserN := GetByID_no_fault huser
  obtain ⟨hstate1, _⟩ := PullMentions_of_fetched huser htok1 hth1
  obtain ⟨hu1, hnd1, hsp1⟩ := pull_first_inv env1 user userID tok threads w hnd
  have hstored := pull_threads_stores env1 user userID tok w.users huserN hauto hstore1
    threads 0 (PullState.init w) rfl
  rw [← hstate1] at hu1 hnd1 hsp1 hstored
  obtain ⟨hk, hu⟩ := runAll_keys conts (PullMentions env1 w userID).state.world hnd1
    (fun c hc => hsp1 c.1 (hconts c hc))
  generalize runAll conts (PullMentions env1 w userID).state.world = w2 at hk hu ⊢
  have huser2N : UserRepository.GetByID env2.userErr w2.users userID = .ok user := by
    rw [huser2, hu, hu1]
    exact huserN
  obtain ⟨hstate2, hret2⟩ := PullMentions_of_fetched huser2N htok2 hth2
  obtain ⟨h1, h2, h3, h4⟩ := pull_threads_known env2 user userID tok hlook2 threads 0
    (PullState.init w2)
    (fun t ht replies hget r hr hother => by
      show r.ID ∈ (keysOf w2).map Prod.snd
      rw [hk]
      rw [hrep] at hget
      exact hstored t ht replies hget r hr hother)
  refine ⟨_, hret2, ?_, ?_, ?_, ?_⟩
  · rw [h2]; rfl
  · rw [hstate2, h1]; rfl
  · rw [hstate2, h3]; rfl
  · rw [hstate2, h4]; rfl

/-- Counterexample to C22 as stated: the account has auto-reply off. The first run
records nothing, and the second run over the same posts and replies counts three new
mentions again. -/
theorem PullMentions_twice_disabled_counts_again :
    ((PullMentions demoPullEnv
        (runAll [] (PullMentions demoPullEnv demoWorldOff 1).state.world) 1).ret.toOption.map
          (fun r => r.NewMentions)) = some 3
    ∧ (PullMentions demoPullEnv demoWorldOff 1).state.world.mentions = [] := by
  decide

/-- Witness for C22 (amended): with auto-reply on, the first run admits `r2`, `r3` and
`r4`; their goroutines run; the second run counts no new mention and skips all four
replies. -/
theorem PullMentions_twice_no_new_witness :
    (∃ r, (PullMentions demoPullEnv
          (runAll ((PullMentions demoPullEnv demoWorld 1).state.spawned.map
              (fun g => (g, demoAsyncEnv)))
            (PullMentions demoPullEnv demoWorld 1).state.world) 1).ret = .ok r
        ∧ r.NewMentions = 0)
    ∧ (PullMentions demoPullEnv demoWorld 1).state.result.NewMentions = 3 :=
  ⟨(PullMentions_twice_no_new demoPullEnv demoPullEnv demoWorld 1 demoUser "token"
      demoThreads
      ((PullMentions demoPullEnv demoWorld 1).state.spawned.map (fun g => (g, demoAsyncEnv)))
      (by decide) rfl rfl rfl rfl (fun _ _ => ⟨rfl, rfl⟩)
      (fun c hc => by
        obtain ⟨g, hg, hgc⟩ := List.mem_map.mp hc
        rw [← hgc]
        exact hg)
      rfl rfl rfl (fun _ => rfl) (fun _ _ => rfl)).elim
      (fun r hr => ⟨r, hr.1, hr.2.1⟩),
   by decide⟩

/-! ## Delivery failure in a continuation of the pipeline -/

/-- C16 (amended): take any continuation started by the pipeline, that is a goroutine `k`
of a reachable state, run on any database; if in this run `CreateReply` fails with
provider error text `e`, then the reply ends `failed` with `Error` equal to
`Threads API error: ` followed by `e`, and the mention ends `failed` with reason exactly
`failed to post reply` and `ReplyID` nil; these are the stored reply and mention when the
respective update does not fail. -/
theorem delivery_failure_marks_failed (s : Pipeline) (hs : Pipeline.Reachable s) (k : Nat)
    (env : AsyncEnv) (w : World) (m : Mention) (u : User)
    (hk : s.running.get? k = some (m, u))
    (coll : List Mention) (a : MentionAnalysis) (rc : String) (tid : Option ObjectID)
    (rcoll : List Reply) (rep : Reply) (tok : String) (e : GoError)
    (h1 : MentionRepository.Update env.updProcessingErr w.mentions m.MarkProcessing = .ok coll)
    (han : env.analyze m.Content m.Author.Username = .ok a)
    (hns : a.MentionType ≠ MentionTypeSpam)
    (hgen : (generateReply env u.ID (m.MarkProcessing.SetAnalysis a) a).1 = .ok (rc, tid))
    (hC : ReplyRepository.Create env.replyCreateErr w.replies
      (NewReply env.nowReply u.ID m.ID tid rc) = .ok (rcoll, rep))
    (htok : env.accessToken u.ID = .ok tok)
    (hdel : env.createReply tok u.ThreadsUserID rc m.ThreadsPostID = .error e) :
    (processMentionAsync env w m u).reply
      = some (rep.MarkFailed ("Threads API error: " ++ e.Error))
    ∧ (rep.MarkFailed ("Threads API error: " ++ e.Error)).Status = .failed
    ∧ (rep.MarkFailed ("Threads API error: " ++ e.Error)).Error
        = "Threads API error: " ++ e.Error
    ∧ (processMentionAsync env w m u).mention.Status = .failed
    ∧ (processMentionAsync env w m u).mention.SkipReason = "failed to post reply"
    ∧ (processMentionAsync env w m u).mention.ReplyID = none
    ∧ (env.replyUpdateErr = none →
        ReplyRepository.GetByID none (processMentionAsync env w m u).world.replies rep.ID
          = .ok (rep.MarkFailed ("Threads API error: " ++ e.Error)))
    ∧ (env.updFinalErr = none →
        MentionRepository.GetByID none (processMentionAsync env w m u).world.mentions m.ID
          = .ok (processMentionAsync env w m u).mention) := by
  have hnil : m.ReplyID = none := (pipeline_fields_inv s hs).2.2.1 _ (List.get?_mem hk)
  obtain ⟨c1, c2, c3, c4, c5, c6, c7, c8⟩ :=
    delivery_failure_run env w m u coll a rc tid rcoll rep tok e h1 han hns hgen hC htok hdel
  exact ⟨c1, c2, c3, c4, c5, c6.trans hnil, c7, c8⟩

/-- Witness for C16 (amended): post `p1` is admitted, and the goroutine started for it
runs on the database of that state with a delivery that fails with `rate limited`. -/
theorem delivery_failure_marks_failed_witness :
    (processMentionAsync demoAsyncEnvUndelivered (demoWorldAdmitted "hello")
        (demoAdmitted 1 "p1" "hello") demoUser).reply
      = some (demoReply.MarkFailed
          ("Threads API error: " ++ (GoError.other "rate limited").Error))
    ∧ (processMentionAsync demoAsyncEnvUndelivered (demoWorldAdmitted "hello")
        (demoAdmitted 1 "p1" "hello") demoUser).mention.ReplyID = none
    ∧ (processMentionAsync demoAsyncEnvUndelivered (demoWorldAdmitted "hello")
        (demoAdmitted 1 "p1" "hello") demoUser).world.mentions.map
          (fun d => (d.Status, d.SkipReason, d.ReplyID))
        = [(.failed, "failed to post reply", none)] :=
  have h := delivery_failure_marks_failed
    ((Pipeline.start [demoUser]).ingest demoEnv 1 "p1" demoAuthor "hello")
    (Pipeline.Reachable.ingest _ _ _ _ _ (Pipeline.Reachable.start _)) 0
    demoAsyncEnvUndelivered (demoWorldAdmitted "hello")
    (demoAdmitted 1 "p1" "hello") demoUser rfl
    [(demoAdmitted 1 "p1" "hello").MarkProcessing]
    demoAnalysis "Sorry about that!" none [demoReply] demoReply "token"
    (.other "rate limited") rfl rfl (by decide) rfl rfl rfl rfl
  ⟨h.1, h.2.2.2.2.2.1, by decide⟩

/-! ## Stored statuses along the steps of the pipeline -/

theorem mem_replaceFirst_of_false {α : Type} (p : α → Bool) (new : α) (l : List α) (x : α)
    (hx : x ∈ l) (hp : p x = false) : x ∈ replaceFirst p new l := by
  induction l with
  | nil => cases hx
  | cons y ys ih =>
    unfold replaceFirst
    split
    · rename_i hy
      rcases List.mem_cons.mp hx with h | h
      · rw [h, hy] at hp
        cases hp
      · exact List.mem_cons_of_mem _ h
    · rcases List.mem_cons.mp hx with h | h
      · rw [h]
        exact List.mem_cons_self _ _
      · exact List.mem_cons_of_mem _ (ih h)

/-- A run of a goroutine keeps every stored mention of another identifier. -/
theorem run_keeps_others (env : AsyncEnv) (w : World) (m : Mention) (u : User) (n : Mention)
    (hn : n ∈ w.mentions) (hne : n.ID ≠ m.ID) :
    n ∈ (processMentionAsync env w m u).world.mentions := by
  refine run_world_inv (fun w1 => n ∈ w1.mentions) env w m u ?_ ?_ hn
  · intro w1 f m1 coll hUp hid _ hw
    show n ∈ coll
    rw [Update_ok hUp]
    apply mem_replaceFirst_of_false _ _ _ _ hw
    rw [hid]
    simpa using hne
  · intro w1 rs hw
    exact hw

/-- What `ProcessMention` does to the stored mentions: it keeps every one of them; a
mention it adds has an identifier not stored before and is `pending` or `skipped`; the
mention it hands to a goroutine is stored, `pending`, under an identifier not stored
before. -/
theorem ProcessMention_step (env : ProcessEnv) (w : World) (userID : ObjectID)
    (p : String) (author : MentionAuthor) (content : String) :
    (∀ n ∈ w.mentions, n ∈ (ProcessMention env w userID p author content).world.mentions)
    ∧ (∀ n ∈ (ProcessMention env w userID p author content).world.mentions,
        n ∈ w.mentions
        ∨ ((∀ d ∈ w.mentions, d.ID ≠ n.ID)
          ∧ (n.Status = .pending ∨ n.Status = .skipped)))
    ∧ (∀ m u, (ProcessMention env w userID p author content).spawned = some (m, u) →
        m ∈ (ProcessMention env w userID p author content).world.mentions
        ∧ m.Status = .pending ∧ ∀ d ∈ w.mentions, d.ID ≠ m.ID) := by
  have hid : (∀ n ∈ w.mentions, n ∈ w.mentions)
      ∧ (∀ n ∈ w.mentions, n ∈ w.mentions
        ∨ ((∀ d ∈ w.mentions, d.ID ≠ n.ID)
          ∧ (n.Status = .pending ∨ n.Status = .skipped)))
      ∧ (∀ m u, (none : Option (Mention × User)) = some (m, u) →
          m ∈ w.mentions ∧ m.Status = .pending ∧ ∀ d ∈ w.mentions, d.ID ≠ m.ID) :=
    ⟨fun n hn => hn, fun n hn => Or.inl hn, fun m u h => by cases h⟩
  unfold ProcessMention ProcessMentionRaced
  split
  · exact hid
  · split
    · exact hid
    · split
      · exact hid
      · unfold ProcessMention.admitNew
        simp only [id]
        split
        · exact hid
        · rename_i x coll doc hC
          obtain ⟨_, hcoll, hfresh, hdoc⟩ := Create_ok hC
          have hdocSt : doc.Status = .pending := by
            rw [hdoc]; split <;> rfl
          have hfreshID : ∀ d ∈ w.mentions, d.ID ≠ doc.ID := fun d hd => (hfresh d hd).1
          have hb1 : ∀ n ∈ w.mentions,
              n ∈ ({ w with mentions := coll } : World).mentions := by
            intro n hn
            show n ∈ coll
            rw [hcoll]
            exact List.mem_append_left _ hn
          have hb2 : ∀ n ∈ ({ w with mentions := coll } : World).mentions, n ∈ w.mentions
              ∨ ((∀ d ∈ w.mentions, d.ID ≠ n.ID)
                ∧ (n.Status = .pending ∨ n.Status = .skipped)) := by
            intro n hn
            have hn2 : n ∈ coll := hn
            rw [hcoll] at hn2
            rcases List.mem_append.mp hn2 with h | h
            · exact Or.inl h
            · rw [List.mem_singleton] at h
              rw [h]
              exact Or.inr ⟨hfreshID, Or.inl hdocSt⟩
          have hgo : ∀ usr : User,
              (∀ n ∈ w.mentions, n ∈ ({ w with mentions := coll } : World).mentions)
              ∧ (∀ n ∈ ({ w with mentions := coll } : World).mentions, n ∈ w.mentions
                ∨ ((∀ d ∈ w.mentions, d.ID ≠ n.ID)
                  ∧ (n.Status = .pending ∨ n.Status = .skipped)))
              ∧ (∀ m u, some (doc, usr) = some (m, u) →
                  m ∈ ({ w with mentions := coll } : World).mentions
                  ∧ m.Status = .pending ∧ ∀ d ∈ w.mentions, d.ID ≠ m.ID) := by
            intro usr
            refine ⟨hb1, hb2, fun m u h => ?_⟩
            simp only [Option.some.injEq, Prod.mk.injEq] at h
            rw [← h.1]
            refine ⟨?_, hdocSt, hfreshID⟩
            show doc ∈ coll
            rw [hcoll]
            exact List.mem_append_right _ (List.mem_singleton_self _)
          have hskip : ∀ (reason : String) (log : List Event),
              (∀ n ∈ w.mentions, n ∈ (ProcessMention.skip env { w with mentions := coll } doc
                reason log).world.mentions)
              ∧ (∀ n ∈ (ProcessMention.skip env { w with mentions := coll } doc
                  reason log).world.mentions, n ∈ w.mentions
                ∨ ((∀ d ∈ w.mentions, d.ID ≠ n.ID)
                  ∧ (n.Status = .pending ∨ n.Status = .skipped)))
              ∧ (∀ m u, (ProcessMention.skip env { w with mentions := coll } doc
                  reason log).spawned = some (m, u) →
                  m ∈ (ProcessMention.skip env { w with mentions := coll } doc
                    reason log).world.mentions
                  ∧ m.Status = .pending ∧ ∀ d ∈ w.mentions, d.ID ≠ m.ID) := by
            intro reason log
            refine ⟨?_, ?_, fun m u h => ?_⟩
            · unfold ProcessMention.skip
              simp only
              split
              · exact hb1
              · rename_i x2 coll1 hU
                intro n hn
                show n ∈ coll1
                rw [Update_ok hU]
                apply mem_replaceFirst_of_false
                · show n ∈ coll
                  rw [hcoll]
                  exact List.mem_append_left _ hn
                · have := hfreshID n hn
                  simpa [Mention.MarkSkipped] using this
            · unfold ProcessMention.skip
              simp only
              split
              · exact hb2
              · rename_i x2 coll1 hU
                intro n hn
                have hn2 : n ∈ coll1 := hn
                rw [Update_ok hU] at hn2
                rcases mem_replaceFirst _ _ _ _ hn2 with h | h
                · exact hb2 n h
                · rw [h]
                  exact Or.inr ⟨hfreshID, Or.inr rfl⟩
            · rw [(skip_spawns_nothing _ _ _ _ _).1] at h
              cases h
          split
          · exact hskip _ _
          · split
            · exact hgo _
            · split
              · exact hskip _ _
              · exact hgo _

theorem ids_of_keys (w : World) :
    (keysOf w).map Prod.fst = w.mentions.map (fun d => d.ID) := by
  unfold keysOf
  rw [List.map_map]
  rfl

/-- Two stored mentions with one identifier are the same, identifiers being unique. -/
theorem stored_unique {coll : List Mention} (hnd : (coll.map (fun d => d.ID)).Nodup)
    {a b : Mention} (ha : a ∈ coll) (hb : b ∈ coll) (hid : a.ID = b.ID) : a = b :=
  List.inj_on_of_nodup_map hnd ha hb hid

/-- In every reachable state the stored identifiers are unique, and the mention of every
waiting goroutine is stored under its identifier with its post id. -/
theorem pipeline_keys_inv (s : Pipeline) (h : Pipeline.Reachable s) :
    ((keysOf s.world).map Prod.fst).Nodup
    ∧ (∀ g ∈ s.running, (g.1.ID, g.1.ThreadsPostID) ∈ keysOf s.world) := by
  induction h with
  | start users =>
    refine ⟨?_, fun g hg => ?_⟩ <;> simp [Pipeline.start, keysOf] at *
  | accounts users _ ih => exact ih
  | @ingest s env userID p author content _ ih =>
    obtain ⟨i1, i2⟩ := ih
    rcases ProcessMention_keys env s.world userID p author content with h | ⟨id, hid, hk, hsp⟩
    · have hw : (s.ingest env userID p author content).world = s.world := h.1
      have hr : (s.ingest env userID p author content).running = s.running := by
        show s.running ++ (ProcessMention env s.world userID p author content).spawned.toList
          = s.running
        rw [h.2.1]
        simp
      rw [hw, hr]
      exact ⟨i1, i2⟩
    · have hw : keysOf (s.ingest env userID p author content).world
          = keysOf s.world ++ [(id, p)] := hk
      rw [hw]
      refine ⟨?_, fun g hg => ?_⟩
      · rw [List.map_append, List.map_singleton]
        refine List.Nodup.append i1 (List.nodup_singleton _) ?_
        intro a ha hb
        rw [List.mem_singleton] at hb
        rw [hb] at ha
        exact hid ha
      · rcases List.mem_append.mp hg with h | h
        · exact List.mem_append_left _ (i2 g h)
        · obtain ⟨m, u⟩ := g
          have := hsp m u (by simpa using h)
          apply List.mem_append_right
          rw [List.mem_singleton]
          exact Prod.ext this.1 this.2
  | @retry s env userID mentionID _ ih =>
    obtain ⟨i1, i2⟩ := ih
    obtain ⟨_, hworld, hsp⟩ := RetryMention_spawned env s.world userID mentionID
    have hw : (s.retry env userID mentionID).world = s.world := hworld
    rw [hw]
    refine ⟨i1, fun g hg => ?_⟩
    rcases List.mem_append.mp hg with h | h
    · exact i2 g h
    · obtain ⟨m, u⟩ := g
      have hs : (RetryMention env s.world userID mentionID).spawned = some (m, u) := by
        simpa using h
      obtain ⟨_, hget, _⟩ := hsp m u hs
      have hmem : m ∈ s.world.mentions :=
        List.mem_of_find?_eq_some (GetMention_ok hget).2.2
      exact List.mem_map.mpr ⟨m, hmem, rfl⟩
  | @run s env k _ ih =>
    obtain ⟨i1, i2⟩ := ih
    unfold Pipeline.run
    cases hk : s.running.get? k with
    | none => exact ⟨i1, i2⟩
    | some g =>
      obtain ⟨m, u⟩ := g
      have hmem : (m, u) ∈ s.running := List.get?_mem hk
      have hkeys := (run_keys env s.world m u (key_unique i1 (i2 _ hmem))).1
      show ((keysOf (processMentionAsync env s.world m u).world).map Prod.fst).Nodup
        ∧ ∀ g ∈ s.running.eraseIdx k,
          (g.1.ID, g.1.ThreadsPostID) ∈ keysOf (processMentionAsync env s.world m u).world
      rw [hkeys]
      exact ⟨i1, fun g hg => i2 g (List.mem_of_mem_eraseIdx hg)⟩

theorem pipeline_ids_nodup (s : Pipeline) (h : Pipeline.Reachable s) :
    (s.world.mentions.map (fun d => d.ID)).Nodup := by
  rw [← ids_of_keys]
  exact (pipeline_keys_inv s h).1

theorem step_reachable {s t : Pipeline} (h : Pipeline.Reachable s) (hst : Pipeline.Step s t) :
    Pipeline.Reachable t := by
  cases hst with
  | accounts users => exact Pipeline.Reachable.accounts users h
  | ingest env userID p author content =>
    exact Pipeline.Reachable.ingest env userID p author content h
  | retry env userID mentionID => exact Pipeline.Reachable.retry env userID mentionID h
  | run env k => exact Pipeline.Reachable.run env k h

theorem steps_reachable {s t : Pipeline} (h : Pipeline.Reachable s)
    (hst : Relation.ReflTransGen Pipeline.Step s t) : Pipeline.Reachable t := by
  induction hst with
  | refl => exact h
  | tail _ hstep ih => exact step_reachable ih hstep

theorem orderly_reachable {s : Pipeline} (h : Pipeline.Orderly s) : Pipeline.Reachable s := by
  induction h with
  | start users => exact Pipeline.Reachable.start users
  | accounts users _ ih => exact Pipeline.Reachable.accounts users ih
  | ingest env userID p author content _ ih =>
    exact Pipeline.Reachable.ingest env userID p author content ih
  | retry env userID mentionID _ _ ih => exact Pipeline.Reachable.retry env userID mentionID ih
  | run env k _ ih => exact Pipeline.Reachable.run env k ih

/-- A step keeps a stored mention that is not `failed` and has no goroutine waiting, and
starts no goroutine for it. -/
theorem step_keeps_settled {s t : Pipeline} (h : Pipeline.Reachable s)
    (hst : Pipeline.Step s t) (n : Mention) (hn : n ∈ s.world.mentions)
    (hnf : n.Status ≠ .failed) (hfree : ∀ g ∈ s.running, g.1.ID ≠ n.ID) :
    n ∈ t.world.mentions ∧ ∀ g ∈ t.running, g.1.ID ≠ n.ID := by
  cases hst with
  | accounts users => exact ⟨hn, hfree⟩
  | ingest env userID p author content =>
    obtain ⟨h1, _, h3⟩ := ProcessMention_step env s.world userID p author content
    refine ⟨h1 n hn, fun g hg => ?_⟩
    rcases List.mem_append.mp hg with hg1 | hg1
    · exact hfree g hg1
    · obtain ⟨m, u⟩ := g
      have := (h3 m u (by simpa using hg1)).2.2 n hn
      exact fun heq => this heq.symm
  | retry env userID mentionID =>
    obtain ⟨_, hworld, hsp⟩ := RetryMention_spawned env s.world userID mentionID
    have hw : (s.retry env userID mentionID).world = s.world := hworld
    rw [hw]
    refine ⟨hn, fun g hg => ?_⟩
    rcases List.mem_append.mp hg with hg1 | hg1
    · exact hfree g hg1
    · obtain ⟨m, u⟩ := g
      have hs : (RetryMention env s.world userID mentionID).spawned = some (m, u) := by
        simpa using hg1
      obtain ⟨hfailed, hget, _⟩ := hsp m u hs
      have hmem : m ∈ s.world.mentions :=
        List.mem_of_find?_eq_some (GetMention_ok hget).2.2
      intro heq
      have : m = n := stored_unique (pipeline_ids_nodup s h) hmem hn heq
      rw [this] at hfailed
      exact hnf hfailed
  | run env k =>
    unfold Pipeline.run
    cases hk : s.running.get? k with
    | none => exact ⟨hn, hfree⟩
    | some g =>
      obtain ⟨m, u⟩ := g
      have hmem : (m, u) ∈ s.running := List.get?_mem hk
      have hne : n.ID ≠ m.ID := fun heq => hfree _ hmem heq.symm
      exact ⟨run_keeps_others env s.world m u n hn hne,
        fun g hg => hfree g (List.mem_of_mem_eraseIdx hg)⟩

/-- A stored mention that is not `failed` and has no goroutine waiting stays as it is
through any number of further steps. -/
theorem steps_keep_settled {s t : Pipeline} (h : Pipeline.Reachable s)
    (hst : Relation.ReflTransGen Pipeline.Step s t) (n : Mention) (hn : n ∈ s.world.mentions)
    (hnf : n.Status ≠ .failed) (hfree : ∀ g ∈ s.running, g.1.ID ≠ n.ID) :
    n ∈ t.world.mentions ∧ ∀ g ∈ t.running, g.1.ID ≠ n.ID := by
  induction hst with
  | refl => exact ⟨hn, hfree⟩
  | tail hsteps hstep ih =>
    exact step_keeps_settled (steps_reachable h hsteps) hstep n ih.1 hnf ih.2

theorem eraseIdx_ne_of_nodup {α β : Type} (f : α → β) (l : List α) (k : Nat) (x : α)
    (hnd : (l.map f).Nodup) (hk : l.get? k = some x) :
    ∀ y ∈ l.eraseIdx k, f y ≠ f x := by
  induction l generalizing k with
  | nil => cases hk
  | cons a t ih =>
    rw [List.map_cons, List.nodup_cons] at hnd
    cases k with
    | zero =>
      simp only [List.get?_cons_zero, Option.some.injEq] at hk
      subst hk
      intro y hy heq
      apply hnd.1
      rw [← heq]
      exact List.mem_map_of_mem f hy
    | succ j =>
      simp only [List.get?_cons_succ] at hk
      intro y hy
      rw [List.eraseIdx_cons_succ] at hy
      rcases List.mem_cons.mp hy with h | h
      · intro heq
        apply hnd.1
        rw [← h, heq]
        exact List.mem_map_of_mem f (List.get?_mem hk)
      · exact ih j hnd.2 hk y h

/-- Without overlapping retries, the waiting goroutines are for distinct mentions, and
each holds the stored mention itself, which is `pending`, or `failed` and retried. -/
theorem orderly_inv (s : Pipeline) (h : Pipeline.Orderly s) :
    (s.running.map (fun g => g.1.ID)).Nodup
    ∧ (∀ g ∈ s.running, g.1 ∈ s.world.mentions
        ∧ (g.1.Status = .pending ∨ (g.1.Status = .failed ∧ g.1.ID ∈ s.retried))) := by
  induction h with
  | start users =>
    refine ⟨?_, fun g hg => ?_⟩ <;> simp [Pipeline.start] at *
  | accounts users _ ih => exact ih
  | @ingest s env userID p author content _ ih =>
    obtain ⟨i1, i2⟩ := ih
    obtain ⟨h1, _, h3⟩ := ProcessMention_step env s.world userID p author content
    refine ⟨?_, fun g hg => ?_⟩
    · show ((s.running
        ++ (ProcessMention env s.world userID p author content).spawned.toList).map
          (fun g => g.1.ID)).Nodup
      cases hsp : (ProcessMention env s.world userID p author content).spawned with
      | none => simpa using i1
      | some g =>
        obtain ⟨m, u⟩ := g
        have hfresh := (h3 m u hsp).2.2
        rw [List.map_append]
        refine List.Nodup.append i1 (by simp) ?_
        intro a ha hb
        have hb2 : a = m.ID := by simpa using hb
        obtain ⟨g0, hg0, hg0id⟩ := List.mem_map.mp ha
        exact hfresh g0.1 (i2 g0 hg0).1 (hg0id.trans hb2)
    · rcases List.mem_append.mp hg with hg1 | hg1
      · exact ⟨h1 _ (i2 g hg1).1, (i2 g hg1).2⟩
      · obtain ⟨m, u⟩ := g
        have := h3 m u (by simpa using hg1)
        exact ⟨this.1, Or.inl this.2.1⟩
  | @retry s env userID mentionID _ hfree ih =>
    obtain ⟨i1, i2⟩ := ih
    obtain ⟨_, hworld, hsp⟩ := RetryMention_spawned env s.world userID mentionID
    have hw : (s.retry env userID mentionID).world = s.world := hworld
    cases hs : (RetryMention env s.world userID mentionID).spawned with
    | none =>
      have hr : (s.retry env userID mentionID).running = s.running := by
        show s.running ++ (RetryMention env s.world userID mentionID).spawned.toList = s.running
        rw [hs]
        simp
      rw [hw, hr]
      refine ⟨i1, fun g hg => ⟨(i2 g hg).1, ?_⟩⟩
      rcases (i2 g hg).2 with h | h
      · exact Or.inl h
      · exact Or.inr ⟨h.1, List.mem_append_left _ h.2⟩
    | some g =>
      obtain ⟨m, u⟩ := g
      obtain ⟨hfailed, hget, _⟩ := hsp m u hs
      obtain ⟨hmid, _, hfind⟩ := GetMention_ok hget
      have hr : (s.retry env userID mentionID).running = s.running ++ [(m, u)] := by
        show s.running ++ (RetryMention env s.world userID mentionID).spawned.toList = _
        rw [hs]
        rfl
      have hrt : (s.retry env userID mentionID).retried = s.retried ++ [m.ID] := by
        show s.retried ++ (RetryMention env s.world userID mentionID).spawned.toList.map
          (fun g => g.1.ID) = _
        rw [hs]
        rfl
      rw [hw, hr, hrt]
      refine ⟨?_, fun g hg => ?_⟩
      · rw [List.map_append]
        refine List.Nodup.append i1 (by simp) ?_
        intro a ha hb
        have hb2 : a = m.ID := by simpa using hb
        obtain ⟨g0, hg0, hg0id⟩ := List.mem_map.mp ha
        have := hfree g0 hg0 ((hg0id.trans hb2).trans hmid)
        rw [hs] at this
        cases this
      · rcases List.mem_append.mp hg with hg1 | hg1
        · refine ⟨(i2 g hg1).1, ?_⟩
          rcases (i2 g hg1).2 with h | h
          · exact Or.inl h
          · exact Or.inr ⟨h.1, List.mem_append_left _ h.2⟩
        · rw [List.mem_singleton] at hg1
          rw [hg1]
          exact ⟨List.mem_of_find?_eq_some hfind,
            Or.inr ⟨hfailed, List.mem_append_right _ (List.mem_singleton_self _)⟩⟩
  | @run s env k _ ih =>
    obtain ⟨i1, i2⟩ := ih
    unfold Pipeline.run
    cases hk : s.running.get? k with
    | none => exact ⟨i1, i2⟩
    | some g =>
      obtain ⟨m, u⟩ := g
      have hne := eraseIdx_ne_of_nodup (fun g : Mention × User => g.1.ID) s.running k (m, u)
        i1 hk
      refine ⟨?_, fun g hg => ?_⟩
      · exact (List.Nodup.sublist ((List.eraseIdx_sublist s.running k).map _) i1)
      · have hg0 := List.mem_of_mem_eraseIdx hg
        exact ⟨run_keeps_others env s.world m u g.1 (i2 g hg0).1 (hne g hg), (i2 g hg0).2⟩

/-- Without overlapping retries, a step moves every stored status along the edges of the
pipeline: it stays, or the mention was `pending`, or `failed` and retried, and is now
`processing` or, past `processing`, `replied`, `skipped` or `failed`; a mention that the
step adds is `pending` or `skipped`. -/
theorem orderly_step_status {s t : Pipeline} (h : Pipeline.Orderly s)
    (hst : Pipeline.Step s t) :
    (∀ n ∈ s.world.mentions, ∃ n' ∈ t.world.mentions, n'.ID = n.ID
      ∧ (n'.Status = n.Status
        ∨ ((n.Status = .pending ∨ (n.Status = .failed ∧ n.ID ∈ s.retried))
          ∧ (n'.Status = .processing ∨ n'.Status = .replied ∨ n'.Status = .skipped
            ∨ n'.Status = .failed))))
    ∧ (∀ n' ∈ t.world.mentions, (∃ n ∈ s.world.mentions, n.ID = n'.ID)
        ∨ n'.Status = .pending ∨ n'.Status = .skipped) := by
  have hsame : t.world.mentions = s.world.mentions →
      (∀ n ∈ s.world.mentions, ∃ n' ∈ t.world.mentions, n'.ID = n.ID
        ∧ (n'.Status = n.Status
          ∨ ((n.Status = .pending ∨ (n.Status = .failed ∧ n.ID ∈ s.retried))
            ∧ (n'.Status = .processing ∨ n'.Status = .replied ∨ n'.Status = .skipped
              ∨ n'.Status = .failed))))
      ∧ (∀ n' ∈ t.world.mentions, (∃ n ∈ s.world.mentions, n.ID = n'.ID)
          ∨ n'.Status = .pending ∨ n'.Status = .skipped) := by
    intro heq
    rw [heq]
    exact ⟨fun n hn => ⟨n, hn, rfl, Or.inl rfl⟩, fun n hn => Or.inl ⟨n, hn, rfl⟩⟩
  have hreach := orderly_reachable h
  cases hst with
  | accounts users => exact hsame rfl
  | ingest env userID p author content =>
    obtain ⟨h1, h2, _⟩ := ProcessMention_step env s.world userID p author content
    refine ⟨fun n hn => ⟨n, h1 n hn, rfl, Or.inl rfl⟩, fun n hn => ?_⟩
    rcases h2 n hn with h | h
    · exact Or.inl ⟨n, h, rfl⟩
    · exact Or.inr h.2
  | retry env userID mentionID =>
    apply hsame
    show (RetryMention env s.world userID mentionID).world.mentions = s.world.mentions
    rw [(RetryMention_spawned env s.world userID mentionID).2.1]
  | run env k =>
    cases hk : s.running.get? k with
    | none =>
      apply hsame
      unfold Pipeline.run
      rw [hk]
    | some g =>
      obtain ⟨m, u⟩ := g
      have hrun : (s.run env k).world = (processMentionAsync env s.world m u).world := by
        unfold Pipeline.run
        rw [hk]
      rw [hrun]
      have hmem : (m, u) ∈ s.running := List.get?_mem hk
      obtain ⟨hmst, hmstatus⟩ := (orderly_inv s h).2 _ hmem
      have hnd := pipeline_ids_nodup s hreach
      obtain ⟨k1, k2⟩ := pipeline_keys_inv s hreach
      have hkeys := (run_keys env s.world m u (key_unique k1 (k2 _ hmem))).1
      have hwr := (run_written
        (fun n => n.ID = m.ID ∧ n.Status = .processing)
        (fun n => n.ID = m.ID
          ∧ (n.Status = .replied ∨ n.Status = .skipped ∨ n.Status = .failed))
        env s.world m u ⟨rfl, rfl⟩
        (fun x a hx => hx)
        (fun x t r hx => ⟨hx.1, Or.inr (Or.inr rfl)⟩)
        (fun x t r hx => ⟨hx.1, Or.inr (Or.inl rfl)⟩)
        (fun x t i hx => ⟨hx.1, Or.inl rfl⟩)).1
      have hex : ∃ n' ∈ (processMentionAsync env s.world m u).world.mentions,
          n'.ID = m.ID := by
        have hin : (m.ID, m.ThreadsPostID)
            ∈ keysOf (processMentionAsync env s.world m u).world := by
          rw [hkeys]
          exact k2 _ hmem
        obtain ⟨d, hd, hdk⟩ := List.mem_map.mp hin
        exact ⟨d, hd, congrArg Prod.fst hdk⟩
      refine ⟨fun n hn => ?_, fun n hn => ?_⟩
      · by_cases hid : n.ID = m.ID
        · have hnm : n = m := stored_unique hnd hn hmst hid
          obtain ⟨n', hn', hn'id⟩ := hex
          refine ⟨n', hn', hn'id.trans hid.symm, ?_⟩
          rw [hnm]
          rcases hwr n' hn' with h1 | h1 | h1
          · left
            rw [stored_unique hnd h1 hmst hn'id]
          · right
            exact ⟨hmstatus, Or.inl h1.2⟩
          · right
            exact ⟨hmstatus, Or.inr h1.2⟩
        · exact ⟨n, run_keeps_others env s.world m u n hn hid, rfl, Or.inl rfl⟩
      · rcases hwr n hn with h1 | h1 | h1
        · exact Or.inl ⟨n, h1, rfl⟩
        · exact Or.inl ⟨m, hmst, h1.1.symm⟩
        · exact Or.inl ⟨m, hmst, h1.1.symm⟩

/-- Without overlapping retries, a stored mention that is `replied` or `skipped` has no
goroutine waiting. -/
theorem orderly_settled_free {s : Pipeline} (h : Pipeline.Orderly s) (n : Mention)
    (hn : n ∈ s.world.mentions) (hst : n.Status = .replied ∨ n.Status = .skipped) :
    ∀ g ∈ s.running, g.1.ID ≠ n.ID := by
  intro g hg heq
  obtain ⟨hmem, hstatus⟩ := (orderly_inv s h).2 g hg
  have hgn : g.1 = n :=
    stored_unique (pipeline_ids_nodup s (orderly_reachable h)) hmem hn heq
  rw [hgn] at hstatus
  rcases hst with h1 | h1 <;> rcases hstatus with h2 | h2
  · rw [h1] at h2; cases h2
  · rw [h1] at h2; cases h2.1
  · rw [h1] at h2; cases h2
  · rw [h1] at h2; cases h2.1

/-! ## The status machine, in memory and as stored -/

/-- C9 (amended): the status changes that the pipeline makes to its in-memory mention are
`pending → skipped` in `ProcessMention`; `pending → processing` and then
`processing → replied`, `processing → skipped` or `processing → failed` in a continuation
that `ProcessMention` started; none in `RetryMention`; and `failed → processing` and then
the same three edges in a continuation that `RetryMention` started. The stored status
follows these edges in every step taken from a state reached without overlapping retries:
it stays, or the mention was `pending`, or `failed` and retried, and the run of its
continuation leaves it `processing` or, past `processing`, `replied`, `skipped` or
`failed`; and a mention that a step adds is `pending` or `skipped`. -/
theorem status_edges_of_pipeline :
    (∀ (env : ProcessEnv) (between : World → World) (w : World) (userID : ObjectID)
        (threadsPostID : String) (author : MentionAuthor) (content : String),
      (∀ e ∈ statusEdges
          (ProcessMentionRaced env between w userID threadsPostID author content).events,
        e = (.pending, .skipped))
      ∧ (∀ (m : Mention) (u : User) (aenv : AsyncEnv) (w1 : World),
          (ProcessMentionRaced env between w userID threadsPostID author content).spawned
            = some (m, u) →
          ∀ e ∈ statusEdges (processMentionAsync aenv w1 m u).events,
            e = (.pending, .processing) ∨ e = (.processing, .replied)
              ∨ e = (.processing, .skipped) ∨ e = (.processing, .failed)))
    ∧ (∀ (env : RetryEnv) (w : World) (userID mentionID : ObjectID),
      statusEdges (RetryMention env w userID mentionID).events = []
      ∧ (∀ (m : Mention) (u : User) (aenv : AsyncEnv) (w1 : World),
          (RetryMention env w userID mentionID).spawned = some (m, u) →
          ∀ e ∈ statusEdges (processMentionAsync aenv w1 m u).events,
            e = (.failed, .processing) ∨ e = (.processing, .replied)
              ∨ e = (.processing, .skipped) ∨ e = (.processing, .failed)))
    ∧ (∀ (s t : Pipeline), Pipeline.Orderly s → Pipeline.Step s t →
      (∀ n ∈ s.world.mentions, ∃ n' ∈ t.world.mentions, n'.ID = n.ID
        ∧ (n'.Status = n.Status
          ∨ ((n.Status = .pending ∨ (n.Status = .failed ∧ n.ID ∈ s.retried))
            ∧ (n'.Status = .processing ∨ n'.Status = .replied ∨ n'.Status = .skipped
              ∨ n'.Status = .failed))))
      ∧ (∀ n' ∈ t.world.mentions, (∃ n ∈ s.world.mentions, n.ID = n'.ID)
          ∨ n'.Status = .pending ∨ n'.Status = .skipped)
      ∧ (t.world.mentions.map (fun d => d.ID)).Nodup) :=
  ⟨status_edges_in_memory.1, status_edges_in_memory.2, fun _ t hs hst =>
    ⟨(orderly_step_status hs hst).1, (orderly_step_status hs hst).2,
      pipeline_ids_nodup t (step_reachable (orderly_reachable hs) hst)⟩⟩

/-- Counterexample to C9 as stated. First, admitting a mention whose content matches an
ignore-keyword takes the edge `pending → skipped`, which is none of the five edges of the
claim. Second, the failed mention of post `p1` is retried twice before either goroutine
runs; the first goroutine replies, and the second, whose last update fails, leaves the
stored mention `processing`: the stored status went from `replied` to `processing`. -/
theorem status_edges_outside_claim :
    statusEdges (ProcessMention demoEnv demoWorld 1 "p1" demoAuthor "Free GIVEAWAY here").events
      = [(.pending, .skipped)]
    ∧ (MentionStatus.pending, MentionStatus.skipped)
      ∉ [(MentionStatus.pending, MentionStatus.processing),
          (MentionStatus.processing, MentionStatus.replied),
          (MentionStatus.processing, MentionStatus.skipped),
          (MentionStatus.processing, MentionStatus.failed),
          (MentionStatus.failed, MentionStatus.processing)]
    ∧ Pipeline.Reachable demoPipelineStale
    ∧ demoPipelineStale.world.mentions.map (fun d => (d.ID, d.Status)) = [(1, .replied)]
    ∧ (demoPipelineStale.run demoAsyncEnvStuck 0).world.mentions.map
        (fun d => (d.ID, d.Status)) = [(1, .processing)]
    ∧ (MentionStatus.replied, MentionStatus.processing)
      ∉ [(MentionStatus.pending, MentionStatus.skipped),
          (MentionStatus.pending, MentionStatus.processing),
          (MentionStatus.processing, MentionStatus.replied),
          (MentionStatus.processing, MentionStatus.skipped),
          (MentionStatus.processing, MentionStatus.failed),
          (MentionStatus.failed, MentionStatus.processing)] :=
  ⟨by decide, by decide,
   Pipeline.Reachable.run _ _ (Pipeline.Reachable.retry _ _ _ (Pipeline.Reachable.retry _ _ _
    (Pipeline.Reachable.run _ _
      (Pipeline.Reachable.ingest _ _ _ _ _ (Pipeline.Reachable.start _))))),
   by decide, by decide, by decide⟩

/-- Witness for C9 (amended): the continuation started for post `p2` and the one started
by retrying the failed mention `3` take edges of the list; and in the pipeline, where the
failed mention of post `p1` was retried once, the run of that goroutine takes the stored
status from `failed` to `replied`. -/
theorem status_edges_of_pipeline_witness :
    ((ProcessMentionRaced demoEnv id demoWorldSeen 1 "p2" demoAuthor "hello").spawned
        = some (demoAdmitted 2 "p2" "hello", demoUser)
      ∧ ((MentionStatus.processing, MentionStatus.replied) = (.pending, .processing)
          ∨ (MentionStatus.processing, MentionStatus.replied) = (.processing, .replied)
          ∨ (MentionStatus.processing, MentionStatus.replied) = (.processing, .skipped)
          ∨ (MentionStatus.processing, MentionStatus.replied) = (.processing, .failed)))
    ∧ ((RetryMention demoRetryEnv demoWorldBusy 1 3).spawned
        = some (demoMention 3 "c" .failed (some 4000500), demoUser)
      ∧ ((MentionStatus.failed, MentionStatus.processing) = (.failed, .processing)
          ∨ (MentionStatus.failed, MentionStatus.processing) = (.processing, .replied)
          ∨ (MentionStatus.failed, MentionStatus.processing) = (.processing, .skipped)
          ∨ (MentionStatus.failed, MentionStatus.processing) = (.processing, .failed)))
    ∧ ((∃ n' ∈ demoPipelineRetried.world.mentions, n'.ID = demoFailedMention.ID
        ∧ (n'.Status = demoFailedMention.Status
          ∨ ((demoFailedMention.Status = .pending
              ∨ (demoFailedMention.Status = .failed
                ∧ demoFailedMention.ID ∈ demoPipelineRetrying.retried))
            ∧ (n'.Status = .processing ∨ n'.Status = .replied ∨ n'.Status = .skipped
              ∨ n'.Status = .failed))))
      ∧ demoPipelineRetrying.world.mentions.map (fun d => (d.ID, d.Status)) = [(1, .failed)]
      ∧ demoPipelineRetried.world.mentions.map (fun d => (d.ID, d.Status))
          = [(1, .replied)]) :=
  ⟨⟨rfl, (status_edges_of_pipeline.1 demoEnv id demoWorldSeen 1 "p2" demoAuthor "hello").2
      (demoAdmitted 2 "p2" "hello") demoUser demoAsyncEnv
      (ProcessMentionRaced demoEnv id demoWorldSeen 1 "p2" demoAuthor "hello").world rfl
      (.processing, .replied) (by decide)⟩,
   ⟨rfl, (status_edges_of_pipeline.2.1 demoRetryEnv demoWorldBusy 1 3).2
      (demoMention 3 "c" .failed (some 4000500)) demoUser demoAsyncEnv demoWorldBusy rfl
      (.failed, .processing) (by decide)⟩,
   ⟨(status_edges_of_pipeline.2.2 demoPipelineRetrying demoPipelineRetried
      (Pipeline.Orderly.retry _ _ _ (Pipeline.Orderly.run _ _
        (Pipeline.Orderly.ingest _ _ _ _ _ (Pipeline.Orderly.start _)))
        (fun g hg => absurd hg (List.not_mem_nil g)))
      (Pipeline.Step.run _ _ _)).1 demoFailedMention (by decide),
    by decide, by decide⟩⟩

/-- C10 (amended): for a mention that is stored and owned by the caller, `RetryMention`
returns nil exactly when the stored status is `failed` and the account of the caller can
be loaded, and then starts a continuation on the stored mention, beginning again with the
move to `processing`; it starts a continuation only when it returns nil; for every other
status (`pending`, `processing`, `replied`, `skipped`) it returns the error
`can only retry failed mentions`, starts no continuation and changes nothing; when the
account cannot be loaded it returns the load error and starts nothing; it never writes to
the database. A stored mention that is `replied` or `skipped` and has no continuation
waiting stays exactly as it is through any further steps of the pipeline, and none is
started for it; and in a state reached without overlapping retries a `replied` or
`skipped` mention has no continuation waiting. -/
theorem RetryMention_only_failed :
    (∀ (env : RetryEnv) (aenv : AsyncEnv) (w : World) (userID mentionID : ObjectID)
        (m : Mention), GetMention env.mentionErr w userID mentionID = .ok m →
      ((RetryMention env w userID mentionID).err = none
          ↔ m.Status = .failed
            ∧ ∃ u, UserRepository.GetByID env.userErr w.users userID = .ok u)
      ∧ (∀ u, m.Status = .failed →
          UserRepository.GetByID env.userErr w.users userID = .ok u →
          RetryMention env w userID mentionID
            = { err := none, world := w, spawned := some (m, u), events := [] })
      ∧ ((RetryMention env w userID mentionID).spawned ≠ none →
          (RetryMention env w userID mentionID).err = none)
      ∧ (m.Status ≠ .failed →
          RetryMention env w userID mentionID
            = { err := some (.other "can only retry failed mentions"), world := w,
                spawned := none, events := [] }
          ∧ (RetryMention env w userID mentionID).thenContinuation aenv = (w, []))
      ∧ (∀ e, m.Status = .failed →
          UserRepository.GetByID env.userErr w.users userID = .error e →
          RetryMention env w userID mentionID
            = { err := some e, world := w, spawned := none, events := [] })
      ∧ (RetryMention env w userID mentionID).world = w
      ∧ (∀ u w1, (processMentionAsync aenv w1 m u).events.head?
          = some (.statusEdge m.Status .processing)))
    ∧ (∀ (s t : Pipeline) (n : Mention), Pipeline.Reachable s → n ∈ s.world.mentions →
        (n.Status = .replied ∨ n.Status = .skipped) →
        (∀ g ∈ s.running, g.1.ID ≠ n.ID) →
        Relation.ReflTransGen Pipeline.Step s t →
        n ∈ t.world.mentions ∧ (∀ d ∈ t.world.mentions, d.ID = n.ID → d = n)
          ∧ ∀ g ∈ t.running, g.1.ID ≠ n.ID)
    ∧ (∀ (s : Pipeline) (n : Mention), Pipeline.Orderly s → n ∈ s.world.mentions →
        (n.Status = .replied ∨ n.Status = .skipped) →
        ∀ g ∈ s.running, g.1.ID ≠ n.ID) := by
  refine ⟨fun env aenv w userID mentionID m hm => ?_, fun s t n hs hn hst hfree hsteps => ?_,
    fun s n hs hn hst => orderly_settled_free hs n hn hst⟩
  · obtain ⟨c1, c2, c3, c4, c5, c6, c7⟩ := RetryMention_call env aenv w userID mentionID m hm
    refine ⟨⟨fun herr => ⟨c2 herr, ?_⟩, fun h => ?_⟩, fun u hst hu => ?_, fun hsp => ?_,
      c4, c5, c6, c7⟩
    · cases hu : UserRepository.GetByID env.userErr w.users userID with
      | ok u => exact ⟨u, rfl⟩
      | error e =>
        rw [c5 e (c2 herr) hu] at herr
        cases herr
    · obtain ⟨hst, u, hu⟩ := h
      exact ((c1 u hu).mpr hst).1
    · simp [RetryMention, hm, hst, hu]
    · have hst := c3 hsp
      cases hu : UserRepository.GetByID env.userErr w.users userID with
      | ok u => exact ((c1 u hu).mpr hst).1
      | error e =>
        rw [c5 e hst hu] at hsp
        exact (hsp rfl).elim
  · have hnf : n.Status ≠ .failed := by
      rcases hst with h | h <;> rw [h] <;> decide
    obtain ⟨h1, h2⟩ := steps_keep_settled hs hsteps n hn hnf hfree
    exact ⟨h1, fun d hd hid =>
      stored_unique (pipeline_ids_nodup t (steps_reachable hs hsteps)) hd h1 hid, h2⟩

/-- Counterexample to C10 as stated. A failed mention owned by the caller is not retried
when the account cannot be loaded: the load error is returned and nothing is started. And
a replied mention changes status: the failed mention of post `p1` is retried twice before
either goroutine runs, both calls returning nil; the first goroutine replies, and the
second, whose classifier fails, marks the stored mention `failed` again. -/
theorem retried_twice_leaves_replied :
    GetMention none demoWorldBusy 1 3 = .ok (demoMention 3 "c" .failed (some 4000500))
    ∧ RetryMention demoRetryEnvNoAccount demoWorldBusy 1 3
      = { err := some (.other "connection reset"), world := demoWorldBusy, spawned := none,
          events := [] }
    ∧ (RetryMention demoRetryEnv demoPipelineFailed.world 1 1).err = none
    ∧ (RetryMention demoRetryEnv demoPipelineRetrying.world 1 1).err = none
    ∧ Pipeline.Reachable demoPipelineStale
    ∧ demoPipelineStale.world.mentions.map (fun d => (d.ID, d.Status, d.ReplyID))
        = [(1, .replied, some 1)]
    ∧ (demoPipelineStale.run demoAsyncEnvDown 0).world.mentions.map
        (fun d => (d.ID, d.Status, d.ReplyID)) = [(1, .failed, none)] :=
  ⟨rfl, rfl, by decide, by decide,
   Pipeline.Reachable.run _ _ (Pipeline.Reachable.retry _ _ _ (Pipeline.Reachable.retry _ _ _
    (Pipeline.Reachable.run _ _
      (Pipeline.Reachable.ingest _ _ _ _ _ (Pipeline.Reachable.start _))))),
   by decide, by decide⟩

/-- Witness for C10 (amended): in `demoWorldBusy` the mention `1` is `replied` and cannot
be retried, and the mention `3` is `failed` and its retry starts a continuation; in the
pipeline, the mention of post `p1`, replied by the goroutine of its one retry, is still
stored unchanged after a further retry request and the admission of post `p2`. -/
theorem RetryMention_only_failed_witness :
    RetryMention demoRetryEnv demoWorldBusy 1 1
      = { err := some (.other "can only retry failed mentions"), world := demoWorldBusy,
          spawned := none, events := [] }
    ∧ RetryMention demoRetryEnv demoWorldBusy 1 3
      = { err := none, world := demoWorldBusy,
          spawned := some (demoMention 3 "c" .failed (some 4000500), demoUser),
          events := [] }
    ∧ (demoRepliedMention
        ∈ ((demoPipelineRetried.retry demoRetryEnv 1 1).ingest demoEnv 1 "p2" demoAuthor
            "hi").world.mentions
      ∧ ((demoPipelineRetried.retry demoRetryEnv 1 1).ingest demoEnv 1 "p2" demoAuthor
            "hi").world.mentions.map (fun d => (d.ID, d.Status))
          = [(1, .replied), (2, .pending)]) :=
  ⟨((RetryMention_only_failed.1 demoRetryEnv demoAsyncEnv demoWorldBusy 1 1
      (demoMention 1 "a" .replied (some 4999000)) rfl).2.2.2.1 (by decide)).1,
   (RetryMention_only_failed.1 demoRetryEnv demoAsyncEnv demoWorldBusy 1 3
      (demoMention 3 "c" .failed (some 4000500)) rfl).2.1 demoUser rfl rfl,
   (RetryMention_only_failed.2.1 demoPipelineRetried
      ((demoPipelineRetried.retry demoRetryEnv 1 1).ingest demoEnv 1 "p2" demoAuthor "hi")
      demoRepliedMention
      (Pipeline.Reachable.run _ _ (Pipeline.Reachable.retry _ _ _ (Pipeline.Reachable.run _ _
        (Pipeline.Reachable.ingest _ _ _ _ _ (Pipeline.Reachable.start _)))))
      (List.mem_singleton_self _) (Or.inl rfl)
      (fun g hg => absurd hg (List.not_mem_nil g))
      (Relation.ReflTransGen.tail
        (Relation.ReflTransGen.tail Relation.ReflTransGen.refl (Pipeline.Step.retry _ _ _ _))
        (Pipeline.Step.ingest _ _ _ _ _ _))).1,
   by decide⟩

end Ayteuir
